import Mathlib

/-! # go-routiner: middleware composition and batch execution

A shallow embedding of the Go package `goroutiner` (`goroutine.go`, `goroutiner.go`,
`batch.go`, `popular_mws.go`) together with the properties its specification states.

Conventions of the embedding.

* A Go function value may be `nil`; a value of a function type is therefore an `Option`.
* The body of a task is user code with side effects; it is a transformer of a shared
  world `W` that either returns an `error` (possibly `nil`) or panics.
* A method with a pointer receiver yields a `Call`: the receiver's state after the call and
  either the returned value or the panic message.
* A middleware is a pure function on tasks, as in the data model of the specification.
* Concurrent execution is a step function over explicit events; a schedule is a list of
  events and every statement about a policy quantifies over all schedules. The call of a
  task body is one event: the body is user code whose inner steps are not visible.
* An unrecovered panic in a goroutine ends the process. The step functions record it and
  allow no further step; what the other goroutines still do while the runtime shuts the
  process down, the deferred `wg.Done()` of the panicking goroutine included, is not
  described. Statements about the order of the steps of a run and about how it ends are
  made for tasks that return.
* `golang.org/x/sync/errgroup`, `sync.WaitGroup` and channels are not part of the package;
  their steps follow their documented behaviour.
* Slices are lists. Where the sharing of memory matters, for `Goroutiner.Batch`, for the
  slices `New`, `Add` and `AddRange` keep and for what `prepareGoroutines` writes, the
  functions are given a second time over slice headers and arrays in memory and related to
  the versions on lists.
* `make` panics for a size beyond what the runtime allocates where the size is an argument
  of the caller (`AddRange`, `AsyncBs`); memory is otherwise taken to suffice.
-/

namespace Routiner

/-! ## Values -/

/-- A Go `error` value: `none` is `nil`, `some msg` an error with that message. -/
abbrev GoError := Option String

/-- A Go `context.Context` value as the tasks can observe it: the `nil` interface value, a
context supplied by the caller, or a context derived with cancellation from a parent together
with its done-signal at the moment of observation. -/
inductive Context where
  | nil : Context
  | value (id : Nat) : Context
  | withCancel (parent : Context) (cancelled : Bool) : Context
deriving DecidableEq, Repr

/-- What a call of a task does: it returns an error value or it panics with a payload. -/
inductive Outcome where
  | ret (err : GoError) : Outcome
  | panic (payload : String) : Outcome
deriving DecidableEq, Repr

/-- The body of a non-nil `func(context.Context) error` acting on the shared world `W`. -/
abbrev GoFn (W : Type) := Context → W → W × Outcome

/-- `type Goroutine = func(context.Context) error`; `none` is the nil function. -/
abbrev Goroutine (W : Type) := Option (GoFn W)

/-- The body of a non-nil `func(Goroutine) Goroutine`. -/
abbrev MwFn (W : Type) := Goroutine W → Goroutine W

/-- `type Middleware = func(Goroutine) Goroutine`; `none` is the nil function. -/
abbrev Middleware (W : Type) := Option (MwFn W)

/-- The panic payload of the Go runtime for a call through a nil function value. -/
def nilDeref : String := "runtime error: invalid memory address or nil pointer dereference"

/-- Calling a `Goroutine` value `g(ctx)`: a nil function panics, otherwise the body runs. -/
def Goroutine.call {W : Type} (g : Goroutine W) (ctx : Context) (w : W) : W × Outcome :=
  match g with
  | none => (w, Outcome.panic nilDeref)
  | some f => f ctx w

/-- Calling a `Middleware` value `mw(g)`: a nil function panics. -/
def Middleware.call {W : Type} (mw : Middleware W) (g : Goroutine W) :
    Except String (Goroutine W) :=
  match mw with
  | none => Except.error nilDeref
  | some f => Except.ok (f g)

/-- The state of a pointer receiver after a method call and what the call produced: the
returned value, or the message of the panic that ended it. -/
structure Call (σ α : Type) where
  recv : σ
  result : Except String α

/-- Whether a call ended in a panic. -/
def Call.panics {σ α : Type} (c : Call σ α) : Bool :=
  match c.result with
  | Except.error _ => true
  | Except.ok _ => false

/-- The first `nil` check of the registration functions:
`for _, mw := range mws { if mw == nil { panic(msg) } }`. -/
def hasNil {W : Type} : List (Middleware W) → Bool
  | [] => false
  | mw :: rest => if mw.isNone then true else hasNil rest

/-! ## The allocation limits of the runtime

`make` is part of the Go runtime. A size beyond what the runtime can allocate is refused
with a panic (`runtime.makeslice`, `runtime.makechan`); the limit is that of a 64-bit
platform with 48 bits of heap address. A machine that runs out of memory below that limit
is not part of the model. The check is made where the size comes from the caller, in
`AddRange` and in `async`; `Wait` and `prepareGoroutines` allocate by the length of a slice
that is in memory already, and these allocations are taken to succeed. -/

/-- `maxAlloc` of `runtime/malloc.go`, the largest size of one allocation in bytes. -/
def maxAlloc : Nat := 2 ^ 48

/-- `make([]*goroutineConfig, n)` for `n > 0`, `runtime.makeslice`: `n` pointers of 8 bytes;
it panics when they take more than `maxAlloc` bytes. -/
def makeslice (n : Nat) : Except String Nat :=
  if 8 * n ≤ maxAlloc then Except.ok n
  else Except.error "runtime error: makeslice: len out of range"

/-- `make(chan error, size)`, `runtime.makechan`: a buffer of `size` interface values of 16
bytes behind a header of 96 bytes; it panics when they take more than `maxAlloc` bytes. -/
def makechan (size : Nat) : Except String Nat :=
  if 16 * size ≤ maxAlloc - 96 then Except.ok size
  else Except.error "makechan: size out of range"

/-! ## goroutiner.go -/

/-- `type Goroutiner struct { globalMws []Middleware }`. -/
structure Goroutiner (W : Type) where
  globalMws : List (Middleware W)

/-- `type goroutineConfig struct { fn Goroutine; mws []Middleware }`. -/
structure goroutineConfig (W : Type) where
  fn : Goroutine W
  mws : List (Middleware W)

/-- `type Batch struct { ctx; mws; goroutineConfigs }`. -/
structure Batch (W : Type) where
  ctx : Context
  mws : List (Middleware W)
  goroutineConfigs : List (goroutineConfig W)

/-- `func newBatch(ctx, mws) *Batch`. -/
def newBatch {W : Type} (ctx : Context) (mws : List (Middleware W)) : Batch W :=
  { ctx := ctx, mws := mws, goroutineConfigs := [] }

/-- `func New(globalMws ...Middleware) *Goroutiner`. -/
def New {W : Type} (globalMws : List (Middleware W)) : Except String (Goroutiner W) :=
  if hasNil globalMws then
    Except.error "`globalMws` must contain no `nil` elements"
  else
    Except.ok { globalMws := globalMws }

/-- `func (g *Goroutiner) Batch(ctx, mws ...Middleware) *Batch`. -/
def Goroutiner.Batch {W : Type} (g : Goroutiner W) (ctx : Context)
    (mws : List (Middleware W)) : Except String (Batch W) :=
  if ctx = Context.nil then
    Except.error "`ctx` must not be `nil`"
  else if hasNil mws then
    Except.error "`mws` must contain no `nil` elements"
  else
    let batchMws : List (Middleware W) := []
    let batchMws := batchMws ++ g.globalMws
    let batchMws := batchMws ++ mws
    Except.ok (newBatch ctx batchMws)

/-! ## batch.go: registration -/

/-- `func (b *Batch) Add(fn Goroutine, mws ...Middleware) *Batch`. The returned value is the
receiver itself, so it is given as the receiver's state at the return. -/
def Batch.Add {W : Type} (b : Batch W) (fn : Goroutine W) (mws : List (Middleware W)) :
    Call (Batch W) (Batch W) :=
  if fn.isNone then
    { recv := b, result := Except.error "`fn` must not be `nil`" }
  else if hasNil mws then
    { recv := b, result := Except.error "`mws` must contain no `nil` elements" }
  else
    let b1 : Batch W :=
      { b with goroutineConfigs := b.goroutineConfigs ++ [{ fn := fn, mws := mws }] }
    { recv := b1, result := Except.ok b1 }

/-- What a call of the provider `fnProvide(i)` yields; the provider is user code and may
itself panic. -/
abbrev Provider (W : Type) := Int → Except String (Goroutine W × List (Middleware W))

/-- The loop of `AddRange`, `for i := 0; i < n; i++ { ... configs[i] = ... }`, from index `i`
with `k` iterations left; `configs` holds the elements filled so far. The loop only writes
the local slice `configs`, so a panic inside it leaves no trace. -/
def addRangeLoop {W : Type} (fnProvide : Provider W) :
    Nat → Int → List (goroutineConfig W) → Except String (List (goroutineConfig W))
  | 0, _, configs => Except.ok configs
  | k + 1, i, configs =>
    match fnProvide i with
    | Except.error msg => Except.error msg
    | Except.ok (fn, mws) =>
      if fn.isNone then
        Except.error "`fnProvide` must not provide `nil` goroutines"
      else if hasNil mws then
        Except.error "`fnProvide` must provide middleware without `nil` elements"
      else
        addRangeLoop fnProvide k (i + 1) (configs ++ [{ fn := fn, mws := mws }])

/-- `func (b *Batch) AddRange(n int, fnProvide func(i int) (Goroutine, []Middleware)) *Batch`;
`fnProvide` is `none` for the nil function. Between the two checks and the loop stands
`configs := make([]*goroutineConfig, n)`, which panics for an `n` beyond the limit. -/
def Batch.AddRange {W : Type} (b : Batch W) (n : Int) (fnProvide : Option (Provider W)) :
    Call (Batch W) (Batch W) :=
  if n ≤ 0 then
    { recv := b, result := Except.error "`n` must be greater than zero" }
  else
    match fnProvide with
    | none => { recv := b, result := Except.error "`fnProvide` must not be `nil`" }
    | some provide =>
      match makeslice n.toNat with
      | Except.error msg => { recv := b, result := Except.error msg }
      | Except.ok len =>
        match addRangeLoop provide len 0 [] with
        | Except.error msg => { recv := b, result := Except.error msg }
        | Except.ok configs =>
          let b1 : Batch W := { b with goroutineConfigs := b.goroutineConfigs ++ configs }
          { recv := b1, result := Except.ok b1 }

/-! ## batch.go: composition -/

/-- The inner loops of `prepareGoroutines`,
`for j := len(mws) - 1; j >= 0; j-- { g = mws[j](g) }`, entered with `j + 1 = k`. -/
def wrapDown {W : Type} (mws : List (Middleware W)) :
    Nat → Goroutine W → Except String (Goroutine W)
  | 0, g => Except.ok g
  | j + 1, g =>
    match mws[j]? with
    | none => Except.error "runtime error: index out of range"
    | some mw =>
      match mw.call g with
      | Except.error msg => Except.error msg
      | Except.ok g1 => wrapDown mws j g1

/-- The body of the outer loop of `prepareGoroutines` for one entry `cfg`. -/
def prepareOne {W : Type} (bmws : List (Middleware W)) (cfg : goroutineConfig W) :
    Except String (Goroutine W) :=
  match wrapDown cfg.mws cfg.mws.length cfg.fn with
  | Except.error msg => Except.error msg
  | Except.ok g => wrapDown bmws bmws.length g

/-- The outer loop of `prepareGoroutines`, `for i, cfg := range b.goroutineConfigs`. -/
def prepareLoop {W : Type} (bmws : List (Middleware W)) :
    List (goroutineConfig W) → Except String (List (Goroutine W))
  | [] => Except.ok []
  | cfg :: rest =>
    match prepareOne bmws cfg with
    | Except.error msg => Except.error msg
    | Except.ok g =>
      match prepareLoop bmws rest with
      | Except.error msg => Except.error msg
      | Except.ok gs => Except.ok (g :: gs)

/-- `func (b *Batch) prepareGoroutines() []Goroutine`. It reads the receiver only. -/
def Batch.prepareGoroutines {W : Type} (b : Batch W) : Except String (List (Goroutine W)) :=
  if b.goroutineConfigs.length = 0 then
    Except.error "at least one goroutine is required"
  else
    prepareLoop b.mws b.goroutineConfigs

/-! ## batch.go: the goroutines an execution policy launches -/

/-- Where a goroutine launched by an execution policy stands: launched and not yet run; its
task has returned `err` and the result is not yet published; the result is published and the
deferred `wg.Done()` has not yet run; finished. -/
inductive GStatus where
  | launched : GStatus
  | returned (err : GoError) : GStatus
  | published (err : GoError) : GStatus
  | done (err : GoError) : GStatus
deriving DecidableEq, Repr

/-- The value a goroutine's task returned, once it has returned. -/
def GStatus.value : GStatus → Option GoError
  | GStatus.launched => none
  | GStatus.returned e => some e
  | GStatus.published e => some e
  | GStatus.done e => some e

/-- Steps a goroutine still has to take: run the task, publish the result, `wg.Done()`. -/
def GStatus.todo : GStatus → Nat
  | GStatus.launched => 3
  | GStatus.returned _ => 2
  | GStatus.published _ => 1
  | GStatus.done _ => 0

/-- Counts 1 for a goroutine that has not yet run `wg.Done()`. -/
def GStatus.notDone : GStatus → Nat
  | GStatus.done _ => 0
  | _ => 1

/-- Counts 1 for a goroutine that has published its result. -/
def GStatus.pub : GStatus → Nat
  | GStatus.published _ => 1
  | GStatus.done _ => 1
  | _ => 0

/-- The sum of a count over all goroutines. -/
def weight (f : GStatus → Nat) : List GStatus → Nat
  | [] => 0
  | st :: rest => f st + weight f rest

/-! ## batch.go: Wait -/

/-- Where the calling goroutine stands inside `Wait`: blocked in `wg.Wait()`, in the loop
`for chErr := range errCh`, or returned. -/
inductive WaitPc where
  | waiting : WaitPc
  | ranging : WaitPc
  | returned : WaitPc
deriving DecidableEq, Repr

/-- The state of one call of `Wait` after `prepareGoroutines` and the launch of the
goroutines: the shared world, the goroutines, the buffer of `errCh` (capacity `len(gs)`),
the counter of the `sync.WaitGroup`, whether `errCh` is closed, the caller's position, the
slice `errs`, and the payload of an unrecovered panic that ended the process. -/
structure WaitState (W : Type) where
  world : W
  status : List GStatus
  errCh : List (Nat × GoError)
  wg : Nat
  closed : Bool
  pc : WaitPc
  errs : List GoError
  crashed : Option String

/-- The atomic steps of `Wait`. Of goroutine `i`: `err := g(ctx)`, `errCh <- ChErr{i, err}`,
`wg.Done()`. Of the caller: `wg.Wait()` returning followed by the deferred `close(errCh)`
and `errs := make([]error, len(gs))`; one iteration of the `range` loop; the end of the
loop with `return errs`. -/
inductive WaitEvent where
  | run (i : Nat) : WaitEvent
  | send (i : Nat) : WaitEvent
  | done (i : Nat) : WaitEvent
  | close : WaitEvent
  | recv : WaitEvent
  | ret : WaitEvent
deriving DecidableEq, Repr

/-- The state right after `wg.Add(len(gs))` and the launch of every goroutine. -/
def waitInit {W : Type} (gs : List (Goroutine W)) (w : W) : WaitState W :=
  { world := w, status := List.replicate gs.length GStatus.launched, errCh := [],
    wg := gs.length, closed := false, pc := WaitPc.waiting, errs := [], crashed := none }

/-- One step of `Wait`; `none` when the event cannot happen in the state (the goroutine is
not at that statement, is blocked, or the process has ended). A task that panics ends the
process: the payload is recorded and no further step is taken, so the deferred `wg.Done()`
of that goroutine and what the caller could do after it are not part of a run. -/
def waitStep {W : Type} (gs : List (Goroutine W)) (ctx : Context) (s : WaitState W) :
    WaitEvent → Option (WaitState W)
  | WaitEvent.run i =>
    match s.crashed, gs[i]?, s.status[i]? with
    | none, some g, some GStatus.launched =>
      match g.call ctx s.world with
      | (w, Outcome.ret e) =>
        some { s with world := w, status := s.status.set i (GStatus.returned e) }
      | (w, Outcome.panic v) => some { s with world := w, crashed := some v }
    | _, _, _ => none
  | WaitEvent.send i =>
    match s.crashed, s.status[i]? with
    | none, some (GStatus.returned e) =>
      if s.closed then some { s with crashed := some "send on closed channel" }
      else if s.errCh.length < gs.length then
        some { s with errCh := s.errCh ++ [(i, e)], status := s.status.set i (GStatus.published e) }
      else none
    | _, _ => none
  | WaitEvent.done i =>
    match s.crashed, s.status[i]? with
    | none, some (GStatus.published e) =>
      if s.wg = 0 then some { s with crashed := some "sync: negative WaitGroup counter" }
      else some { s with wg := s.wg - 1, status := s.status.set i (GStatus.done e) }
    | _, _ => none
  | WaitEvent.close =>
    match s.crashed, s.pc with
    | none, WaitPc.waiting =>
      if s.wg = 0 then
        some { s with closed := true, pc := WaitPc.ranging,
                      errs := List.replicate gs.length none }
      else none
    | _, _ => none
  | WaitEvent.recv =>
    match s.crashed, s.pc, s.errCh with
    | none, WaitPc.ranging, (i, e) :: rest =>
      if i < s.errs.length then some { s with errCh := rest, errs := s.errs.set i e }
      else some { s with errCh := rest, crashed := some "runtime error: index out of range" }
    | _, _, _ => none
  | WaitEvent.ret =>
    match s.crashed, s.pc, s.errCh with
    | none, WaitPc.ranging, [] =>
      if s.closed then some { s with pc := WaitPc.returned } else none
    | _, _, _ => none

/-- Running a schedule: the events happen one after the other; `none` when one of them
cannot happen. -/
def waitExec {W : Type} (gs : List (Goroutine W)) (ctx : Context) :
    WaitState W → List WaitEvent → Option (WaitState W)
  | s, [] => some s
  | s, ev :: evs =>
    match waitStep gs ctx s ev with
    | none => none
    | some s1 => waitExec gs ctx s1 evs

/-- `func (b *Batch) Wait() []error` on the world `w` under a schedule: the panic of
`prepareGoroutines`, or the state the schedule leads to. -/
def Batch.Wait {W : Type} (b : Batch W) (w : W) (schedule : List WaitEvent) :
    Except String (Option (WaitState W)) :=
  match b.prepareGoroutines with
  | Except.error msg => Except.error msg
  | Except.ok gs => Except.ok (waitExec gs b.ctx (waitInit gs w) schedule)

/-- The slice `Wait` returns, once the caller has returned. -/
def WaitState.result {W : Type} (s : WaitState W) : Option (List GoError) :=
  if s.pc = WaitPc.returned then some s.errs else none

/-! ## batch.go: CancelOnError

`golang.org/x/sync/errgroup` is an external package; the steps below follow its documented
behaviour: `Go` runs the function in a new goroutine, the first function to return a
non-nil error has it stored and cancels the derived context, and `Wait` blocks until all of
them have returned, cancels the derived context and returns the stored error. -/

/-- Where the calling goroutine stands inside `CancelOnError`. -/
inductive CancelPc where
  | waiting : CancelPc
  | returned : CancelPc
deriving DecidableEq, Repr

/-- The state of one call of `CancelOnError` after `prepareGoroutines`,
`errgroup.WithContext` and the launch of the goroutines: the shared world, the goroutines,
the group's counter, the group's stored error, whether the derived context `egCtx` is
cancelled, the goroutines that have handed their result to the group, in that order, the
caller's position, the returned error, and the payload of an unrecovered panic. -/
structure CancelState (W : Type) where
  world : W
  status : List GStatus
  wg : Nat
  err : GoError
  cancelled : Bool
  finished : List (Nat × GoError)
  pc : CancelPc
  result : GoError
  crashed : Option String

/-- The atomic steps of `CancelOnError`. Of goroutine `i`: `err := g(egCtx)`; the group's
`if err != nil { errOnce.Do(store and cancel) }`; the group's deferred `done`. Of the caller:
`eg.Wait()` returning. -/
inductive CancelEvent where
  | run (i : Nat) : CancelEvent
  | report (i : Nat) : CancelEvent
  | done (i : Nat) : CancelEvent
  | wait : CancelEvent
deriving DecidableEq, Repr

/-- The state right after every `eg.Go`. -/
def cancelInit {W : Type} (gs : List (Goroutine W)) (w : W) : CancelState W :=
  { world := w, status := List.replicate gs.length GStatus.launched, wg := gs.length,
    err := none, cancelled := false, finished := [], pc := CancelPc.waiting, result := none,
    crashed := none }

/-- One step of `CancelOnError`; `none` when the event cannot happen in the state. A task
is called with the derived context as it is at that moment. A task that panics ends the
process: the payload is recorded and no further step is taken. -/
def cancelStep {W : Type} (gs : List (Goroutine W)) (ctx : Context) (s : CancelState W) :
    CancelEvent → Option (CancelState W)
  | CancelEvent.run i =>
    match s.crashed, gs[i]?, s.status[i]? with
    | none, some g, some GStatus.launched =>
      match g.call (Context.withCancel ctx s.cancelled) s.world with
      | (w, Outcome.ret e) =>
        some { s with world := w, status := s.status.set i (GStatus.returned e) }
      | (w, Outcome.panic v) => some { s with world := w, crashed := some v }
    | _, _, _ => none
  | CancelEvent.report i =>
    match s.crashed, s.status[i]? with
    | none, some (GStatus.returned e) =>
      if e.isSome ∧ s.err.isNone then
        some { s with err := e, cancelled := true, finished := s.finished ++ [(i, e)],
                      status := s.status.set i (GStatus.published e) }
      else
        some { s with finished := s.finished ++ [(i, e)],
                      status := s.status.set i (GStatus.published e) }
    | _, _ => none
  | CancelEvent.done i =>
    match s.crashed, s.status[i]? with
    | none, some (GStatus.published e) =>
      if s.wg = 0 then some { s with crashed := some "sync: negative WaitGroup counter" }
      else some { s with wg := s.wg - 1, status := s.status.set i (GStatus.done e) }
    | _, _ => none
  | CancelEvent.wait =>
    match s.crashed, s.pc with
    | none, CancelPc.waiting =>
      if s.wg = 0 then
        some { s with cancelled := true, result := s.err, pc := CancelPc.returned }
      else none
    | _, _ => none

/-- Running a schedule of `CancelOnError`. -/
def cancelExec {W : Type} (gs : List (Goroutine W)) (ctx : Context) :
    CancelState W → List CancelEvent → Option (CancelState W)
  | s, [] => some s
  | s, ev :: evs =>
    match cancelStep gs ctx s ev with
    | none => none
    | some s1 => cancelExec gs ctx s1 evs

/-- `func (b *Batch) CancelOnError() error` on the world `w` under a schedule: the panic of
`prepareGoroutines` or of `errgroup.WithContext` (a nil parent), or the state the schedule
leads to. -/
def Batch.CancelOnError {W : Type} (b : Batch W) (w : W) (schedule : List CancelEvent) :
    Except String (Option (CancelState W)) :=
  match b.prepareGoroutines with
  | Except.error msg => Except.error msg
  | Except.ok gs =>
    if b.ctx = Context.nil then Except.error "cannot create context from nil parent"
    else Except.ok (cancelExec gs b.ctx (cancelInit gs w) schedule)

/-! ## batch.go: Async -/

/-- The state of the goroutines `async` starts, seen together with a consumer of the
returned channel that receives until the channel is closed: the shared world, the
goroutines, the buffer of `errCh`, the counter of the `sync.WaitGroup`, whether `errCh` is
closed, what the consumer has received so far, whether the consumer has been told that the
channel is closed, and the payload of an unrecovered panic. -/
structure AsyncState (W : Type) where
  world : W
  status : List GStatus
  errCh : List GoError
  wg : Nat
  closed : Bool
  received : List GoError
  drained : Bool
  crashed : Option String

/-- The atomic steps after `async` has returned. Of goroutine `i`: `g(ctx)`; `errCh <- err`
into the buffer; `errCh <- err` handed directly to the waiting consumer; `wg.Done()`. Of the
outer goroutine: `wg.Wait()` returning followed by the deferred `close(errCh)`. Of the
consumer: a receive that yields a value; a receive that reports the channel closed. -/
inductive AsyncEvent where
  | run (i : Nat) : AsyncEvent
  | send (i : Nat) : AsyncEvent
  | handoff (i : Nat) : AsyncEvent
  | done (i : Nat) : AsyncEvent
  | close : AsyncEvent
  | recv : AsyncEvent
  | recvClosed : AsyncEvent
deriving DecidableEq, Repr

/-- The state when `async` returns `errCh` to its caller. -/
def asyncInit {W : Type} (gs : List (Goroutine W)) (w : W) : AsyncState W :=
  { world := w, status := List.replicate gs.length GStatus.launched, errCh := [],
    wg := gs.length, closed := false, received := [], drained := false, crashed := none }

/-- One step after `async` has returned, for a channel of capacity `errChBufferSize`; `none`
when the event cannot happen in the state. A send needs room in the buffer, or an empty
buffer and the consumer waiting. A task that panics ends the process: the payload is
recorded and no further step is taken, so the deferred `wg.Done()` of that goroutine and
the close it could lead to are not part of a run. -/
def asyncStep {W : Type} (gs : List (Goroutine W)) (ctx : Context) (errChBufferSize : Nat)
    (s : AsyncState W) : AsyncEvent → Option (AsyncState W)
  | AsyncEvent.run i =>
    match s.crashed, gs[i]?, s.status[i]? with
    | none, some g, some GStatus.launched =>
      match g.call ctx s.world with
      | (w, Outcome.ret e) =>
        some { s with world := w, status := s.status.set i (GStatus.returned e) }
      | (w, Outcome.panic v) => some { s with world := w, crashed := some v }
    | _, _, _ => none
  | AsyncEvent.send i =>
    match s.crashed, s.status[i]? with
    | none, some (GStatus.returned e) =>
      if s.closed then some { s with crashed := some "send on closed channel" }
      else if s.errCh.length < errChBufferSize then
        some { s with errCh := s.errCh ++ [e], status := s.status.set i (GStatus.published e) }
      else none
    | _, _ => none
  | AsyncEvent.handoff i =>
    match s.crashed, s.status[i]? with
    | none, some (GStatus.returned e) =>
      if s.closed then some { s with crashed := some "send on closed channel" }
      else if s.errCh.length = 0 ∧ s.drained = false then
        some { s with received := s.received ++ [e],
                      status := s.status.set i (GStatus.published e) }
      else none
    | _, _ => none
  | AsyncEvent.done i =>
    match s.crashed, s.status[i]? with
    | none, some (GStatus.published e) =>
      if s.wg = 0 then some { s with crashed := some "sync: negative WaitGroup counter" }
      else some { s with wg := s.wg - 1, status := s.status.set i (GStatus.done e) }
    | _, _ => none
  | AsyncEvent.close =>
    match s.crashed, s.closed with
    | none, false => if s.wg = 0 then some { s with closed := true } else none
    | _, _ => none
  | AsyncEvent.recv =>
    match s.crashed, s.drained, s.errCh with
    | none, false, e :: rest => some { s with errCh := rest, received := s.received ++ [e] }
    | _, _, _ => none
  | AsyncEvent.recvClosed =>
    match s.crashed, s.drained, s.errCh with
    | none, false, [] => if s.closed then some { s with drained := true } else none
    | _, _, _ => none

/-- Running a schedule after `async` has returned. -/
def asyncExec {W : Type} (gs : List (Goroutine W)) (ctx : Context) (errChBufferSize : Nat) :
    AsyncState W → List AsyncEvent → Option (AsyncState W)
  | s, [] => some s
  | s, ev :: evs =>
    match asyncStep gs ctx errChBufferSize s ev with
    | none => none
    | some s1 => asyncExec gs ctx errChBufferSize s1 evs

/-- `func (b *Batch) async(gs []Goroutine, errChBufferSize uint) <-chan error` followed by a
consumer of the channel, on the world `w` under a schedule: the panic of
`make(chan error, errChBufferSize)`, or the state the schedule leads to. -/
def Batch.async {W : Type} (b : Batch W) (gs : List (Goroutine W)) (errChBufferSize : Nat)
    (w : W) (schedule : List AsyncEvent) : Except String (Option (AsyncState W)) :=
  match makechan errChBufferSize with
  | Except.error msg => Except.error msg
  | Except.ok cap => Except.ok (asyncExec gs b.ctx cap (asyncInit gs w) schedule)

/-- `func (b *Batch) Async() <-chan error` followed by a consumer of the channel. -/
def Batch.Async {W : Type} (b : Batch W) (w : W) (schedule : List AsyncEvent) :
    Except String (Option (AsyncState W)) :=
  match b.prepareGoroutines with
  | Except.error msg => Except.error msg
  | Except.ok gs => b.async gs gs.length w schedule

/-- `func (b *Batch) AsyncBs(errChBufferSize uint) <-chan error` followed by a consumer of the
channel. -/
def Batch.AsyncBs {W : Type} (b : Batch W) (errChBufferSize : Nat) (w : W)
    (schedule : List AsyncEvent) : Except String (Option (AsyncState W)) :=
  match b.prepareGoroutines with
  | Except.error msg => Except.error msg
  | Except.ok gs => b.async gs errChBufferSize w schedule

/-! ## goroutiner.go: SingleAsync -/

/-- `func (g *Goroutiner) SingleAsync(ctx, fn, mws ...Middleware) <-chan error`, the body
`return g.Batch(ctx).Add(fn, mws...).Async()`, followed by a consumer of the channel. -/
def Goroutiner.SingleAsync {W : Type} (g : Goroutiner W) (ctx : Context) (fn : Goroutine W)
    (mws : List (Middleware W)) (w : W) (schedule : List AsyncEvent) :
    Except String (Option (AsyncState W)) :=
  match g.Batch ctx [] with
  | Except.error msg => Except.error msg
  | Except.ok b =>
    match (b.Add fn mws).result with
    | Except.error msg => Except.error msg
    | Except.ok b1 => b1.Async w schedule

/-! ## popular_mws.go

The payload of a panic is the non-nil value `recover()` yields. `debug.Stack()` belongs to the
Go runtime; what it returns is the parameter `debugStack`. The transforms are user code that
may act on the shared world and is taken to return. -/

/-- `func(panicValue any, debugStack []byte, ctx context.Context) any`, the transform of
`MwPanicRelay`; the value it returns is the payload of the new panic. -/
abbrev RelayHandler (W : Type) := String → String → Context → W → W × String

/-- `func(panicValue any, debugStack []byte, ctx context.Context) error`, the transform of
`MwPanicToError`. -/
abbrev ErrorHandler (W : Type) := String → String → Context → W → W × GoError

/-- `func MwPanicRelay(fnHandler) Middleware`; `fnHandler` is `none` for the nil function.
The deferred function recovers a panic of `g(ctx)`, calls the transform and panics with
what it returns; without a panic `g(ctx)` is returned. -/
def MwPanicRelay {W : Type} (debugStack : String) (fnHandler : Option (RelayHandler W)) :
    Except String (Middleware W) :=
  match fnHandler with
  | none => Except.error "`fnHandler` must not be `nil`"
  | some h =>
    Except.ok (some (fun g => some (fun ctx w =>
      match g.call ctx w with
      | (w1, Outcome.ret err) => (w1, Outcome.ret err)
      | (w1, Outcome.panic pv) =>
        match h pv debugStack ctx w1 with
        | (w2, pv1) => (w2, Outcome.panic pv1))))

/-- `func MwPanicToError(fnHandler) Middleware`; `fnHandler` is `none` for the nil function.
The deferred function recovers a panic of `g(ctx)` and sets the named result `rErr` to what
the transform returns; without a panic `rErr = g(ctx)` is returned. -/
def MwPanicToError {W : Type} (debugStack : String) (fnHandler : Option (ErrorHandler W)) :
    Except String (Middleware W) :=
  match fnHandler with
  | none => Except.error "`fnHandler` must not be `nil`"
  | some h =>
    Except.ok (some (fun g => some (fun ctx w =>
      match g.call ctx w with
      | (w1, Outcome.ret err) => (w1, Outcome.ret err)
      | (w1, Outcome.panic pv) =>
        match h pv debugStack ctx w1 with
        | (w2, rErr) => (w2, Outcome.ret rErr))))

/-! ## Notions of the specification -/

/-- The nesting the specification describes: `applyAll [m1, ..., mk] t = m1 (m2 (... (mk t)))`,
the first middleware outermost. -/
def applyAll {W : Type} : List (MwFn W) → Goroutine W → Goroutine W
  | [], t => t
  | m :: rest, t => m (applyAll rest t)

/-- An entry as registration admits it: a non-nil task and no nil middleware. -/
def goroutineConfig.valid {W : Type} (cfg : goroutineConfig W) : Prop :=
  cfg.fn.isSome = true ∧ hasNil cfg.mws = false

/-- The batches obtained from `b0` by calls of `Add` and `AddRange`, successful or failed. -/
inductive Populated {W : Type} (b0 : Batch W) : Batch W → Prop
  | start : Populated b0 b0
  | add (b : Batch W) (fn : Goroutine W) (mws : List (Middleware W)) :
      Populated b0 b → Populated b0 (b.Add fn mws).recv
  | addRange (b : Batch W) (n : Int) (fnProvide : Option (Provider W)) :
      Populated b0 b → Populated b0 (b.AddRange n fnProvide).recv

/-- The calls `Add(e1)`, `Add(e2)`, ... one after the other on a batch, each entry a task
with its individual middleware; the result is the batch after the last call. -/
def addEach {W : Type} (b : Batch W) :
    List (Goroutine W × List (Middleware W)) → Batch W
  | [] => b
  | e :: rest => addEach (b.Add e.1 e.2).recv rest

/-- What the provider supplies at an index; a panic of the provider counts as a nil task. -/
def supplied {W : Type} (p : Provider W) (i : Int) : Goroutine W × List (Middleware W) :=
  match p i with
  | Except.ok e => e
  | Except.error _ => (none, [])

/-! ## tests/middleware_ordering_test.go -/

/-- The tracing middleware `mMw(name)` of `Test_MiddlewareOrdering`; the world is the string
`actual`. -/
def mMw (name : String) : MwFn String := fun g =>
  some (fun ctx actual =>
    match g.call ctx (actual ++ (name ++ "s-")) with
    | (actual1, Outcome.ret err) => (actual1 ++ ("-" ++ name ++ "e"), Outcome.ret err)
    | (actual1, Outcome.panic v) => (actual1, Outcome.panic v))

/-- The task `g` of `Test_MiddlewareOrdering`. -/
def traceG : GoFn String := fun _ actual => (actual ++ "0", Outcome.ret none)

/-- What the tracing middleware of the given names write on the way in, outermost first. -/
def enters : List String → String
  | [] => ""
  | name :: rest => (name ++ "s-") ++ enters rest

/-- What the tracing middleware of the given names write on the way out, innermost first. -/
def exits : List String → String
  | [] => ""
  | name :: rest => exits rest ++ ("-" ++ name ++ "e")

/-- The only schedule of `Wait` for a batch of one task. -/
def waitOne : List WaitEvent :=
  [WaitEvent.run 0, WaitEvent.send 0, WaitEvent.done 0, WaitEvent.close, WaitEvent.recv,
    WaitEvent.ret]

/-- The world a call of `Wait` leaves behind. -/
def waitWorld {W : Type} : Except String (Option (WaitState W)) → Except String (Option W)
  | Except.error msg => Except.error msg
  | Except.ok s => Except.ok (s.map (fun s1 => s1.world))

/-- The `Add` half of a case of `Test_MiddlewareOrdering`:
`New(gMws...).Batch(ctx, sMws...).Add(g, iMws...).Wait()`, yielding `actual`. -/
def orderingTestAdd (gN sN iN : List String) : Except String (Option String) :=
  match New ((gN.map mMw).map some) with
  | Except.error msg => Except.error msg
  | Except.ok r =>
    match r.Batch (Context.value 0) ((sN.map mMw).map some) with
    | Except.error msg => Except.error msg
    | Except.ok b0 =>
      match (b0.Add (some traceG) ((iN.map mMw).map some)).result with
      | Except.error msg => Except.error msg
      | Except.ok b => waitWorld (b.Wait "" waitOne)

/-- The `AddRange` half of a case of `Test_MiddlewareOrdering`:
`New(gMws...).Batch(ctx, sMws...).AddRange(1, provider).Wait()`, yielding `actual`. -/
def orderingTestAddRange (gN sN iN : List String) : Except String (Option String) :=
  match New ((gN.map mMw).map some) with
  | Except.error msg => Except.error msg
  | Except.ok r =>
    match r.Batch (Context.value 0) ((sN.map mMw).map some) with
    | Except.error msg => Except.error msg
    | Except.ok b0 =>
      match (b0.AddRange 1
          (some (fun _ => Except.ok (some traceG, (iN.map mMw).map some)))).result with
      | Except.error msg => Except.error msg
      | Except.ok b => waitWorld (b.Wait "" waitOne)

/-! ## tests/typical_mws_test.go -/

/-- The verb `%#v` of `fmt` applied to a string: the string in Go syntax, between double
quotes with the double quotes and backslashes inside escaped. -/
def goQuote (s : String) : String :=
  "\"" ++ String.join (s.toList.map (fun c =>
    if c = '"' then "\\\"" else if c = '\\' then "\\\\" else String.singleton c)) ++ "\""

/-- The transform of the test's `mwPanicToError`,
`fmt.Errorf("MwPanicToError: %#v", panicValue)`. -/
def testErrorHandler : ErrorHandler Unit := fun panicValue _ _ w =>
  (w, some ("MwPanicToError: " ++ goQuote panicValue))

/-- The transform of the test's `mwPanicRelay`,
`fmt.Sprintf("MwPanicRelay: %#v", panicValue)`. -/
def testRelayHandler : RelayHandler Unit := fun panicValue _ _ w =>
  (w, "MwPanicRelay: " ++ goQuote panicValue)

/-- The task `g` of the tests, `panic("Big Panic in Little Goroutine")`. -/
def panickingG : GoFn Unit := fun _ w => (w, Outcome.panic "Big Panic in Little Goroutine")

/-- The middleware a constructor yields, nil when it panicked. -/
def made {W : Type} : Except String (Middleware W) → Middleware W
  | Except.ok mw => mw
  | Except.error _ => none

/-- A line of the tests: `New(gMws...).Batch(ctx, sMws...).Add(g, iMws...).Wait()`, yielding
the returned slice. -/
def typicalMwsTest (gMws sMws iMws : List (Middleware Unit)) :
    Except String (Option (List GoError)) :=
  match New gMws with
  | Except.error msg => Except.error msg
  | Except.ok r =>
    match r.Batch (Context.value 0) sMws with
    | Except.error msg => Except.error msg
    | Except.ok b0 =>
      match (b0.Add (some panickingG) iMws).result with
      | Except.error msg => Except.error msg
      | Except.ok b =>
        match b.Wait () waitOne with
        | Except.error msg => Except.error msg
        | Except.ok none => Except.ok none
        | Except.ok (some s) => Except.ok s.result

/-! ## tests/batch_adding_test.go -/

/-- The middleware `mw` of the adding test, `func(g G) G { return g }`. -/
def idMw {W : Type} : MwFn W := fun g => g

/-- The task `g` of the adding test, `func(ctx) error { return nil }`. -/
def nilG {W : Type} : GoFn W := fun _ w => (w, Outcome.ret none)

/-- The provider of the half-added check of the adding test: valid entries at the indices
below 4 and a middleware list holding nil at index 4. -/
def halfProvider : Provider Unit := fun i =>
  if i < 4 then Except.ok (some nilG, [])
  else Except.ok (some nilG, [some idMw, none, some idMw])

/-- A provider all of whose outputs are valid: the task `g` and no middleware, the provider
`func(i int) (G, []Mw) { return g, nil }` of the adding test. -/
def validProvider : Provider Unit := fun _ => Except.ok (some nilG, [])

/-- The middleware `mMw(i, n)` of the all-added-executed test: `actual[i] += n` and then
`return next(ctx)`; the world is the array `actual`. -/
def countMw (i : Nat) (n : Int) : MwFn (List Int) := fun next =>
  some (fun ctx actual => next.call ctx (actual.set i (actual.getD i 0 + n)))

/-- The task `mG(i, n)` of the all-added-executed test: `actual[i] += n; return nil`. -/
def countG (i : Nat) (n : Int) : GoFn (List Int) := fun _ actual =>
  (actual.set i (actual.getD i 0 + n), Outcome.ret none)

/-- Entry `i` of the last case of the test: the task `mG(i, i)` with the `i` individual
middleware `mMw(i, i * 10 ^ i)`, ..., `mMw(i, i * 100)`, `mMw(i, i * 10)`. -/
def countEntry (i : Nat) : Goroutine (List Int) × List (Middleware (List Int)) :=
  (some (countG i i),
    (List.range i).reverse.map (fun k => some (countMw i ((i : Int) * 10 ^ (k + 1)))))

/-- The entries 1 to 9 of the last case of the test. -/
def countEntries : List (Goroutine (List Int) × List (Middleware (List Int))) :=
  (List.range 9).map (fun k => countEntry (k + 1))

/-- The batch of the test filled by `Add`. -/
def countBatchAdd : Batch (List Int) :=
  addEach (newBatch (Context.value 0) []) countEntries

/-- The batch of the test filled by `AddRange(len(gConfigs), provider)`, the provider
returning `gConfigs[i]`. -/
def countBatchAddRange : Batch (List Int) :=
  ((newBatch (Context.value 0) []).AddRange 9 (some (fun i =>
    match countEntries[i.toNat]? with
    | some e => Except.ok e
    | none => Except.error "runtime error: index out of range"))).recv

/-- The array `expected` of the last case of the test. -/
def countExpected : List Int :=
  [0, 11, 222, 3333, 44444, 555555, 6666666, 77777777, 888888888, 9999999999]

/-- The second case of the test: `mG(1, 1)` with `mMw(1, 10)` and `mG(3, 3)` with
`mMw(3, 30)`, filled by `Add`; `expected` is `[0, 11, 0, 33, 0, ...]`. -/
def smallCountBatch : Batch (List Int) :=
  (((newBatch (Context.value 0) []).Add (some (countG 1 1)) [some (countMw 1 10)]).recv.Add
    (some (countG 3 3)) [some (countMw 3 30)]).recv

/-- A schedule of `Wait` for `n` goroutines: the tasks are called last to first, then
every goroutine sends and finishes, then the caller collects. -/
def reverseWait (n : Nat) : List WaitEvent :=
  (List.range n).reverse.map WaitEvent.run ++
    (List.range n).flatMap (fun i => [WaitEvent.send i, WaitEvent.done i]) ++
    [WaitEvent.close] ++ List.replicate n WaitEvent.recv ++ [WaitEvent.ret]

/-- A schedule of `CancelOnError` for `n` goroutines, one goroutine after the other. -/
def orderlyCancel (n : Nat) : List CancelEvent :=
  (List.range n).flatMap (fun i => [CancelEvent.run i, CancelEvent.report i, CancelEvent.done i])
    ++ [CancelEvent.wait]

/-- A schedule after `async` for `n` goroutines and a channel of any capacity: every
result is handed to the waiting consumer. -/
def handoffAsync (n : Nat) : List AsyncEvent :=
  (List.range n).flatMap (fun i => [AsyncEvent.run i, AsyncEvent.handoff i, AsyncEvent.done i])
    ++ [AsyncEvent.close, AsyncEvent.recvClosed]

/-- The world a call of `CancelOnError` leaves behind. -/
def cancelWorld {W : Type} : Except String (Option (CancelState W)) → Except String (Option W)
  | Except.error msg => Except.error msg
  | Except.ok s => Except.ok (s.map (fun s1 => s1.world))

/-- The world the goroutines of `async` leave behind, once the consumer has been told that
the channel is closed. -/
def asyncWorld {W : Type} : Except String (Option (AsyncState W)) → Option W
  | Except.ok (some s) => if s.drained then some s.world else none
  | _ => none

/-! ## Measures and invariants of the policies -/

/-- Steps a call of `Wait` still has to take: those of the goroutines, and of the caller the
close, one receive per buffered result and the return. -/
def waitTodo {W : Type} (gs : List (Goroutine W)) (s : WaitState W) : Nat :=
  weight GStatus.todo s.status +
    match s.pc with
    | WaitPc.waiting => gs.length + 2
    | WaitPc.ranging => s.errCh.length + 1
    | WaitPc.returned => 0

/-- What holds in every state of `Wait` when no task panics. -/
structure WaitInv {W : Type} (gs : List (Goroutine W)) (s : WaitState W) : Prop where
  len : s.status.length = gs.length
  alive : s.crashed = none
  wg_eq : s.wg = weight GStatus.notDone s.status
  before : s.pc = WaitPc.waiting →
    s.closed = false ∧ s.errCh.length = weight GStatus.pub s.status
  after : s.pc ≠ WaitPc.waiting → s.closed = true ∧ s.wg = 0 ∧ s.errs.length = gs.length
  chan : ∀ i e, (i, e) ∈ s.errCh →
    s.status[i]? = some (GStatus.published e) ∨ s.status[i]? = some (GStatus.done e)
  got : ∀ i e, s.status[i]? = some (GStatus.published e) ∨ s.status[i]? = some (GStatus.done e) →
    (i, e) ∈ s.errCh ∨ (s.pc ≠ WaitPc.waiting ∧ s.errs[i]? = some e)
  fin : s.pc = WaitPc.returned → s.errCh = []

/-- Every task of the list returns, in every world and under every context. -/
def AllReturn {W : Type} (gs : List (Goroutine W)) : Prop :=
  ∀ g ∈ gs, ∀ (c : Context) (w : W), ∃ w1 e, g.call c w = (w1, Outcome.ret e)

/-! ## tests/batch_wait_test.go -/

/-- The task `mG(i, errMsg)` of the result tests: it sets the run flag `i` of the world to
`-1` and returns nil when `errMsg` is empty, and sets it to `1` and returns the error
otherwise. -/
def mG (i : Nat) (errMsg : String) : GoFn (List Int) := fun _ flags =>
  if errMsg = "" then (flags.set i (-1), Outcome.ret none)
  else (flags.set i 1, Outcome.ret (some errMsg))

/-- The batch of the last case of the result tests cut to three tasks:
`Batch(ctx).Add(mG(0, "a")).Add(mG(1, "")).Add(mG(2, "c"))`. -/
def resultBatch : Batch (List Int) :=
  (((newBatch (Context.value 0) []).Add (some (mG 0 "a")) []).recv.Add
    (some (mG 1 "")) []).recv.Add (some (mG 2 "c")) [] |>.recv

/-- A schedule of `Wait` on three tasks in which the tasks complete in the order 2, 0, 1 and
publish in the order 1, 2, 0. -/
def shuffledWait : List WaitEvent :=
  [WaitEvent.run 2, WaitEvent.run 0, WaitEvent.run 1, WaitEvent.send 1, WaitEvent.send 2,
    WaitEvent.done 2, WaitEvent.send 0, WaitEvent.done 0, WaitEvent.done 1, WaitEvent.close,
    WaitEvent.recv, WaitEvent.recv, WaitEvent.recv, WaitEvent.ret]

/-! ## CancelOnError: measure, invariant and an example -/

/-- The first non-nil error of a sequence of completions, `nil` when there is none. -/
def firstError : List (Nat × GoError) → GoError
  | [] => none
  | (_, some msg) :: _ => some msg
  | (_, none) :: rest => firstError rest

/-- Steps a call of `CancelOnError` still has to take. -/
def cancelTodo {W : Type} (s : CancelState W) : Nat :=
  weight GStatus.todo s.status +
    match s.pc with
    | CancelPc.waiting => 1
    | CancelPc.returned => 0

/-- What holds in every state of `CancelOnError` when no task panics. -/
structure CancelInv {W : Type} (gs : List (Goroutine W)) (s : CancelState W) : Prop where
  len : s.status.length = gs.length
  alive : s.crashed = none
  wg_eq : s.wg = weight GStatus.notDone s.status
  count : s.finished.length = weight GStatus.pub s.status
  nodup : (s.finished.map Prod.fst).Nodup
  fin_status : ∀ i e, (i, e) ∈ s.finished ↔
    (s.status[i]? = some (GStatus.published e) ∨ s.status[i]? = some (GStatus.done e))
  err_first : s.err = firstError s.finished
  before : s.pc = CancelPc.waiting → s.cancelled = s.err.isSome
  after : s.pc = CancelPc.returned → s.wg = 0 ∧ s.result = s.err ∧ s.cancelled = true

/-- Two failing tasks for a fail-fast run: task 0 returns the error `a` unless it sees the
derived context cancelled, task 1 returns the error `b`; the world counts the calls. -/
def failingTasks : List (Goroutine Nat) :=
  [some (fun ctx n =>
      match ctx with
      | Context.withCancel _ true => (n + 1, Outcome.ret (some "cancelled"))
      | _ => (n + 1, Outcome.ret (some "a"))),
    some (fun _ n => (n + 1, Outcome.ret (some "b")))]

/-- The batch of `failingTasks`. -/
def failingBatch : Batch Nat :=
  { ctx := Context.value 0, mws := [],
    goroutineConfigs := failingTasks.map (fun g => goroutineConfig.mk g []) }

/-! ## Async: measure, invariant and the closed-channel test -/

/-- The value a goroutine has published, once it has. -/
def GStatus.sent : GStatus → Option GoError
  | GStatus.published e => some e
  | GStatus.done e => some e
  | _ => none

/-- Steps still to take on behalf of a goroutine of `async`: the call of the task, the send,
the receive of its result by the consumer, and `wg.Done()`. -/
def GStatus.asyncTodo : GStatus → Nat
  | GStatus.launched => 4
  | GStatus.returned _ => 3
  | GStatus.published _ => 1
  | GStatus.done _ => 0

/-- Steps the goroutines of `async` and the consumer still have to take: those of the
goroutines, the close, and of the consumer one receive per buffered result and the receive
that reports the closure. A result still to be sent counts for its receive as well; one
inside the buffer counts with the buffer. -/
def asyncTodo {W : Type} (s : AsyncState W) : Nat :=
  weight GStatus.asyncTodo s.status + s.errCh.length +
    (if s.closed then 0 else 1) + (if s.drained then 0 else 1)

/-- What holds in every state after `async` has returned when no task panics. -/
structure AsyncInv {W : Type} (gs : List (Goroutine W)) (cap : Nat) (s : AsyncState W) :
    Prop where
  len : s.status.length = gs.length
  alive : s.crashed = none
  wg_eq : s.wg = weight GStatus.notDone s.status
  closed_wg : s.closed = true → s.wg = 0
  drained_closed : s.drained = true → s.closed = true ∧ s.errCh = []
  room : s.errCh.length ≤ cap
  perm : (s.received ++ s.errCh).Perm (s.status.filterMap GStatus.sent)

/-- The events of the goroutines `async` starts that need no consumer: everything but a
receive and a direct hand-over to the consumer. -/
def AsyncEvent.unconsumed : AsyncEvent → Bool
  | AsyncEvent.handoff _ => false
  | AsyncEvent.recv => false
  | AsyncEvent.recvClosed => false
  | _ => true

/-- The function `testBatch` of the all-added-executed test for a batch of `n` tasks:
`Wait`, `CancelOnError`, `Async` and `AsyncBs(0)` to `AsyncBs(9)` one after the other on
the same batch, with `actual = Res{}` before each of them; the values of `actual` the
assertions compare with `expected`, under one schedule for each call. -/
def testBatch (b : Batch (List Int)) (n : Nat) : List (Option (List Int)) :=
  [(match waitWorld (b.Wait (List.replicate 10 0) (reverseWait n)) with
    | Except.ok r => r
    | Except.error _ => none),
   (match cancelWorld (b.CancelOnError (List.replicate 10 0) (orderlyCancel n)) with
    | Except.ok r => r
    | Except.error _ => none),
   asyncWorld (b.Async (List.replicate 10 0) (handoffAsync n))] ++
  (List.range 10).map (fun bs => asyncWorld (b.AsyncBs bs (List.replicate 10 0) (handoffAsync n)))

/-- A schedule after `async` for `n` goroutines and a channel of capacity `c` on which
nothing is received: every task is called, the first `min c n` goroutines put their result
into the buffer and finish, and the channel is closed when all of them have finished. -/
def fillAsync (n c : Nat) : List AsyncEvent :=
  (List.range n).map AsyncEvent.run ++
    (List.range (min c n)).flatMap (fun i => [AsyncEvent.send i, AsyncEvent.done i]) ++
    (if n ≤ c then [AsyncEvent.close] else [])

/-- The tasks of the closed-channel test of `tests/batch_async_test.go` for three
goroutines: task `i` returns the error `error #i`. -/
def numberedTasks : List (Goroutine Unit) :=
  [some (fun _ w => (w, Outcome.ret (some "error #0"))),
    some (fun _ w => (w, Outcome.ret (some "error #1"))),
    some (fun _ w => (w, Outcome.ret (some "error #2")))]

/-- The batch of `numberedTasks`. -/
def numberedBatch : Batch Unit :=
  { ctx := Context.value 0, mws := [],
    goroutineConfigs := numberedTasks.map (fun g => goroutineConfig.mk g []) }

/-- A schedule for three goroutines on an unbuffered channel: every send is handed to the
consumer, in the order 2, 0, 1. -/
def unbufferedAsync : List AsyncEvent :=
  [AsyncEvent.run 0, AsyncEvent.run 2, AsyncEvent.handoff 2, AsyncEvent.run 1,
    AsyncEvent.done 2, AsyncEvent.handoff 0, AsyncEvent.handoff 1, AsyncEvent.done 1,
    AsyncEvent.done 0, AsyncEvent.close, AsyncEvent.recvClosed]

/-- A schedule for three goroutines on a channel of capacity 3 in which nothing is received
before the channel is closed. -/
def bufferedAsync : List AsyncEvent :=
  [AsyncEvent.run 1, AsyncEvent.send 1, AsyncEvent.run 0, AsyncEvent.run 2, AsyncEvent.send 2,
    AsyncEvent.send 0, AsyncEvent.done 0, AsyncEvent.done 1, AsyncEvent.done 2,
    AsyncEvent.close, AsyncEvent.recv, AsyncEvent.recv, AsyncEvent.recv,
    AsyncEvent.recvClosed]

/-! ## The tests `really async` and `not async` -/

/-- The task of the tests `really async` of `tests/batch_async_test.go` and `not async` of
`tests/batch_wait_test.go`: it waits for the done-signal of its context, which comes with
the deadline, and returns `ctx.Err()`. The model has no clock and the call of a task is one
event: the time the task waits is the stretch of the schedule before its `run` event, and
the function gives what the call returns when it does. -/
def deadlineG : GoFn Unit := fun _ w => (w, Outcome.ret (some "context deadline exceeded"))

/-- The batch of these tests, `New().Batch(ctx).Add(g)`. -/
def deadlineBatch : Batch Unit :=
  ((newBatch (Context.value 0) []).Add (some deadlineG) []).recv

/-! ## batch.go: the return of async

`async` makes the channel, starts one goroutine with a `go` statement and returns the
channel. Here the return of the caller is an event of its own among those of the goroutines,
so that what has happened by the time the caller gets the channel is a matter of the
schedule. -/

/-- The state of one call of `async` after `make(chan error, errChBufferSize)` and the `go`
statement: whether the caller has executed `return errCh`, and the state of the goroutines,
of the channel and of its consumer. -/
structure AsyncCallState (W : Type) where
  returned : Bool
  bg : AsyncState W

/-- The atomic steps of a call of `async`: `return errCh` of the caller, and the steps of the
goroutines and of the consumer. -/
inductive AsyncCallEvent where
  | ret : AsyncCallEvent
  | bg (ev : AsyncEvent) : AsyncCallEvent
deriving DecidableEq, Repr

/-- The state right after the `go` statement. -/
def asyncCallInit {W : Type} (gs : List (Goroutine W)) (w : W) : AsyncCallState W :=
  { returned := false, bg := asyncInit gs w }

/-- One step of a call of `async`. After the `go` statement the caller has `return errCh`
left and nothing else, a statement that waits for nothing: it can happen whenever the process
is alive and the caller has not returned. The goroutines take the steps of `asyncStep`. The
consumer receives from the returned channel, so its steps come after the return. -/
def asyncCallStep {W : Type} (gs : List (Goroutine W)) (ctx : Context)
    (errChBufferSize : Nat) (s : AsyncCallState W) :
    AsyncCallEvent → Option (AsyncCallState W)
  | AsyncCallEvent.ret =>
    match s.bg.crashed, s.returned with
    | none, false => some { s with returned := true }
    | _, _ => none
  | AsyncCallEvent.bg ev =>
    if s.returned = false ∧ ev.unconsumed = false then none
    else
      match asyncStep gs ctx errChBufferSize s.bg ev with
      | none => none
      | some t => some { s with bg := t }

/-- Running a schedule of a call of `async`. -/
def asyncCallExec {W : Type} (gs : List (Goroutine W)) (ctx : Context)
    (errChBufferSize : Nat) :
    AsyncCallState W → List AsyncCallEvent → Option (AsyncCallState W)
  | s, [] => some s
  | s, ev :: evs =>
    match asyncCallStep gs ctx errChBufferSize s ev with
    | none => none
    | some s1 => asyncCallExec gs ctx errChBufferSize s1 evs

/-- `func (b *Batch) async(gs []Goroutine, errChBufferSize uint) <-chan error` with the
return of the caller among the events: the panic of `make(chan error, errChBufferSize)`, or
the state the schedule leads to. -/
def Batch.asyncCall {W : Type} (b : Batch W) (gs : List (Goroutine W))
    (errChBufferSize : Nat) (w : W) (schedule : List AsyncCallEvent) :
    Except String (Option (AsyncCallState W)) :=
  match makechan errChBufferSize with
  | Except.error msg => Except.error msg
  | Except.ok cap => Except.ok (asyncCallExec gs b.ctx cap (asyncCallInit gs w) schedule)

/-- `func (b *Batch) Async() <-chan error` with the return of the caller among the
events. -/
def Batch.AsyncCall {W : Type} (b : Batch W) (w : W) (schedule : List AsyncCallEvent) :
    Except String (Option (AsyncCallState W)) :=
  match b.prepareGoroutines with
  | Except.error msg => Except.error msg
  | Except.ok gs => b.asyncCall gs gs.length w schedule

/-- `func (b *Batch) AsyncBs(errChBufferSize uint) <-chan error` with the return of the
caller among the events. -/
def Batch.AsyncBsCall {W : Type} (b : Batch W) (errChBufferSize : Nat) (w : W)
    (schedule : List AsyncCallEvent) : Except String (Option (AsyncCallState W)) :=
  match b.prepareGoroutines with
  | Except.error msg => Except.error msg
  | Except.ok gs => b.asyncCall gs errChBufferSize w schedule

/-- What a schedule of `async` that starts with the return of the caller leads to, given
what the events after the return lead to. -/
def afterReturn {W : Type} :
    Except String (Option (AsyncState W)) → Except String (Option (AsyncCallState W))
  | Except.error msg => Except.error msg
  | Except.ok r => Except.ok (r.map (fun t => { returned := true, bg := t }))

/-! ## Tasks that record their context -/

/-- A task that appends the context it is called with to the world and returns `err`. -/
def ctxG (err : GoError) : GoFn (List Context) := fun ctx seen =>
  (seen ++ [ctx], Outcome.ret err)

/-- A batch of two such tasks made with the context `Context.value 7`: the first fails, the
second returns nil. -/
def ctxBatch : Batch (List Context) :=
  (((newBatch (Context.value 7) []).Add (some (ctxG (some "first failed"))) []).recv.Add
    (some (ctxG none)) []).recv

/-! ## A batch with failed registrations -/

/-- The batch `New(mw).Batch(ctx, mw)` of the adding test before any registration. -/
def startBatch : Batch Unit := newBatch (Context.value 0) [some idMw, some idMw]

/-- The batch `startBatch` after `Add(nil)`, which panics, `AddRange(5, p)` with a provider
yielding a nil middleware at index 4, which panics, and `Add(g, mw)`, which succeeds. -/
def triedBatch : Batch Unit :=
  (((startBatch.Add none []).recv.AddRange 5 (some halfProvider)).recv.Add (some nilG)
    [some idMw]).recv

/-! ## goroutiner.go: Batch on slices in memory

`Batch` builds the middleware of the new batch with `make` and `append`. Whether the new
batch shares memory with the `Goroutiner` or with another batch is a question about the
arrays behind the slices, so here the slices of middleware are slice headers over arrays in
memory. The slice of the entries of a batch stays a list: `newBatch` makes it anew for
every batch and it never leaves the batch; an entry holds the header of its middleware. -/

/-- A Go slice header: the underlying array, the index of the first element in it, the
length and the capacity. -/
structure Slice where
  arr : Nat
  off : Nat
  len : Nat
  cap : Nat
deriving DecidableEq, Repr

/-- The arrays of middleware in memory; the address of an array is its index. -/
abbrev Heap (W : Type) := List (List (Middleware W))

/-- The elements of a slice. -/
def readSlice {W : Type} (h : Heap W) (s : Slice) : List (Middleware W) :=
  ((h.getD s.arr []).drop s.off).take s.len

/-- A slice that lies within an array of the memory. -/
def validSlice {W : Type} (h : Heap W) (s : Slice) : Prop :=
  s.arr < h.length ∧ s.len ≤ s.cap ∧ s.off + s.cap ≤ (h.getD s.arr []).length

/-- `make([]Middleware, 0, cap)`: a new array of `cap` nil elements and the empty slice at
its start. -/
def goMake {W : Type} (h : Heap W) (cap : Nat) : Heap W × Slice :=
  (h ++ [List.replicate cap none], { arr := h.length, off := 0, len := 0, cap := cap })

/-- `append(s, xs...)`: when the capacity of `s` suffices the elements are written into the
array of `s` behind its last element; otherwise a new array is allocated that holds the
elements of `s` followed by `xs` (its capacity is the choice of the runtime, at least the
new length; the least one is taken). -/
def goAppend {W : Type} (h : Heap W) (s : Slice) (xs : List (Middleware W)) :
    Heap W × Slice :=
  if s.len + xs.length ≤ s.cap then
    (h.set s.arr ((h.getD s.arr []).take (s.off + s.len) ++ xs ++
        (h.getD s.arr []).drop (s.off + s.len + xs.length)),
      { s with len := s.len + xs.length })
  else
    (h ++ [readSlice h s ++ xs],
      { arr := h.length, off := 0, len := s.len + xs.length, cap := s.len + xs.length })

/-- `type Goroutiner struct { globalMws []Middleware }` with the slice header. -/
structure GoroutinerRef where
  globalMws : Slice

/-- `type goroutineConfig struct { fn; mws }` with the header of `mws`. -/
structure goroutineConfigRef (W : Type) where
  fn : Goroutine W
  mws : Slice

/-- `type Batch struct { ctx; mws; goroutineConfigs }` with the headers of the slices of
middleware. -/
structure BatchRef (W : Type) where
  ctx : Context
  mws : Slice
  goroutineConfigs : List (goroutineConfigRef W)

/-- `func newBatch(ctx, mws) *Batch` on a slice header. -/
def newBatchRef {W : Type} (ctx : Context) (mws : Slice) : BatchRef W :=
  { ctx := ctx, mws := mws, goroutineConfigs := [] }

/-- `func (g *Goroutiner) Batch(ctx, mws ...Middleware) *Batch` on the memory `h`: the
panic, or the memory after the call and the new batch. -/
def GoroutinerRef.Batch {W : Type} (g : GoroutinerRef) (h : Heap W) (ctx : Context)
    (mws : Slice) : Except String (Heap W × BatchRef W) :=
  if ctx = Context.nil then
    Except.error "`ctx` must not be `nil`"
  else if hasNil (readSlice h mws) then
    Except.error "`mws` must contain no `nil` elements"
  else
    match goMake h (g.globalMws.len + mws.len) with
    | (h1, batchMws) =>
      match goAppend h1 batchMws (readSlice h1 g.globalMws) with
      | (h2, batchMws) =>
        match goAppend h2 batchMws (readSlice h2 mws) with
        | (h3, batchMws) => Except.ok (h3, newBatchRef ctx batchMws)

/-- The `Goroutiner` value a `GoroutinerRef` stands for in the memory `h`. -/
def GoroutinerRef.abs {W : Type} (g : GoroutinerRef) (h : Heap W) : Goroutiner W :=
  { globalMws := readSlice h g.globalMws }

/-- The entry a `goroutineConfigRef` stands for in the memory `h`. -/
def goroutineConfigRef.abs {W : Type} (cfg : goroutineConfigRef W) (h : Heap W) :
    goroutineConfig W :=
  { fn := cfg.fn, mws := readSlice h cfg.mws }

/-- The `Batch` value a `BatchRef` stands for in the memory `h`. -/
def BatchRef.abs {W : Type} (b : BatchRef W) (h : Heap W) : Batch W :=
  { ctx := b.ctx, mws := readSlice h b.mws,
    goroutineConfigs := b.goroutineConfigs.map (fun cfg => cfg.abs h) }

/-! ## tests/goroutiner_test.go: same global and different batch middleware -/

/-- The memory of the test when the batches are made: the array of the arguments of
`New(mMw("g1"), mMw("g2"))` and the arrays of the arguments of the four calls of `Batch`. -/
def sameGlobalHeap : Heap String :=
  [[some (mMw "g1"), some (mMw "g2")], [some (mMw "s1")], [some (mMw "s1")],
    [some (mMw "s2")], [some (mMw "s22")]]

/-- The `Goroutiner` of the test, `grt`: its middleware are the array at address 0. -/
def grt : GoroutinerRef := { globalMws := { arr := 0, off := 0, len := 2, cap := 2 } }

/-- The slice of the one argument held by the array at address `k`. -/
def argSlice (k : Nat) : Slice := { arr := k, off := 0, len := 1, cap := 1 }

/-- The lines `actual = ""; b.Add(g).Wait()` of the test: the value of `actual` after them. -/
def addWaitTrace (b : Batch String) : Except String (Option String) :=
  waitWorld ((b.Add (some traceG) []).recv.Wait "" waitOne)

/-- The body of the test: `s1` and `s11` are made by `grt.Batch` and run, then `s2` and
`s22` are made and run; the values `actual1`, `actual11`, `actual2` and `actual22`. -/
def sameGlobalTest : Except String (List (Except String (Option String))) :=
  match grt.Batch sameGlobalHeap (Context.value 0) (argSlice 1) with
  | Except.error msg => Except.error msg
  | Except.ok (h1, s1) =>
    match grt.Batch h1 (Context.value 0) (argSlice 2) with
    | Except.error msg => Except.error msg
    | Except.ok (h2, s11) =>
      match grt.Batch h2 (Context.value 0) (argSlice 3) with
      | Except.error msg => Except.error msg
      | Except.ok (h3, s2) =>
        match grt.Batch h3 (Context.value 0) (argSlice 4) with
        | Except.error msg => Except.error msg
        | Except.ok (h4, s22) =>
          Except.ok [addWaitTrace (s1.abs h2), addWaitTrace (s11.abs h2),
            addWaitTrace (s2.abs h4), addWaitTrace (s22.abs h4)]

/-! ## batch.go on slices in memory

`New`, `Add` and `AddRange` keep the slice header they are given: the `Goroutiner` or the
entry shares the array behind it with the caller. `prepareGoroutines` reads the middleware
from memory at the time it is called and writes the tasks into an array it makes. Here these
functions are given over slice headers and arrays in memory. The provider is user code; it
is taken to return slices of arrays that are in memory and to write nothing. The tasks act
on the world `W` and are taken not to write to these arrays either. -/

/-- A slice whose elements lie within an array of the memory; a slice without elements, as
the nil slice, always does. -/
def inMemory {W : Type} (h : Heap W) (s : Slice) : Prop :=
  s.len = 0 ∨ (s.arr < h.length ∧ s.off + s.len ≤ (h.getD s.arr []).length)

/-- `func New(globalMws ...Middleware) *Goroutiner` on a slice header in the memory `h`. -/
def NewRef {W : Type} (h : Heap W) (globalMws : Slice) : Except String GoroutinerRef :=
  if hasNil (readSlice h globalMws) then
    Except.error "`globalMws` must contain no `nil` elements"
  else
    Except.ok { globalMws := globalMws }

/-- `func (b *Batch) Add(fn Goroutine, mws ...Middleware) *Batch` on a slice header in the
memory `h`: the elements are read for the nil check and the header is stored. -/
def BatchRef.Add {W : Type} (b : BatchRef W) (h : Heap W) (fn : Goroutine W) (mws : Slice) :
    Call (BatchRef W) (BatchRef W) :=
  if fn.isNone then
    { recv := b, result := Except.error "`fn` must not be `nil`" }
  else if hasNil (readSlice h mws) then
    { recv := b, result := Except.error "`mws` must contain no `nil` elements" }
  else
    let b1 : BatchRef W :=
      { b with goroutineConfigs := b.goroutineConfigs ++ [{ fn := fn, mws := mws }] }
    { recv := b1, result := Except.ok b1 }

/-- What a call of the provider `fnProvide(i)` yields: the task and the header of the slice
of middleware, or the panic of the provider. -/
abbrev ProviderRef (W : Type) := Int → Except String (Goroutine W × Slice)

/-- The loop of `AddRange` on slice headers in the memory `h`. -/
def addRangeLoopRef {W : Type} (h : Heap W) (fnProvide : ProviderRef W) :
    Nat → Int → List (goroutineConfigRef W) → Except String (List (goroutineConfigRef W))
  | 0, _, configs => Except.ok configs
  | k + 1, i, configs =>
    match fnProvide i with
    | Except.error msg => Except.error msg
    | Except.ok (fn, mws) =>
      if fn.isNone then
        Except.error "`fnProvide` must not provide `nil` goroutines"
      else if hasNil (readSlice h mws) then
        Except.error "`fnProvide` must provide middleware without `nil` elements"
      else
        addRangeLoopRef h fnProvide k (i + 1) (configs ++ [{ fn := fn, mws := mws }])

/-- `func (b *Batch) AddRange(n int, fnProvide func(i int) (Goroutine, []Middleware)) *Batch`
on slice headers in the memory `h`. -/
def BatchRef.AddRange {W : Type} (b : BatchRef W) (h : Heap W) (n : Int)
    (fnProvide : Option (ProviderRef W)) : Call (BatchRef W) (BatchRef W) :=
  if n ≤ 0 then
    { recv := b, result := Except.error "`n` must be greater than zero" }
  else
    match fnProvide with
    | none => { recv := b, result := Except.error "`fnProvide` must not be `nil`" }
    | some provide =>
      match makeslice n.toNat with
      | Except.error msg => { recv := b, result := Except.error msg }
      | Except.ok len =>
        match addRangeLoopRef h provide len 0 [] with
        | Except.error msg => { recv := b, result := Except.error msg }
        | Except.ok configs =>
          let b1 : BatchRef W := { b with goroutineConfigs := b.goroutineConfigs ++ configs }
          { recv := b1, result := Except.ok b1 }

/-- The provider on values that a provider on slice headers stands for in the memory `h`. -/
def ProviderRef.abs {W : Type} (p : ProviderRef W) (h : Heap W) : Provider W := fun i =>
  match p i with
  | Except.error msg => Except.error msg
  | Except.ok (fn, mws) => Except.ok (fn, readSlice h mws)

/-- The memory and the batch after calls of `Add` and `AddRange`, successful or failed, on
slices that lie in memory, and after allocations of new arrays in between (the arguments of
a variadic call, the middleware of another batch); no array is written. -/
inductive PopulatedRef {W : Type} (h0 : Heap W) (b0 : BatchRef W) :
    Heap W → BatchRef W → Prop
  | start : PopulatedRef h0 b0 h0 b0
  | alloc (h : Heap W) (b : BatchRef W) (arr : List (Middleware W)) :
      PopulatedRef h0 b0 h b → PopulatedRef h0 b0 (h ++ [arr]) b
  | add (h : Heap W) (b : BatchRef W) (fn : Goroutine W) (mws : Slice) :
      inMemory h mws → PopulatedRef h0 b0 h b → PopulatedRef h0 b0 h (b.Add h fn mws).recv
  | addRange (h : Heap W) (b : BatchRef W) (n : Int) (fnProvide : Option (ProviderRef W)) :
      (∀ p i fn mws, fnProvide = some p → p i = Except.ok (fn, mws) → inMemory h mws) →
      PopulatedRef h0 b0 h b → PopulatedRef h0 b0 h (b.AddRange h n fnProvide).recv

/-- The assignment `a[i] = x` of the caller to an array of middleware in memory. -/
def writeMw {W : Type} (h : Heap W) (a i : Nat) (x : Middleware W) : Heap W :=
  h.set a ((h.getD a []).set i x)

/-! ## batch.go: composition in memory -/

/-- The arrays in memory: those of middleware and those of tasks; the address of an array
is its index. -/
structure Memory (W : Type) where
  mws : Heap W
  tasks : List (List (Goroutine W))

/-- The element `goroutines[i]` of the array of tasks at address `a`, if `i` is in range. -/
def Memory.task {W : Type} (m : Memory W) (a i : Nat) : Option (Goroutine W) :=
  (m.tasks.getD a [])[i]?

/-- The assignment `goroutines[i] = g` for the array of tasks at address `a`. -/
def Memory.setTask {W : Type} (m : Memory W) (a i : Nat) (g : Goroutine W) : Memory W :=
  { m with tasks := m.tasks.set a ((m.tasks.getD a []).set i g) }

/-- The element `s[j]` of a slice of middleware, if `j` is in range. -/
def Memory.mw {W : Type} (m : Memory W) (s : Slice) (j : Nat) : Option (Middleware W) :=
  if j < s.len then (m.mws.getD s.arr [])[s.off + j]? else none

/-- The elements of a slice of tasks. -/
def Memory.readTasks {W : Type} (m : Memory W) (s : Slice) : List (Goroutine W) :=
  ((m.tasks.getD s.arr []).drop s.off).take s.len

/-- The inner loops of `prepareGoroutines` in memory,
`for j := len(s) - 1; j >= 0; j-- { goroutines[i] = s[j](goroutines[i]) }`, entered with
`j + 1 = k`, for the array `goroutines` at address `a`. -/
def wrapDownRef {W : Type} (s : Slice) (a i : Nat) : Nat → Memory W → Call (Memory W) Unit
  | 0, m => { recv := m, result := Except.ok () }
  | j + 1, m =>
    match m.mw s j, m.task a i with
    | some mw, some g =>
      match mw.call g with
      | Except.error msg => { recv := m, result := Except.error msg }
      | Except.ok g1 => wrapDownRef s a i j (m.setTask a i g1)
    | _, _ => { recv := m, result := Except.error "runtime error: index out of range" }

/-- The outer loop of `prepareGoroutines` in memory from index `i` on, for the array
`goroutines` at address `a`: `goroutines[i] = cfg.fn` and the two inner loops. -/
def prepareLoopRef {W : Type} (bmws : Slice) (a : Nat) :
    List (goroutineConfigRef W) → Nat → Memory W → Call (Memory W) Unit
  | [], _, m => { recv := m, result := Except.ok () }
  | cfg :: rest, i, m =>
    match m.task a i with
    | none => { recv := m, result := Except.error "runtime error: index out of range" }
    | some _ =>
      match (wrapDownRef cfg.mws a i cfg.mws.len (m.setTask a i cfg.fn)).result with
      | Except.error msg =>
        { recv := (wrapDownRef cfg.mws a i cfg.mws.len (m.setTask a i cfg.fn)).recv,
          result := Except.error msg }
      | Except.ok _ =>
        match (wrapDownRef bmws a i bmws.len
            (wrapDownRef cfg.mws a i cfg.mws.len (m.setTask a i cfg.fn)).recv).result with
        | Except.error msg =>
          { recv := (wrapDownRef bmws a i bmws.len
              (wrapDownRef cfg.mws a i cfg.mws.len (m.setTask a i cfg.fn)).recv).recv,
            result := Except.error msg }
        | Except.ok _ =>
          prepareLoopRef bmws a rest (i + 1)
            (wrapDownRef bmws a i bmws.len
              (wrapDownRef cfg.mws a i cfg.mws.len (m.setTask a i cfg.fn)).recv).recv

/-- `func (b *Batch) prepareGoroutines() []Goroutine` in memory: the memory and the batch
after the call, and the header of the slice `goroutines` or the panic. The slice is made
before the check of its length. -/
def BatchRef.prepareGoroutines {W : Type} (b : BatchRef W) (m : Memory W) :
    Call (Memory W × BatchRef W) Slice :=
  let goroutines : Slice :=
    { arr := m.tasks.length, off := 0, len := b.goroutineConfigs.length,
      cap := b.goroutineConfigs.length }
  let m1 : Memory W :=
    { m with tasks := m.tasks ++ [List.replicate b.goroutineConfigs.length none] }
  if goroutines.len = 0 then
    { recv := (m1, b), result := Except.error "at least one goroutine is required" }
  else
    match (prepareLoopRef b.mws goroutines.arr b.goroutineConfigs 0 m1).result with
    | Except.error msg =>
      { recv := ((prepareLoopRef b.mws goroutines.arr b.goroutineConfigs 0 m1).recv, b),
        result := Except.error msg }
    | Except.ok _ =>
      { recv := ((prepareLoopRef b.mws goroutines.arr b.goroutineConfigs 0 m1).recv, b),
        result := Except.ok goroutines }

/-- `func (b *Batch) Wait() []error` in memory under a schedule: the memory and the batch
after the call, and the panic of `prepareGoroutines` or the state the schedule leads to. -/
def BatchRef.Wait {W : Type} (b : BatchRef W) (m : Memory W) (w : W)
    (schedule : List WaitEvent) : Call (Memory W × BatchRef W) (Option (WaitState W)) :=
  match (b.prepareGoroutines m).result with
  | Except.error msg => { recv := (b.prepareGoroutines m).recv, result := Except.error msg }
  | Except.ok gs =>
    { recv := (b.prepareGoroutines m).recv,
      result := Except.ok (waitExec ((b.prepareGoroutines m).recv.1.readTasks gs)
        (b.prepareGoroutines m).recv.2.ctx
        (waitInit ((b.prepareGoroutines m).recv.1.readTasks gs) w) schedule) }

/-- `func (b *Batch) CancelOnError() error` in memory under a schedule. -/
def BatchRef.CancelOnError {W : Type} (b : BatchRef W) (m : Memory W) (w : W)
    (schedule : List CancelEvent) : Call (Memory W × BatchRef W) (Option (CancelState W)) :=
  match (b.prepareGoroutines m).result with
  | Except.error msg => { recv := (b.prepareGoroutines m).recv, result := Except.error msg }
  | Except.ok gs =>
    { recv := (b.prepareGoroutines m).recv,
      result :=
        if (b.prepareGoroutines m).recv.2.ctx = Context.nil then
          Except.error "cannot create context from nil parent"
        else
          Except.ok (cancelExec ((b.prepareGoroutines m).recv.1.readTasks gs)
            (b.prepareGoroutines m).recv.2.ctx
            (cancelInit ((b.prepareGoroutines m).recv.1.readTasks gs) w) schedule) }

/-- `func (b *Batch) async(gs []Goroutine, errChBufferSize uint) <-chan error` for a batch
in memory, followed by a consumer of the channel. -/
def BatchRef.async {W : Type} (b : BatchRef W) (gs : List (Goroutine W))
    (errChBufferSize : Nat) (w : W) (schedule : List AsyncEvent) :
    Except String (Option (AsyncState W)) :=
  match makechan errChBufferSize with
  | Except.error msg => Except.error msg
  | Except.ok cap => Except.ok (asyncExec gs b.ctx cap (asyncInit gs w) schedule)

/-- `func (b *Batch) Async() <-chan error` in memory under a schedule. -/
def BatchRef.Async {W : Type} (b : BatchRef W) (m : Memory W) (w : W)
    (schedule : List AsyncEvent) : Call (Memory W × BatchRef W) (Option (AsyncState W)) :=
  match (b.prepareGoroutines m).result with
  | Except.error msg => { recv := (b.prepareGoroutines m).recv, result := Except.error msg }
  | Except.ok gs =>
    { recv := (b.prepareGoroutines m).recv,
      result := (b.prepareGoroutines m).recv.2.async
        ((b.prepareGoroutines m).recv.1.readTasks gs)
        gs.len w schedule }

/-- `func (b *Batch) AsyncBs(errChBufferSize uint) <-chan error` in memory under a
schedule. -/
def BatchRef.AsyncBs {W : Type} (b : BatchRef W) (m : Memory W) (errChBufferSize : Nat)
    (w : W) (schedule : List AsyncEvent) :
    Call (Memory W × BatchRef W) (Option (AsyncState W)) :=
  match (b.prepareGoroutines m).result with
  | Except.error msg => { recv := (b.prepareGoroutines m).recv, result := Except.error msg }
  | Except.ok gs =>
    { recv := (b.prepareGoroutines m).recv,
      result := (b.prepareGoroutines m).recv.2.async
        ((b.prepareGoroutines m).recv.1.readTasks gs) errChBufferSize w schedule }

/-! ## The all-added-executed test in memory -/

/-- The header of the nil slice, the arguments of a variadic call without arguments. -/
def nilSlice : Slice := { arr := 0, off := 0, len := 0, cap := 0 }

/-- The arrays of the arguments `mMw(1, 10)` and `mMw(3, 30)` of the two calls of `Add` in
the second case of the all-added-executed test. -/
def smallCountHeap : Heap (List Int) := [[some (countMw 1 10)], [some (countMw 3 30)]]

/-- The chain `New().Batch(ctx).Add(mG(1, 1), mMw(1, 10)).Add(mG(3, 3), mMw(3, 30))` of that
case in memory: the memory after it and the batch. -/
def smallCountRef : Except String (Heap (List Int) × BatchRef (List Int)) :=
  match NewRef smallCountHeap nilSlice with
  | Except.error msg => Except.error msg
  | Except.ok r =>
    match r.Batch smallCountHeap (Context.value 0) nilSlice with
    | Except.error msg => Except.error msg
    | Except.ok (h, b) =>
      Except.ok (h, ((b.Add h (some (countG 1 1)) (argSlice 0)).recv.Add h
        (some (countG 3 3)) (argSlice 1)).recv)

/-! ## Registration in memory: failed calls and a slice the caller keeps -/

/-- The memory of the adding test before the calls: the arrays of the one argument of
`New(mw)`, of `Batch(ctx, mw)` and of `Add(g, mw)`, and the array `[]Mw{mw, nil, mw}` the
provider returns at index 4. -/
def triedHeap : Heap Unit :=
  [[some idMw], [some idMw], [some idMw], [some idMw, none, some idMw]]

/-- The provider of the half-added check over slice headers: the nil slice below index 4 and
the slice of the array at address 3 from there on. -/
def halfProviderRef : ProviderRef Unit := fun i =>
  if i < 4 then Except.ok (some nilG, nilSlice)
  else Except.ok (some nilG, { arr := 3, off := 0, len := 3, cap := 3 })

/-- The memory of a caller that holds the slice `s := []Mw{mw}` in the array at address
0. -/
def callerHeap : Heap Unit := [[some idMw]]

/-- The memory once `New().Batch(ctx)` has made the middleware of the batch, an empty array
at address 1. -/
def sharedHeap : Heap Unit := callerHeap ++ [[]]

/-- The batch `New().Batch(ctx)` in that memory. -/
def sharedBatch0 : BatchRef Unit :=
  { ctx := Context.value 0, mws := { arr := 1, off := 0, len := 0, cap := 0 },
    goroutineConfigs := [] }

/-- The batch after `Add(g, s...)` with the slice `s` of the caller. -/
def sharedBatch : BatchRef Unit := (sharedBatch0.Add sharedHeap (some nilG) (argSlice 0)).recv

/-! ## One task under three tiers -/

/-- The chain `New(G...).Batch(ctx, S...).Add(t, I...)`: the batch it yields, or the panic
of the first call that panics. -/
def registerOne {W : Type} (G S I : List (Middleware W)) (ctx : Context) (t : Goroutine W) :
    Except String (Batch W) :=
  match New G with
  | Except.error msg => Except.error msg
  | Except.ok r =>
    match r.Batch ctx S with
    | Except.error msg => Except.error msg
    | Except.ok b0 => (b0.Add t I).result

/-! # Lemmas and theorems -/

/-! ## The allocation limits -/

theorem makeslice_ok {n : Nat} (h : 8 * n ≤ maxAlloc) : makeslice n = Except.ok n := by
  simp [makeslice, h]

theorem makeslice_error {n : Nat} (h : ¬ 8 * n ≤ maxAlloc) :
    makeslice n = Except.error "runtime error: makeslice: len out of range" := by
  simp [makeslice, h]

theorem makeslice_ok_iff (n len : Nat) :
    makeslice n = Except.ok len ↔ 8 * n ≤ maxAlloc ∧ len = n := by
  unfold makeslice
  split
  · rename_i h
    simp only [Except.ok.injEq, h, true_and]
    exact eq_comm
  · rename_i h
    simp [h]

theorem makechan_ok {c : Nat} (h : 16 * c ≤ maxAlloc - 96) : makechan c = Except.ok c := by
  simp [makechan, h]

theorem makechan_error {c : Nat} (h : ¬ 16 * c ≤ maxAlloc - 96) :
    makechan c = Except.error "makechan: size out of range" := by
  simp [makechan, h]

theorem makechan_ok_iff (c cap : Nat) :
    makechan c = Except.ok cap ↔ 16 * c ≤ maxAlloc - 96 ∧ cap = c := by
  unfold makechan
  split
  · rename_i h
    simp only [Except.ok.injEq, h, true_and]
    exact eq_comm
  · rename_i h
    simp [h]

/-! ## Composition -/

theorem applyAll_append {W : Type} (a b : List (MwFn W)) (t : Goroutine W) :
    applyAll (a ++ b) t = applyAll a (applyAll b t) := by
  induction a with
  | nil => rfl
  | cons m rest ih => simp [applyAll, ih]

theorem hasNil_map_some {W : Type} (M : List (MwFn W)) : hasNil (M.map some) = false := by
  induction M with
  | nil => rfl
  | cons m rest ih => simp [hasNil, ih]

theorem hasNil_false_iff {W : Type} (l : List (Middleware W)) :
    hasNil l = false ↔ ∃ M : List (MwFn W), l = M.map some := by
  constructor
  · intro h
    induction l with
    | nil => exact ⟨[], rfl⟩
    | cons mw rest ih =>
      cases mw with
      | none => simp [hasNil] at h
      | some f =>
        simp [hasNil] at h
        obtain ⟨M, hM⟩ := ih h
        exact ⟨f :: M, by simp [hM]⟩
  · rintro ⟨M, rfl⟩
    exact hasNil_map_some M

theorem hasNil_append {W : Type} (a b : List (Middleware W)) :
    hasNil (a ++ b) = (hasNil a || hasNil b) := by
  induction a with
  | nil => simp [hasNil]
  | cons mw rest ih =>
    cases mw <;> simp [hasNil, ih]

theorem hasNil_true_iff {W : Type} (l : List (Middleware W)) :
    hasNil l = true ↔ none ∈ l := by
  induction l with
  | nil => simp [hasNil]
  | cons mw rest ih =>
    cases mw with
    | none => simp [hasNil]
    | some f => simp [hasNil, ih]

theorem wrapDown_map_some {W : Type} (M : List (MwFn W)) (k : Nat) (hk : k ≤ M.length)
    (g : Goroutine W) :
    wrapDown (M.map some) k g = Except.ok (applyAll (M.take k) g) := by
  induction k generalizing g with
  | zero => simp [wrapDown, applyAll]
  | succ j ih =>
    have hj : j < M.length := hk
    have hget : (M.map some)[j]? = some (some M[j]) := by simp [hj]
    have htake : M.take (j + 1) = M.take j ++ [M[j]] := by
      rw [List.take_succ]; simp [hj]
    simp only [wrapDown, hget, Middleware.call]
    rw [ih (Nat.le_of_lt hj), htake, applyAll_append]
    rfl

theorem prepareOne_map_some {W : Type} (B I : List (MwFn W)) (t : Goroutine W) :
    prepareOne (B.map some) { fn := t, mws := I.map some }
      = Except.ok (applyAll (B ++ I) t) := by
  have h1 := wrapDown_map_some I I.length (Nat.le_refl _) t
  have h2 := wrapDown_map_some B B.length (Nat.le_refl _) (applyAll I t)
  simp only [List.length_map, List.take_length] at h1 h2 ⊢
  simp only [prepareOne, List.length_map, h1, h2, applyAll_append]

theorem valid_iff {W : Type} (cfg : goroutineConfig W) :
    cfg.valid ↔ ∃ (t : GoFn W) (I : List (MwFn W)), cfg = { fn := some t, mws := I.map some } := by
  constructor
  · rintro ⟨hfn, hmws⟩
    obtain ⟨I, hI⟩ := (hasNil_false_iff cfg.mws).1 hmws
    obtain ⟨t, ht⟩ := Option.isSome_iff_exists.1 hfn
    refine ⟨t, I, ?_⟩
    cases cfg
    simp_all
  · rintro ⟨t, I, rfl⟩
    exact ⟨rfl, hasNil_map_some I⟩

theorem prepareLoop_valid {W : Type} (B : List (MwFn W)) (cfgs : List (goroutineConfig W))
    (hv : ∀ cfg ∈ cfgs, cfg.valid) :
    ∃ gs, prepareLoop (B.map some) cfgs = Except.ok gs ∧ gs.length = cfgs.length ∧
      ∀ (i : Nat) (t : GoFn W) (I : List (MwFn W)),
        cfgs[i]? = some (goroutineConfig.mk (some t) (I.map some)) →
        gs[i]? = some (applyAll (B ++ I) (some t)) := by
  induction cfgs with
  | nil => exact ⟨[], rfl, rfl, by simp⟩
  | cons cfg rest ih =>
    obtain ⟨gs, hgs, hlen, hall⟩ := ih (fun c hc => hv c (List.mem_cons_of_mem _ hc))
    obtain ⟨t, I, rfl⟩ := (valid_iff cfg).1 (hv cfg (List.mem_cons_self _ _))
    refine ⟨applyAll (B ++ I) (some t) :: gs, ?_, by simp [hlen], ?_⟩
    · simp only [prepareLoop, prepareOne_map_some, hgs]
    · intro i t1 I1 hi
      cases i with
      | zero =>
        simp only [List.getElem?_cons_zero, Option.some.injEq, goroutineConfig.mk.injEq] at hi
        obtain ⟨h1, h2⟩ := hi
        have hI : I = I1 := List.map_injective_iff.2 (Option.some_injective _) h2
        subst h1 hI
        simp
      | succ j =>
        simp only [List.getElem?_cons_succ] at hi ⊢
        exact hall j t1 I1 hi

theorem addRangeLoop_ok {W : Type} (p : Provider W) (k : Nat) (i : Int)
    (acc out : List (goroutineConfig W)) (h : addRangeLoop p k i acc = Except.ok out) :
    ∃ new, out = acc ++ new ∧ new.length = k ∧ ∀ cfg ∈ new, cfg.valid := by
  induction k generalizing i acc with
  | zero =>
    simp only [addRangeLoop, Except.ok.injEq] at h
    exact ⟨[], by simp [h], rfl, by simp⟩
  | succ k ih =>
    simp only [addRangeLoop] at h
    split at h
    · cases h
    · rename_i fn mws _
      split at h
      · cases h
      · split at h
        · cases h
        · rename_i hfn hmws
          obtain ⟨new, hout, hlen, hval⟩ := ih _ _ h
          refine ⟨{ fn := fn, mws := mws } :: new, by simp [hout], by simp [hlen], ?_⟩
          intro cfg hcfg
          rcases List.mem_cons.1 hcfg with rfl | hmem
          · exact ⟨Option.ne_none_iff_isSome.1 (by simpa using hfn), by simpa using hmws⟩
          · exact hval cfg hmem

theorem Add_recv {W : Type} (b : Batch W) (fn : Goroutine W) (mws : List (Middleware W)) :
    (b.Add fn mws).recv = b ∨
      (fn.isSome = true ∧ hasNil mws = false ∧
        (b.Add fn mws).recv
          = { b with goroutineConfigs := b.goroutineConfigs ++ [{ fn := fn, mws := mws }] }) := by
  unfold Batch.Add
  split
  · exact Or.inl rfl
  · split
    · exact Or.inl rfl
    · rename_i h1 h2
      exact Or.inr ⟨Option.ne_none_iff_isSome.1 (by simpa using h1), by simpa using h2, rfl⟩

theorem AddRange_recv {W : Type} (b : Batch W) (n : Int) (p : Option (Provider W)) :
    (b.AddRange n p).recv = b ∨
      ∃ new, new.length = n.toNat ∧ (∀ cfg ∈ new, cfg.valid) ∧
        (b.AddRange n p).recv = { b with goroutineConfigs := b.goroutineConfigs ++ new } := by
  unfold Batch.AddRange
  split
  · exact Or.inl rfl
  · split
    · exact Or.inl rfl
    · split
      · exact Or.inl rfl
      · rename_i len hlen0
        obtain ⟨_, rfl⟩ := (makeslice_ok_iff _ _).1 hlen0
        split
        · exact Or.inl rfl
        · rename_i configs h
          obtain ⟨new, hout, hlen, hval⟩ := addRangeLoop_ok _ _ _ _ _ h
          simp only [List.nil_append] at hout
          subst hout
          exact Or.inr ⟨configs, hlen, hval, rfl⟩

theorem Populated.frame {W : Type} {b0 b : Batch W} (hp : Populated b0 b) :
    b.ctx = b0.ctx ∧ b.mws = b0.mws ∧
      ((∀ cfg ∈ b0.goroutineConfigs, cfg.valid) → ∀ cfg ∈ b.goroutineConfigs, cfg.valid) := by
  induction hp with
  | start => exact ⟨rfl, rfl, fun h => h⟩
  | add b fn mws _ ih =>
    obtain ⟨h1, h2, h3⟩ := ih
    rcases Add_recv b fn mws with h | ⟨hfn, hmws, h⟩
    · rw [h]; exact ⟨h1, h2, h3⟩
    · rw [h]
      refine ⟨h1, h2, fun h0 cfg hcfg => ?_⟩
      rcases List.mem_append.1 hcfg with hm | hm
      · exact h3 h0 cfg hm
      · simp only [List.mem_singleton] at hm
        subst hm
        exact ⟨hfn, hmws⟩
  | addRange b n p _ ih =>
    obtain ⟨h1, h2, h3⟩ := ih
    rcases AddRange_recv b n p with h | ⟨new, _, hval, h⟩
    · rw [h]; exact ⟨h1, h2, h3⟩
    · rw [h]
      refine ⟨h1, h2, fun h0 cfg hcfg => ?_⟩
      rcases List.mem_append.1 hcfg with hm | hm
      · exact h3 h0 cfg hm
      · exact hval cfg hm

theorem Batch_ok {W : Type} (g : Goroutiner W) (ctx : Context) (mws : List (Middleware W))
    (b : Batch W) (h : g.Batch ctx mws = Except.ok b) :
    ctx ≠ Context.nil ∧ hasNil mws = false ∧ b = newBatch ctx (g.globalMws ++ mws) := by
  unfold Goroutiner.Batch at h
  split at h
  · cases h
  · split at h
    · cases h
    · rename_i h1 h2
      simp only [List.nil_append, Except.ok.injEq] at h
      exact ⟨h1, by simpa using h2, h.symm⟩

theorem New_ok {W : Type} (mws : List (Middleware W)) (g : Goroutiner W)
    (h : New mws = Except.ok g) : hasNil mws = false ∧ g.globalMws = mws := by
  unfold New at h
  split at h
  · cases h
  · rename_i h1
    simp only [Except.ok.injEq] at h
    exact ⟨by simpa using h1, by rw [← h]⟩

/-- Composition on a batch built through the registration interface. -/
theorem prepare_populated {W : Type} (G S : List (MwFn W)) (ctx : Context) (r : Goroutiner W)
    (b0 b : Batch W) (hr : New (G.map some) = Except.ok r)
    (hb : r.Batch ctx (S.map some) = Except.ok b0) (hp : Populated b0 b)
    (hne : b.goroutineConfigs ≠ []) :
    ∃ gs, b.prepareGoroutines = Except.ok gs ∧ gs.length = b.goroutineConfigs.length ∧
      (∀ cfg ∈ b.goroutineConfigs, cfg.valid) ∧
      ∀ (i : Nat) (t : GoFn W) (I : List (MwFn W)),
        b.goroutineConfigs[i]? = some (goroutineConfig.mk (some t) (I.map some)) →
        gs[i]? = some (applyAll (G ++ S ++ I) (some t)) := by
  obtain ⟨_, hG⟩ := New_ok _ _ hr
  obtain ⟨_, _, hb0⟩ := Batch_ok _ _ _ _ hb
  obtain ⟨_, hmws, hval⟩ := hp.frame
  have hv : ∀ cfg ∈ b.goroutineConfigs, cfg.valid := hval (by simp [hb0, newBatch])
  have hB : b.mws = (G ++ S).map some := by simp [hmws, hb0, newBatch, hG]
  obtain ⟨gs, hgs, hlen, hall⟩ := prepareLoop_valid (G ++ S) b.goroutineConfigs hv
  refine ⟨gs, ?_, hlen, hv, fun i t I hi => by simpa using hall i t I hi⟩
  unfold Batch.prepareGoroutines
  rw [if_neg (by simpa using hne), hB, hgs]


/-! ## Tracing -/

theorem enters_append (a b : List String) : enters (a ++ b) = enters a ++ enters b := by
  induction a with
  | nil => simp [enters]
  | cons n rest ih => simp [enters, ih, String.append_assoc]

theorem exits_append (a b : List String) : exits (a ++ b) = exits b ++ exits a := by
  induction a with
  | nil => simp [exits]
  | cons n rest ih => simp [exits, ih, String.append_assoc]

theorem trace_applyAll (names : List String) (ctx : Context) (actual : String) :
    (applyAll (names.map mMw) (some traceG)).call ctx actual
      = (actual ++ enters names ++ "0" ++ exits names, Outcome.ret none) := by
  induction names generalizing actual with
  | nil => simp [applyAll, Goroutine.call, traceG, enters, exits]
  | cons n rest ih =>
    simp only [List.map_cons, applyAll, mMw, Goroutine.call] at ih ⊢
    rw [ih]
    simp [enters, exits, String.append_assoc]

theorem prepare_entry {W : Type} (G S : List (MwFn W)) (ctx : Context) (r : Goroutiner W)
    (b0 b : Batch W) (hr : New (G.map some) = Except.ok r)
    (hb : r.Batch ctx (S.map some) = Except.ok b0) (hp : Populated b0 b)
    (hne : b.goroutineConfigs ≠ []) :
    ∃ gs, b.prepareGoroutines = Except.ok gs ∧ gs.length = b.goroutineConfigs.length ∧
      ∀ (i : Nat) (cfg : goroutineConfig W), b.goroutineConfigs[i]? = some cfg →
        ∃ (t : GoFn W) (I : List (MwFn W)), cfg = goroutineConfig.mk (some t) (I.map some) ∧
          gs[i]? = some (applyAll (G ++ S ++ I) (some t)) := by
  obtain ⟨gs, hgs, hlen, hv, hall⟩ := prepare_populated G S ctx r b0 b hr hb hp hne
  refine ⟨gs, hgs, hlen, fun i cfg hi => ?_⟩
  obtain ⟨t, I, rfl⟩ := (valid_iff cfg).1 (hv cfg (List.getElem?_mem hi))
  exact ⟨t, I, rfl, hall i t I hi⟩

theorem trace_tiers (gN sN iN : List String) (ctx : Context) (actual : String) :
    (applyAll (gN.map mMw ++ sN.map mMw ++ iN.map mMw) (some traceG)).call ctx actual
      = (actual ++ enters gN ++ enters sN ++ enters iN ++ "0"
          ++ exits iN ++ exits sN ++ exits gN, Outcome.ret none) := by
  have h := trace_applyAll (gN ++ sN ++ iN) ctx actual
  simp only [List.map_append] at h
  rw [h]
  simp [enters_append, exits_append, String.append_assoc]

/-- C1: in every batch built from a registry with global middleware `G` and batch middleware
`S` by calls of `Add` and `AddRange`, every entry is a task `t` with individual middleware
`I`, and `prepareGoroutines` yields for it the nesting `applyAll (G ++ S ++ I) t`, global
outside batch outside individual outside the task. A run of the nesting of tracing
middleware therefore writes the global, batch and individual entries, the task, and the
individual, batch and global exits, in this order. -/
theorem prepareGoroutines_tier_nesting {W : Type} (G S : List (MwFn W)) (ctx : Context)
    (r : Goroutiner W) (b0 b : Batch W) (hr : New (G.map some) = Except.ok r)
    (hb : r.Batch ctx (S.map some) = Except.ok b0) (hp : Populated b0 b)
    (hne : b.goroutineConfigs ≠ []) :
    (∃ gs, b.prepareGoroutines = Except.ok gs ∧ gs.length = b.goroutineConfigs.length ∧
      ∀ (i : Nat) (cfg : goroutineConfig W), b.goroutineConfigs[i]? = some cfg →
        ∃ (t : GoFn W) (I : List (MwFn W)), cfg = goroutineConfig.mk (some t) (I.map some) ∧
          gs[i]? = some (applyAll (G ++ S ++ I) (some t))) ∧
    ∀ (gN sN iN : List String) (c : Context) (actual : String),
      (applyAll (gN.map mMw ++ sN.map mMw ++ iN.map mMw) (some traceG)).call c actual
        = (actual ++ enters gN ++ enters sN ++ enters iN ++ "0"
            ++ exits iN ++ exits sN ++ exits gN, Outcome.ret none) :=
  ⟨prepare_entry G S ctx r b0 b hr hb hp hne, trace_tiers⟩

/-- The case `ggssii` of `Test_MiddlewareOrdering`, through `Add` and through `AddRange`:
the decorated task is the nesting of the six middleware and the run under `Wait` writes
`g1s-g2s-s1s-s2s-i1s-i2s-0-i2e-i1e-s2e-s1e-g2e-g1e`. -/
theorem prepareGoroutines_tier_nesting_witness :
    (∃ gs, ((newBatch (Context.value 0)
          ([mMw "g1", mMw "g2"].map some ++ [mMw "s1", mMw "s2"].map some)).Add (some traceG)
            ([mMw "i1", mMw "i2"].map some)).recv.prepareGoroutines = Except.ok gs ∧
        gs[0]? = some (applyAll ([mMw "g1", mMw "g2"] ++ [mMw "s1", mMw "s2"]
          ++ [mMw "i1", mMw "i2"]) (some traceG))) ∧
    orderingTestAdd ["g1", "g2"] ["s1", "s2"] ["i1", "i2"]
      = Except.ok (some "g1s-g2s-s1s-s2s-i1s-i2s-0-i2e-i1e-s2e-s1e-g2e-g1e") ∧
    orderingTestAddRange ["g1", "g2"] ["s1", "s2"] ["i1", "i2"]
      = Except.ok (some "g1s-g2s-s1s-s2s-i1s-i2s-0-i2e-i1e-s2e-s1e-g2e-g1e") := by
  refine ⟨?_, rfl, rfl⟩
  obtain ⟨⟨gs, hgs, _, hall⟩, _⟩ := prepareGoroutines_tier_nesting
    [mMw "g1", mMw "g2"] [mMw "s1", mMw "s2"] (Context.value 0)
    { globalMws := [mMw "g1", mMw "g2"].map some }
    (newBatch (Context.value 0) ([mMw "g1", mMw "g2"].map some ++ [mMw "s1", mMw "s2"].map some))
    ((newBatch (Context.value 0)
      ([mMw "g1", mMw "g2"].map some ++ [mMw "s1", mMw "s2"].map some)).Add (some traceG)
        ([mMw "i1", mMw "i2"].map some)).recv
    rfl rfl (Populated.add _ _ _ Populated.start) (by simp [Batch.Add, hasNil, newBatch])
  refine ⟨gs, hgs, ?_⟩
  obtain ⟨t, I, hcfg, hg⟩ := hall 0 (goroutineConfig.mk (some traceG) ([mMw "i1", mMw "i2"].map some))
    (by simp [Batch.Add, hasNil, newBatch])
  simp only [goroutineConfig.mk.injEq, Option.some.injEq] at hcfg
  obtain ⟨h1, h2⟩ := hcfg
  have hI : [mMw "i1", mMw "i2"] = I := List.map_injective_iff.2 (Option.some_injective _) h2
  subst h1 hI
  exact hg

theorem applyAll_eq_foldr {W : Type} (M : List (MwFn W)) (t : Goroutine W) :
    applyAll M t = M.foldr (fun m g => m g) t := by
  induction M with
  | nil => rfl
  | cons m rest ih => simp [applyAll, ih]

theorem prepare_single {W : Type} (ctx : Context) (B I : List (MwFn W)) (t : GoFn W) :
    ((newBatch ctx (B.map some)).Add (some t) (I.map some)).recv.prepareGoroutines
      = Except.ok [applyAll (B ++ I) (some t)] := by
  simp [Batch.Add, hasNil_map_some, newBatch, Batch.prepareGoroutines, prepareLoop,
    prepareOne_map_some]

/-- C2: within one tier the first middleware supplied is the outermost. For a middleware
sequence `[m1, ..., mk]` supplied as the global, the batch or the individual middleware of a
task `t`, with the other tiers empty, `prepareGoroutines` yields `m1 (m2 (... (mk t)))`; a run
of tracing middleware of one tier writes their entries first to last, the task, and their
exits last to first. -/
theorem first_supplied_is_outermost {W : Type} (M : List (MwFn W)) (t : GoFn W)
    (ctx : Context) (hctx : ctx ≠ Context.nil) :
    (∃ r b0, New (M.map some) = Except.ok r ∧ r.Batch ctx [] = Except.ok b0 ∧
      (b0.Add (some t) []).recv.prepareGoroutines
        = Except.ok [M.foldr (fun m g => m g) (some t)]) ∧
    (∃ r b0, New ([] : List (Middleware W)) = Except.ok r ∧
      r.Batch ctx (M.map some) = Except.ok b0 ∧
      (b0.Add (some t) []).recv.prepareGoroutines
        = Except.ok [M.foldr (fun m g => m g) (some t)]) ∧
    (∃ r b0, New ([] : List (Middleware W)) = Except.ok r ∧ r.Batch ctx [] = Except.ok b0 ∧
      (b0.Add (some t) (M.map some)).recv.prepareGoroutines
        = Except.ok [M.foldr (fun m g => m g) (some t)]) ∧
    ∀ (names : List String) (c : Context) (actual : String),
      Goroutine.call ((names.map mMw).foldr (fun m g => m g) (some traceG)) c actual
        = (actual ++ enters names ++ "0" ++ exits names, Outcome.ret none) := by
  refine ⟨⟨{ globalMws := M.map some }, newBatch ctx (M.map some), ?_, ?_, ?_⟩,
    ⟨{ globalMws := [] }, newBatch ctx (M.map some), rfl, ?_, ?_⟩,
    ⟨{ globalMws := [] }, newBatch ctx [], rfl, ?_, ?_⟩, ?_⟩
  · simp [New, hasNil_map_some]
  · simp [Goroutiner.Batch, hctx, hasNil]
  · have h := prepare_single ctx M [] t
    simpa [applyAll_eq_foldr] using h
  · simp [Goroutiner.Batch, hctx, hasNil_map_some]
  · have h := prepare_single ctx M [] t
    simpa [applyAll_eq_foldr] using h
  · simp [Goroutiner.Batch, hctx, hasNil]
  · have h := prepare_single ctx [] M t
    simpa [applyAll_eq_foldr] using h
  · intro names c actual
    rw [← applyAll_eq_foldr]
    exact trace_applyAll names c actual

/-- The cases `gg`, `ss` and `ii` of `Test_MiddlewareOrdering`: two middleware in one tier
give `Xs-Ys-0-Ye-Xe`, and the decorated task is `m1 (m2 t)`. -/
theorem first_supplied_is_outermost_witness :
    ((newBatch (Context.value 0) ([mMw "g1", mMw "g2"].map some)).Add (some traceG)
        []).recv.prepareGoroutines = Except.ok [mMw "g1" (mMw "g2" (some traceG))] ∧
    orderingTestAdd ["g1", "g2"] [] [] = Except.ok (some "g1s-g2s-0-g2e-g1e") ∧
    orderingTestAdd [] ["s1", "s2"] [] = Except.ok (some "s1s-s2s-0-s2e-s1e") ∧
    orderingTestAdd [] [] ["i1", "i2"] = Except.ok (some "i1s-i2s-0-i2e-i1e") ∧
    orderingTestAddRange ["g1", "g2"] [] [] = Except.ok (some "g1s-g2s-0-g2e-g1e") ∧
    orderingTestAddRange [] ["s1", "s2"] [] = Except.ok (some "s1s-s2s-0-s2e-s1e") ∧
    orderingTestAddRange [] [] ["i1", "i2"] = Except.ok (some "i1s-i2s-0-i2e-i1e") := by
  refine ⟨?_, rfl, rfl, rfl, rfl, rfl, rfl⟩
  obtain ⟨⟨r, b0, hr, hb, h⟩, _⟩ := first_supplied_is_outermost [mMw "g1", mMw "g2"] traceG
    (Context.value 0) (by decide)
  obtain ⟨_, hG⟩ := New_ok _ _ hr
  obtain ⟨_, _, hb0⟩ := Batch_ok _ _ _ _ hb
  subst hb0
  simpa [hG] using h

/-- C7: `Add(task, mws...)` panics exactly when `task` is nil or some element of `mws` is nil,
whatever its position; an absent or empty `mws` is accepted; and a call that panics leaves
the batch as it was. -/
theorem Add_panics_iff {W : Type} (b : Batch W) (fn : Goroutine W)
    (mws : List (Middleware W)) :
    ((b.Add fn mws).panics = true ↔ fn = none ∨ none ∈ mws) ∧
    ((b.Add fn []).panics = true ↔ fn = none) ∧
    ((b.Add fn mws).panics = true → (b.Add fn mws).recv = b) := by
  have key : ∀ l : List (Middleware W),
      ((b.Add fn l).panics = true ↔ fn = none ∨ none ∈ l) ∧
      ((b.Add fn l).panics = true → (b.Add fn l).recv = b) := by
    intro l
    unfold Batch.Add
    cases fn with
    | none => simp [Call.panics]
    | some f =>
      cases h : hasNil l with
      | true => simp [Call.panics, (hasNil_true_iff l).1 h]
      | false =>
        have hn : none ∉ l := fun hm => by
          rw [(hasNil_true_iff l).2 hm] at h; cases h
        simp [Call.panics, hn]
  exact ⟨(key mws).1, by simpa using (key []).1, (key mws).2⟩

/-- C10: for a non-nil task and a middleware list without nil, `Add` appends exactly one
entry, the task with these middleware, after the existing entries, leaves the context and the
batch middleware as they were, and returns the receiver. -/
theorem Add_appends_one_entry {W : Type} (b : Batch W) (fn : Goroutine W)
    (mws : List (Middleware W)) (hfn : fn ≠ none) (hmws : none ∉ mws) :
    (b.Add fn mws).recv.goroutineConfigs
      = b.goroutineConfigs ++ [goroutineConfig.mk fn mws] ∧
    (b.Add fn mws).recv.ctx = b.ctx ∧
    (b.Add fn mws).recv.mws = b.mws ∧
    (b.Add fn mws).result = Except.ok (b.Add fn mws).recv := by
  have h1 : fn.isNone = false := by
    cases fn with
    | none => exact absurd rfl hfn
    | some f => rfl
  have h2 : hasNil mws = false := by
    cases h : hasNil mws with
    | false => rfl
    | true => exact absurd ((hasNil_true_iff mws).1 h) hmws
  simp [Batch.Add, h1, h2]

/-- The second and third `Add` of the adding test on a batch holding one entry: the entry is
appended after the first and the receiver is returned. -/
theorem Add_appends_one_entry_witness :
    (((newBatch (Context.value 0) []).Add (some traceG) []).recv.Add (some traceG)
        [some (mMw "i1")]).recv.goroutineConfigs
      = [goroutineConfig.mk (some traceG) [],
          goroutineConfig.mk (some traceG) [some (mMw "i1")]] ∧
    (((newBatch (Context.value 0) []).Add (some traceG) []).recv.Add (some traceG)
        [some (mMw "i1")]).result
      = Except.ok (((newBatch (Context.value 0) []).Add (some traceG) []).recv.Add
          (some traceG) [some (mMw "i1")]).recv := by
  obtain ⟨h1, _, _, h4⟩ := Add_appends_one_entry
    ((newBatch (Context.value 0) []).Add (some traceG) []).recv (some traceG)
    [some (mMw "i1")] (by simp) (by simp)
  exact ⟨h1, h4⟩

theorem addRangeLoop_succ_valid {W : Type} (p : Provider W) (k : Nat) (i : Int)
    (acc : List (goroutineConfig W)) (fn : Goroutine W) (mws : List (Middleware W))
    (hv : p i = Except.ok (fn, mws)) (hfn : fn ≠ none) (hm : none ∉ mws) :
    addRangeLoop p (k + 1) i acc
      = addRangeLoop p k (i + 1) (acc ++ [goroutineConfig.mk fn mws]) := by
  have hfn1 : fn.isNone = false := by
    cases fn with
    | none => exact absurd rfl hfn
    | some f => rfl
  have hm1 : hasNil mws = false := by
    cases h : hasNil mws with
    | false => rfl
    | true => exact absurd ((hasNil_true_iff mws).1 h) hm
  simp [addRangeLoop, hv, hfn1, hm1]

theorem addRangeLoop_succ_invalid {W : Type} (p : Provider W) (k : Nat) (i : Int)
    (acc : List (goroutineConfig W)) (fn : Goroutine W) (mws : List (Middleware W))
    (hv : p i = Except.ok (fn, mws)) (h : fn = none ∨ none ∈ mws) :
    ∃ msg, addRangeLoop p (k + 1) i acc = Except.error msg := by
  simp only [addRangeLoop, hv]
  split
  · exact ⟨_, rfl⟩
  · split
    · exact ⟨_, rfl⟩
    · rename_i h1 h2
      rcases h with h | h
      · simp [h] at h1
      · simp [(hasNil_true_iff mws).2 h] at h2

theorem addRangeLoop_error_iff {W : Type} (p : Provider W) (k : Nat) (i : Int)
    (acc : List (goroutineConfig W))
    (hnp : ∀ j : Nat, j < k → ∃ v, p (i + j) = Except.ok v) :
    (∃ msg, addRangeLoop p k i acc = Except.error msg) ↔
      ∃ j : Nat, j < k ∧ ∃ fn mws, p (i + j) = Except.ok (fn, mws) ∧ (fn = none ∨ none ∈ mws) := by
  induction k generalizing i acc with
  | zero => simp [addRangeLoop]
  | succ k ih =>
    obtain ⟨⟨fn, mws⟩, hv⟩ := hnp 0 (Nat.succ_pos k)
    simp only [Nat.cast_zero, add_zero] at hv
    have hidx : ∀ j : Nat, i + 1 + (j : Int) = i + ((j + 1 : Nat) : Int) := by
      intro j; push_cast; ring
    have hnp1 : ∀ j : Nat, j < k → ∃ v, p (i + 1 + j) = Except.ok v := by
      intro j hj
      rw [hidx]
      exact hnp (j + 1) (Nat.succ_lt_succ hj)
    by_cases hbad : fn = none ∨ none ∈ mws
    · exact ⟨fun _ => ⟨0, Nat.succ_pos k, fn, mws, by simpa using hv, hbad⟩,
        fun _ => addRangeLoop_succ_invalid p k i acc fn mws hv hbad⟩
    · have hfn : fn ≠ none := fun h => hbad (Or.inl h)
      have hm : none ∉ mws := fun h => hbad (Or.inr h)
      rw [addRangeLoop_succ_valid p k i acc fn mws hv hfn hm, ih (i + 1) _ hnp1]
      constructor
      · rintro ⟨j, hj, fn1, mws1, h1, h2⟩
        exact ⟨j + 1, Nat.succ_lt_succ hj, fn1, mws1, by rw [← hidx]; exact h1, h2⟩
      · rintro ⟨j, hj, fn1, mws1, h1, h2⟩
        cases j with
        | zero =>
          simp only [Nat.cast_zero, add_zero] at h1
          rw [hv] at h1
          simp only [Except.ok.injEq, Prod.mk.injEq] at h1
          obtain ⟨rfl, rfl⟩ := h1
          exact absurd h2 hbad
        | succ j =>
          exact ⟨j, Nat.lt_of_succ_lt_succ hj, fn1, mws1, by rw [hidx]; exact h1, h2⟩

theorem AddRange_panics_loop {W : Type} (b : Batch W) (n : Int) (f : Provider W)
    (hn : 0 < n) (hfit : 8 * n.toNat ≤ maxAlloc) :
    (b.AddRange n (some f)).panics = true ↔
      ∃ msg, addRangeLoop f n.toNat 0 [] = Except.error msg := by
  unfold Batch.AddRange
  rw [if_neg (by omega)]
  simp only [makeslice_ok hfit]
  split <;> simp_all [Call.panics]

theorem AddRange_makeslice {W : Type} (b : Batch W) (n : Int) (f : Provider W)
    (hn : 0 < n) (hfit : ¬ 8 * n.toNat ≤ maxAlloc) :
    b.AddRange n (some f)
      = { recv := b,
          result := Except.error "runtime error: makeslice: len out of range" } := by
  unfold Batch.AddRange
  rw [if_neg (by omega)]
  simp only [makeslice_error hfit]

/-- C8: for a provider that does not itself panic on the indices `0 ≤ i < n`,
`AddRange(n, provider)` panics exactly when `n ≤ 0`, or the provider is nil, or the `n`
pointers of `make([]*goroutineConfig, n)` take more than `maxAlloc` bytes, or for some index
`0 ≤ i < n` the provider returns a nil task or a middleware list holding nil. Within the
limit a provider that returns valid tasks with a nil or empty middleware list is accepted;
beyond it the call panics in `make` with the message of the runtime, whatever the provider
would return, and the batch is unchanged. -/
theorem AddRange_panics_iff {W : Type} (b : Batch W) (n : Int) (p : Option (Provider W))
    (hnp : ∀ f, p = some f → ∀ i : Int, 0 ≤ i → i < n → ∃ v, f i = Except.ok v) :
    ((b.AddRange n p).panics = true ↔
      n ≤ 0 ∨ p = none ∨ (maxAlloc : Int) < 8 * n ∨ ∃ f, p = some f ∧ ∃ i : Int, 0 ≤ i ∧ i < n ∧
        ∃ fn mws, f i = Except.ok (fn, mws) ∧ (fn = none ∨ none ∈ mws)) ∧
    (0 < n → 8 * n ≤ (maxAlloc : Int) → ∀ f, p = some f →
      (∀ i : Int, 0 ≤ i → i < n → ∃ t, f i = Except.ok (some t, [])) →
      (b.AddRange n p).panics = false) ∧
    (0 < n → (maxAlloc : Int) < 8 * n → ∀ f, p = some f →
      b.AddRange n p
        = { recv := b,
            result := Except.error "runtime error: makeslice: len out of range" }) := by
  have main : (b.AddRange n p).panics = true ↔
      n ≤ 0 ∨ p = none ∨ (maxAlloc : Int) < 8 * n ∨ ∃ f, p = some f ∧ ∃ i : Int,
        0 ≤ i ∧ i < n ∧ ∃ fn mws, f i = Except.ok (fn, mws) ∧ (fn = none ∨ none ∈ mws) := by
    by_cases hn : n ≤ 0
    · simp [Batch.AddRange, hn, Call.panics]
    · have hpos : 0 < n := by omega
      cases p with
      | none => simp [Batch.AddRange, hn, Call.panics]
      | some f =>
        by_cases hfit : 8 * n.toNat ≤ maxAlloc
        · have hnp1 : ∀ j : Nat, j < n.toNat → ∃ v, f (0 + j) = Except.ok v := by
            intro j hj
            exact hnp f rfl _ (by omega) (by omega)
          rw [AddRange_panics_loop b n f hpos hfit,
            addRangeLoop_error_iff f n.toNat 0 [] hnp1]
          constructor
          · rintro ⟨j, hj, fn, mws, h1, h2⟩
            refine Or.inr (Or.inr (Or.inr
              ⟨f, rfl, (j : Int), by omega, by omega, fn, mws, ?_, h2⟩))
            simpa using h1
          · rintro (h | h | h | ⟨f1, hf, i, hi0, hin, fn, mws, h1, h2⟩)
            · exact absurd h hn
            · cases h
            · omega
            · cases hf
              refine ⟨i.toNat, by omega, fn, mws, ?_, h2⟩
              rw [Int.toNat_of_nonneg hi0]
              simpa using h1
        · rw [AddRange_makeslice b n f hpos hfit]
          simp only [Call.panics, true_iff]
          exact Or.inr (Or.inr (Or.inl (by omega)))
  refine ⟨main, fun hpos hfit f hf hall => ?_, fun hpos hfit f hf => ?_⟩
  · cases hpan : (b.AddRange n p).panics with
    | false => rfl
    | true =>
      rcases main.1 hpan with h | h | h | ⟨f1, hf1, i, hi0, hin, fn, mws, h1, h2⟩
      · omega
      · rw [hf] at h; cases h
      · omega
      · rw [hf] at hf1
        cases hf1
        obtain ⟨t, ht⟩ := hall i hi0 hin
        rw [ht] at h1
        simp only [Except.ok.injEq, Prod.mk.injEq] at h1
        obtain ⟨rfl, rfl⟩ := h1
        rcases h2 with h2 | h2
        · cases h2
        · cases h2
  · rw [hf]
    exact AddRange_makeslice b n f hpos (by omega)

/-- The provider of the adding test that is valid below index 4 and supplies a nil
middleware at index 4 does not panic itself, and `AddRange(5, provider)` panics. -/
theorem AddRange_panics_iff_witness :
    (∀ i : Int, ∃ v, halfProvider i = Except.ok v) ∧
    ((newBatch (Context.value 0) []).AddRange 5 (some halfProvider)).panics = true := by
  have hnp : ∀ i : Int, ∃ v, halfProvider i = Except.ok v := by
    intro i
    unfold halfProvider
    split
    · exact ⟨_, rfl⟩
    · exact ⟨_, rfl⟩
  refine ⟨hnp, ?_⟩
  exact (AddRange_panics_iff (newBatch (Context.value 0) []) 5 (some halfProvider)
    (fun f hf i _ _ => by cases hf; exact hnp i)).1.2
    (Or.inr (Or.inr (Or.inr ⟨halfProvider, rfl, 4, by decide, by decide, some nilG,
      [some idMw, none, some idMw], rfl, Or.inr (by simp)⟩)))

/-- The call `AddRange(1 << 62, provider)` with a provider that returns a valid task and no
middleware at every index: `n > 0`, the provider is not nil, no output is invalid, and the
call panics, in `make([]*goroutineConfig, n)`. -/
theorem AddRange_panics_beyond_limit :
    (0 : Int) < 2 ^ 62 ∧
    (∀ i : Int, validProvider i = Except.ok (some nilG, [])) ∧
    (startBatch.AddRange (2 ^ 62) (some validProvider)).panics = true ∧
    ¬ ((2 : Int) ^ 62 ≤ 0 ∨ (some validProvider) = none ∨
        ∃ f, some validProvider = some f ∧ ∃ i : Int, 0 ≤ i ∧ i < 2 ^ 62 ∧
          ∃ fn mws, f i = Except.ok (fn, mws) ∧ (fn = none ∨ none ∈ mws)) := by
  refine ⟨by decide, fun _ => rfl, ?_, ?_⟩
  · rw [AddRange_makeslice startBatch (2 ^ 62) validProvider (by decide) (by decide)]
    rfl
  · rintro (h | h | ⟨f, hf, i, _, _, fn, mws, h1, h2⟩)
    · exact absurd h (by decide)
    · cases h
    · cases hf
      simp only [validProvider, Except.ok.injEq, Prod.mk.injEq] at h1
      obtain ⟨rfl, rfl⟩ := h1
      rcases h2 with h2 | h2
      · cases h2
      · cases h2

theorem prepare_empty {W : Type} (b : Batch W) (h : b.goroutineConfigs = []) :
    b.prepareGoroutines = Except.error "at least one goroutine is required" := by
  simp [Batch.prepareGoroutines, h]

theorem policies_of_prepare_error {W : Type} (b : Batch W) (msg : String)
    (h : b.prepareGoroutines = Except.error msg) (w : W) (c : Nat)
    (evW : List WaitEvent) (evC : List CancelEvent) (evA : List AsyncEvent) :
    b.Wait w evW = Except.error msg ∧ b.CancelOnError w evC = Except.error msg ∧
      b.Async w evA = Except.error msg ∧ b.AsyncBs c w evA = Except.error msg := by
  simp [Batch.Wait, Batch.CancelOnError, Batch.Async, Batch.AsyncBs, h]

theorem policies_of_prepare_ok {W : Type} (b : Batch W) (gs : List (Goroutine W))
    (h : b.prepareGoroutines = Except.ok gs) (hctx : b.ctx ≠ Context.nil) (w : W)
    (evW : List WaitEvent) (evC : List CancelEvent) :
    b.Wait w evW = Except.ok (waitExec gs b.ctx (waitInit gs w) evW) ∧
      b.CancelOnError w evC = Except.ok (cancelExec gs b.ctx (cancelInit gs w) evC) := by
  simp [Batch.Wait, Batch.CancelOnError, h, hctx]

theorem AsyncBs_eq {W : Type} (b : Batch W) (gs : List (Goroutine W))
    (h : b.prepareGoroutines = Except.ok gs) (cap : Nat) (w : W) (evs : List AsyncEvent)
    (r : Option (AsyncState W)) :
    b.AsyncBs cap w evs = Except.ok r ↔
      16 * cap ≤ maxAlloc - 96 ∧ asyncExec gs b.ctx cap (asyncInit gs w) evs = r := by
  by_cases hfit : 16 * cap ≤ maxAlloc - 96
  · simp [Batch.AsyncBs, Batch.async, h, makechan_ok hfit, hfit]
  · simp [Batch.AsyncBs, Batch.async, h, makechan_error hfit, hfit]

theorem AsyncBs_makechan {W : Type} (b : Batch W) (gs : List (Goroutine W))
    (h : b.prepareGoroutines = Except.ok gs) (cap : Nat) (hfit : ¬ 16 * cap ≤ maxAlloc - 96)
    (w : W) (evs : List AsyncEvent) :
    b.AsyncBs cap w evs = Except.error "makechan: size out of range" := by
  simp [Batch.AsyncBs, Batch.async, h, makechan_error hfit]

theorem Async_eq_AsyncBs {W : Type} (b : Batch W) (gs : List (Goroutine W))
    (h : b.prepareGoroutines = Except.ok gs) (w : W) (evs : List AsyncEvent) :
    b.Async w evs = b.AsyncBs gs.length w evs := by
  simp [Batch.Async, Batch.AsyncBs, h]

theorem Async_eq {W : Type} (b : Batch W) (gs : List (Goroutine W))
    (h : b.prepareGoroutines = Except.ok gs) (w : W) (evs : List AsyncEvent)
    (r : Option (AsyncState W)) :
    b.Async w evs = Except.ok r ↔
      16 * gs.length ≤ maxAlloc - 96 ∧
        asyncExec gs b.ctx gs.length (asyncInit gs w) evs = r := by
  rw [Async_eq_AsyncBs b gs h, AsyncBs_eq b gs h]

theorem AddRange_panics_recv {W : Type} (b : Batch W) (n : Int) (p : Option (Provider W))
    (h : (b.AddRange n p).panics = true) : (b.AddRange n p).recv = b := by
  unfold Batch.AddRange at h ⊢
  split
  · rfl
  · rename_i hn
    rw [if_neg hn] at h
    split
    · rfl
    · split
      · rfl
      · split
        · rfl
        · rename_i hq _ _ hl
          simp [hq, hl, Call.panics] at h

/-- C4: `AddRange` is all or nothing. A call `AddRange(n, provider)` that panics, whatever
the cause (`n ≤ 0`, a nil provider, an invalid element at any index, a panic of the provider),
leaves the batch exactly as it was before the call; an empty batch stays empty, and `Wait`,
`CancelOnError`, `Async` and `AsyncBs` on it still panic for lack of goroutines. -/
theorem AddRange_all_or_nothing {W : Type} (b : Batch W) (n : Int) (p : Option (Provider W))
    (h : (b.AddRange n p).panics = true) :
    (b.AddRange n p).recv = b ∧
    (b.AddRange n p).recv.goroutineConfigs = b.goroutineConfigs ∧
    (b.goroutineConfigs = [] →
      ∀ (w : W) (c : Nat) (evW : List WaitEvent) (evC : List CancelEvent)
        (evA : List AsyncEvent),
        (b.AddRange n p).recv.Wait w evW
          = Except.error "at least one goroutine is required" ∧
        (b.AddRange n p).recv.CancelOnError w evC
          = Except.error "at least one goroutine is required" ∧
        (b.AddRange n p).recv.Async w evA
          = Except.error "at least one goroutine is required" ∧
        (b.AddRange n p).recv.AsyncBs c w evA
          = Except.error "at least one goroutine is required") := by
  have hr := AddRange_panics_recv b n p h
  refine ⟨hr, by rw [hr], fun he w c evW evC evA => ?_⟩
  rw [hr]
  exact policies_of_prepare_error b _ (prepare_empty b he) w c evW evC evA

/-- The half-added check of the adding test: `AddRange(5, provider)` with an invalid element
at index 4 panics, the batch still holds no entry, and the four policies panic. -/
theorem AddRange_all_or_nothing_witness :
    ((newBatch (Context.value 0) []).AddRange 5 (some halfProvider)).panics = true ∧
    ((newBatch (Context.value 0) []).AddRange 5 (some halfProvider)).recv.goroutineConfigs
      = [] ∧
    ((newBatch (Context.value 0) []).AddRange 5 (some halfProvider)).recv.Wait () []
      = Except.error "at least one goroutine is required" ∧
    ((newBatch (Context.value 0) []).AddRange 5 (some halfProvider)).recv.AsyncBs 5 () []
      = Except.error "at least one goroutine is required" := by
  have hp : ((newBatch (Context.value 0) []).AddRange 5 (some halfProvider)).panics = true :=
    rfl
  obtain ⟨_, h2, h3⟩ := AddRange_all_or_nothing (newBatch (Context.value 0) []) 5
    (some halfProvider) hp
  obtain ⟨hw, _, _, ha⟩ := h3 rfl () 5 [] [] []
  exact ⟨hp, h2, hw, ha⟩

/-- C9: on a batch built through the registration interface, `Wait` and `CancelOnError`
panic exactly when the batch holds no entry, and `Async` and `AsyncBs(c)` panic exactly when
the batch holds no entry or the buffer of the channel is beyond what `make` allocates (`c`
values of 16 bytes and the header of 96 bytes against `maxAlloc`). On a batch without entry
all four panic with the message of `prepareGoroutines` before launching anything; with at
least one entry composition succeeds and yields one decorated task per entry, and
`AsyncBs(c)` with `c` beyond the limit panics in `make(chan error, c)`. -/
theorem policies_panic_iff_no_entries {W : Type} (G S : List (Middleware W)) (ctx : Context)
    (r : Goroutiner W) (b0 b : Batch W) (hr : New G = Except.ok r)
    (hb : r.Batch ctx S = Except.ok b0) (hp : Populated b0 b) (w : W) (c : Nat)
    (evW : List WaitEvent) (evC : List CancelEvent) (evA : List AsyncEvent) :
    ((∃ msg, b.Wait w evW = Except.error msg) ↔ b.goroutineConfigs = []) ∧
    ((∃ msg, b.CancelOnError w evC = Except.error msg) ↔ b.goroutineConfigs = []) ∧
    ((∃ msg, b.Async w evA = Except.error msg) ↔
      b.goroutineConfigs = [] ∨ maxAlloc - 96 < 16 * b.goroutineConfigs.length) ∧
    ((∃ msg, b.AsyncBs c w evA = Except.error msg) ↔
      b.goroutineConfigs = [] ∨ maxAlloc - 96 < 16 * c) ∧
    (b.goroutineConfigs = [] →
      b.Wait w evW = Except.error "at least one goroutine is required" ∧
      b.CancelOnError w evC = Except.error "at least one goroutine is required" ∧
      b.Async w evA = Except.error "at least one goroutine is required" ∧
      b.AsyncBs c w evA = Except.error "at least one goroutine is required") ∧
    (b.goroutineConfigs ≠ [] → maxAlloc - 96 < 16 * c →
      b.AsyncBs c w evA = Except.error "makechan: size out of range") ∧
    (b.goroutineConfigs ≠ [] →
      ∃ gs, b.prepareGoroutines = Except.ok gs ∧ gs.length = b.goroutineConfigs.length) := by
  obtain ⟨hGn, hG⟩ := New_ok _ _ hr
  obtain ⟨hctx, hSn, hb0⟩ := Batch_ok _ _ _ _ hb
  obtain ⟨G1, rfl⟩ := (hasNil_false_iff G).1 hGn
  obtain ⟨S1, rfl⟩ := (hasNil_false_iff S).1 hSn
  have hbctx : b.ctx ≠ Context.nil := by
    rw [hp.frame.1, hb0]; exact hctx
  by_cases he : b.goroutineConfigs = []
  · obtain ⟨h1, h2, h3, h4⟩ :=
      policies_of_prepare_error b _ (prepare_empty b he) w c evW evC evA
    exact ⟨⟨fun _ => he, fun _ => ⟨_, h1⟩⟩, ⟨fun _ => he, fun _ => ⟨_, h2⟩⟩,
      ⟨fun _ => Or.inl he, fun _ => ⟨_, h3⟩⟩, ⟨fun _ => Or.inl he, fun _ => ⟨_, h4⟩⟩,
      fun _ => ⟨h1, h2, h3, h4⟩, fun h => absurd he h, fun h => absurd he h⟩
  · obtain ⟨gs, hgs, hlen, _⟩ := prepare_populated G1 S1 ctx r b0 b hr hb hp he
    obtain ⟨h1, h2⟩ := policies_of_prepare_ok b gs hgs hbctx w evW evC
    have hbs : ∀ k : Nat, (∃ msg, b.AsyncBs k w evA = Except.error msg) ↔
        b.goroutineConfigs = [] ∨ maxAlloc - 96 < 16 * k := by
      intro k
      by_cases hfit : 16 * k ≤ maxAlloc - 96
      · constructor
        · rintro ⟨msg, hm⟩
          rw [(AsyncBs_eq b gs hgs k w evA _).2 ⟨hfit, rfl⟩] at hm
          cases hm
        · rintro (h | h)
          · exact absurd h he
          · omega
      · exact ⟨fun _ => Or.inr (by omega), fun _ => ⟨_, AsyncBs_makechan b gs hgs k hfit w evA⟩⟩
    refine ⟨⟨?_, fun h => absurd h he⟩, ⟨?_, fun h => absurd h he⟩, ?_, hbs c,
      fun h => absurd h he, fun _ hc => AsyncBs_makechan b gs hgs c (by omega) w evA,
      fun _ => ⟨gs, hgs, hlen⟩⟩
    · rintro ⟨msg, hm⟩; rw [h1] at hm; cases hm
    · rintro ⟨msg, hm⟩; rw [h2] at hm; cases hm
    · rw [Async_eq_AsyncBs b gs hgs w evA, ← hlen]
      exact hbs gs.length

/-- The no-goroutines tests: `New().Batch(ctx).Wait()` panics, and after `Add(g)` and
`AddRange(2, ...)` it does not. -/
theorem policies_panic_iff_no_entries_witness :
    ((∃ msg, (newBatch (Context.value 0) ([] : List (Middleware Unit))).Wait () []
        = Except.error msg) ↔
      (newBatch (Context.value 0) ([] : List (Middleware Unit))).goroutineConfigs = []) ∧
    ¬ (∃ msg, (((newBatch (Context.value 0) []).Add (some nilG) []).recv.AddRange 2
        (some (fun _ => Except.ok (some nilG, [some idMw])))).recv.Wait () []
          = Except.error msg) := by
  have h1 := policies_panic_iff_no_entries ([] : List (Middleware Unit)) [] (Context.value 0)
    { globalMws := [] } (newBatch (Context.value 0) []) (newBatch (Context.value 0) [])
    rfl rfl Populated.start () 0 [] [] []
  have h2 := policies_panic_iff_no_entries ([] : List (Middleware Unit)) [] (Context.value 0)
    { globalMws := [] } (newBatch (Context.value 0) [])
    (((newBatch (Context.value 0) []).Add (some nilG) []).recv.AddRange 2
        (some (fun _ => Except.ok (some nilG, [some idMw])))).recv
    rfl rfl (Populated.addRange _ _ _ (Populated.add _ _ _ Populated.start)) () 0 [] [] []
  refine ⟨h1.1, fun h => ?_⟩
  have h3 := h2.1.1 h
  simp [Batch.AddRange, Batch.Add, addRangeLoop, hasNil, newBatch, makeslice, maxAlloc] at h3

/-- The batch `New().Batch(ctx).Add(g)` holds an entry, and `AsyncBs(1 << 62)` on it
panics. -/
theorem AsyncBs_panics_with_an_entry :
    New ([] : List (Middleware Unit)) = Except.ok { globalMws := [] } ∧
    Goroutiner.Batch { globalMws := [] } (Context.value 0) ([] : List (Middleware Unit))
      = Except.ok (newBatch (Context.value 0) []) ∧
    Populated (newBatch (Context.value 0) [])
      ((newBatch (Context.value 0) ([] : List (Middleware Unit))).Add (some nilG) []).recv ∧
    ((newBatch (Context.value 0) ([] : List (Middleware Unit))).Add (some nilG)
      []).recv.goroutineConfigs.length = 1 ∧
    ∀ evs, ((newBatch (Context.value 0) ([] : List (Middleware Unit))).Add (some nilG)
      []).recv.AsyncBs (2 ^ 62) () evs = Except.error "makechan: size out of range" :=
  ⟨rfl, rfl, Populated.add _ _ _ Populated.start, rfl, fun _ => rfl⟩

/-! ## Counting goroutines -/

theorem weight_set (f : GStatus → Nat) (l : List GStatus) (i : Nat) (a b : GStatus)
    (h : l[i]? = some a) : weight f (l.set i b) + f a = weight f l + f b := by
  induction l generalizing i with
  | nil => simp at h
  | cons x rest ih =>
    cases i with
    | zero =>
      simp only [List.getElem?_cons_zero, Option.some.injEq] at h
      subst h
      simp only [List.set_cons_zero, weight]
      omega
    | succ j =>
      simp only [List.getElem?_cons_succ] at h
      have := ih j h
      simp only [List.set_cons_succ, weight]
      omega

theorem weight_replicate (f : GStatus → Nat) (n : Nat) (a : GStatus) :
    weight f (List.replicate n a) = n * f a := by
  induction n with
  | zero => simp [weight]
  | succ k ih => simp [List.replicate_succ, weight, ih]; ring

theorem weight_le_length (f : GStatus → Nat) (hf : ∀ x, f x ≤ 1) (l : List GStatus) :
    weight f l ≤ l.length := by
  induction l with
  | nil => simp [weight]
  | cons x rest ih =>
    have := hf x
    simp only [weight, List.length_cons]
    omega

theorem weight_lt_length (f : GStatus → Nat) (hf : ∀ x, f x ≤ 1) (l : List GStatus) (i : Nat)
    (a : GStatus) (h : l[i]? = some a) (ha : f a = 0) : weight f l < l.length := by
  induction l generalizing i with
  | nil => simp at h
  | cons x rest ih =>
    cases i with
    | zero =>
      simp only [List.getElem?_cons_zero, Option.some.injEq] at h
      subst h
      have := weight_le_length f hf rest
      simp only [weight, List.length_cons]
      omega
    | succ j =>
      simp only [List.getElem?_cons_succ] at h
      have := ih j h
      have := hf x
      simp only [weight, List.length_cons]
      omega

theorem weight_pos (f : GStatus → Nat) (l : List GStatus) (i : Nat) (a : GStatus)
    (h : l[i]? = some a) (ha : 0 < f a) : 0 < weight f l := by
  induction l generalizing i with
  | nil => simp at h
  | cons x rest ih =>
    cases i with
    | zero =>
      simp only [List.getElem?_cons_zero, Option.some.injEq] at h
      subst h
      simp only [weight]
      omega
    | succ j =>
      simp only [List.getElem?_cons_succ] at h
      have := ih j h
      simp only [weight]
      omega

theorem weight_eq_zero (f : GStatus → Nat) (l : List GStatus) (h : weight f l = 0) (i : Nat)
    (a : GStatus) (hi : l[i]? = some a) : f a = 0 := by
  by_contra hne
  have := weight_pos f l i a hi (Nat.pos_of_ne_zero hne)
  omega

theorem weight_zero_of_all (f : GStatus → Nat) (l : List GStatus)
    (h : ∀ a ∈ l, f a = 0) : weight f l = 0 := by
  induction l with
  | nil => rfl
  | cons x rest ih =>
    simp only [weight, h x (List.mem_cons_self _ _),
      ih (fun a ha => h a (List.mem_cons_of_mem _ ha))]

theorem notDone_le_one (st : GStatus) : st.notDone ≤ 1 := by
  cases st <;> simp [GStatus.notDone]

theorem pub_le_one (st : GStatus) : st.pub ≤ 1 := by
  cases st <;> simp [GStatus.pub]

/-- Either some goroutine is at a statement of its own, or all of them are finished. -/
theorem status_cases (l : List GStatus) :
    (∃ i : Nat, l[i]? = some GStatus.launched) ∨
      (∃ (i : Nat) (e : GoError), l[i]? = some (GStatus.returned e)) ∨
      (∃ (i : Nat) (e : GoError), l[i]? = some (GStatus.published e)) ∨
      weight GStatus.notDone l = 0 := by
  induction l with
  | nil => exact Or.inr (Or.inr (Or.inr rfl))
  | cons x rest ih =>
    cases x with
    | launched => exact Or.inl ⟨0, by simp⟩
    | returned e => exact Or.inr (Or.inl ⟨0, e, by simp⟩)
    | published e => exact Or.inr (Or.inr (Or.inl ⟨0, e, by simp⟩))
    | done e =>
      rcases ih with ⟨i, h⟩ | ⟨i, e1, h⟩ | ⟨i, e1, h⟩ | h
      · exact Or.inl ⟨i + 1, by simpa using h⟩
      · exact Or.inr (Or.inl ⟨i + 1, e1, by simpa using h⟩)
      · exact Or.inr (Or.inr (Or.inl ⟨i + 1, e1, by simpa using h⟩))
      · exact Or.inr (Or.inr (Or.inr (by simp [weight, GStatus.notDone, h])))

/-! ## Wait: the steps -/

theorem waitExec_append {W : Type} (gs : List (Goroutine W)) (ctx : Context)
    (s : WaitState W) (evs : List WaitEvent) (ev : WaitEvent) :
    waitExec gs ctx s (evs ++ [ev])
      = (waitExec gs ctx s evs).bind (fun s1 => waitStep gs ctx s1 ev) := by
  induction evs generalizing s with
  | nil =>
    simp only [List.nil_append, waitExec, Option.some_bind]
    cases waitStep gs ctx s ev <;> rfl
  | cons e rest ih =>
    simp only [List.cons_append, waitExec]
    cases waitStep gs ctx s e with
    | none => rfl
    | some s1 => exact ih s1

/-- Induction over the schedules of `Wait`. -/
theorem waitExec_induction {W : Type} (gs : List (Goroutine W)) (ctx : Context)
    (s0 : WaitState W) (P : List WaitEvent → WaitState W → Prop) (h0 : P [] s0)
    (hstep : ∀ evs s ev s1, waitExec gs ctx s0 evs = some s → P evs s →
      waitStep gs ctx s ev = some s1 → P (evs ++ [ev]) s1)
    (evs : List WaitEvent) (s : WaitState W) (h : waitExec gs ctx s0 evs = some s) :
    P evs s := by
  induction evs using List.reverseRecOn generalizing s with
  | nil =>
    simp only [waitExec, Option.some.injEq] at h
    subst h
    exact h0
  | append_singleton evs ev ih =>
    rw [waitExec_append] at h
    cases hm : waitExec gs ctx s0 evs with
    | none => rw [hm] at h; cases h
    | some s1 =>
      rw [hm] at h
      exact hstep evs s1 ev s hm (ih s1 hm) h

theorem waitStep_run {W : Type} {gs : List (Goroutine W)} {ctx : Context} {s s1 : WaitState W}
    {i : Nat} (h : waitStep gs ctx s (WaitEvent.run i) = some s1) :
    s.crashed = none ∧ s.status[i]? = some GStatus.launched ∧ ∃ g, gs[i]? = some g ∧
      ((∃ e, (g.call ctx s.world).2 = Outcome.ret e ∧
          s1 = { s with world := (g.call ctx s.world).1,
                        status := s.status.set i (GStatus.returned e) }) ∨
        (∃ v, (g.call ctx s.world).2 = Outcome.panic v ∧
          s1 = { s with world := (g.call ctx s.world).1, crashed := some v })) := by
  simp only [waitStep] at h
  split at h
  · rename_i g hc hg hst
    refine ⟨hc, hst, g, hg, ?_⟩
    split at h
    · rename_i w e hcall
      simp only [Option.some.injEq] at h
      exact Or.inl ⟨e, by rw [hcall], by rw [hcall, ← h]⟩
    · rename_i w v hcall
      simp only [Option.some.injEq] at h
      exact Or.inr ⟨v, by rw [hcall], by rw [hcall, ← h]⟩
  · cases h

theorem waitStep_send {W : Type} {gs : List (Goroutine W)} {ctx : Context}
    {s s1 : WaitState W} {i : Nat} (h : waitStep gs ctx s (WaitEvent.send i) = some s1) :
    s.crashed = none ∧ ∃ e, s.status[i]? = some (GStatus.returned e) ∧
      ((s.closed = true ∧ s1 = { s with crashed := some "send on closed channel" }) ∨
        (s.closed = false ∧ s.errCh.length < gs.length ∧
          s1 = { s with errCh := s.errCh ++ [(i, e)],
                        status := s.status.set i (GStatus.published e) })) := by
  simp only [waitStep] at h
  split at h
  · rename_i e hc hst
    refine ⟨hc, e, hst, ?_⟩
    split at h
    · rename_i hcl
      simp only [Option.some.injEq] at h
      exact Or.inl ⟨hcl, h.symm⟩
    · rename_i hcl
      split at h
      · rename_i hlen
        simp only [Option.some.injEq] at h
        exact Or.inr ⟨by simpa using hcl, hlen, h.symm⟩
      · cases h
  · cases h

theorem waitStep_done {W : Type} {gs : List (Goroutine W)} {ctx : Context}
    {s s1 : WaitState W} {i : Nat} (h : waitStep gs ctx s (WaitEvent.done i) = some s1) :
    s.crashed = none ∧ ∃ e, s.status[i]? = some (GStatus.published e) ∧
      ((s.wg = 0 ∧ s1 = { s with crashed := some "sync: negative WaitGroup counter" }) ∨
        (s.wg ≠ 0 ∧
          s1 = { s with wg := s.wg - 1, status := s.status.set i (GStatus.done e) })) := by
  simp only [waitStep] at h
  split at h
  · rename_i e hc hst
    refine ⟨hc, e, hst, ?_⟩
    split at h
    · rename_i hwg
      simp only [Option.some.injEq] at h
      exact Or.inl ⟨hwg, h.symm⟩
    · rename_i hwg
      simp only [Option.some.injEq] at h
      exact Or.inr ⟨hwg, h.symm⟩
  · cases h

theorem waitStep_close {W : Type} {gs : List (Goroutine W)} {ctx : Context}
    {s s1 : WaitState W} (h : waitStep gs ctx s WaitEvent.close = some s1) :
    s.crashed = none ∧ s.pc = WaitPc.waiting ∧ s.wg = 0 ∧
      s1 = { s with closed := true, pc := WaitPc.ranging,
                    errs := List.replicate gs.length none } := by
  simp only [waitStep] at h
  split at h
  · rename_i hc hpc
    split at h
    · rename_i hwg
      simp only [Option.some.injEq] at h
      exact ⟨hc, hpc, hwg, h.symm⟩
    · cases h
  · cases h

theorem waitStep_recv {W : Type} {gs : List (Goroutine W)} {ctx : Context}
    {s s1 : WaitState W} (h : waitStep gs ctx s WaitEvent.recv = some s1) :
    s.crashed = none ∧ s.pc = WaitPc.ranging ∧ ∃ i e rest, s.errCh = (i, e) :: rest ∧
      ((i < s.errs.length ∧ s1 = { s with errCh := rest, errs := s.errs.set i e }) ∨
        (¬ i < s.errs.length ∧
          s1 = { s with errCh := rest,
                        crashed := some "runtime error: index out of range" })) := by
  simp only [waitStep] at h
  split at h
  · rename_i i e rest hc hpc hch
    refine ⟨hc, hpc, i, e, rest, hch, ?_⟩
    split at h
    · rename_i hi
      simp only [Option.some.injEq] at h
      exact Or.inl ⟨hi, h.symm⟩
    · rename_i hi
      simp only [Option.some.injEq] at h
      exact Or.inr ⟨hi, h.symm⟩
  · cases h

theorem waitStep_ret {W : Type} {gs : List (Goroutine W)} {ctx : Context}
    {s s1 : WaitState W} (h : waitStep gs ctx s WaitEvent.ret = some s1) :
    s.crashed = none ∧ s.pc = WaitPc.ranging ∧ s.errCh = [] ∧ s.closed = true ∧
      s1 = { s with pc := WaitPc.returned } := by
  simp only [waitStep] at h
  split at h
  · rename_i hc hpc hch
    split at h
    · rename_i hcl
      simp only [Option.some.injEq] at h
      exact ⟨hc, hpc, hch, hcl, h.symm⟩
    · cases h
  · cases h

theorem set_lookup {α : Type} {l : List α} {i : Nat} {a : α} (b : α) (j : Nat)
    (h : l[i]? = some a) : (l.set i b)[j]? = if j = i then some b else l[j]? := by
  have hi : i < l.length := (List.getElem?_eq_some_iff.1 h).1
  by_cases hj : j = i
  · subst hj
    simp [hi]
  · rw [if_neg hj]
    exact List.getElem?_set_ne (fun h1 => hj h1.symm)

theorem waitInv_waiting_of {W : Type} {gs : List (Goroutine W)} {s : WaitState W}
    (hI : WaitInv gs s) {i : Nat} {st : GStatus} (hst : s.status[i]? = some st)
    (hnd : 0 < st.notDone) : s.pc = WaitPc.waiting := by
  by_contra hpc
  have h0 := (hI.after hpc).2.1
  rw [hI.wg_eq] at h0
  have := weight_pos GStatus.notDone s.status i st hst hnd
  omega

theorem waitInit_inv {W : Type} (gs : List (Goroutine W)) (w : W) :
    WaitInv gs (waitInit gs w) where
  len := by simp [waitInit]
  alive := rfl
  wg_eq := by simp [waitInit, weight_replicate, GStatus.notDone]
  before := fun _ => ⟨rfl, by simp [waitInit, weight_replicate, GStatus.pub]⟩
  after := fun h => absurd rfl h
  chan := fun i e h => by simp [waitInit] at h
  got := fun i e h => by
    simp only [waitInit, List.getElem?_replicate] at h
    rcases h with h | h <;> (split at h <;> simp at h)
  fin := fun h => by simp [waitInit] at h

theorem waitInv_run {W : Type} {gs : List (Goroutine W)} {s : WaitState W} (hI : WaitInv gs s)
    {i : Nat} (hst : s.status[i]? = some GStatus.launched) (w : W) (e : GoError) :
    WaitInv gs { s with world := w, status := s.status.set i (GStatus.returned e) } := by
  have hpc := waitInv_waiting_of hI hst (by simp [GStatus.notDone])
  have hw1 := weight_set GStatus.notDone s.status i _ (GStatus.returned e) hst
  have hw2 := weight_set GStatus.pub s.status i _ (GStatus.returned e) hst
  simp only [GStatus.notDone, GStatus.pub] at hw1 hw2
  refine
    { len := by simp [hI.len], alive := hI.alive, wg_eq := ?_, before := ?_, after := ?_,
      chan := ?_, got := ?_, fin := ?_ }
  · have := hI.wg_eq
    simp only
    omega
  · intro _
    obtain ⟨h1, h2⟩ := hI.before hpc
    refine ⟨h1, ?_⟩
    simp only
    omega
  · intro h; exact absurd hpc h
  · intro j e1 hm
    have h := hI.chan j e1 hm
    simp only [set_lookup _ j hst]
    by_cases hj : j = i
    · subst hj; rw [hst] at h; simp at h
    · simpa [hj] using h
  · intro j e1 h
    simp only [set_lookup _ j hst] at h
    by_cases hj : j = i
    · simp [hj] at h
    · simp only [hj, if_false] at h
      exact hI.got j e1 h
  · intro h; simp only at h; rw [hpc] at h; cases h

theorem waitInv_send {W : Type} {gs : List (Goroutine W)} {s : WaitState W}
    (hI : WaitInv gs s) {i : Nat} {e : GoError}
    (hst : s.status[i]? = some (GStatus.returned e)) :
    WaitInv gs { s with errCh := s.errCh ++ [(i, e)],
                        status := s.status.set i (GStatus.published e) } := by
  have hpc := waitInv_waiting_of hI hst (by simp [GStatus.notDone])
  have hw1 := weight_set GStatus.notDone s.status i _ (GStatus.published e) hst
  have hw2 := weight_set GStatus.pub s.status i _ (GStatus.published e) hst
  simp only [GStatus.notDone, GStatus.pub] at hw1 hw2
  refine
    { len := by simp [hI.len], alive := hI.alive, wg_eq := ?_, before := ?_, after := ?_,
      chan := ?_, got := ?_, fin := ?_ }
  · have := hI.wg_eq
    simp only
    omega
  · intro _
    obtain ⟨h1, h2⟩ := hI.before hpc
    refine ⟨h1, ?_⟩
    simp only [List.length_append, List.length_singleton]
    omega
  · intro h; exact absurd hpc h
  · intro j e1 hm
    simp only [set_lookup _ j hst]
    rcases List.mem_append.1 hm with hm | hm
    · have h := hI.chan j e1 hm
      by_cases hj : j = i
      · subst hj; rw [hst] at h; simp at h
      · simpa [hj] using h
    · simp only [List.mem_singleton, Prod.mk.injEq] at hm
      obtain ⟨rfl, rfl⟩ := hm
      simp
  · intro j e1 h
    simp only [set_lookup _ j hst] at h
    by_cases hj : j = i
    · subst hj
      simp only [if_true, Option.some.injEq, GStatus.published.injEq] at h
      rcases h with h | h
      · subst h; exact Or.inl (by simp)
      · cases h
    · simp only [hj, if_false] at h
      rcases hI.got j e1 h with h1 | h1
      · exact Or.inl (List.mem_append_left _ h1)
      · exact Or.inr h1
  · intro h; simp only at h; rw [hpc] at h; cases h

theorem waitInv_done {W : Type} {gs : List (Goroutine W)} {s : WaitState W}
    (hI : WaitInv gs s) {i : Nat} {e : GoError}
    (hst : s.status[i]? = some (GStatus.published e)) :
    s.wg ≠ 0 ∧
    WaitInv gs { s with wg := s.wg - 1, status := s.status.set i (GStatus.done e) } := by
  have hpc := waitInv_waiting_of hI hst (by simp [GStatus.notDone])
  have hw1 := weight_set GStatus.notDone s.status i _ (GStatus.done e) hst
  have hw2 := weight_set GStatus.pub s.status i _ (GStatus.done e) hst
  have hpos := weight_pos GStatus.notDone s.status i _ hst (by simp [GStatus.notDone])
  simp only [GStatus.notDone, GStatus.pub] at hw1 hw2
  have hwg := hI.wg_eq
  refine ⟨by omega,
    { len := by simp [hI.len], alive := hI.alive, wg_eq := ?_, before := ?_, after := ?_,
      chan := ?_, got := ?_, fin := ?_ }⟩
  · simp only
    omega
  · intro _
    obtain ⟨h1, h2⟩ := hI.before hpc
    refine ⟨h1, ?_⟩
    simp only
    omega
  · intro h; exact absurd hpc h
  · intro j e1 hm
    have h := hI.chan j e1 hm
    simp only [set_lookup _ j hst]
    by_cases hj : j = i
    · subst hj
      rw [hst] at h
      simp only [Option.some.injEq, GStatus.published.injEq] at h
      rcases h with h | h
      · subst h; simp
      · cases h
    · simpa [hj] using h
  · intro j e1 h
    simp only [set_lookup _ j hst] at h
    by_cases hj : j = i
    · subst hj
      simp only [if_true, Option.some.injEq, GStatus.done.injEq] at h
      rcases h with h | h
      · cases h
      · subst h; exact hI.got j e (Or.inl hst)
    · simp only [hj, if_false] at h
      exact hI.got j e1 h
  · intro h; simp only at h; rw [hpc] at h; cases h

theorem waitInv_close {W : Type} {gs : List (Goroutine W)} {s : WaitState W}
    (hI : WaitInv gs s) (hpc : s.pc = WaitPc.waiting) (hwg : s.wg = 0) :
    WaitInv gs { s with closed := true, pc := WaitPc.ranging,
                        errs := List.replicate gs.length none } where
  len := hI.len
  alive := hI.alive
  wg_eq := hI.wg_eq
  before := fun h => by cases h
  after := fun _ => ⟨rfl, hwg, by simp⟩
  chan := hI.chan
  got := fun j e h => by
    rcases hI.got j e h with h1 | h1
    · exact Or.inl h1
    · exact absurd hpc h1.1
  fin := fun h => by cases h

theorem waitInv_recv {W : Type} {gs : List (Goroutine W)} {s : WaitState W}
    (hI : WaitInv gs s) (hpc : s.pc = WaitPc.ranging) {i : Nat} {e : GoError}
    {rest : List (Nat × GoError)} (hch : s.errCh = (i, e) :: rest) :
    i < s.errs.length ∧ WaitInv gs { s with errCh := rest, errs := s.errs.set i e } := by
  have hne : s.pc ≠ WaitPc.waiting := by rw [hpc]; decide
  obtain ⟨h1, h2, h3⟩ := hI.after hne
  have hi := hI.chan i e (by rw [hch]; exact List.mem_cons_self _ _)
  have hlt : i < s.errs.length := by
    rw [h3, ← hI.len]
    rcases hi with hi | hi <;> exact (List.getElem?_eq_some_iff.1 hi).1
  refine ⟨hlt,
    { len := hI.len, alive := hI.alive, wg_eq := hI.wg_eq, before := ?_, after := ?_,
      chan := ?_, got := ?_, fin := ?_ }⟩
  · intro h; exact absurd h hne
  · intro _; exact ⟨h1, h2, by simp [h3]⟩
  · intro j e1 hm
    exact hI.chan j e1 (by rw [hch]; exact List.mem_cons_of_mem _ hm)
  · intro j e1 h
    have hset : ∀ x, (s.errs.set i e)[x]? = if x = i then some e else s.errs[x]? := by
      intro x
      by_cases hx : x = i
      · subst hx; simp [hlt]
      · rw [if_neg hx]; exact List.getElem?_set_ne (fun h4 => hx h4.symm)
    by_cases hj : j = i
    · subst hj
      have he : e1 = e := by
        rcases h with h | h <;> rcases hi with hi | hi <;> (rw [h] at hi; cases hi) <;> rfl
      subst he
      exact Or.inr ⟨hne, by simp [hset]⟩
    · rcases hI.got j e1 h with h4 | h4
      · rw [hch] at h4
        rcases List.mem_cons.1 h4 with h5 | h5
        · simp only [Prod.mk.injEq] at h5; exact absurd h5.1 hj
        · exact Or.inl h5
      · exact Or.inr ⟨hne, by simp only [hset, hj, if_false]; exact h4.2⟩
  · intro h; simp only at h; rw [hpc] at h; cases h

theorem waitInv_ret {W : Type} {gs : List (Goroutine W)} {s : WaitState W}
    (hI : WaitInv gs s) (hpc : s.pc = WaitPc.ranging) (hch : s.errCh = []) :
    WaitInv gs { s with pc := WaitPc.returned } where
  len := hI.len
  alive := hI.alive
  wg_eq := hI.wg_eq
  before := fun h => by cases h
  after := fun _ => hI.after (by rw [hpc]; decide)
  chan := hI.chan
  got := fun j e h => by
    rcases hI.got j e h with h1 | h1
    · exact Or.inl h1
    · exact Or.inr ⟨fun h2 => WaitPc.noConfusion h2, h1.2⟩
  fin := fun _ => hch

theorem AllReturn.call_ret {W : Type} {gs : List (Goroutine W)} (hret : AllReturn gs)
    {i : Nat} {g : Goroutine W} (hg : gs[i]? = some g) (c : Context) (w : W) :
    ∃ e, (g.call c w).2 = Outcome.ret e := by
  obtain ⟨w1, e, h⟩ := hret g (List.getElem?_mem hg) c w
  exact ⟨e, by rw [h]⟩

theorem waitStep_inv {W : Type} {gs : List (Goroutine W)} {ctx : Context}
    (hret : AllReturn gs) {s s1 : WaitState W} {ev : WaitEvent} (hI : WaitInv gs s)
    (h : waitStep gs ctx s ev = some s1) : WaitInv gs s1 := by
  cases ev with
  | run i =>
    obtain ⟨_, hst, g, hg, ⟨e, _, rfl⟩ | ⟨v, hv, _⟩⟩ := waitStep_run h
    · exact waitInv_run hI hst _ e
    · obtain ⟨e, he⟩ := hret.call_ret hg ctx s.world
      rw [he] at hv; cases hv
  | send i =>
    obtain ⟨_, e, hst, ⟨hcl, _⟩ | ⟨_, _, rfl⟩⟩ := waitStep_send h
    · have hpc := waitInv_waiting_of hI hst (by simp [GStatus.notDone])
      rw [(hI.before hpc).1] at hcl; cases hcl
    · exact waitInv_send hI hst
  | done i =>
    obtain ⟨_, e, hst, ⟨hwg, _⟩ | ⟨_, rfl⟩⟩ := waitStep_done h
    · exact absurd hwg (waitInv_done hI hst).1
    · exact (waitInv_done hI hst).2
  | close =>
    obtain ⟨_, hpc, hwg, rfl⟩ := waitStep_close h
    exact waitInv_close hI hpc hwg
  | recv =>
    obtain ⟨_, hpc, i, e, rest, hch, ⟨_, rfl⟩ | ⟨hi, _⟩⟩ := waitStep_recv h
    · exact (waitInv_recv hI hpc hch).2
    · exact absurd (waitInv_recv hI hpc hch).1 hi
  | ret =>
    obtain ⟨_, hpc, hch, _, rfl⟩ := waitStep_ret h
    exact waitInv_ret hI hpc hch

theorem waitExec_inv {W : Type} {gs : List (Goroutine W)} {ctx : Context}
    (hret : AllReturn gs) (w : W) (evs : List WaitEvent) (s : WaitState W)
    (h : waitExec gs ctx (waitInit gs w) evs = some s) : WaitInv gs s :=
  waitExec_induction gs ctx (waitInit gs w) (fun _ s => WaitInv gs s) (waitInit_inv gs w)
    (fun _ _ _ _ _ hI hs => waitStep_inv hret hI hs) evs s h

theorem todo_set (l : List GStatus) (i : Nat) (a b : GStatus) (h : l[i]? = some a)
    (hab : b.todo + 1 = a.todo) :
    weight GStatus.todo (l.set i b) + 1 = weight GStatus.todo l := by
  have := weight_set GStatus.todo l i a b h
  omega

theorem waitStep_todo {W : Type} {gs : List (Goroutine W)} {ctx : Context}
    (hret : AllReturn gs) {s s1 : WaitState W} {ev : WaitEvent} (hI : WaitInv gs s)
    (h : waitStep gs ctx s ev = some s1) : waitTodo gs s1 < waitTodo gs s := by
  cases ev with
  | run i =>
    obtain ⟨_, hst, g, hg, ⟨e, _, rfl⟩ | ⟨v, hv, _⟩⟩ := waitStep_run h
    · have := todo_set s.status i _ (GStatus.returned e) hst rfl
      simp only [waitTodo]
      omega
    · obtain ⟨e, he⟩ := hret.call_ret hg ctx s.world
      rw [he] at hv; cases hv
  | send i =>
    obtain ⟨_, e, hst, ⟨hcl, _⟩ | ⟨_, _, rfl⟩⟩ := waitStep_send h
    · have hpc := waitInv_waiting_of hI hst (by simp [GStatus.notDone])
      rw [(hI.before hpc).1] at hcl; cases hcl
    · have hpc := waitInv_waiting_of hI hst (by simp [GStatus.notDone])
      have := todo_set s.status i _ (GStatus.published e) hst rfl
      simp only [waitTodo, hpc]
      omega
  | done i =>
    obtain ⟨_, e, hst, ⟨hwg, _⟩ | ⟨_, rfl⟩⟩ := waitStep_done h
    · exact absurd hwg (waitInv_done hI hst).1
    · have := todo_set s.status i _ (GStatus.done e) hst rfl
      simp only [waitTodo]
      omega
  | close =>
    obtain ⟨_, hpc, hwg, rfl⟩ := waitStep_close h
    have h1 := (hI.before hpc).2
    have h2 := weight_le_length GStatus.pub pub_le_one s.status
    have h3 := hI.len
    simp only [waitTodo, hpc]
    omega
  | recv =>
    obtain ⟨_, hpc, i, e, rest, hch, ⟨_, rfl⟩ | ⟨hi, _⟩⟩ := waitStep_recv h
    · simp only [waitTodo, hpc, hch, List.length_cons]
      omega
    · exact absurd (waitInv_recv hI hpc hch).1 hi
  | ret =>
    obtain ⟨_, hpc, hch, _, rfl⟩ := waitStep_ret h
    simp only [waitTodo, hpc]
    omega

theorem waitExec_bound {W : Type} {gs : List (Goroutine W)} {ctx : Context}
    (hret : AllReturn gs) (w : W) (evs : List WaitEvent) (s : WaitState W)
    (h : waitExec gs ctx (waitInit gs w) evs = some s) :
    evs.length + waitTodo gs s ≤ 4 * gs.length + 2 :=
  waitExec_induction gs ctx (waitInit gs w)
    (fun evs s => evs.length + waitTodo gs s ≤ 4 * gs.length + 2)
    (by simp [waitTodo, waitInit, weight_replicate, GStatus.todo]; omega)
    (fun evs s ev s1 hr hP hs => by
      have := waitStep_todo hret (waitExec_inv hret w evs s hr) hs
      simp only [List.length_append, List.length_singleton]
      omega) evs s h

theorem waitStep_progress {W : Type} {gs : List (Goroutine W)} (ctx : Context)
    (hret : AllReturn gs) {s : WaitState W} (hI : WaitInv gs s)
    (hpc : s.pc ≠ WaitPc.returned) : ∃ ev s1, waitStep gs ctx s ev = some s1 := by
  have hal := hI.alive
  rcases status_cases s.status with ⟨i, hst⟩ | ⟨i, e, hst⟩ | ⟨i, e, hst⟩ | hall
  · have hi : i < gs.length := by
      rw [← hI.len]; exact (List.getElem?_eq_some_iff.1 hst).1
    obtain ⟨w1, e, hc⟩ := hret gs[i] (List.getElem_mem hi) ctx s.world
    exact ⟨WaitEvent.run i, _, by
      simp only [waitStep, hal, List.getElem?_eq_getElem hi, hst, hc]; rfl⟩
  · have hp := waitInv_waiting_of hI hst (by simp [GStatus.notDone])
    obtain ⟨hcl, hlen⟩ := hI.before hp
    have hlt := weight_lt_length GStatus.pub pub_le_one s.status i _ hst rfl
    have hcap : s.errCh.length < gs.length := by rw [hlen, ← hI.len]; exact hlt
    exact ⟨WaitEvent.send i, _, by simp only [waitStep, hal, hst, hcl, hcap]; rfl⟩
  · have hwg := (waitInv_done hI hst).1
    exact ⟨WaitEvent.done i, _, by simp only [waitStep, hal, hst, hwg]; rfl⟩
  · have hwg : s.wg = 0 := by rw [hI.wg_eq]; exact hall
    cases hp : s.pc with
    | waiting => exact ⟨WaitEvent.close, _, by simp only [waitStep, hal, hp, hwg]; rfl⟩
    | returned => exact absurd hp hpc
    | ranging =>
      cases hch : s.errCh with
      | nil =>
        have hcl := (hI.after (by rw [hp]; decide)).1
        exact ⟨WaitEvent.ret, _, by simp only [waitStep, hal, hp, hch, hcl]; rfl⟩
      | cons x rest =>
        obtain ⟨i, e⟩ := x
        have hi := (waitInv_recv hI hp hch).1
        exact ⟨WaitEvent.recv, _, by simp only [waitStep, hal, hp, hch, hi]; rfl⟩

theorem waitExec_complete {W : Type} {gs : List (Goroutine W)} (ctx : Context)
    (hret : AllReturn gs) (n : Nat) (s : WaitState W) (hI : WaitInv gs s)
    (hn : waitTodo gs s ≤ n) :
    ∃ evs s1, waitExec gs ctx s evs = some s1 ∧ s1.pc = WaitPc.returned := by
  induction n generalizing s with
  | zero =>
    by_cases hpc : s.pc = WaitPc.returned
    · exact ⟨[], s, rfl, hpc⟩
    · obtain ⟨ev, s1, hs⟩ := waitStep_progress ctx hret hI hpc
      have := waitStep_todo hret hI hs
      omega
  | succ k ih =>
    by_cases hpc : s.pc = WaitPc.returned
    · exact ⟨[], s, rfl, hpc⟩
    · obtain ⟨ev, s1, hs⟩ := waitStep_progress ctx hret hI hpc
      have hlt := waitStep_todo hret hI hs
      obtain ⟨evs, s2, he, hp⟩ := ih s1 (waitStep_inv hret hI hs) (by omega)
      exact ⟨ev :: evs, s2, by simp only [waitExec, hs, he], hp⟩

theorem value_set {l : List GStatus} {i : Nat} {a : GStatus} (b : GStatus) (j : Nat)
    (h : l[i]? = some a) (hv : b.value = a.value) :
    (l.set i b)[j]?.bind GStatus.value = l[j]?.bind GStatus.value := by
  rw [set_lookup b j h]
  by_cases hj : j = i
  · subst hj; simp [h, hv]
  · simp [hj]

theorem waitStep_value {W : Type} {gs : List (Goroutine W)} {ctx : Context}
    {s s1 : WaitState W} {ev : WaitEvent} (h : waitStep gs ctx s ev = some s1) (i : Nat)
    (e : GoError) (hv : s1.status[i]?.bind GStatus.value = some e) :
    s.status[i]?.bind GStatus.value = some e ∨
      (ev = WaitEvent.run i ∧ ∃ g, gs[i]? = some g ∧ (g.call ctx s.world).2 = Outcome.ret e) := by
  cases ev with
  | run j =>
    obtain ⟨_, hst, g, hg, ⟨e1, he1, rfl⟩ | ⟨v, _, rfl⟩⟩ := waitStep_run h
    · simp only [set_lookup _ i hst] at hv
      by_cases hj : i = j
      · subst hj
        simp only [if_true, Option.some_bind, GStatus.value, Option.some.injEq] at hv
        subst hv
        exact Or.inr ⟨rfl, g, hg, he1⟩
      · simp only [hj, if_false] at hv
        exact Or.inl hv
    · exact Or.inl hv
  | send j =>
    obtain ⟨_, e1, hst, ⟨_, rfl⟩ | ⟨_, _, rfl⟩⟩ := waitStep_send h
    · exact Or.inl hv
    · simp only [value_set (GStatus.published e1) i hst rfl] at hv; exact Or.inl hv
  | done j =>
    obtain ⟨_, e1, hst, ⟨_, rfl⟩ | ⟨_, rfl⟩⟩ := waitStep_done h
    · exact Or.inl hv
    · simp only [value_set (GStatus.done e1) i hst rfl] at hv; exact Or.inl hv
  | close =>
    obtain ⟨_, _, _, rfl⟩ := waitStep_close h
    exact Or.inl hv
  | recv =>
    obtain ⟨_, _, j, e1, rest, _, ⟨_, rfl⟩ | ⟨_, rfl⟩⟩ := waitStep_recv h
    · exact Or.inl hv
    · exact Or.inl hv
  | ret =>
    obtain ⟨_, _, _, _, rfl⟩ := waitStep_ret h
    exact Or.inl hv

/-- Every result a goroutine of `Wait` holds is the value its task returned at the step of
the schedule at which it was called. -/
theorem waitExec_history {W : Type} (gs : List (Goroutine W)) (ctx : Context) (w : W)
    (evs : List WaitEvent) (s : WaitState W)
    (h : waitExec gs ctx (waitInit gs w) evs = some s) (i : Nat) (e : GoError)
    (hv : s.status[i]?.bind GStatus.value = some e) :
    ∃ pre post sk g, evs = pre ++ WaitEvent.run i :: post ∧
      waitExec gs ctx (waitInit gs w) pre = some sk ∧ gs[i]? = some g ∧
      (g.call ctx sk.world).2 = Outcome.ret e := by
  revert i e
  refine waitExec_induction gs ctx (waitInit gs w)
    (fun evs s => ∀ (i : Nat) (e : GoError), s.status[i]?.bind GStatus.value = some e →
      ∃ pre post sk g, evs = pre ++ WaitEvent.run i :: post ∧
        waitExec gs ctx (waitInit gs w) pre = some sk ∧ gs[i]? = some g ∧
        (g.call ctx sk.world).2 = Outcome.ret e) ?_ ?_ evs s h
  · intro i e hv
    simp only [waitInit, List.getElem?_replicate] at hv
    split at hv <;> simp [GStatus.value] at hv
  · intro evs s ev s1 hr hP hs i e hv
    rcases waitStep_value hs i e hv with h1 | ⟨rfl, g, hg, hc⟩
    · obtain ⟨pre, post, sk, g, rfl, h2, h3, h4⟩ := hP i e h1
      exact ⟨pre, post ++ [ev], sk, g, by simp, h2, h3, h4⟩
    · exact ⟨evs, [], s, g, rfl, hr, hg, hc⟩

theorem prepareLoop_length {W : Type} (bmws : List (Middleware W))
    (cfgs : List (goroutineConfig W)) (gs : List (Goroutine W))
    (h : prepareLoop bmws cfgs = Except.ok gs) : gs.length = cfgs.length := by
  induction cfgs generalizing gs with
  | nil =>
    simp only [prepareLoop, Except.ok.injEq] at h
    subst h; rfl
  | cons cfg rest ih =>
    simp only [prepareLoop] at h
    split at h
    · cases h
    · split at h
      · cases h
      · rename_i gs1 h1
        simp only [Except.ok.injEq] at h
        subst h
        simp [ih gs1 h1]

theorem prepare_length {W : Type} (b : Batch W) (gs : List (Goroutine W))
    (h : b.prepareGoroutines = Except.ok gs) :
    gs.length = b.goroutineConfigs.length ∧ 1 ≤ gs.length := by
  unfold Batch.prepareGoroutines at h
  split at h
  · cases h
  · rename_i hne
    have := prepareLoop_length _ _ _ h
    omega

theorem Wait_eq {W : Type} (b : Batch W) (gs : List (Goroutine W))
    (h : b.prepareGoroutines = Except.ok gs) (w : W) (evs : List WaitEvent)
    (r : Option (WaitState W)) :
    b.Wait w evs = Except.ok r ↔ waitExec gs b.ctx (waitInit gs w) evs = r := by
  simp [Batch.Wait, h]

/-- The results of a finished call of `Wait`. -/
theorem waitExec_results {W : Type} {gs : List (Goroutine W)} {ctx : Context}
    (hret : AllReturn gs) (w : W) (evs : List WaitEvent) (s : WaitState W)
    (h : waitExec gs ctx (waitInit gs w) evs = some s) (hpc : s.pc = WaitPc.returned) :
    s.errs.length = gs.length ∧
      ∀ i, i < gs.length → ∃ e, s.errs[i]? = some e ∧
        ∃ pre post sk g, evs = pre ++ WaitEvent.run i :: post ∧
          waitExec gs ctx (waitInit gs w) pre = some sk ∧ gs[i]? = some g ∧
          (g.call ctx sk.world).2 = Outcome.ret e := by
  have hI := waitExec_inv hret w evs s h
  have hne : s.pc ≠ WaitPc.waiting := by rw [hpc]; decide
  obtain ⟨_, hwg, hlen⟩ := hI.after hne
  refine ⟨hlen, fun i hi => ?_⟩
  have hi1 : i < s.status.length := by rw [hI.len]; exact hi
  have hst : s.status[i]? = some s.status[i] := List.getElem?_eq_getElem hi1
  have hnd := weight_eq_zero GStatus.notDone s.status (by rw [← hI.wg_eq]; exact hwg) i _ hst
  cases hsi : s.status[i] with
  | launched => rw [hsi] at hnd; simp [GStatus.notDone] at hnd
  | returned e => rw [hsi] at hnd; simp [GStatus.notDone] at hnd
  | published e => rw [hsi] at hnd; simp [GStatus.notDone] at hnd
  | done e =>
    rw [hsi] at hst
    refine ⟨e, ?_, waitExec_history gs ctx w evs s h i e (by simp [hst, GStatus.value])⟩
    rcases hI.got i e (Or.inr hst) with h1 | h1
    · rw [hI.fin hpc] at h1; cases h1
    · exact h1.2

theorem result_eq {W : Type} (s : WaitState W) (errs : List GoError)
    (h : s.result = some errs) : s.pc = WaitPc.returned ∧ errs = s.errs := by
  unfold WaitState.result at h
  split at h
  · rename_i hpc
    simp only [Option.some.injEq] at h
    exact ⟨hpc, h.symm⟩
  · cases h

theorem list_eq_map_range (errs : List GoError) (n : Nat) (r : Nat → GoError)
    (hlen : errs.length = n) (h : ∀ i, i < n → errs[i]? = some (r i)) :
    errs = (List.range n).map r := by
  apply List.ext_getElem?
  intro i
  by_cases hi : i < n
  · rw [h i hi]
    simp [List.getElem?_range hi]
  · rw [List.getElem?_eq_none (by omega), List.getElem?_eq_none (by simp; omega)]

/-- C3: `Wait` on a batch whose composition yields the tasks `gs`, none of which panics.
Under every schedule the call proceeds without a crash until the caller returns, within
`4 * N + 2` steps. Whatever the schedule, the returned slice has exactly one element per
entry, and its element `i` is the value that the decorated `i`-th task returned at the step at
which goroutine `i` called it. When the values the tasks return do not depend on the shared
world, the returned slice is the same under every schedule. -/
theorem Wait_results_by_insertion_index {W : Type} (b : Batch W) (gs : List (Goroutine W))
    (hgs : b.prepareGoroutines = Except.ok gs) (hret : AllReturn gs) (w : W) :
    (∀ evs s, b.Wait w evs = Except.ok (some s) →
      s.crashed = none ∧ evs.length ≤ 4 * gs.length + 2 ∧
      (s.result = none → ∃ ev s1, waitStep gs b.ctx s ev = some s1)) ∧
    (∃ evs s, b.Wait w evs = Except.ok (some s) ∧ s.result = some s.errs) ∧
    (∀ evs s errs, b.Wait w evs = Except.ok (some s) → s.result = some errs →
      errs.length = b.goroutineConfigs.length ∧ 1 ≤ errs.length ∧
      ∀ i, i < errs.length → ∃ e, errs[i]? = some e ∧
        ∃ pre post sk g, evs = pre ++ WaitEvent.run i :: post ∧
          b.Wait w pre = Except.ok (some sk) ∧ gs[i]? = some g ∧
          (g.call b.ctx sk.world).2 = Outcome.ret e) ∧
    (∀ r : Nat → GoError,
      (∀ i g, gs[i]? = some g → ∀ c w1, (g.call c w1).2 = Outcome.ret (r i)) →
      ∀ evs s errs, b.Wait w evs = Except.ok (some s) → s.result = some errs →
        errs = (List.range gs.length).map r) := by
  have hlen := prepare_length b gs hgs
  have key : ∀ evs s errs, b.Wait w evs = Except.ok (some s) → s.result = some errs →
      errs.length = gs.length ∧
      ∀ i, i < gs.length → ∃ e, errs[i]? = some e ∧
        ∃ pre post sk g, evs = pre ++ WaitEvent.run i :: post ∧
          b.Wait w pre = Except.ok (some sk) ∧ gs[i]? = some g ∧
          (g.call b.ctx sk.world).2 = Outcome.ret e := by
    intro evs s errs h hr
    rw [Wait_eq b gs hgs] at h
    obtain ⟨hpc, rfl⟩ := result_eq s errs hr
    obtain ⟨h1, h2⟩ := waitExec_results hret w evs s h hpc
    refine ⟨h1, fun i hi => ?_⟩
    obtain ⟨e, he, pre, post, sk, g, h3, h4, h5, h6⟩ := h2 i hi
    exact ⟨e, he, pre, post, sk, g, h3, (Wait_eq b gs hgs w pre _).2 h4, h5, h6⟩
  refine ⟨?_, ?_, ?_, ?_⟩
  · intro evs s h
    rw [Wait_eq b gs hgs] at h
    have hI := waitExec_inv hret w evs s h
    have hb := waitExec_bound hret w evs s h
    refine ⟨hI.alive, by omega, fun hr => ?_⟩
    refine waitStep_progress b.ctx hret hI (fun hpc => ?_)
    simp [WaitState.result, hpc] at hr
  · obtain ⟨evs, s, h1, h2⟩ :=
      waitExec_complete b.ctx hret _ (waitInit gs w) (waitInit_inv gs w) (Nat.le_refl _)
    exact ⟨evs, s, (Wait_eq b gs hgs w evs _).2 h1, by simp [WaitState.result, h2]⟩
  · intro evs s errs h hr
    obtain ⟨h1, h2⟩ := key evs s errs h hr
    exact ⟨by omega, by omega, fun i hi => h2 i (by omega)⟩
  · intro r hr evs s errs h hres
    obtain ⟨h1, h2⟩ := key evs s errs h hres
    refine list_eq_map_range errs gs.length r h1 (fun i hi => ?_)
    obtain ⟨e, he, _, _, sk, g, _, _, hg, hc⟩ := h2 i hi
    rw [hr i g hg b.ctx sk.world] at hc
    simp only [Outcome.ret.injEq] at hc
    rw [he, hc]

/-- The tasks `mG(0, "a")`, `mG(1, "")`, `mG(2, "c")` return whatever the world, and under a
schedule in which they complete and publish out of order `Wait` returns `["a", nil, "c"]`
and leaves the run flags `[1, -1, 1]`. -/
theorem Wait_results_by_insertion_index_witness :
    resultBatch.prepareGoroutines
      = Except.ok [some (mG 0 "a"), some (mG 1 ""), some (mG 2 "c")] ∧
    AllReturn [some (mG 0 "a"), some (mG 1 ""), some (mG 2 "c")] ∧
    (∃ s, resultBatch.Wait [0, 0, 0] shuffledWait = Except.ok (some s) ∧
      s.result = some [some "a", none, some "c"] ∧ s.world = [1, -1, 1]) ∧
    (∀ evs s errs, resultBatch.Wait [0, 0, 0] evs = Except.ok (some s) →
      s.result = some errs → errs = [some "a", none, some "c"]) := by
  have hgs : resultBatch.prepareGoroutines
      = Except.ok [some (mG 0 "a"), some (mG 1 ""), some (mG 2 "c")] := rfl
  have hret : AllReturn [some (mG 0 "a"), some (mG 1 ""), some (mG 2 "c")] := by
    intro g hg c w
    simp only [List.mem_cons, List.mem_singleton, List.not_mem_nil, or_false] at hg
    rcases hg with rfl | rfl | rfl <;> simp [Goroutine.call, mG]
  refine ⟨hgs, hret, ⟨_, rfl, rfl, rfl⟩, fun evs s errs h hr => ?_⟩
  have h4 := (Wait_results_by_insertion_index resultBatch _ hgs hret [0, 0, 0]).2.2.2
    (fun i => if i = 0 then some "a" else if i = 1 then none else some "c")
    (fun i g hg c w1 => by
      match i, hg with
      | 0, hg => simp at hg; subst hg; simp [Goroutine.call, mG]
      | 1, hg => simp at hg; subst hg; simp [Goroutine.call, mG]
      | 2, hg => simp at hg; subst hg; simp [Goroutine.call, mG]
      | k + 3, hg => simp at hg)
    evs s errs h hr
  rw [h4]
  rfl

/-! ## CancelOnError: the steps -/

theorem cancelExec_append {W : Type} (gs : List (Goroutine W)) (ctx : Context)
    (s : CancelState W) (evs : List CancelEvent) (ev : CancelEvent) :
    cancelExec gs ctx s (evs ++ [ev])
      = (cancelExec gs ctx s evs).bind (fun s1 => cancelStep gs ctx s1 ev) := by
  induction evs generalizing s with
  | nil =>
    simp only [List.nil_append, cancelExec, Option.some_bind]
    cases cancelStep gs ctx s ev <;> rfl
  | cons e rest ih =>
    simp only [List.cons_append, cancelExec]
    cases cancelStep gs ctx s e with
    | none => rfl
    | some s1 => exact ih s1

/-- Induction over the schedules of `CancelOnError`. -/
theorem cancelExec_induction {W : Type} (gs : List (Goroutine W)) (ctx : Context)
    (s0 : CancelState W) (P : List CancelEvent → CancelState W → Prop) (h0 : P [] s0)
    (hstep : ∀ evs s ev s1, cancelExec gs ctx s0 evs = some s → P evs s →
      cancelStep gs ctx s ev = some s1 → P (evs ++ [ev]) s1)
    (evs : List CancelEvent) (s : CancelState W) (h : cancelExec gs ctx s0 evs = some s) :
    P evs s := by
  induction evs using List.reverseRecOn generalizing s with
  | nil =>
    simp only [cancelExec, Option.some.injEq] at h
    subst h
    exact h0
  | append_singleton evs ev ih =>
    rw [cancelExec_append] at h
    cases hm : cancelExec gs ctx s0 evs with
    | none => rw [hm] at h; cases h
    | some s1 =>
      rw [hm] at h
      exact hstep evs s1 ev s hm (ih s1 hm) h

theorem cancelStep_run {W : Type} {gs : List (Goroutine W)} {ctx : Context}
    {s s1 : CancelState W} {i : Nat} (h : cancelStep gs ctx s (CancelEvent.run i) = some s1) :
    s.crashed = none ∧ s.status[i]? = some GStatus.launched ∧ ∃ g, gs[i]? = some g ∧
      ((∃ e, (g.call (Context.withCancel ctx s.cancelled) s.world).2 = Outcome.ret e ∧
          s1 = { s with world := (g.call (Context.withCancel ctx s.cancelled) s.world).1,
                        status := s.status.set i (GStatus.returned e) }) ∨
        (∃ v, (g.call (Context.withCancel ctx s.cancelled) s.world).2 = Outcome.panic v ∧
          s1 = { s with world := (g.call (Context.withCancel ctx s.cancelled) s.world).1,
                        crashed := some v })) := by
  simp only [cancelStep] at h
  split at h
  · rename_i g hc hg hst
    refine ⟨hc, hst, g, hg, ?_⟩
    split at h
    · rename_i w e hcall
      simp only [Option.some.injEq] at h
      exact Or.inl ⟨e, by rw [hcall], by rw [hcall, ← h]⟩
    · rename_i w v hcall
      simp only [Option.some.injEq] at h
      exact Or.inr ⟨v, by rw [hcall], by rw [hcall, ← h]⟩
  · cases h

theorem cancelStep_report {W : Type} {gs : List (Goroutine W)} {ctx : Context}
    {s s1 : CancelState W} {i : Nat}
    (h : cancelStep gs ctx s (CancelEvent.report i) = some s1) :
    s.crashed = none ∧ ∃ e, s.status[i]? = some (GStatus.returned e) ∧
      ((e.isSome = true ∧ s.err = none ∧
          s1 = { s with err := e, cancelled := true, finished := s.finished ++ [(i, e)],
                        status := s.status.set i (GStatus.published e) }) ∨
        ((e = none ∨ s.err.isSome = true) ∧
          s1 = { s with finished := s.finished ++ [(i, e)],
                        status := s.status.set i (GStatus.published e) })) := by
  simp only [cancelStep] at h
  split at h
  · rename_i e hc hst
    refine ⟨hc, e, hst, ?_⟩
    split at h
    · rename_i hcond
      simp only [Option.some.injEq] at h
      exact Or.inl ⟨hcond.1, by simpa using hcond.2, h.symm⟩
    · rename_i hcond
      simp only [Option.some.injEq] at h
      refine Or.inr ⟨?_, h.symm⟩
      by_cases he : e = none
      · exact Or.inl he
      · refine Or.inr ?_
        cases hs : s.err with
        | some m => rfl
        | none =>
          exfalso
          apply hcond
          rw [hs]
          exact ⟨Option.ne_none_iff_isSome.1 he, rfl⟩
  · cases h

theorem cancelStep_done {W : Type} {gs : List (Goroutine W)} {ctx : Context}
    {s s1 : CancelState W} {i : Nat} (h : cancelStep gs ctx s (CancelEvent.done i) = some s1) :
    s.crashed = none ∧ ∃ e, s.status[i]? = some (GStatus.published e) ∧
      ((s.wg = 0 ∧ s1 = { s with crashed := some "sync: negative WaitGroup counter" }) ∨
        (s.wg ≠ 0 ∧
          s1 = { s with wg := s.wg - 1, status := s.status.set i (GStatus.done e) })) := by
  simp only [cancelStep] at h
  split at h
  · rename_i e hc hst
    refine ⟨hc, e, hst, ?_⟩
    split at h
    · rename_i hwg
      simp only [Option.some.injEq] at h
      exact Or.inl ⟨hwg, h.symm⟩
    · rename_i hwg
      simp only [Option.some.injEq] at h
      exact Or.inr ⟨hwg, h.symm⟩
  · cases h

theorem cancelStep_wait {W : Type} {gs : List (Goroutine W)} {ctx : Context}
    {s s1 : CancelState W} (h : cancelStep gs ctx s CancelEvent.wait = some s1) :
    s.crashed = none ∧ s.pc = CancelPc.waiting ∧ s.wg = 0 ∧
      s1 = { s with cancelled := true, result := s.err, pc := CancelPc.returned } := by
  simp only [cancelStep] at h
  split at h
  · rename_i hc hpc
    split at h
    · rename_i hwg
      simp only [Option.some.injEq] at h
      exact ⟨hc, hpc, hwg, h.symm⟩
    · cases h
  · cases h

theorem firstError_append (l : List (Nat × GoError)) (i : Nat) (e : GoError) :
    firstError (l ++ [(i, e)]) = match firstError l with
      | some msg => some msg
      | none => e := by
  induction l with
  | nil => cases e <;> rfl
  | cons x rest ih =>
    obtain ⟨j, e1⟩ := x
    cases e1 with
    | none => simpa [firstError] using ih
    | some m => simp [firstError]

theorem firstError_eq_none (l : List (Nat × GoError)) :
    firstError l = none ↔ ∀ i e, (i, e) ∈ l → e = none := by
  induction l with
  | nil => simp [firstError]
  | cons x rest ih =>
    obtain ⟨j, e1⟩ := x
    cases e1 with
    | none =>
      simp only [firstError, ih, List.mem_cons, Prod.mk.injEq]
      constructor
      · rintro h i e (⟨_, rfl⟩ | hm)
        · rfl
        · exact h i e hm
      · intro h i e hm
        exact h i e (Or.inr hm)
    | some m =>
      simp only [firstError, List.mem_cons, Prod.mk.injEq]
      constructor
      · intro h; cases h
      · intro h
        have := h j (some m) (Or.inl ⟨rfl, rfl⟩)
        cases this

theorem cancelInv_waiting_of {W : Type} {gs : List (Goroutine W)} {s : CancelState W}
    (hI : CancelInv gs s) {i : Nat} {st : GStatus} (hst : s.status[i]? = some st)
    (hnd : 0 < st.notDone) : s.pc = CancelPc.waiting := by
  cases hpc : s.pc with
  | waiting => rfl
  | returned =>
    have h0 := (hI.after hpc).1
    rw [hI.wg_eq] at h0
    have := weight_pos GStatus.notDone s.status i st hst hnd
    omega

theorem cancelInit_inv {W : Type} (gs : List (Goroutine W)) (w : W) :
    CancelInv gs (cancelInit gs w) where
  len := by simp [cancelInit]
  alive := rfl
  wg_eq := by simp [cancelInit, weight_replicate, GStatus.notDone]
  count := by simp [cancelInit, weight_replicate, GStatus.pub]
  nodup := by simp [cancelInit]
  fin_status := fun i e => by
    simp only [cancelInit, List.getElem?_replicate, List.not_mem_nil, false_iff, not_or]
    constructor <;> (split <;> simp)
  err_first := rfl
  before := fun _ => rfl
  after := fun h => by cases h

theorem cancelInv_run {W : Type} {gs : List (Goroutine W)} {s : CancelState W}
    (hI : CancelInv gs s) {i : Nat} (hst : s.status[i]? = some GStatus.launched) (w : W)
    (e : GoError) :
    CancelInv gs { s with world := w, status := s.status.set i (GStatus.returned e) } := by
  have hpc := cancelInv_waiting_of hI hst (by simp [GStatus.notDone])
  have hw1 := weight_set GStatus.notDone s.status i _ (GStatus.returned e) hst
  have hw2 := weight_set GStatus.pub s.status i _ (GStatus.returned e) hst
  simp only [GStatus.notDone, GStatus.pub] at hw1 hw2
  refine
    { len := by simp [hI.len], alive := hI.alive, wg_eq := ?_, count := ?_,
      nodup := hI.nodup, fin_status := ?_, err_first := hI.err_first, before := hI.before,
      after := ?_ }
  · have := hI.wg_eq
    simp only
    omega
  · have := hI.count
    simp only
    omega
  · intro j e1
    simp only [set_lookup _ j hst]
    by_cases hj : j = i
    · subst hj
      have := hI.fin_status j e1
      rw [hst] at this
      simpa using this
    · simpa [hj] using hI.fin_status j e1
  · intro h; simp only at h; rw [hpc] at h; cases h

theorem cancelInv_report {W : Type} {gs : List (Goroutine W)} {s : CancelState W}
    (hI : CancelInv gs s) {i : Nat} {e : GoError}
    (hst : s.status[i]? = some (GStatus.returned e)) (err1 : GoError) (c1 : Bool)
    (herr : err1 = firstError (s.finished ++ [(i, e)])) (hc : c1 = err1.isSome) :
    CancelInv gs { s with err := err1, cancelled := c1, finished := s.finished ++ [(i, e)],
                          status := s.status.set i (GStatus.published e) } := by
  have hpc := cancelInv_waiting_of hI hst (by simp [GStatus.notDone])
  have hw1 := weight_set GStatus.notDone s.status i _ (GStatus.published e) hst
  have hw2 := weight_set GStatus.pub s.status i _ (GStatus.published e) hst
  simp only [GStatus.notDone, GStatus.pub] at hw1 hw2
  have hnot : ∀ e1, (i, e1) ∉ s.finished := by
    intro e1 hm
    have := (hI.fin_status i e1).1 hm
    rw [hst] at this
    simp at this
  refine
    { len := by simp [hI.len], alive := hI.alive, wg_eq := ?_, count := ?_, nodup := ?_,
      fin_status := ?_, err_first := herr, before := fun _ => hc, after := ?_ }
  · have := hI.wg_eq
    simp only
    omega
  · have := hI.count
    simp only [List.length_append, List.length_singleton]
    omega
  · simp only [List.map_append, List.map_cons, List.map_nil]
    refine List.Nodup.append hI.nodup (List.nodup_singleton i) ?_
    intro x hx hx1
    simp only [List.mem_singleton] at hx1
    subst hx1
    obtain ⟨⟨j, e1⟩, hm, rfl⟩ := List.mem_map.1 hx
    exact hnot e1 hm
  · intro j e1
    simp only [set_lookup _ j hst, List.mem_append, List.mem_singleton, Prod.mk.injEq]
    by_cases hj : j = i
    · subst hj
      simp only [if_true]
      constructor
      · rintro (h | ⟨_, h⟩)
        · exact absurd h (hnot e1)
        · subst h; exact Or.inl rfl
      · rintro (h | h)
        · cases h; exact Or.inr ⟨trivial, rfl⟩
        · cases h
    · simp only [hj, if_false, false_and, or_false]
      exact hI.fin_status j e1
  · intro h; simp only at h; rw [hpc] at h; cases h

theorem cancelInv_done {W : Type} {gs : List (Goroutine W)} {s : CancelState W}
    (hI : CancelInv gs s) {i : Nat} {e : GoError}
    (hst : s.status[i]? = some (GStatus.published e)) :
    s.wg ≠ 0 ∧
    CancelInv gs { s with wg := s.wg - 1, status := s.status.set i (GStatus.done e) } := by
  have hpc := cancelInv_waiting_of hI hst (by simp [GStatus.notDone])
  have hw1 := weight_set GStatus.notDone s.status i _ (GStatus.done e) hst
  have hw2 := weight_set GStatus.pub s.status i _ (GStatus.done e) hst
  have hpos := weight_pos GStatus.notDone s.status i _ hst (by simp [GStatus.notDone])
  simp only [GStatus.notDone, GStatus.pub] at hw1 hw2
  have hwg := hI.wg_eq
  refine ⟨by omega,
    { len := by simp [hI.len], alive := hI.alive, wg_eq := ?_, count := ?_,
      nodup := hI.nodup, fin_status := ?_, err_first := hI.err_first, before := hI.before,
      after := ?_ }⟩
  · simp only
    omega
  · have := hI.count
    simp only
    omega
  · intro j e1
    simp only [set_lookup _ j hst]
    by_cases hj : j = i
    · subst hj
      have := hI.fin_status j e1
      rw [hst] at this
      simp only [if_true]
      rw [this]
      constructor
      · rintro (h | h)
        · cases h; exact Or.inr rfl
        · cases h
      · rintro (h | h)
        · cases h
        · cases h; exact Or.inl rfl
    · simpa [hj] using hI.fin_status j e1
  · intro h; simp only at h; rw [hpc] at h; cases h

theorem cancelInv_wait {W : Type} {gs : List (Goroutine W)} {s : CancelState W}
    (hI : CancelInv gs s) (hwg : s.wg = 0) :
    CancelInv gs { s with cancelled := true, result := s.err, pc := CancelPc.returned } where
  len := hI.len
  alive := hI.alive
  wg_eq := hI.wg_eq
  count := hI.count
  nodup := hI.nodup
  fin_status := hI.fin_status
  err_first := hI.err_first
  before := fun h => by cases h
  after := fun _ => ⟨hwg, rfl, rfl⟩

theorem cancelStep_inv {W : Type} {gs : List (Goroutine W)} {ctx : Context}
    (hret : AllReturn gs) {s s1 : CancelState W} {ev : CancelEvent} (hI : CancelInv gs s)
    (h : cancelStep gs ctx s ev = some s1) : CancelInv gs s1 := by
  cases ev with
  | run i =>
    obtain ⟨_, hst, g, hg, ⟨e, _, rfl⟩ | ⟨v, hv, _⟩⟩ := cancelStep_run h
    · exact cancelInv_run hI hst _ e
    · obtain ⟨e, he⟩ := hret.call_ret hg (Context.withCancel ctx s.cancelled) s.world
      rw [he] at hv; cases hv
  | report i =>
    obtain ⟨_, e, hst, ⟨he, herr, rfl⟩ | ⟨hor, rfl⟩⟩ := cancelStep_report h
    · refine cancelInv_report hI hst e true ?_ he.symm
      rw [firstError_append, ← hI.err_first, herr]
    · have hpc := cancelInv_waiting_of hI hst (by simp [GStatus.notDone])
      refine cancelInv_report hI hst s.err s.cancelled ?_ (hI.before hpc)
      rw [firstError_append, ← hI.err_first]
      rcases hor with rfl | hs
      · cases s.err <;> rfl
      · obtain ⟨m, hm⟩ := Option.isSome_iff_exists.1 hs
        rw [hm]
  | done i =>
    obtain ⟨_, e, hst, ⟨hwg, _⟩ | ⟨_, rfl⟩⟩ := cancelStep_done h
    · exact absurd hwg (cancelInv_done hI hst).1
    · exact (cancelInv_done hI hst).2
  | wait =>
    obtain ⟨_, _, hwg, rfl⟩ := cancelStep_wait h
    exact cancelInv_wait hI hwg

theorem cancelExec_inv {W : Type} {gs : List (Goroutine W)} {ctx : Context}
    (hret : AllReturn gs) (w : W) (evs : List CancelEvent) (s : CancelState W)
    (h : cancelExec gs ctx (cancelInit gs w) evs = some s) : CancelInv gs s :=
  cancelExec_induction gs ctx (cancelInit gs w) (fun _ s => CancelInv gs s)
    (cancelInit_inv gs w) (fun _ _ _ _ _ hI hs => cancelStep_inv hret hI hs) evs s h

theorem cancelStep_todo {W : Type} {gs : List (Goroutine W)} {ctx : Context}
    (hret : AllReturn gs) {s s1 : CancelState W} {ev : CancelEvent} (hI : CancelInv gs s)
    (h : cancelStep gs ctx s ev = some s1) : cancelTodo s1 < cancelTodo s := by
  cases ev with
  | run i =>
    obtain ⟨_, hst, g, hg, ⟨e, _, rfl⟩ | ⟨v, hv, _⟩⟩ := cancelStep_run h
    · have := todo_set s.status i _ (GStatus.returned e) hst rfl
      simp only [cancelTodo]
      omega
    · obtain ⟨e, he⟩ := hret.call_ret hg (Context.withCancel ctx s.cancelled) s.world
      rw [he] at hv; cases hv
  | report i =>
    obtain ⟨_, e, hst, ⟨_, _, rfl⟩ | ⟨_, rfl⟩⟩ := cancelStep_report h
    · have := todo_set s.status i _ (GStatus.published e) hst rfl
      simp only [cancelTodo]
      omega
    · have := todo_set s.status i _ (GStatus.published e) hst rfl
      simp only [cancelTodo]
      omega
  | done i =>
    obtain ⟨_, e, hst, ⟨hwg, _⟩ | ⟨_, rfl⟩⟩ := cancelStep_done h
    · exact absurd hwg (cancelInv_done hI hst).1
    · have := todo_set s.status i _ (GStatus.done e) hst rfl
      simp only [cancelTodo]
      omega
  | wait =>
    obtain ⟨_, hpc, _, rfl⟩ := cancelStep_wait h
    simp only [cancelTodo, hpc]
    omega

theorem cancelExec_bound {W : Type} {gs : List (Goroutine W)} {ctx : Context}
    (hret : AllReturn gs) (w : W) (evs : List CancelEvent) (s : CancelState W)
    (h : cancelExec gs ctx (cancelInit gs w) evs = some s) :
    evs.length + cancelTodo s ≤ 3 * gs.length + 1 :=
  cancelExec_induction gs ctx (cancelInit gs w)
    (fun evs s => evs.length + cancelTodo s ≤ 3 * gs.length + 1)
    (by simp [cancelTodo, cancelInit, weight_replicate, GStatus.todo]; omega)
    (fun evs s ev s1 hr hP hs => by
      have := cancelStep_todo hret (cancelExec_inv hret w evs s hr) hs
      simp only [List.length_append, List.length_singleton]
      omega) evs s h

theorem cancelStep_progress {W : Type} {gs : List (Goroutine W)} (ctx : Context)
    (hret : AllReturn gs) {s : CancelState W} (hI : CancelInv gs s)
    (hpc : s.pc = CancelPc.waiting) : ∃ ev s1, cancelStep gs ctx s ev = some s1 := by
  have hal := hI.alive
  rcases status_cases s.status with ⟨i, hst⟩ | ⟨i, e, hst⟩ | ⟨i, e, hst⟩ | hall
  · have hi : i < gs.length := by
      rw [← hI.len]; exact (List.getElem?_eq_some_iff.1 hst).1
    obtain ⟨w1, e, hc⟩ :=
      hret gs[i] (List.getElem_mem hi) (Context.withCancel ctx s.cancelled) s.world
    exact ⟨CancelEvent.run i, _, by
      simp only [cancelStep, hal, List.getElem?_eq_getElem hi, hst, hc]; rfl⟩
  · by_cases hc : e.isSome = true ∧ s.err.isNone = true
    · exact ⟨CancelEvent.report i, _, by simp only [cancelStep, hal, hst, hc]; rfl⟩
    · exact ⟨CancelEvent.report i, _, by
        simp only [cancelStep, hal, hst]; rw [if_neg hc]⟩
  · have hwg := (cancelInv_done hI hst).1
    exact ⟨CancelEvent.done i, _, by simp only [cancelStep, hal, hst, hwg]; rfl⟩
  · have hwg : s.wg = 0 := by rw [hI.wg_eq]; exact hall
    exact ⟨CancelEvent.wait, _, by simp only [cancelStep, hal, hpc, hwg]; rfl⟩

theorem cancelExec_complete {W : Type} {gs : List (Goroutine W)} (ctx : Context)
    (hret : AllReturn gs) (n : Nat) (s : CancelState W) (hI : CancelInv gs s)
    (hn : cancelTodo s ≤ n) :
    ∃ evs s1, cancelExec gs ctx s evs = some s1 ∧ s1.pc = CancelPc.returned := by
  induction n generalizing s with
  | zero =>
    cases hpc : s.pc with
    | returned => exact ⟨[], s, rfl, hpc⟩
    | waiting =>
      obtain ⟨ev, s1, hs⟩ := cancelStep_progress ctx hret hI hpc
      have := cancelStep_todo hret hI hs
      omega
  | succ k ih =>
    cases hpc : s.pc with
    | returned => exact ⟨[], s, rfl, hpc⟩
    | waiting =>
      obtain ⟨ev, s1, hs⟩ := cancelStep_progress ctx hret hI hpc
      have hlt := cancelStep_todo hret hI hs
      obtain ⟨evs, s2, he, hp⟩ := ih s1 (cancelStep_inv hret hI hs) (by omega)
      exact ⟨ev :: evs, s2, by simp only [cancelExec, hs, he], hp⟩

theorem cancelStep_value {W : Type} {gs : List (Goroutine W)} {ctx : Context}
    {s s1 : CancelState W} {ev : CancelEvent} (h : cancelStep gs ctx s ev = some s1) (i : Nat)
    (e : GoError) (hv : s1.status[i]?.bind GStatus.value = some e) :
    s.status[i]?.bind GStatus.value = some e ∨
      (ev = CancelEvent.run i ∧ ∃ g, gs[i]? = some g ∧
        (g.call (Context.withCancel ctx s.cancelled) s.world).2 = Outcome.ret e) := by
  cases ev with
  | run j =>
    obtain ⟨_, hst, g, hg, ⟨e1, he1, rfl⟩ | ⟨v, _, rfl⟩⟩ := cancelStep_run h
    · simp only [set_lookup _ i hst] at hv
      by_cases hj : i = j
      · subst hj
        simp only [if_true, Option.some_bind, GStatus.value, Option.some.injEq] at hv
        subst hv
        exact Or.inr ⟨rfl, g, hg, he1⟩
      · simp only [hj, if_false] at hv
        exact Or.inl hv
    · exact Or.inl hv
  | report j =>
    obtain ⟨_, e1, hst, ⟨_, _, rfl⟩ | ⟨_, rfl⟩⟩ := cancelStep_report h
    · simp only [value_set (GStatus.published e1) i hst rfl] at hv; exact Or.inl hv
    · simp only [value_set (GStatus.published e1) i hst rfl] at hv; exact Or.inl hv
  | done j =>
    obtain ⟨_, e1, hst, ⟨_, rfl⟩ | ⟨_, rfl⟩⟩ := cancelStep_done h
    · exact Or.inl hv
    · simp only [value_set (GStatus.done e1) i hst rfl] at hv; exact Or.inl hv
  | wait =>
    obtain ⟨_, _, _, rfl⟩ := cancelStep_wait h
    exact Or.inl hv

/-- Every result a goroutine of `CancelOnError` holds is the value its task returned at the
step of the schedule at which it was called, with the derived context as it was then. -/
theorem cancelExec_history {W : Type} (gs : List (Goroutine W)) (ctx : Context) (w : W)
    (evs : List CancelEvent) (s : CancelState W)
    (h : cancelExec gs ctx (cancelInit gs w) evs = some s) (i : Nat) (e : GoError)
    (hv : s.status[i]?.bind GStatus.value = some e) :
    ∃ pre post sk g, evs = pre ++ CancelEvent.run i :: post ∧
      cancelExec gs ctx (cancelInit gs w) pre = some sk ∧ gs[i]? = some g ∧
      (g.call (Context.withCancel ctx sk.cancelled) sk.world).2 = Outcome.ret e := by
  revert i e
  refine cancelExec_induction gs ctx (cancelInit gs w)
    (fun evs s => ∀ (i : Nat) (e : GoError), s.status[i]?.bind GStatus.value = some e →
      ∃ pre post sk g, evs = pre ++ CancelEvent.run i :: post ∧
        cancelExec gs ctx (cancelInit gs w) pre = some sk ∧ gs[i]? = some g ∧
        (g.call (Context.withCancel ctx sk.cancelled) sk.world).2 = Outcome.ret e)
    ?_ ?_ evs s h
  · intro i e hv
    simp only [cancelInit, List.getElem?_replicate] at hv
    split at hv <;> simp [GStatus.value] at hv
  · intro evs s ev s1 hr hP hs i e hv
    rcases cancelStep_value hs i e hv with h1 | ⟨rfl, g, hg, hc⟩
    · obtain ⟨pre, post, sk, g, rfl, h2, h3, h4⟩ := hP i e h1
      exact ⟨pre, post ++ [ev], sk, g, by simp, h2, h3, h4⟩
    · exact ⟨evs, [], s, g, rfl, hr, hg, hc⟩

theorem cancelInv_all_done {W : Type} {gs : List (Goroutine W)} {s : CancelState W}
    (hI : CancelInv gs s) (hpc : s.pc = CancelPc.returned) (i : Nat) (hi : i < gs.length) :
    ∃ e, s.status[i]? = some (GStatus.done e) := by
  have hwg := (hI.after hpc).1
  have hi1 : i < s.status.length := by rw [hI.len]; exact hi
  have hst : s.status[i]? = some s.status[i] := List.getElem?_eq_getElem hi1
  have hnd := weight_eq_zero GStatus.notDone s.status (by rw [← hI.wg_eq]; exact hwg) i _ hst
  cases hsi : s.status[i] with
  | launched => rw [hsi] at hnd; simp [GStatus.notDone] at hnd
  | returned e => rw [hsi] at hnd; simp [GStatus.notDone] at hnd
  | published e => rw [hsi] at hnd; simp [GStatus.notDone] at hnd
  | done e => exact ⟨e, by rw [hst, hsi]⟩

theorem weight_pub_all_done (l : List GStatus)
    (h : ∀ i, i < l.length → ∃ e, l[i]? = some (GStatus.done e)) :
    weight GStatus.pub l = l.length := by
  induction l with
  | nil => rfl
  | cons x rest ih =>
    obtain ⟨e, he⟩ := h 0 (by simp)
    simp only [List.getElem?_cons_zero, Option.some.injEq] at he
    subst he
    have := ih (fun i hi => by
      obtain ⟨e1, h1⟩ := h (i + 1) (by simp; omega)
      exact ⟨e1, by simpa using h1⟩)
    simp [weight, GStatus.pub, this]
    omega

theorem CancelOnError_eq {W : Type} (b : Batch W) (gs : List (Goroutine W))
    (h : b.prepareGoroutines = Except.ok gs) (hctx : b.ctx ≠ Context.nil) (w : W)
    (evs : List CancelEvent) (r : Option (CancelState W)) :
    b.CancelOnError w evs = Except.ok r ↔ cancelExec gs b.ctx (cancelInit gs w) evs = r := by
  simp [Batch.CancelOnError, h, hctx]

/-- C5: `CancelOnError` on a batch with a non-nil context whose composition yields the
tasks `gs`, none of which panics. Under every schedule the call proceeds without a crash
until the caller returns, within `3 * N + 1` steps. When it returns, every goroutine has
finished, the completions list every task exactly once with the value it returned when it
was called, the returned error is nil exactly when every task returned nil, and it is the
first non-nil error in the order in which the goroutines handed their results to the group,
which need not be the order of insertion. -/
theorem CancelOnError_returns_first_error {W : Type} (b : Batch W)
    (gs : List (Goroutine W)) (hgs : b.prepareGoroutines = Except.ok gs)
    (hctx : b.ctx ≠ Context.nil) (hret : AllReturn gs) (w : W) :
    (∀ evs s, b.CancelOnError w evs = Except.ok (some s) →
      s.crashed = none ∧ evs.length ≤ 3 * gs.length + 1 ∧
      (s.pc = CancelPc.waiting → ∃ ev s1, cancelStep gs b.ctx s ev = some s1)) ∧
    (∃ evs s, b.CancelOnError w evs = Except.ok (some s) ∧ s.pc = CancelPc.returned) ∧
    (∀ evs s, b.CancelOnError w evs = Except.ok (some s) → s.pc = CancelPc.returned →
      s.finished.length = gs.length ∧ (s.finished.map Prod.fst).Nodup ∧
      (∀ i, i < gs.length → ∃ e, s.status[i]? = some (GStatus.done e) ∧ (i, e) ∈ s.finished ∧
        ∃ pre post sk g, evs = pre ++ CancelEvent.run i :: post ∧
          b.CancelOnError w pre = Except.ok (some sk) ∧ gs[i]? = some g ∧
          (g.call (Context.withCancel b.ctx sk.cancelled) sk.world).2 = Outcome.ret e) ∧
      (s.result = none ↔ ∀ i, i < gs.length → s.status[i]? = some (GStatus.done none)) ∧
      s.result = firstError s.finished) := by
  refine ⟨?_, ?_, ?_⟩
  · intro evs s h
    rw [CancelOnError_eq b gs hgs hctx] at h
    have hI := cancelExec_inv hret w evs s h
    have hb := cancelExec_bound hret w evs s h
    exact ⟨hI.alive, by omega, fun hpc => cancelStep_progress b.ctx hret hI hpc⟩
  · obtain ⟨evs, s, h1, h2⟩ :=
      cancelExec_complete b.ctx hret _ (cancelInit gs w) (cancelInit_inv gs w) (Nat.le_refl _)
    exact ⟨evs, s, (CancelOnError_eq b gs hgs hctx w evs _).2 h1, h2⟩
  · intro evs s h hpc
    rw [CancelOnError_eq b gs hgs hctx] at h
    have hI := cancelExec_inv hret w evs s h
    have hall := cancelInv_all_done hI hpc
    have hres : s.result = firstError s.finished := by
      rw [(hI.after hpc).2.1, hI.err_first]
    refine ⟨?_, hI.nodup, ?_, ?_, hres⟩
    · rw [hI.count, weight_pub_all_done s.status (fun i hi => hall i (by rw [← hI.len]; exact hi)),
        hI.len]
    · intro i hi
      obtain ⟨e, he⟩ := hall i hi
      obtain ⟨pre, post, sk, g, h1, h2, h3, h4⟩ :=
        cancelExec_history gs b.ctx w evs s h i e (by simp [he, GStatus.value])
      exact ⟨e, he, (hI.fin_status i e).2 (Or.inr he), pre, post, sk, g, h1,
        (CancelOnError_eq b gs hgs hctx w pre _).2 h2, h3, h4⟩
    · rw [hres, firstError_eq_none]
      constructor
      · intro hn i hi
        obtain ⟨e, he⟩ := hall i hi
        have := hn i e ((hI.fin_status i e).2 (Or.inr he))
        rw [he, this]
      · intro hn i e hm
        have hst := (hI.fin_status i e).1 hm
        have hi : i < gs.length := by
          rw [← hI.len]
          rcases hst with h1 | h1 <;> exact (List.getElem?_eq_some_iff.1 h1).1
        have hd := hn i hi
        rcases hst with h1 | h1
        · rw [hd] at h1; cases h1
        · rw [hd] at h1; cases h1; rfl

/-- Two failing tasks: when task 1 completes before task 0, `CancelOnError` returns the
error of task 1 although task 0 was added first and returned the error `a`; when task 1
has completed before task 0 is called, task 0 sees the derived context cancelled. -/
theorem CancelOnError_returns_first_error_witness :
    failingBatch.prepareGoroutines = Except.ok failingTasks ∧ AllReturn failingTasks ∧
    (∃ s, failingBatch.CancelOnError 0
        [CancelEvent.run 1, CancelEvent.run 0, CancelEvent.report 1, CancelEvent.report 0,
          CancelEvent.done 0, CancelEvent.done 1, CancelEvent.wait] = Except.ok (some s) ∧
      s.pc = CancelPc.returned ∧ s.result = some "b" ∧
      s.finished = [(1, some "b"), (0, some "a")] ∧ s.result = firstError s.finished) ∧
    (∃ s, failingBatch.CancelOnError 0
        [CancelEvent.run 1, CancelEvent.report 1, CancelEvent.run 0, CancelEvent.report 0,
          CancelEvent.done 0, CancelEvent.done 1, CancelEvent.wait] = Except.ok (some s) ∧
      s.result = some "b" ∧ s.finished = [(1, some "b"), (0, some "cancelled")]) := by
  have hgs : failingBatch.prepareGoroutines = Except.ok failingTasks := rfl
  have hret : AllReturn failingTasks := by
    intro g hg c w
    simp only [failingTasks, List.mem_cons, List.mem_singleton, List.not_mem_nil,
      or_false] at hg
    rcases hg with rfl | rfl
    · simp only [Goroutine.call]
      split <;> exact ⟨_, _, rfl⟩
    · exact ⟨_, _, rfl⟩
  have h3 := (CancelOnError_returns_first_error failingBatch failingTasks hgs (by decide)
    hret 0).2.2
  have hex : ∃ s, failingBatch.CancelOnError 0
        [CancelEvent.run 1, CancelEvent.run 0, CancelEvent.report 1, CancelEvent.report 0,
          CancelEvent.done 0, CancelEvent.done 1, CancelEvent.wait] = Except.ok (some s) ∧
      s.pc = CancelPc.returned ∧ s.result = some "b" ∧
      s.finished = [(1, some "b"), (0, some "a")] := ⟨_, rfl, rfl, rfl, rfl⟩
  obtain ⟨s, h4, h5, h6, h7⟩ := hex
  exact ⟨hgs, hret, ⟨s, h4, h5, h6, h7, (h3 _ s h4 h5).2.2.2.2⟩, ⟨_, rfl, rfl, rfl⟩⟩

/-! ## Async: the steps -/

theorem asyncExec_append {W : Type} (gs : List (Goroutine W)) (ctx : Context) (cap : Nat)
    (s : AsyncState W) (evs : List AsyncEvent) (ev : AsyncEvent) :
    asyncExec gs ctx cap s (evs ++ [ev])
      = (asyncExec gs ctx cap s evs).bind (fun s1 => asyncStep gs ctx cap s1 ev) := by
  induction evs generalizing s with
  | nil =>
    simp only [List.nil_append, asyncExec, Option.some_bind]
    cases asyncStep gs ctx cap s ev <;> rfl
  | cons e rest ih =>
    simp only [List.cons_append, asyncExec]
    cases asyncStep gs ctx cap s e with
    | none => rfl
    | some s1 => exact ih s1

/-- Induction over the schedules that follow the return of `async`. -/
theorem asyncExec_induction {W : Type} (gs : List (Goroutine W)) (ctx : Context) (cap : Nat)
    (s0 : AsyncState W) (P : List AsyncEvent → AsyncState W → Prop) (h0 : P [] s0)
    (hstep : ∀ evs s ev s1, asyncExec gs ctx cap s0 evs = some s → P evs s →
      asyncStep gs ctx cap s ev = some s1 → P (evs ++ [ev]) s1)
    (evs : List AsyncEvent) (s : AsyncState W) (h : asyncExec gs ctx cap s0 evs = some s) :
    P evs s := by
  induction evs using List.reverseRecOn generalizing s with
  | nil =>
    simp only [asyncExec, Option.some.injEq] at h
    subst h
    exact h0
  | append_singleton evs ev ih =>
    rw [asyncExec_append] at h
    cases hm : asyncExec gs ctx cap s0 evs with
    | none => rw [hm] at h; cases h
    | some s1 =>
      rw [hm] at h
      exact hstep evs s1 ev s hm (ih s1 hm) h

theorem asyncStep_run {W : Type} {gs : List (Goroutine W)} {ctx : Context} {cap : Nat}
    {s s1 : AsyncState W} {i : Nat} (h : asyncStep gs ctx cap s (AsyncEvent.run i) = some s1) :
    s.crashed = none ∧ s.status[i]? = some GStatus.launched ∧ ∃ g, gs[i]? = some g ∧
      ((∃ e, (g.call ctx s.world).2 = Outcome.ret e ∧
          s1 = { s with world := (g.call ctx s.world).1,
                        status := s.status.set i (GStatus.returned e) }) ∨
        (∃ v, (g.call ctx s.world).2 = Outcome.panic v ∧
          s1 = { s with world := (g.call ctx s.world).1, crashed := some v })) := by
  simp only [asyncStep] at h
  split at h
  · rename_i g hc hg hst
    refine ⟨hc, hst, g, hg, ?_⟩
    split at h
    · rename_i w e hcall
      simp only [Option.some.injEq] at h
      exact Or.inl ⟨e, by rw [hcall], by rw [hcall, ← h]⟩
    · rename_i w v hcall
      simp only [Option.some.injEq] at h
      exact Or.inr ⟨v, by rw [hcall], by rw [hcall, ← h]⟩
  · cases h

theorem asyncStep_send {W : Type} {gs : List (Goroutine W)} {ctx : Context} {cap : Nat}
    {s s1 : AsyncState W} {i : Nat}
    (h : asyncStep gs ctx cap s (AsyncEvent.send i) = some s1) :
    s.crashed = none ∧ ∃ e, s.status[i]? = some (GStatus.returned e) ∧
      ((s.closed = true ∧ s1 = { s with crashed := some "send on closed channel" }) ∨
        (s.closed = false ∧ s.errCh.length < cap ∧
          s1 = { s with errCh := s.errCh ++ [e],
                        status := s.status.set i (GStatus.published e) })) := by
  simp only [asyncStep] at h
  split at h
  · rename_i e hc hst
    refine ⟨hc, e, hst, ?_⟩
    split at h
    · rename_i hcl
      simp only [Option.some.injEq] at h
      exact Or.inl ⟨hcl, h.symm⟩
    · rename_i hcl
      split at h
      · rename_i hlen
        simp only [Option.some.injEq] at h
        exact Or.inr ⟨by simpa using hcl, hlen, h.symm⟩
      · cases h
  · cases h

theorem asyncStep_handoff {W : Type} {gs : List (Goroutine W)} {ctx : Context} {cap : Nat}
    {s s1 : AsyncState W} {i : Nat}
    (h : asyncStep gs ctx cap s (AsyncEvent.handoff i) = some s1) :
    s.crashed = none ∧ ∃ e, s.status[i]? = some (GStatus.returned e) ∧
      ((s.closed = true ∧ s1 = { s with crashed := some "send on closed channel" }) ∨
        (s.closed = false ∧ s.errCh = [] ∧ s.drained = false ∧
          s1 = { s with received := s.received ++ [e],
                        status := s.status.set i (GStatus.published e) })) := by
  simp only [asyncStep] at h
  split at h
  · rename_i e hc hst
    refine ⟨hc, e, hst, ?_⟩
    split at h
    · rename_i hcl
      simp only [Option.some.injEq] at h
      exact Or.inl ⟨hcl, h.symm⟩
    · rename_i hcl
      split at h
      · rename_i hcond
        simp only [Option.some.injEq] at h
        exact Or.inr ⟨by simpa using hcl, List.length_eq_zero.1 hcond.1, hcond.2, h.symm⟩
      · cases h
  · cases h

theorem asyncStep_done {W : Type} {gs : List (Goroutine W)} {ctx : Context} {cap : Nat}
    {s s1 : AsyncState W} {i : Nat}
    (h : asyncStep gs ctx cap s (AsyncEvent.done i) = some s1) :
    s.crashed = none ∧ ∃ e, s.status[i]? = some (GStatus.published e) ∧
      ((s.wg = 0 ∧ s1 = { s with crashed := some "sync: negative WaitGroup counter" }) ∨
        (s.wg ≠ 0 ∧
          s1 = { s with wg := s.wg - 1, status := s.status.set i (GStatus.done e) })) := by
  simp only [asyncStep] at h
  split at h
  · rename_i e hc hst
    refine ⟨hc, e, hst, ?_⟩
    split at h
    · rename_i hwg
      simp only [Option.some.injEq] at h
      exact Or.inl ⟨hwg, h.symm⟩
    · rename_i hwg
      simp only [Option.some.injEq] at h
      exact Or.inr ⟨hwg, h.symm⟩
  · cases h

theorem asyncStep_close {W : Type} {gs : List (Goroutine W)} {ctx : Context} {cap : Nat}
    {s s1 : AsyncState W} (h : asyncStep gs ctx cap s AsyncEvent.close = some s1) :
    s.crashed = none ∧ s.closed = false ∧ s.wg = 0 ∧ s1 = { s with closed := true } := by
  simp only [asyncStep] at h
  split at h
  · rename_i hc hcl
    split at h
    · rename_i hwg
      simp only [Option.some.injEq] at h
      exact ⟨hc, hcl, hwg, h.symm⟩
    · cases h
  · cases h

theorem asyncStep_recv {W : Type} {gs : List (Goroutine W)} {ctx : Context} {cap : Nat}
    {s s1 : AsyncState W} (h : asyncStep gs ctx cap s AsyncEvent.recv = some s1) :
    s.crashed = none ∧ s.drained = false ∧ ∃ e rest, s.errCh = e :: rest ∧
      s1 = { s with errCh := rest, received := s.received ++ [e] } := by
  simp only [asyncStep] at h
  split at h
  · rename_i e rest hc hd hch
    simp only [Option.some.injEq] at h
    exact ⟨hc, hd, e, rest, hch, h.symm⟩
  · cases h

theorem asyncStep_recvClosed {W : Type} {gs : List (Goroutine W)} {ctx : Context} {cap : Nat}
    {s s1 : AsyncState W} (h : asyncStep gs ctx cap s AsyncEvent.recvClosed = some s1) :
    s.crashed = none ∧ s.drained = false ∧ s.errCh = [] ∧ s.closed = true ∧
      s1 = { s with drained := true } := by
  simp only [asyncStep] at h
  split at h
  · rename_i hc hd hch
    split at h
    · rename_i hcl
      simp only [Option.some.injEq] at h
      exact ⟨hc, hd, hch, hcl, h.symm⟩
    · cases h
  · cases h

/-! ## Async: published values -/

theorem sent_set_same (l : List GStatus) (i : Nat) (a b : GStatus) (h : l[i]? = some a)
    (hab : b.sent = a.sent) : (l.set i b).filterMap GStatus.sent = l.filterMap GStatus.sent := by
  induction l generalizing i with
  | nil => simp at h
  | cons x rest ih =>
    cases i with
    | zero =>
      simp only [List.getElem?_cons_zero, Option.some.injEq] at h
      subst h
      simp only [List.set_cons_zero, List.filterMap_cons, hab]
    | succ j =>
      simp only [List.getElem?_cons_succ] at h
      simp only [List.set_cons_succ, List.filterMap_cons, ih j h]

theorem sent_set_new (l : List GStatus) (i : Nat) (a b : GStatus) (e : GoError)
    (h : l[i]? = some a) (ha : a.sent = none) (hb : b.sent = some e) :
    ((l.set i b).filterMap GStatus.sent).Perm (e :: l.filterMap GStatus.sent) := by
  induction l generalizing i with
  | nil => simp at h
  | cons x rest ih =>
    cases i with
    | zero =>
      simp only [List.getElem?_cons_zero, Option.some.injEq] at h
      subst h
      simp only [List.set_cons_zero, List.filterMap_cons, ha, hb]
      exact List.Perm.refl _
    | succ j =>
      simp only [List.getElem?_cons_succ] at h
      have := ih j h
      simp only [List.set_cons_succ, List.filterMap_cons]
      cases hx : x.sent with
      | none => simpa using this
      | some e1 =>
        simp only
        exact (List.Perm.cons e1 this).trans (List.Perm.swap e e1 _)

theorem sent_length (l : List GStatus) :
    (l.filterMap GStatus.sent).length = weight GStatus.pub l := by
  induction l with
  | nil => rfl
  | cons x rest ih =>
    cases x <;> simp [List.filterMap_cons, GStatus.sent, weight, GStatus.pub, ih] <;> omega

theorem sent_all_done (l : List GStatus)
    (h : ∀ i, i < l.length → ∃ e, l[i]? = some (GStatus.done e)) (i : Nat) (e : GoError)
    (hi : l[i]? = some (GStatus.done e)) : (l.filterMap GStatus.sent)[i]? = some e := by
  induction l generalizing i with
  | nil => simp at hi
  | cons x rest ih =>
    obtain ⟨e0, he0⟩ := h 0 (by simp)
    simp only [List.getElem?_cons_zero, Option.some.injEq] at he0
    subst he0
    have hrest : ∀ j, j < rest.length → ∃ e1, rest[j]? = some (GStatus.done e1) := by
      intro j hj
      obtain ⟨e1, h1⟩ := h (j + 1) (by simp; omega)
      exact ⟨e1, by simpa using h1⟩
    cases i with
    | zero =>
      simp only [List.getElem?_cons_zero, Option.some.injEq, GStatus.done.injEq] at hi
      subst hi
      simp [List.filterMap_cons, GStatus.sent]
    | succ j =>
      simp only [List.getElem?_cons_succ] at hi
      simpa [List.filterMap_cons, GStatus.sent] using ih hrest j hi

theorem asyncInv_open {W : Type} {gs : List (Goroutine W)} {cap : Nat} {s : AsyncState W}
    (hI : AsyncInv gs cap s) {i : Nat} {st : GStatus} (hst : s.status[i]? = some st)
    (hnd : 0 < st.notDone) : s.closed = false ∧ s.drained = false ∧ s.wg ≠ 0 := by
  have hpos := weight_pos GStatus.notDone s.status i st hst hnd
  have hwg : s.wg ≠ 0 := by rw [hI.wg_eq]; omega
  have hcl : s.closed = false := by
    cases h : s.closed with
    | false => rfl
    | true => exact absurd (hI.closed_wg h) hwg
  refine ⟨hcl, ?_, hwg⟩
  cases h : s.drained with
  | false => rfl
  | true => rw [(hI.drained_closed h).1] at hcl; cases hcl

theorem asyncInit_inv {W : Type} (gs : List (Goroutine W)) (cap : Nat) (w : W) :
    AsyncInv gs cap (asyncInit gs w) where
  len := by simp [asyncInit]
  alive := rfl
  wg_eq := by simp [asyncInit, weight_replicate, GStatus.notDone]
  closed_wg := fun h => by simp [asyncInit] at h
  drained_closed := fun h => by simp [asyncInit] at h
  room := by simp [asyncInit]
  perm := by
    have : (List.replicate gs.length GStatus.launched).filterMap GStatus.sent = [] := by
      rw [List.filterMap_eq_nil_iff]
      intro a ha
      rw [(List.mem_replicate.1 ha).2]
      rfl
    simp [asyncInit, this]

theorem asyncInv_run {W : Type} {gs : List (Goroutine W)} {cap : Nat} {s : AsyncState W}
    (hI : AsyncInv gs cap s) {i : Nat} (hst : s.status[i]? = some GStatus.launched) (w : W)
    (e : GoError) :
    AsyncInv gs cap { s with world := w, status := s.status.set i (GStatus.returned e) } := by
  have hw1 := weight_set GStatus.notDone s.status i _ (GStatus.returned e) hst
  simp only [GStatus.notDone] at hw1
  have hwg := hI.wg_eq
  refine
    { len := by simp [hI.len], alive := hI.alive, wg_eq := ?_, closed_wg := ?_,
      drained_closed := hI.drained_closed, room := hI.room, perm := ?_ }
  · simp only
    omega
  · intro h; exact hI.closed_wg h
  · simp only [sent_set_same s.status i _ (GStatus.returned e) hst rfl]
    exact hI.perm

theorem asyncInv_send {W : Type} {gs : List (Goroutine W)} {cap : Nat} {s : AsyncState W}
    (hI : AsyncInv gs cap s) {i : Nat} {e : GoError}
    (hst : s.status[i]? = some (GStatus.returned e)) (hroom : s.errCh.length < cap) :
    AsyncInv gs cap { s with errCh := s.errCh ++ [e],
                             status := s.status.set i (GStatus.published e) } := by
  have hw1 := weight_set GStatus.notDone s.status i _ (GStatus.published e) hst
  simp only [GStatus.notDone] at hw1
  have hwg := hI.wg_eq
  obtain ⟨hcl, hdr, _⟩ := asyncInv_open hI hst (by simp [GStatus.notDone])
  refine
    { len := by simp [hI.len], alive := hI.alive, wg_eq := ?_, closed_wg := ?_,
      drained_closed := ?_, room := ?_, perm := ?_ }
  · simp only
    omega
  · intro h; simp only at h; rw [hcl] at h; cases h
  · intro h; simp only at h; rw [hdr] at h; cases h
  · simp only [List.length_append, List.length_singleton]
    omega
  · have hp := sent_set_new s.status i _ (GStatus.published e) e hst rfl rfl
    refine List.Perm.trans ?_ hp.symm
    simp only
    rw [← List.append_assoc]
    exact (List.perm_append_singleton e _).trans (List.Perm.cons e hI.perm)

theorem asyncInv_handoff {W : Type} {gs : List (Goroutine W)} {cap : Nat} {s : AsyncState W}
    (hI : AsyncInv gs cap s) {i : Nat} {e : GoError}
    (hst : s.status[i]? = some (GStatus.returned e)) (hch : s.errCh = []) :
    AsyncInv gs cap { s with received := s.received ++ [e],
                             status := s.status.set i (GStatus.published e) } := by
  have hw1 := weight_set GStatus.notDone s.status i _ (GStatus.published e) hst
  simp only [GStatus.notDone] at hw1
  have hwg := hI.wg_eq
  obtain ⟨hcl, hdr, _⟩ := asyncInv_open hI hst (by simp [GStatus.notDone])
  refine
    { len := by simp [hI.len], alive := hI.alive, wg_eq := ?_, closed_wg := ?_,
      drained_closed := ?_, room := hI.room, perm := ?_ }
  · simp only
    omega
  · intro h; simp only at h; rw [hcl] at h; cases h
  · intro h; simp only at h; rw [hdr] at h; cases h
  · have hp := sent_set_new s.status i _ (GStatus.published e) e hst rfl rfl
    have h0 := hI.perm
    rw [hch, List.append_nil] at h0
    refine List.Perm.trans ?_ hp.symm
    simp only [hch, List.append_nil]
    exact (List.perm_append_singleton e _).trans (List.Perm.cons e h0)

theorem asyncInv_done {W : Type} {gs : List (Goroutine W)} {cap : Nat} {s : AsyncState W}
    (hI : AsyncInv gs cap s) {i : Nat} {e : GoError}
    (hst : s.status[i]? = some (GStatus.published e)) :
    AsyncInv gs cap { s with wg := s.wg - 1, status := s.status.set i (GStatus.done e) } := by
  have hw1 := weight_set GStatus.notDone s.status i _ (GStatus.done e) hst
  simp only [GStatus.notDone] at hw1
  have hwg := hI.wg_eq
  obtain ⟨hcl, hdr, _⟩ := asyncInv_open hI hst (by simp [GStatus.notDone])
  refine
    { len := by simp [hI.len], alive := hI.alive, wg_eq := ?_, closed_wg := ?_,
      drained_closed := ?_, room := hI.room, perm := ?_ }
  · simp only
    omega
  · intro h; simp only at h; rw [hcl] at h; cases h
  · intro h; simp only at h; rw [hdr] at h; cases h
  · simp only [sent_set_same s.status i _ (GStatus.done e) hst rfl]
    exact hI.perm

theorem asyncInv_close {W : Type} {gs : List (Goroutine W)} {cap : Nat} {s : AsyncState W}
    (hI : AsyncInv gs cap s) (hwg : s.wg = 0) (hd : s.closed = false) :
    AsyncInv gs cap { s with closed := true } where
  len := hI.len
  alive := hI.alive
  wg_eq := hI.wg_eq
  closed_wg := fun _ => hwg
  drained_closed := fun h => by
    have := (hI.drained_closed h).1
    rw [hd] at this; cases this
  room := hI.room
  perm := hI.perm

theorem asyncInv_recv {W : Type} {gs : List (Goroutine W)} {cap : Nat} {s : AsyncState W}
    (hI : AsyncInv gs cap s) {e : GoError} {rest : List GoError} (hch : s.errCh = e :: rest)
    (hd : s.drained = false) :
    AsyncInv gs cap { s with errCh := rest, received := s.received ++ [e] } where
  len := hI.len
  alive := hI.alive
  wg_eq := hI.wg_eq
  closed_wg := hI.closed_wg
  drained_closed := fun h => by simp only at h; rw [hd] at h; cases h
  room := by
    have := hI.room
    rw [hch] at this
    simp only [List.length_cons] at this
    simp only
    omega
  perm := by
    have := hI.perm
    rw [hch] at this
    simpa using this

theorem asyncInv_recvClosed {W : Type} {gs : List (Goroutine W)} {cap : Nat}
    {s : AsyncState W} (hI : AsyncInv gs cap s) (hch : s.errCh = [])
    (hcl : s.closed = true) : AsyncInv gs cap { s with drained := true } where
  len := hI.len
  alive := hI.alive
  wg_eq := hI.wg_eq
  closed_wg := hI.closed_wg
  drained_closed := fun _ => ⟨hcl, hch⟩
  room := hI.room
  perm := hI.perm

theorem asyncStep_inv {W : Type} {gs : List (Goroutine W)} {ctx : Context} {cap : Nat}
    (hret : AllReturn gs) {s s1 : AsyncState W} {ev : AsyncEvent} (hI : AsyncInv gs cap s)
    (h : asyncStep gs ctx cap s ev = some s1) : AsyncInv gs cap s1 := by
  cases ev with
  | run i =>
    obtain ⟨_, hst, g, hg, ⟨e, _, rfl⟩ | ⟨v, hv, _⟩⟩ := asyncStep_run h
    · exact asyncInv_run hI hst _ e
    · obtain ⟨e, he⟩ := hret.call_ret hg ctx s.world
      rw [he] at hv; cases hv
  | send i =>
    obtain ⟨_, e, hst, ⟨hcl, _⟩ | ⟨_, hroom, rfl⟩⟩ := asyncStep_send h
    · rw [(asyncInv_open hI hst (by simp [GStatus.notDone])).1] at hcl; cases hcl
    · exact asyncInv_send hI hst hroom
  | handoff i =>
    obtain ⟨_, e, hst, ⟨hcl, _⟩ | ⟨_, hch, _, rfl⟩⟩ := asyncStep_handoff h
    · rw [(asyncInv_open hI hst (by simp [GStatus.notDone])).1] at hcl; cases hcl
    · exact asyncInv_handoff hI hst hch
  | done i =>
    obtain ⟨_, e, hst, ⟨hwg, _⟩ | ⟨_, rfl⟩⟩ := asyncStep_done h
    · exact absurd hwg (asyncInv_open hI hst (by simp [GStatus.notDone])).2.2
    · exact asyncInv_done hI hst
  | close =>
    obtain ⟨_, hcl, hwg, rfl⟩ := asyncStep_close h
    exact asyncInv_close hI hwg hcl
  | recv =>
    obtain ⟨_, hd, e, rest, hch, rfl⟩ := asyncStep_recv h
    exact asyncInv_recv hI hch hd
  | recvClosed =>
    obtain ⟨_, _, hch, hcl, rfl⟩ := asyncStep_recvClosed h
    exact asyncInv_recvClosed hI hch hcl

theorem asyncExec_inv {W : Type} {gs : List (Goroutine W)} {ctx : Context} {cap : Nat}
    (hret : AllReturn gs) (w : W) (evs : List AsyncEvent) (s : AsyncState W)
    (h : asyncExec gs ctx cap (asyncInit gs w) evs = some s) : AsyncInv gs cap s :=
  asyncExec_induction gs ctx cap (asyncInit gs w) (fun _ s => AsyncInv gs cap s)
    (asyncInit_inv gs cap w) (fun _ _ _ _ _ hI hs => asyncStep_inv hret hI hs) evs s h

theorem asyncTodo_set (l : List GStatus) (i : Nat) (a b : GStatus) (k : Nat)
    (h : l[i]? = some a) (hab : b.asyncTodo + k = a.asyncTodo) :
    weight GStatus.asyncTodo (l.set i b) + k = weight GStatus.asyncTodo l := by
  have := weight_set GStatus.asyncTodo l i a b h
  omega

theorem asyncStep_todo {W : Type} {gs : List (Goroutine W)} {ctx : Context} {cap : Nat}
    (hret : AllReturn gs) {s s1 : AsyncState W} {ev : AsyncEvent} (hI : AsyncInv gs cap s)
    (h : asyncStep gs ctx cap s ev = some s1) : asyncTodo s1 < asyncTodo s := by
  cases ev with
  | run i =>
    obtain ⟨_, hst, g, hg, ⟨e, _, rfl⟩ | ⟨v, hv, _⟩⟩ := asyncStep_run h
    · have := asyncTodo_set s.status i _ (GStatus.returned e) 1 hst rfl
      simp only [asyncTodo]
      omega
    · obtain ⟨e, he⟩ := hret.call_ret hg ctx s.world
      rw [he] at hv; cases hv
  | send i =>
    obtain ⟨_, e, hst, ⟨hcl, _⟩ | ⟨_, hroom, rfl⟩⟩ := asyncStep_send h
    · rw [(asyncInv_open hI hst (by simp [GStatus.notDone])).1] at hcl; cases hcl
    · have := asyncTodo_set s.status i _ (GStatus.published e) 2 hst rfl
      simp only [asyncTodo, List.length_append, List.length_singleton]
      omega
  | handoff i =>
    obtain ⟨_, e, hst, ⟨hcl, _⟩ | ⟨_, hch, _, rfl⟩⟩ := asyncStep_handoff h
    · rw [(asyncInv_open hI hst (by simp [GStatus.notDone])).1] at hcl; cases hcl
    · have := asyncTodo_set s.status i _ (GStatus.published e) 2 hst rfl
      simp only [asyncTodo]
      omega
  | done i =>
    obtain ⟨_, e, hst, ⟨hwg, _⟩ | ⟨_, rfl⟩⟩ := asyncStep_done h
    · exact absurd hwg (asyncInv_open hI hst (by simp [GStatus.notDone])).2.2
    · have := asyncTodo_set s.status i _ (GStatus.done e) 1 hst rfl
      simp only [asyncTodo]
      omega
  | close =>
    obtain ⟨_, hcl, hwg, rfl⟩ := asyncStep_close h
    simp only [asyncTodo, hcl]
    simp
  | recv =>
    obtain ⟨_, hd, e, rest, hch, rfl⟩ := asyncStep_recv h
    simp only [asyncTodo, hch, List.length_cons]
    omega
  | recvClosed =>
    obtain ⟨_, hd, hch, hcl, rfl⟩ := asyncStep_recvClosed h
    simp only [asyncTodo, hd]
    simp

theorem asyncExec_bound {W : Type} {gs : List (Goroutine W)} {ctx : Context} {cap : Nat}
    (hret : AllReturn gs) (w : W) (evs : List AsyncEvent) (s : AsyncState W)
    (h : asyncExec gs ctx cap (asyncInit gs w) evs = some s) :
    evs.length + asyncTodo s ≤ 4 * gs.length + 2 :=
  asyncExec_induction gs ctx cap (asyncInit gs w)
    (fun evs s => evs.length + asyncTodo s ≤ 4 * gs.length + 2)
    (by simp [asyncTodo, asyncInit, weight_replicate, GStatus.asyncTodo]; omega)
    (fun evs s ev s1 hr hP hs => by
      have := asyncStep_todo hret (asyncExec_inv hret w evs s hr) hs
      simp only [List.length_append, List.length_singleton]
      omega) evs s h

theorem asyncStep_progress {W : Type} {gs : List (Goroutine W)} (ctx : Context) (cap : Nat)
    (hret : AllReturn gs) {s : AsyncState W} (hI : AsyncInv gs cap s)
    (hd : s.drained = false) : ∃ ev s1, asyncStep gs ctx cap s ev = some s1 := by
  have hal := hI.alive
  rcases status_cases s.status with ⟨i, hst⟩ | ⟨i, e, hst⟩ | ⟨i, e, hst⟩ | hall
  · have hi : i < gs.length := by
      rw [← hI.len]; exact (List.getElem?_eq_some_iff.1 hst).1
    obtain ⟨w1, e, hc⟩ := hret gs[i] (List.getElem_mem hi) ctx s.world
    exact ⟨AsyncEvent.run i, _, by
      simp only [asyncStep, hal, List.getElem?_eq_getElem hi, hst, hc]; rfl⟩
  · obtain ⟨hcl, _, _⟩ := asyncInv_open hI hst (by simp [GStatus.notDone])
    by_cases hroom : s.errCh.length < cap
    · exact ⟨AsyncEvent.send i, _, by simp only [asyncStep, hal, hst, hcl, hroom]; rfl⟩
    · cases hch : s.errCh with
      | nil =>
        exact ⟨AsyncEvent.handoff i, _, by
          simp only [asyncStep, hal, hst, hcl, hch, hd]; rfl⟩
      | cons x rest =>
        exact ⟨AsyncEvent.recv, _, by simp only [asyncStep, hal, hd, hch]; rfl⟩
  · have hwg := (asyncInv_open hI hst (by simp [GStatus.notDone])).2.2
    exact ⟨AsyncEvent.done i, _, by simp only [asyncStep, hal, hst, hwg]; rfl⟩
  · have hwg : s.wg = 0 := by rw [hI.wg_eq]; exact hall
    cases hcl : s.closed with
    | false => exact ⟨AsyncEvent.close, _, by simp only [asyncStep, hal, hcl, hwg]; rfl⟩
    | true =>
      cases hch : s.errCh with
      | nil => exact ⟨AsyncEvent.recvClosed, _, by simp only [asyncStep, hal, hd, hch, hcl]; rfl⟩
      | cons x rest => exact ⟨AsyncEvent.recv, _, by simp only [asyncStep, hal, hd, hch]; rfl⟩

theorem asyncExec_complete {W : Type} {gs : List (Goroutine W)} (ctx : Context) (cap : Nat)
    (hret : AllReturn gs) (n : Nat) (s : AsyncState W) (hI : AsyncInv gs cap s)
    (hn : asyncTodo s ≤ n) :
    ∃ evs s1, asyncExec gs ctx cap s evs = some s1 ∧ s1.drained = true := by
  induction n generalizing s with
  | zero =>
    cases hd : s.drained with
    | true => exact ⟨[], s, rfl, hd⟩
    | false =>
      obtain ⟨ev, s1, hs⟩ := asyncStep_progress ctx cap hret hI hd
      have := asyncStep_todo hret hI hs
      omega
  | succ k ih =>
    cases hd : s.drained with
    | true => exact ⟨[], s, rfl, hd⟩
    | false =>
      obtain ⟨ev, s1, hs⟩ := asyncStep_progress ctx cap hret hI hd
      have hlt := asyncStep_todo hret hI hs
      obtain ⟨evs, s2, he, hp⟩ := ih s1 (asyncStep_inv hret hI hs) (by omega)
      exact ⟨ev :: evs, s2, by simp only [asyncExec, hs, he], hp⟩

theorem asyncStep_value {W : Type} {gs : List (Goroutine W)} {ctx : Context} {cap : Nat}
    {s s1 : AsyncState W} {ev : AsyncEvent} (h : asyncStep gs ctx cap s ev = some s1)
    (i : Nat) (e : GoError) (hv : s1.status[i]?.bind GStatus.value = some e) :
    s.status[i]?.bind GStatus.value = some e ∨
      (ev = AsyncEvent.run i ∧ ∃ g, gs[i]? = some g ∧
        (g.call ctx s.world).2 = Outcome.ret e) := by
  cases ev with
  | run j =>
    obtain ⟨_, hst, g, hg, ⟨e1, he1, rfl⟩ | ⟨v, _, rfl⟩⟩ := asyncStep_run h
    · simp only [set_lookup _ i hst] at hv
      by_cases hj : i = j
      · subst hj
        simp only [if_true, Option.some_bind, GStatus.value, Option.some.injEq] at hv
        subst hv
        exact Or.inr ⟨rfl, g, hg, he1⟩
      · simp only [hj, if_false] at hv
        exact Or.inl hv
    · exact Or.inl hv
  | send j =>
    obtain ⟨_, e1, hst, ⟨_, rfl⟩ | ⟨_, _, rfl⟩⟩ := asyncStep_send h
    · exact Or.inl hv
    · simp only [value_set (GStatus.published e1) i hst rfl] at hv; exact Or.inl hv
  | handoff j =>
    obtain ⟨_, e1, hst, ⟨_, rfl⟩ | ⟨_, _, _, rfl⟩⟩ := asyncStep_handoff h
    · exact Or.inl hv
    · simp only [value_set (GStatus.published e1) i hst rfl] at hv; exact Or.inl hv
  | done j =>
    obtain ⟨_, e1, hst, ⟨_, rfl⟩ | ⟨_, rfl⟩⟩ := asyncStep_done h
    · exact Or.inl hv
    · simp only [value_set (GStatus.done e1) i hst rfl] at hv; exact Or.inl hv
  | close =>
    obtain ⟨_, _, _, rfl⟩ := asyncStep_close h
    exact Or.inl hv
  | recv =>
    obtain ⟨_, _, e1, rest, _, rfl⟩ := asyncStep_recv h
    exact Or.inl hv
  | recvClosed =>
    obtain ⟨_, _, _, _, rfl⟩ := asyncStep_recvClosed h
    exact Or.inl hv

/-- Every result a goroutine of `async` holds is the value its task returned at the step of
the schedule at which it was called. -/
theorem asyncExec_history {W : Type} (gs : List (Goroutine W)) (ctx : Context) (cap : Nat)
    (w : W) (evs : List AsyncEvent) (s : AsyncState W)
    (h : asyncExec gs ctx cap (asyncInit gs w) evs = some s) (i : Nat) (e : GoError)
    (hv : s.status[i]?.bind GStatus.value = some e) :
    ∃ pre post sk g, evs = pre ++ AsyncEvent.run i :: post ∧
      asyncExec gs ctx cap (asyncInit gs w) pre = some sk ∧ gs[i]? = some g ∧
      (g.call ctx sk.world).2 = Outcome.ret e := by
  revert i e
  refine asyncExec_induction gs ctx cap (asyncInit gs w)
    (fun evs s => ∀ (i : Nat) (e : GoError), s.status[i]?.bind GStatus.value = some e →
      ∃ pre post sk g, evs = pre ++ AsyncEvent.run i :: post ∧
        asyncExec gs ctx cap (asyncInit gs w) pre = some sk ∧ gs[i]? = some g ∧
        (g.call ctx sk.world).2 = Outcome.ret e) ?_ ?_ evs s h
  · intro i e hv
    simp only [asyncInit, List.getElem?_replicate] at hv
    split at hv <;> simp [GStatus.value] at hv
  · intro evs s ev s1 hr hP hs i e hv
    rcases asyncStep_value hs i e hv with h1 | ⟨rfl, g, hg, hc⟩
    · obtain ⟨pre, post, sk, g, rfl, h2, h3, h4⟩ := hP i e h1
      exact ⟨pre, post ++ [ev], sk, g, by simp, h2, h3, h4⟩
    · exact ⟨evs, [], s, g, rfl, hr, hg, hc⟩

theorem asyncInv_all_done {W : Type} {gs : List (Goroutine W)} {cap : Nat}
    {s : AsyncState W} (hI : AsyncInv gs cap s) (hcl : s.closed = true) (i : Nat)
    (hi : i < s.status.length) : ∃ e, s.status[i]? = some (GStatus.done e) := by
  have hwg := hI.closed_wg hcl
  have hst : s.status[i]? = some s.status[i] := List.getElem?_eq_getElem hi
  have hnd := weight_eq_zero GStatus.notDone s.status (by rw [← hI.wg_eq]; exact hwg) i _ hst
  cases hsi : s.status[i] with
  | launched => rw [hsi] at hnd; simp [GStatus.notDone] at hnd
  | returned e => rw [hsi] at hnd; simp [GStatus.notDone] at hnd
  | published e => rw [hsi] at hnd; simp [GStatus.notDone] at hnd
  | done e => exact ⟨e, by rw [hst, hsi]⟩

theorem asyncInv_received_le {W : Type} {gs : List (Goroutine W)} {cap : Nat}
    {s : AsyncState W} (hI : AsyncInv gs cap s) : s.received.length ≤ gs.length := by
  have h1 := hI.perm.length_eq
  have h2 := sent_length s.status
  have h3 := weight_le_length GStatus.pub pub_le_one s.status
  have h4 := hI.len
  simp only [List.length_append] at h1
  omega

/-- What the consumer holds once it has been told that the channel is closed. -/
theorem asyncExec_results {W : Type} {gs : List (Goroutine W)} {ctx : Context} {cap : Nat}
    (hret : AllReturn gs) (w : W) (evs : List AsyncEvent) (s : AsyncState W)
    (h : asyncExec gs ctx cap (asyncInit gs w) evs = some s) (hd : s.drained = true) :
    s.received.length = gs.length ∧
      ∃ vals : List GoError, vals.length = gs.length ∧ s.received.Perm vals ∧
        ∀ i, i < gs.length → ∃ e, vals[i]? = some e ∧
          ∃ pre post sk g, evs = pre ++ AsyncEvent.run i :: post ∧
            asyncExec gs ctx cap (asyncInit gs w) pre = some sk ∧ gs[i]? = some g ∧
            (g.call ctx sk.world).2 = Outcome.ret e := by
  have hI := asyncExec_inv hret w evs s h
  obtain ⟨hcl, hch⟩ := hI.drained_closed hd
  have hall := asyncInv_all_done hI hcl
  have hperm := hI.perm
  rw [hch, List.append_nil] at hperm
  have hlen : (s.status.filterMap GStatus.sent).length = gs.length := by
    rw [sent_length, weight_pub_all_done s.status hall, hI.len]
  refine ⟨by rw [hperm.length_eq, hlen], s.status.filterMap GStatus.sent, hlen, hperm,
    fun i hi => ?_⟩
  obtain ⟨e, he⟩ := hall i (by rw [hI.len]; exact hi)
  exact ⟨e, sent_all_done s.status hall i e he,
    asyncExec_history gs ctx cap w evs s h i e (by simp [he, GStatus.value])⟩

/-- C6: the channel returned by `Async` (capacity `N`) or `AsyncBs(cap)` for a batch whose
composition yields the tasks `gs`, none of which panics, read by a consumer until it is
closed. For a capacity `make(chan error, cap)` allocates (`cap` values of 16 bytes and the
header of 96 bytes within `maxAlloc`, 0 included) the call returns, and under every schedule
the goroutines and the consumer proceed without a crash and without a deadlock until the
consumer is told that the channel is closed, within `4 * N + 2` steps, and the buffer never
exceeds the capacity. The consumer is told so only after it has received exactly `N` values,
one per entry, and these are, up to their order, the values the `N` decorated tasks returned
when they were called. For a capacity beyond the limit the call panics in `make` and there is
no channel. -/
theorem Async_stream_yields_every_result {W : Type} (b : Batch W) (gs : List (Goroutine W))
    (hgs : b.prepareGoroutines = Except.ok gs) (hret : AllReturn gs) (w : W) (cap : Nat) :
    (∀ evs, b.Async w evs = b.AsyncBs gs.length w evs) ∧
    (∀ evs s, b.AsyncBs cap w evs = Except.ok (some s) →
      s.crashed = none ∧ evs.length ≤ 4 * gs.length + 2 ∧ s.errCh.length ≤ cap ∧
      s.received.length ≤ gs.length ∧
      (s.drained = false → ∃ ev s1, asyncStep gs b.ctx cap s ev = some s1)) ∧
    (16 * cap ≤ maxAlloc - 96 →
      b.AsyncBs cap w [] = Except.ok (some (asyncInit gs w)) ∧
      ∃ evs s, b.AsyncBs cap w evs = Except.ok (some s) ∧ s.drained = true) ∧
    (maxAlloc - 96 < 16 * cap →
      ∀ evs, b.AsyncBs cap w evs = Except.error "makechan: size out of range") ∧
    (∀ evs s, b.AsyncBs cap w evs = Except.ok (some s) → s.drained = true →
      s.closed = true ∧ s.errCh = [] ∧
      s.received.length = b.goroutineConfigs.length ∧ 1 ≤ s.received.length ∧
      ∃ vals : List GoError, vals.length = gs.length ∧ s.received.Perm vals ∧
        ∀ i, i < gs.length → ∃ e, vals[i]? = some e ∧
          ∃ pre post sk g, evs = pre ++ AsyncEvent.run i :: post ∧
            b.AsyncBs cap w pre = Except.ok (some sk) ∧ gs[i]? = some g ∧
            (g.call b.ctx sk.world).2 = Outcome.ret e) := by
  have hlen := prepare_length b gs hgs
  refine ⟨Async_eq_AsyncBs b gs hgs w, ?_, ?_, ?_, ?_⟩
  · intro evs s h
    obtain ⟨_, h⟩ := (AsyncBs_eq b gs hgs cap w evs _).1 h
    have hI := asyncExec_inv hret w evs s h
    have hb := asyncExec_bound hret w evs s h
    exact ⟨hI.alive, by omega, hI.room, asyncInv_received_le hI,
      fun hd => asyncStep_progress b.ctx cap hret hI hd⟩
  · intro hfit
    obtain ⟨evs, s, h1, h2⟩ := asyncExec_complete b.ctx cap hret _ (asyncInit gs w)
      (asyncInit_inv gs cap w) (Nat.le_refl _)
    exact ⟨(AsyncBs_eq b gs hgs cap w [] _).2 ⟨hfit, rfl⟩,
      evs, s, (AsyncBs_eq b gs hgs cap w evs _).2 ⟨hfit, h1⟩, h2⟩
  · intro hfit evs
    exact AsyncBs_makechan b gs hgs cap (by omega) w evs
  · intro evs s h hd
    obtain ⟨hfit, h⟩ := (AsyncBs_eq b gs hgs cap w evs _).1 h
    have hI := asyncExec_inv hret w evs s h
    obtain ⟨hcl, hch⟩ := hI.drained_closed hd
    obtain ⟨h1, vals, h2, h3, h4⟩ := asyncExec_results hret w evs s h hd
    refine ⟨hcl, hch, by omega, by omega, vals, h2, h3, fun i hi => ?_⟩
    obtain ⟨e, he, pre, post, sk, g, h5, h6, h7, h8⟩ := h4 i hi
    exact ⟨e, he, pre, post, sk, g, h5, (AsyncBs_eq b gs hgs cap w pre _).2 ⟨hfit, h6⟩, h7, h8⟩

/-- Three tasks returning `error #0`, `error #1`, `error #2`: on an unbuffered channel and on
the channel of `Async` the consumer receives the three errors, in the order of the schedule,
and is then told that the channel is closed. -/
theorem Async_stream_yields_every_result_witness :
    numberedBatch.prepareGoroutines = Except.ok numberedTasks ∧ AllReturn numberedTasks ∧
    (∃ s, numberedBatch.AsyncBs 0 () unbufferedAsync = Except.ok (some s) ∧
      s.drained = true ∧
      s.received = [some "error #2", some "error #0", some "error #1"] ∧
      s.received.length = 3) ∧
    (∃ s, numberedBatch.Async () bufferedAsync = Except.ok (some s) ∧ s.drained = true ∧
      s.received = [some "error #1", some "error #2", some "error #0"]) := by
  have hgs : numberedBatch.prepareGoroutines = Except.ok numberedTasks := rfl
  have hret : AllReturn numberedTasks := by
    intro g hg c w
    simp only [numberedTasks, List.mem_cons, List.mem_singleton, List.not_mem_nil,
      or_false] at hg
    rcases hg with rfl | rfl | rfl <;> exact ⟨_, _, rfl⟩
  have h4 :=
    (Async_stream_yields_every_result numberedBatch numberedTasks hgs hret () 0).2.2.2.2
  have hex : ∃ s, numberedBatch.AsyncBs 0 () unbufferedAsync = Except.ok (some s) ∧
      s.drained = true ∧
      s.received = [some "error #2", some "error #0", some "error #1"] := ⟨_, rfl, rfl, rfl⟩
  obtain ⟨s, h5, h6, h7⟩ := hex
  exact ⟨hgs, hret, ⟨s, h5, h6, h7, (h4 _ s h5 h6).2.2.1⟩, ⟨_, rfl, rfl, rfl⟩⟩

/-- The batch of three tasks returning `error #0`, `error #1`, `error #2`, none of which
panics: `AsyncBs(1 << 62)` panics in `make(chan error, 1 << 62)` under every schedule, so
there is no channel, and no consumer is ever told that it is closed. -/
theorem AsyncBs_beyond_limit_yields_nothing :
    numberedBatch.prepareGoroutines = Except.ok numberedTasks ∧ AllReturn numberedTasks ∧
    (∀ evs, numberedBatch.AsyncBs (2 ^ 62) () evs
      = Except.error "makechan: size out of range") ∧
    ¬ ∃ evs s, numberedBatch.AsyncBs (2 ^ 62) () evs = Except.ok (some s) ∧
        s.drained = true := by
  have hgs : numberedBatch.prepareGoroutines = Except.ok numberedTasks := rfl
  have hret : AllReturn numberedTasks := by
    intro g hg c w
    simp only [numberedTasks, List.mem_cons, List.mem_singleton, List.not_mem_nil,
      or_false] at hg
    rcases hg with rfl | rfl | rfl <;> exact ⟨_, _, rfl⟩
  have hpan : ∀ evs, numberedBatch.AsyncBs (2 ^ 62) () evs
      = Except.error "makechan: size out of range" :=
    fun evs => AsyncBs_makechan numberedBatch numberedTasks hgs (2 ^ 62) (by decide) () evs
  refine ⟨hgs, hret, hpan, ?_⟩
  rintro ⟨evs, s, h, _⟩
  rw [hpan evs] at h
  cases h

/-! ## Construction and bulk registration -/

/-- C12: construction validates at the call. `New(globalMws...)` panics exactly when some
element of `globalMws` is nil, and `Batch(ctx, mws...)` panics exactly when `ctx` is nil or
some element of `mws` is nil; an absent or empty middleware list is accepted by both. -/
theorem construction_panics_iff {W : Type} (globalMws mws : List (Middleware W))
    (r : Goroutiner W) (ctx : Context) :
    ((∃ msg, New globalMws = Except.error msg) ↔ none ∈ globalMws) ∧
    ((∃ msg, r.Batch ctx mws = Except.error msg) ↔ ctx = Context.nil ∨ none ∈ mws) ∧
    New ([] : List (Middleware W)) = Except.ok { globalMws := [] } ∧
    (ctx ≠ Context.nil → r.Batch ctx [] = Except.ok (newBatch ctx r.globalMws)) := by
  refine ⟨?_, ?_, rfl, ?_⟩
  · unfold New
    cases h : hasNil globalMws with
    | true => simp [(hasNil_true_iff globalMws).1 h]
    | false =>
      have hn : none ∉ globalMws := fun hm => by
        rw [(hasNil_true_iff globalMws).2 hm] at h; cases h
      simp [hn]
  · unfold Goroutiner.Batch
    by_cases hc : ctx = Context.nil
    · simp [hc]
    · cases h : hasNil mws with
      | true => simp [hc, (hasNil_true_iff mws).1 h]
      | false =>
        have hn : none ∉ mws := fun hm => by
          rw [(hasNil_true_iff mws).2 hm] at h; cases h
        simp [hc, hn]
  · intro hc
    simp [Goroutiner.Batch, hc, hasNil]

theorem addRangeLoop_valid {W : Type} (p : Provider W) (k : Nat) (i : Int)
    (acc : List (goroutineConfig W))
    (hv : ∀ j : Nat, j < k → ∃ fn mws, p (i + j) = Except.ok (fn, mws) ∧ fn ≠ none ∧ none ∉ mws) :
    addRangeLoop p k i acc = Except.ok (acc ++ (List.range k).map
      (fun (j : Nat) => goroutineConfig.mk (supplied p (i + (j : Int))).1
        (supplied p (i + (j : Int))).2)) := by
  induction k generalizing i acc with
  | zero => simp [addRangeLoop]
  | succ k ih =>
    obtain ⟨fn, mws, hp, hfn, hm⟩ := hv 0 (Nat.succ_pos k)
    simp only [Nat.cast_zero, add_zero] at hp
    have hidx : ∀ j : Nat, i + 1 + (j : Int) = i + ((j + 1 : Nat) : Int) := by
      intro j; push_cast; ring
    rw [addRangeLoop_succ_valid p k i acc fn mws hp hfn hm, ih (i + 1) _ (fun j hj => by
      rw [hidx]; exact hv (j + 1) (Nat.succ_lt_succ hj))]
    have hs : supplied p i = (fn, mws) := by simp [supplied, hp]
    rw [List.range_succ_eq_map]
    simp only [List.map_cons, List.map_map, Nat.cast_zero, add_zero, hs, List.append_assoc,
      List.singleton_append]
    congr 3
    apply List.map_congr_left
    intro j _
    simp only [Function.comp_apply, hidx, Nat.succ_eq_add_one]

theorem addEach_valid {W : Type} (b : Batch W)
    (entries : List (Goroutine W × List (Middleware W)))
    (hv : ∀ e ∈ entries, e.1 ≠ none ∧ none ∉ e.2) :
    addEach b entries = { b with goroutineConfigs :=
      (b.goroutineConfigs ++ entries.map (fun e => goroutineConfig.mk e.1 e.2)) } := by
  induction entries generalizing b with
  | nil => simp [addEach]
  | cons e rest ih =>
    obtain ⟨h1, h2⟩ := hv e (List.mem_cons_self _ _)
    have h3 : e.1.isNone = false := by
      cases h : e.1 with
      | none => exact absurd h h1
      | some f => rfl
    have h4 : hasNil e.2 = false := by
      cases h : hasNil e.2 with
      | false => rfl
      | true => exact absurd ((hasNil_true_iff e.2).1 h) h2
    have hadd : (b.Add e.1 e.2).recv = { b with goroutineConfigs :=
        (b.goroutineConfigs ++ [goroutineConfig.mk e.1 e.2]) } := by
      simp [Batch.Add, h3, h4]
    simp only [addEach, hadd, ih _ (fun x hx => hv x (List.mem_cons_of_mem _ hx)),
      List.map_cons, List.append_assoc, List.singleton_append]

theorem AddRange_valid {W : Type} (b : Batch W) (n : Int) (p : Provider W) (hn : 0 < n)
    (hfit : 8 * n.toNat ≤ maxAlloc)
    (hv : ∀ i : Int, 0 ≤ i → i < n →
      ∃ fn mws, p i = Except.ok (fn, mws) ∧ fn ≠ none ∧ none ∉ mws) :
    b.AddRange n (some p) =
      { recv := { b with goroutineConfigs := (b.goroutineConfigs ++ (List.range n.toNat).map
          (fun (j : Nat) => goroutineConfig.mk (supplied p (j : Int)).1 (supplied p (j : Int)).2)) },
        result := Except.ok { b with goroutineConfigs := (b.goroutineConfigs ++
          (List.range n.toNat).map (fun (j : Nat) =>
            goroutineConfig.mk (supplied p (j : Int)).1 (supplied p (j : Int)).2)) } } := by
  have hloop := addRangeLoop_valid p n.toNat 0 [] (fun j hj => by
    simpa using hv (j : Int) (by omega) (by omega))
  simp only [zero_add, List.nil_append] at hloop
  unfold Batch.AddRange
  rw [if_neg (by omega)]
  simp only [makeslice_ok hfit, hloop]

/-- C11: for `n > 0` within what `make([]*goroutineConfig, n)` allocates (`n` pointers of 8
bytes within `maxAlloc`) and a provider whose outputs at the indices `0 ≤ i < n` are all
valid, `AddRange(n, provider)` succeeds, returns the receiver, leaves the context and the
batch middleware as they were and appends after the existing entries exactly `n` entries,
the `j`-th of them being `provider(j)`; it consults the provider at these indices only. The
resulting batch is the one the calls `Add(provider(0))`, ..., `Add(provider(n-1))` yield,
so every execution policy does the same on the two. -/
theorem AddRange_eq_repeated_Add {W : Type} (b : Batch W) (n : Int) (p : Provider W)
    (hn : 0 < n) (hfit : 8 * n ≤ (maxAlloc : Int))
    (hv : ∀ i : Int, 0 ≤ i → i < n →
      ∃ fn mws, p i = Except.ok (fn, mws) ∧ fn ≠ none ∧ none ∉ mws) :
    (b.AddRange n (some p)).result = Except.ok (b.AddRange n (some p)).recv ∧
    (b.AddRange n (some p)).recv.goroutineConfigs = b.goroutineConfigs ++
      (List.range n.toNat).map (fun (j : Nat) =>
        goroutineConfig.mk (supplied p (j : Int)).1 (supplied p (j : Int)).2) ∧
    (∀ j : Nat, j < n.toNat → p (j : Int) = Except.ok (supplied p (j : Int))) ∧
    (b.AddRange n (some p)).recv.ctx = b.ctx ∧
    (b.AddRange n (some p)).recv.mws = b.mws ∧
    (b.AddRange n (some p)).recv
      = addEach b ((List.range n.toNat).map (fun (j : Nat) => supplied p (j : Int))) ∧
    (∀ (w : W) (c : Nat) (evW : List WaitEvent) (evC : List CancelEvent)
      (evA : List AsyncEvent),
      (b.AddRange n (some p)).recv.Wait w evW
        = (addEach b ((List.range n.toNat).map
            (fun (j : Nat) => supplied p (j : Int)))).Wait w evW ∧
      (b.AddRange n (some p)).recv.CancelOnError w evC
        = (addEach b ((List.range n.toNat).map
            (fun (j : Nat) => supplied p (j : Int)))).CancelOnError w evC ∧
      (b.AddRange n (some p)).recv.Async w evA
        = (addEach b ((List.range n.toNat).map
            (fun (j : Nat) => supplied p (j : Int)))).Async w evA ∧
      (b.AddRange n (some p)).recv.AsyncBs c w evA
        = (addEach b ((List.range n.toNat).map
            (fun (j : Nat) => supplied p (j : Int)))).AsyncBs c w evA) ∧
    (∀ q : Provider W, (∀ i : Int, 0 ≤ i → i < n → q i = p i) →
      b.AddRange n (some q) = b.AddRange n (some p)) := by
  have hfit1 : 8 * n.toNat ≤ maxAlloc := by omega
  have hA := AddRange_valid b n p hn hfit1 hv
  have hsup : ∀ j : Nat, j < n.toNat →
      p (j : Int) = Except.ok (supplied p (j : Int)) ∧
        (supplied p (j : Int)).1 ≠ none ∧ none ∉ (supplied p (j : Int)).2 := by
    intro j hj
    obtain ⟨fn, mws, hp, h1, h2⟩ := hv (j : Int) (by omega) (by omega)
    have hs : supplied p (j : Int) = (fn, mws) := by simp [supplied, hp]
    rw [hs]
    exact ⟨hp, h1, h2⟩
  have hE : (b.AddRange n (some p)).recv
      = addEach b ((List.range n.toNat).map (fun (j : Nat) => supplied p (j : Int))) := by
    rw [hA, addEach_valid]
    · simp only [List.map_map]
      rfl
    · intro e he
      obtain ⟨j, hj, rfl⟩ := List.mem_map.1 he
      exact (hsup j (List.mem_range.1 hj)).2
  refine ⟨by rw [hA], by rw [hA], fun j hj => (hsup j hj).1, by rw [hA], by rw [hA], hE,
    fun w c evW evC evA => by rw [hE]; exact ⟨rfl, rfl, rfl, rfl⟩, fun q hq => ?_⟩
  have hvq : ∀ i : Int, 0 ≤ i → i < n →
      ∃ fn mws, q i = Except.ok (fn, mws) ∧ fn ≠ none ∧ none ∉ mws := by
    intro i h0 h1
    rw [hq i h0 h1]
    exact hv i h0 h1
  rw [hA, AddRange_valid b n q hn hfit1 hvq]
  have hmap : (List.range n.toNat).map (fun (j : Nat) =>
        goroutineConfig.mk (supplied q (j : Int)).1 (supplied q (j : Int)).2)
      = (List.range n.toNat).map (fun (j : Nat) =>
        goroutineConfig.mk (supplied p (j : Int)).1 (supplied p (j : Int)).2) := by
    apply List.map_congr_left
    intro j hj
    have : supplied q (j : Int) = supplied p (j : Int) := by
      simp only [supplied, hq (j : Int) (by omega) (by have := List.mem_range.1 hj; omega)]
    rw [this]
  rw [hmap]

/-- The call `AddRange(2, provider)` of the no-goroutines test on a batch holding one entry:
two entries `(g, [mw])` are appended after the first, as by two calls of `Add`. -/
theorem AddRange_eq_repeated_Add_witness :
    (((newBatch (Context.value 0) []).Add (some (nilG : GoFn Unit)) []).recv.AddRange 2
        (some (fun _ => Except.ok (some nilG, [some idMw])))).recv.goroutineConfigs
      = [goroutineConfig.mk (some nilG) [], goroutineConfig.mk (some nilG) [some idMw],
          goroutineConfig.mk (some nilG) [some idMw]] ∧
    (((newBatch (Context.value 0) []).Add (some (nilG : GoFn Unit)) []).recv.AddRange 2
        (some (fun _ => Except.ok (some nilG, [some idMw])))).recv
      = ((((newBatch (Context.value 0) []).Add (some (nilG : GoFn Unit)) []).recv.Add
          (some nilG) [some idMw]).recv.Add (some nilG) [some idMw]).recv := by
  obtain ⟨_, h2, _, _, _, h6, _⟩ := AddRange_eq_repeated_Add
    ((newBatch (Context.value 0) []).Add (some (nilG : GoFn Unit)) []).recv 2
    (fun _ => Except.ok (some nilG, [some idMw])) (by decide) (by decide)
    (fun i _ _ => ⟨some nilG, [some idMw], rfl, by simp, by simp⟩)
  exact ⟨h2, h6⟩

/-- The call `AddRange(1 << 62, provider)` on a batch without entry, with a provider all of
whose outputs are valid: `n > 0`, and the call panics in `make([]*goroutineConfig, n)`
and appends nothing, whereas the calls of `Add` on the outputs of the provider each append
an entry. -/
theorem AddRange_beyond_limit_appends_nothing :
    (0 : Int) < 2 ^ 62 ∧
    (∀ i : Int, ∃ fn mws, validProvider i = Except.ok (fn, mws) ∧ fn ≠ none ∧ none ∉ mws) ∧
    ((newBatch (Context.value 0) []).AddRange (2 ^ 62) (some validProvider)).result
      = Except.error "runtime error: makeslice: len out of range" ∧
    ((newBatch (Context.value 0) []).AddRange (2 ^ 62)
      (some validProvider)).recv.goroutineConfigs = [] ∧
    (addEach (newBatch (Context.value 0) [])
      [supplied validProvider 0, supplied validProvider 1]).goroutineConfigs.length = 2 := by
  refine ⟨by decide, fun _ => ⟨some nilG, [], rfl, by simp, by simp⟩, ?_, ?_, rfl⟩
  · rw [AddRange_makeslice _ (2 ^ 62) validProvider (by decide) (by decide)]
  · rw [AddRange_makeslice _ (2 ^ 62) validProvider (by decide) (by decide)]
    rfl

/-! ## The panic middleware -/

/-- C13: `MwPanicToError(h)` around a task `g`. When `g(ctx)` panics with the payload `pv`,
the wrapped task does not panic: it calls the transform with the payload, the stack and the
context and returns what the transform returns as its error. When `g(ctx)` returns `e`
without a panic, the wrapped task returns `e` and leaves the world as `g` left it: the
transform is not called. -/
theorem MwPanicToError_converts_panic {W : Type} (debugStack : String) (h : ErrorHandler W)
    (g : Goroutine W) (ctx : Context) (w : W) :
    ∃ mw, MwPanicToError debugStack (some h) = Except.ok (some mw) ∧
      (∀ pv w1, g.call ctx w = (w1, Outcome.panic pv) →
        (mw g).call ctx w
          = ((h pv debugStack ctx w1).1, Outcome.ret (h pv debugStack ctx w1).2)) ∧
      (∀ e w1, g.call ctx w = (w1, Outcome.ret e) →
        (mw g).call ctx w = (w1, Outcome.ret e)) := by
  refine ⟨_, rfl, ?_, ?_⟩
  · intro pv w1 hg
    simp only [Goroutine.call] at hg ⊢
    simp only [Goroutine.call, hg]
  · intro e w1 hg
    simp only [Goroutine.call] at hg ⊢
    simp only [Goroutine.call, hg]

/-- The lines of `Test_TypicalMws_PanicToError`: with the middleware attached as global, as
batch or as individual middleware, `Wait()[0]` is the error
`MwPanicToError: "Big Panic in Little Goroutine"`. -/
theorem MwPanicToError_converts_panic_witness :
    (∃ mw, MwPanicToError "" (some testErrorHandler) = Except.ok (some mw) ∧
      (mw (some panickingG)).call (Context.value 0) ()
        = ((), Outcome.ret (some "MwPanicToError: \"Big Panic in Little Goroutine\""))) ∧
    typicalMwsTest [made (MwPanicToError "" (some testErrorHandler))] [] []
      = Except.ok (some [some "MwPanicToError: \"Big Panic in Little Goroutine\""]) ∧
    typicalMwsTest [] [made (MwPanicToError "" (some testErrorHandler))] []
      = Except.ok (some [some "MwPanicToError: \"Big Panic in Little Goroutine\""]) ∧
    typicalMwsTest [] [] [made (MwPanicToError "" (some testErrorHandler))]
      = Except.ok (some [some "MwPanicToError: \"Big Panic in Little Goroutine\""]) := by
  refine ⟨?_, rfl, rfl, rfl⟩
  obtain ⟨mw, h1, h2, _⟩ := MwPanicToError_converts_panic "" testErrorHandler
    (some panickingG) (Context.value 0) ()
  exact ⟨mw, h1, h2 "Big Panic in Little Goroutine" () rfl⟩

/-- C14: `MwPanicRelay(h)` around a task `g`. When `g(ctx)` panics with the payload `pv`,
the wrapped task calls the transform with the payload, the stack and the context and panics
again, with what the transform returns as payload; it does not return an error. When
`g(ctx)` returns `e` without a panic, the wrapped task returns `e` and the transform is not
called. Hence `MwPanicToError(h1)` outside `MwPanicRelay(h2)` around a task that panics with
`pv` returns `h1` of `h2` of `pv`. -/
theorem MwPanicRelay_relays_panic {W : Type} (debugStack : String) (h : RelayHandler W)
    (g : Goroutine W) (ctx : Context) (w : W) :
    ∃ mw, MwPanicRelay debugStack (some h) = Except.ok (some mw) ∧
      (∀ pv w1, g.call ctx w = (w1, Outcome.panic pv) →
        (mw g).call ctx w
          = ((h pv debugStack ctx w1).1, Outcome.panic (h pv debugStack ctx w1).2)) ∧
      (∀ e w1, g.call ctx w = (w1, Outcome.ret e) →
        (mw g).call ctx w = (w1, Outcome.ret e)) ∧
      (∀ (h1 : ErrorHandler W) pv w1, g.call ctx w = (w1, Outcome.panic pv) →
        ∃ mwE, MwPanicToError debugStack (some h1) = Except.ok (some mwE) ∧
          (mwE (mw g)).call ctx w
            = ((h1 (h pv debugStack ctx w1).2 debugStack ctx (h pv debugStack ctx w1).1).1,
                Outcome.ret
                  (h1 (h pv debugStack ctx w1).2 debugStack ctx
                    (h pv debugStack ctx w1).1).2)) := by
  refine ⟨_, rfl, ?_, ?_, ?_⟩
  · intro pv w1 hg
    simp only [Goroutine.call] at hg ⊢
    simp only [Goroutine.call, hg]
  · intro e w1 hg
    simp only [Goroutine.call] at hg ⊢
    simp only [Goroutine.call, hg]
  · intro h1 pv w1 hg
    refine ⟨_, rfl, ?_⟩
    simp only [Goroutine.call] at hg ⊢
    simp only [Goroutine.call, hg]

/-- The lines of `Test_TypicalMws_PanicRelay`: with `mwPanicToError, mwPanicRelay` attached
as global, as batch or as individual middleware, `Wait()[0]` is the error
`MwPanicToError: "MwPanicRelay: \"Big Panic in Little Goroutine\""`. -/
theorem MwPanicRelay_relays_panic_witness :
    (∃ mw, MwPanicRelay "" (some testRelayHandler) = Except.ok (some mw) ∧
      (mw (some panickingG)).call (Context.value 0) ()
        = ((), Outcome.panic "MwPanicRelay: \"Big Panic in Little Goroutine\"")) ∧
    typicalMwsTest [made (MwPanicToError "" (some testErrorHandler)),
        made (MwPanicRelay "" (some testRelayHandler))] [] []
      = Except.ok (some [some
          "MwPanicToError: \"MwPanicRelay: \\\"Big Panic in Little Goroutine\\\"\""]) ∧
    typicalMwsTest [] [made (MwPanicToError "" (some testErrorHandler)),
        made (MwPanicRelay "" (some testRelayHandler))] []
      = Except.ok (some [some
          "MwPanicToError: \"MwPanicRelay: \\\"Big Panic in Little Goroutine\\\"\""]) ∧
    typicalMwsTest [] [] [made (MwPanicToError "" (some testErrorHandler)),
        made (MwPanicRelay "" (some testRelayHandler))]
      = Except.ok (some [some
          "MwPanicToError: \"MwPanicRelay: \\\"Big Panic in Little Goroutine\\\"\""]) := by
  refine ⟨?_, rfl, rfl, rfl⟩
  obtain ⟨mw, h1, h2, _⟩ := MwPanicRelay_relays_panic "" testRelayHandler
    (some panickingG) (Context.value 0) ()
  exact ⟨mw, h1, h2 "Big Panic in Little Goroutine" () rfl⟩

/-! ## SingleAsync -/

theorem SingleAsync_ok {W : Type} (G M : List (MwFn W)) (r : Goroutiner W)
    (hr : New (G.map some) = Except.ok r) (ctx : Context) (hctx : ctx ≠ Context.nil)
    (t : GoFn W) (w : W) (evs : List AsyncEvent) :
    r.SingleAsync ctx (some t) (M.map some) w evs
      = Except.ok (asyncExec [applyAll (G ++ M) (some t)] ctx 1
          (asyncInit [applyAll (G ++ M) (some t)] w) evs) := by
  obtain ⟨_, hG⟩ := New_ok _ _ hr
  have hb : r.Batch ctx [] = Except.ok (newBatch ctx (G.map some)) := by
    simp [Goroutiner.Batch, hctx, hasNil, hG]
  have hprep := prepare_single ctx G M t
  have hadd : ((newBatch ctx (G.map some)).Add (some t) (M.map some)).result
      = Except.ok ((newBatch ctx (G.map some)).Add (some t) (M.map some)).recv := by
    simp [Batch.Add, hasNil_map_some]
  have hc : ((newBatch ctx (G.map some)).Add (some t) (M.map some)).recv.ctx = ctx := by
    simp [Batch.Add, hasNil_map_some, newBatch]
  have hone : makechan 1 = Except.ok 1 := makechan_ok (by decide)
  simp only [Goroutiner.SingleAsync, hb, hadd, Batch.Async, hprep, Batch.async, hc,
    List.length_singleton, hone]

theorem SingleAsync_panics_iff {W : Type} (r : Goroutiner W) (ctx : Context)
    (fn : Goroutine W) (mws : List (Middleware W)) (hg : hasNil r.globalMws = false) (w : W)
    (evs : List AsyncEvent) :
    (∃ msg, r.SingleAsync ctx fn mws w evs = Except.error msg) ↔
      ctx = Context.nil ∨ fn = none ∨ none ∈ mws := by
  by_cases hctx : ctx = Context.nil
  · simp [Goroutiner.SingleAsync, Goroutiner.Batch, hctx]
  · cases fn with
    | none => simp [Goroutiner.SingleAsync, Goroutiner.Batch, hctx, hasNil, Batch.Add]
    | some t =>
      by_cases hm : none ∈ mws
      · simp [Goroutiner.SingleAsync, Goroutiner.Batch, hctx, hasNil, Batch.Add,
          (hasNil_true_iff mws).2 hm, hm]
      · have hm1 : hasNil mws = false := by
          cases h : hasNil mws with
          | false => rfl
          | true => exact absurd ((hasNil_true_iff mws).1 h) hm
        obtain ⟨M, rfl⟩ := (hasNil_false_iff mws).1 hm1
        obtain ⟨G, hG⟩ := (hasNil_false_iff r.globalMws).1 hg
        have hr : New (G.map some) = Except.ok r := by
          cases r
          simp only at hG
          subst hG
          simp [New, hasNil_map_some]
        rw [SingleAsync_ok G M r hr ctx hctx t w evs]
        simp [hctx, hm]

/-- C15: `SingleAsync(ctx, t, M...)` on a registry with global middleware `G` is
`Batch(ctx).Add(t, M...).Async()`. It panics exactly when `ctx` is nil, `t` is nil or `M`
holds nil. Otherwise the one task it runs is `applyAll (G ++ M) t` on a channel of capacity
1; if that task does not panic, the goroutines and a consumer of the channel are never
stuck before the consumer is told that the channel is closed, and the consumer is told so
after it has received exactly one value, the one the task returned when it was called. -/
theorem SingleAsync_is_one_task_Async {W : Type} (G : List (MwFn W)) (r : Goroutiner W)
    (hr : New (G.map some) = Except.ok r) (ctx : Context) (fn : Goroutine W)
    (mws : List (Middleware W)) (w : W) (evs : List AsyncEvent) :
    (∀ b b1, r.Batch ctx [] = Except.ok b → (b.Add fn mws).result = Except.ok b1 →
      r.SingleAsync ctx fn mws w evs = b1.Async w evs) ∧
    ((∃ msg, r.SingleAsync ctx fn mws w evs = Except.error msg) ↔
      ctx = Context.nil ∨ fn = none ∨ none ∈ mws) ∧
    (∀ (t : GoFn W) (M : List (MwFn W)), ctx ≠ Context.nil → fn = some t →
      mws = M.map some →
      r.SingleAsync ctx fn mws w evs
        = Except.ok (asyncExec [applyAll (G ++ M) (some t)] ctx 1
            (asyncInit [applyAll (G ++ M) (some t)] w) evs) ∧
      (AllReturn [applyAll (G ++ M) (some t)] →
        ∀ s, r.SingleAsync ctx fn mws w evs = Except.ok (some s) →
          s.crashed = none ∧ s.errCh.length ≤ 1 ∧
          (s.drained = false →
            ∃ ev s1, asyncStep [applyAll (G ++ M) (some t)] ctx 1 s ev = some s1) ∧
          (s.drained = true → s.closed = true ∧ ∃ e, s.received = [e] ∧
            ∃ pre post sk, evs = pre ++ AsyncEvent.run 0 :: post ∧
              r.SingleAsync ctx fn mws w pre = Except.ok (some sk) ∧
              ((applyAll (G ++ M) (some t)).call ctx sk.world).2 = Outcome.ret e))) := by
  refine ⟨?_, ?_, ?_⟩
  · intro b b1 hb hadd
    simp only [Goroutiner.SingleAsync, hb, hadd]
  · exact SingleAsync_panics_iff r ctx fn mws
      (by rw [(New_ok _ _ hr).2]; exact hasNil_map_some G) w evs
  · intro t M hctx hfn hmws
    subst hfn hmws
    refine ⟨SingleAsync_ok G M r hr ctx hctx t w evs, fun hret s hs => ?_⟩
    rw [SingleAsync_ok G M r hr ctx hctx t w evs] at hs
    simp only [Except.ok.injEq] at hs
    have hI := asyncExec_inv hret w evs s hs
    refine ⟨hI.alive, hI.room, fun hd => asyncStep_progress ctx 1 hret hI hd, fun hd => ?_⟩
    obtain ⟨_, vals, hlen, hperm, hall⟩ := asyncExec_results hret w evs s hs hd
    obtain ⟨e, he, pre, post, sk, g, h1, h2, h3, h4⟩ := hall 0 (by simp)
    simp only [List.getElem?_cons_zero, Option.some.injEq] at h3
    subst h3
    have hvals : vals = [e] := by
      match vals, hlen, he with
      | [x], _, he =>
        simp only [List.getElem?_cons_zero, Option.some.injEq] at he
        rw [he]
    rw [hvals] at hperm
    exact ⟨(hI.drained_closed hd).1, e, List.perm_singleton.1 hperm, pre, post, sk, h1,
      by rw [SingleAsync_ok G M r hr ctx hctx t w pre, h2], h4⟩

/-- A registry with the global middleware `mw` runs `SingleAsync(ctx, g, mw)`: the call
does not panic, and with a nil task it does; the consumer receives the one result `nil` and
is then told that the channel is closed. -/
theorem SingleAsync_is_one_task_Async_witness :
    (∃ s, ({ globalMws := [some idMw] } : Goroutiner Unit).SingleAsync (Context.value 0)
        (some nilG) [some idMw] ()
        [AsyncEvent.run 0, AsyncEvent.send 0, AsyncEvent.done 0, AsyncEvent.close,
          AsyncEvent.recv, AsyncEvent.recvClosed] = Except.ok (some s) ∧
      s.received = [none] ∧ s.drained = true) ∧
    (∃ msg, ({ globalMws := [some idMw] } : Goroutiner Unit).SingleAsync (Context.value 0)
        none [some idMw] () [] = Except.error msg) := by
  have h := SingleAsync_is_one_task_Async [idMw] ({ globalMws := [some idMw] } : Goroutiner Unit)
    rfl (Context.value 0) none [some idMw] () []
  exact ⟨⟨_, rfl, rfl, rfl⟩, h.2.1.2 (Or.inr (Or.inl rfl))⟩

/-! ## Every task is called once -/

theorem value_set_other {l : List GStatus} (i j : Nat) (b : GStatus) (h : i ≠ j) :
    (l.set j b)[i]?.bind GStatus.value = l[i]?.bind GStatus.value := by
  rw [List.getElem?_set_ne (fun h1 => h h1.symm)]

theorem waitStep_ran {W : Type} {gs : List (Goroutine W)} {ctx : Context}
    (hret : AllReturn gs) {s s1 : WaitState W} {ev : WaitEvent}
    (h : waitStep gs ctx s ev = some s1) (i : Nat) :
    (ev = WaitEvent.run i →
      s.status[i]?.bind GStatus.value = none ∧ s1.status[i]?.bind GStatus.value ≠ none) ∧
    (ev ≠ WaitEvent.run i →
      s1.status[i]?.bind GStatus.value = s.status[i]?.bind GStatus.value) := by
  cases ev with
  | run j =>
    obtain ⟨_, hst, g, hg, ⟨e, _, rfl⟩ | ⟨v, hv, _⟩⟩ := waitStep_run h
    · refine ⟨fun hij => ?_, fun hij => ?_⟩
      · cases hij
        refine ⟨by simp [hst, GStatus.value], ?_⟩
        simp only [set_lookup _ i hst, if_true, Option.some_bind, GStatus.value]
        simp
      · exact value_set_other i j _ (fun h1 => hij (by rw [h1]))
    · obtain ⟨e, he⟩ := hret.call_ret hg ctx s.world
      rw [he] at hv; cases hv
  | send j =>
    refine ⟨fun hij => (by cases hij), fun _ => ?_⟩
    obtain ⟨_, e1, hst, ⟨_, rfl⟩ | ⟨_, _, rfl⟩⟩ := waitStep_send h
    · rfl
    · exact value_set (GStatus.published e1) i hst rfl
  | done j =>
    refine ⟨fun hij => (by cases hij), fun _ => ?_⟩
    obtain ⟨_, e1, hst, ⟨_, rfl⟩ | ⟨_, rfl⟩⟩ := waitStep_done h
    · rfl
    · exact value_set (GStatus.done e1) i hst rfl
  | close =>
    obtain ⟨_, _, _, rfl⟩ := waitStep_close h
    exact ⟨fun hij => (by cases hij), fun _ => rfl⟩
  | recv =>
    obtain ⟨_, _, j, e1, rest, _, ⟨_, rfl⟩ | ⟨_, rfl⟩⟩ := waitStep_recv h
    · exact ⟨fun hij => (by cases hij), fun _ => rfl⟩
    · exact ⟨fun hij => (by cases hij), fun _ => rfl⟩
  | ret =>
    obtain ⟨_, _, _, _, rfl⟩ := waitStep_ret h
    exact ⟨fun hij => (by cases hij), fun _ => rfl⟩

/-- A schedule of `Wait` holds the call of task `i` once if goroutine `i` has a result, and
not at all otherwise. -/
theorem waitExec_runs {W : Type} {gs : List (Goroutine W)} {ctx : Context}
    (hret : AllReturn gs) (w : W) (evs : List WaitEvent) (s : WaitState W)
    (h : waitExec gs ctx (waitInit gs w) evs = some s) (i : Nat) :
    evs.count (WaitEvent.run i)
      = if s.status[i]?.bind GStatus.value = none then 0 else 1 := by
  revert i
  refine waitExec_induction gs ctx (waitInit gs w)
    (fun evs s => ∀ i : Nat, evs.count (WaitEvent.run i)
      = if s.status[i]?.bind GStatus.value = none then 0 else 1) ?_ ?_ evs s h
  · intro i
    have : (waitInit gs w).status[i]?.bind GStatus.value = none := by
      simp only [waitInit, List.getElem?_replicate]
      split <;> simp [GStatus.value]
    simp [this]
  · intro evs s ev s1 _ hP hs i
    obtain ⟨h1, h2⟩ := waitStep_ran hret hs i
    by_cases hev : ev = WaitEvent.run i
    · obtain ⟨h3, h4⟩ := h1 hev
      have := hP i
      rw [if_pos h3] at this
      rw [List.count_append, this, hev, if_neg h4]
      simp
    · rw [List.count_append, hP i, h2 hev]
      have : List.count (WaitEvent.run i) [ev] = 0 := by
        simp [List.count_singleton, hev]
      rw [this]
      rfl

theorem waitStep_world {W : Type} {gs : List (Goroutine W)} {ctx : Context}
    {s s1 : WaitState W} {ev : WaitEvent} (h : waitStep gs ctx s ev = some s1) :
    (∀ i, ev = WaitEvent.run i → ∃ g, gs[i]? = some g ∧ s1.world = (g.call ctx s.world).1) ∧
    ((∀ i, ev ≠ WaitEvent.run i) → s1.world = s.world) := by
  cases ev with
  | run j =>
    obtain ⟨_, hst, g, hg, ⟨e, _, rfl⟩ | ⟨v, hv, rfl⟩⟩ := waitStep_run h
    · exact ⟨fun i hi => by cases hi; exact ⟨g, hg, rfl⟩, fun hn => absurd rfl (hn j)⟩
    · exact ⟨fun i hi => by cases hi; exact ⟨g, hg, rfl⟩, fun hn => absurd rfl (hn j)⟩
  | send j =>
    refine ⟨fun i hi => (by cases hi), fun _ => ?_⟩
    obtain ⟨_, e1, hst, ⟨_, rfl⟩ | ⟨_, _, rfl⟩⟩ := waitStep_send h <;> rfl
  | done j =>
    refine ⟨fun i hi => (by cases hi), fun _ => ?_⟩
    obtain ⟨_, e1, hst, ⟨_, rfl⟩ | ⟨_, rfl⟩⟩ := waitStep_done h <;> rfl
  | close =>
    obtain ⟨_, _, _, rfl⟩ := waitStep_close h
    exact ⟨fun i hi => (by cases hi), fun _ => rfl⟩
  | recv =>
    refine ⟨fun i hi => (by cases hi), fun _ => ?_⟩
    obtain ⟨_, _, j, e1, rest, _, ⟨_, rfl⟩ | ⟨_, rfl⟩⟩ := waitStep_recv h <;> rfl
  | ret =>
    obtain ⟨_, _, _, _, rfl⟩ := waitStep_ret h
    exact ⟨fun i hi => (by cases hi), fun _ => rfl⟩

theorem cancelStep_ran {W : Type} {gs : List (Goroutine W)} {ctx : Context}
    (hret : AllReturn gs) {s s1 : CancelState W} {ev : CancelEvent}
    (h : cancelStep gs ctx s ev = some s1) (i : Nat) :
    (ev = CancelEvent.run i →
      s.status[i]?.bind GStatus.value = none ∧ s1.status[i]?.bind GStatus.value ≠ none) ∧
    (ev ≠ CancelEvent.run i →
      s1.status[i]?.bind GStatus.value = s.status[i]?.bind GStatus.value) := by
  cases ev with
  | run j =>
    obtain ⟨_, hst, g, hg, ⟨e, _, rfl⟩ | ⟨v, hv, _⟩⟩ := cancelStep_run h
    · refine ⟨fun hij => ?_, fun hij => ?_⟩
      · cases hij
        refine ⟨by simp [hst, GStatus.value], ?_⟩
        simp only [set_lookup _ i hst, if_true, Option.some_bind, GStatus.value]
        simp
      · exact value_set_other i j _ (fun h1 => hij (by rw [h1]))
    · obtain ⟨e, he⟩ := hret.call_ret hg (Context.withCancel ctx s.cancelled) s.world
      rw [he] at hv; cases hv
  | report j =>
    refine ⟨fun hij => (by cases hij), fun _ => ?_⟩
    obtain ⟨_, e1, hst, ⟨_, _, rfl⟩ | ⟨_, rfl⟩⟩ := cancelStep_report h
    · exact value_set (GStatus.published e1) i hst rfl
    · exact value_set (GStatus.published e1) i hst rfl
  | done j =>
    refine ⟨fun hij => (by cases hij), fun _ => ?_⟩
    obtain ⟨_, e1, hst, ⟨_, rfl⟩ | ⟨_, rfl⟩⟩ := cancelStep_done h
    · rfl
    · exact value_set (GStatus.done e1) i hst rfl
  | wait =>
    obtain ⟨_, _, _, rfl⟩ := cancelStep_wait h
    exact ⟨fun hij => (by cases hij), fun _ => rfl⟩

/-- A schedule of `CancelOnError` holds the call of task `i` once if goroutine `i` has a
result, and not at all otherwise. -/
theorem cancelExec_runs {W : Type} {gs : List (Goroutine W)} {ctx : Context}
    (hret : AllReturn gs) (w : W) (evs : List CancelEvent) (s : CancelState W)
    (h : cancelExec gs ctx (cancelInit gs w) evs = some s) (i : Nat) :
    evs.count (CancelEvent.run i)
      = if s.status[i]?.bind GStatus.value = none then 0 else 1 := by
  revert i
  refine cancelExec_induction gs ctx (cancelInit gs w)
    (fun evs s => ∀ i : Nat, evs.count (CancelEvent.run i)
      = if s.status[i]?.bind GStatus.value = none then 0 else 1) ?_ ?_ evs s h
  · intro i
    have : (cancelInit gs w).status[i]?.bind GStatus.value = none := by
      simp only [cancelInit, List.getElem?_replicate]
      split <;> simp [GStatus.value]
    simp [this]
  · intro evs s ev s1 _ hP hs i
    obtain ⟨h1, h2⟩ := cancelStep_ran hret hs i
    by_cases hev : ev = CancelEvent.run i
    · obtain ⟨h3, h4⟩ := h1 hev
      have := hP i
      rw [if_pos h3] at this
      rw [List.count_append, this, hev, if_neg h4]
      simp
    · rw [List.count_append, hP i, h2 hev]
      have : List.count (CancelEvent.run i) [ev] = 0 := by
        simp [List.count_singleton, hev]
      rw [this]
      rfl

theorem cancelStep_world {W : Type} {gs : List (Goroutine W)} {ctx : Context}
    {s s1 : CancelState W} {ev : CancelEvent} (h : cancelStep gs ctx s ev = some s1) :
    (∀ i, ev = CancelEvent.run i → ∃ g, gs[i]? = some g ∧
      s1.world = (g.call (Context.withCancel ctx s.cancelled) s.world).1) ∧
    ((∀ i, ev ≠ CancelEvent.run i) → s1.world = s.world) := by
  cases ev with
  | run j =>
    obtain ⟨_, hst, g, hg, ⟨e, _, rfl⟩ | ⟨v, hv, rfl⟩⟩ := cancelStep_run h
    · exact ⟨fun i hi => by cases hi; exact ⟨g, hg, rfl⟩, fun hn => absurd rfl (hn j)⟩
    · exact ⟨fun i hi => by cases hi; exact ⟨g, hg, rfl⟩, fun hn => absurd rfl (hn j)⟩
  | report j =>
    refine ⟨fun i hi => (by cases hi), fun _ => ?_⟩
    obtain ⟨_, e1, hst, ⟨_, _, rfl⟩ | ⟨_, rfl⟩⟩ := cancelStep_report h <;> rfl
  | done j =>
    refine ⟨fun i hi => (by cases hi), fun _ => ?_⟩
    obtain ⟨_, e1, hst, ⟨_, rfl⟩ | ⟨_, rfl⟩⟩ := cancelStep_done h <;> rfl
  | wait =>
    obtain ⟨_, _, _, rfl⟩ := cancelStep_wait h
    exact ⟨fun i hi => (by cases hi), fun _ => rfl⟩

theorem asyncStep_ran {W : Type} {gs : List (Goroutine W)} {ctx : Context} {cap : Nat}
    (hret : AllReturn gs) {s s1 : AsyncState W} {ev : AsyncEvent}
    (h : asyncStep gs ctx cap s ev = some s1) (i : Nat) :
    (ev = AsyncEvent.run i →
      s.status[i]?.bind GStatus.value = none ∧ s1.status[i]?.bind GStatus.value ≠ none) ∧
    (ev ≠ AsyncEvent.run i →
      s1.status[i]?.bind GStatus.value = s.status[i]?.bind GStatus.value) := by
  cases ev with
  | run j =>
    obtain ⟨_, hst, g, hg, ⟨e, _, rfl⟩ | ⟨v, hv, _⟩⟩ := asyncStep_run h
    · refine ⟨fun hij => ?_, fun hij => ?_⟩
      · cases hij
        refine ⟨by simp [hst, GStatus.value], ?_⟩
        simp only [set_lookup _ i hst, if_true, Option.some_bind, GStatus.value]
        simp
      · exact value_set_other i j _ (fun h1 => hij (by rw [h1]))
    · obtain ⟨e, he⟩ := hret.call_ret hg ctx s.world
      rw [he] at hv; cases hv
  | send j =>
    refine ⟨fun hij => (by cases hij), fun _ => ?_⟩
    obtain ⟨_, e1, hst, ⟨_, rfl⟩ | ⟨_, _, rfl⟩⟩ := asyncStep_send h
    · rfl
    · exact value_set (GStatus.published e1) i hst rfl
  | handoff j =>
    refine ⟨fun hij => (by cases hij), fun _ => ?_⟩
    obtain ⟨_, e1, hst, ⟨_, rfl⟩ | ⟨_, _, _, rfl⟩⟩ := asyncStep_handoff h
    · rfl
    · exact value_set (GStatus.published e1) i hst rfl
  | done j =>
    refine ⟨fun hij => (by cases hij), fun _ => ?_⟩
    obtain ⟨_, e1, hst, ⟨_, rfl⟩ | ⟨_, rfl⟩⟩ := asyncStep_done h
    · rfl
    · exact value_set (GStatus.done e1) i hst rfl
  | close =>
    obtain ⟨_, _, _, rfl⟩ := asyncStep_close h
    exact ⟨fun hij => (by cases hij), fun _ => rfl⟩
  | recv =>
    obtain ⟨_, _, e1, rest, _, rfl⟩ := asyncStep_recv h
    exact ⟨fun hij => (by cases hij), fun _ => rfl⟩
  | recvClosed =>
    obtain ⟨_, _, _, _, rfl⟩ := asyncStep_recvClosed h
    exact ⟨fun hij => (by cases hij), fun _ => rfl⟩

/-- A schedule that follows `async` holds the call of task `i` once if goroutine `i` has a
result, and not at all otherwise. -/
theorem asyncExec_runs {W : Type} {gs : List (Goroutine W)} {ctx : Context} {cap : Nat}
    (hret : AllReturn gs) (w : W) (evs : List AsyncEvent) (s : AsyncState W)
    (h : asyncExec gs ctx cap (asyncInit gs w) evs = some s) (i : Nat) :
    evs.count (AsyncEvent.run i)
      = if s.status[i]?.bind GStatus.value = none then 0 else 1 := by
  revert i
  refine asyncExec_induction gs ctx cap (asyncInit gs w)
    (fun evs s => ∀ i : Nat, evs.count (AsyncEvent.run i)
      = if s.status[i]?.bind GStatus.value = none then 0 else 1) ?_ ?_ evs s h
  · intro i
    have : (asyncInit gs w).status[i]?.bind GStatus.value = none := by
      simp only [asyncInit, List.getElem?_replicate]
      split <;> simp [GStatus.value]
    simp [this]
  · intro evs s ev s1 _ hP hs i
    obtain ⟨h1, h2⟩ := asyncStep_ran hret hs i
    by_cases hev : ev = AsyncEvent.run i
    · obtain ⟨h3, h4⟩ := h1 hev
      have := hP i
      rw [if_pos h3] at this
      rw [List.count_append, this, hev, if_neg h4]
      simp
    · rw [List.count_append, hP i, h2 hev]
      have : List.count (AsyncEvent.run i) [ev] = 0 := by
        simp [List.count_singleton, hev]
      rw [this]
      rfl

theorem asyncStep_world {W : Type} {gs : List (Goroutine W)} {ctx : Context} {cap : Nat}
    {s s1 : AsyncState W} {ev : AsyncEvent} (h : asyncStep gs ctx cap s ev = some s1) :
    (∀ i, ev = AsyncEvent.run i → ∃ g, gs[i]? = some g ∧ s1.world = (g.call ctx s.world).1) ∧
    ((∀ i, ev ≠ AsyncEvent.run i) → s1.world = s.world) := by
  cases ev with
  | run j =>
    obtain ⟨_, hst, g, hg, ⟨e, _, rfl⟩ | ⟨v, hv, rfl⟩⟩ := asyncStep_run h
    · exact ⟨fun i hi => by cases hi; exact ⟨g, hg, rfl⟩, fun hn => absurd rfl (hn j)⟩
    · exact ⟨fun i hi => by cases hi; exact ⟨g, hg, rfl⟩, fun hn => absurd rfl (hn j)⟩
  | send j =>
    refine ⟨fun i hi => (by cases hi), fun _ => ?_⟩
    obtain ⟨_, e1, hst, ⟨_, rfl⟩ | ⟨_, _, rfl⟩⟩ := asyncStep_send h <;> rfl
  | handoff j =>
    refine ⟨fun i hi => (by cases hi), fun _ => ?_⟩
    obtain ⟨_, e1, hst, ⟨_, rfl⟩ | ⟨_, _, _, rfl⟩⟩ := asyncStep_handoff h <;> rfl
  | done j =>
    refine ⟨fun i hi => (by cases hi), fun _ => ?_⟩
    obtain ⟨_, e1, hst, ⟨_, rfl⟩ | ⟨_, rfl⟩⟩ := asyncStep_done h <;> rfl
  | close =>
    obtain ⟨_, _, _, rfl⟩ := asyncStep_close h
    exact ⟨fun i hi => (by cases hi), fun _ => rfl⟩
  | recv =>
    obtain ⟨_, _, e1, rest, _, rfl⟩ := asyncStep_recv h
    exact ⟨fun i hi => (by cases hi), fun _ => rfl⟩
  | recvClosed =>
    obtain ⟨_, _, _, _, rfl⟩ := asyncStep_recvClosed h
    exact ⟨fun i hi => (by cases hi), fun _ => rfl⟩

/-- Whether goroutine `i` holds a result once all goroutines are finished. -/
theorem value_of_all_done (l : List GStatus) (n : Nat) (hlen : l.length = n)
    (h : ∀ i, i < l.length → ∃ e, l[i]? = some (GStatus.done e)) (i : Nat) :
    (if l[i]?.bind GStatus.value = none then 0 else 1) = if i < n then 1 else 0 := by
  by_cases hi : i < n
  · obtain ⟨e, he⟩ := h i (by omega)
    simp [he, GStatus.value, hi]
  · have : l[i]? = none := List.getElem?_eq_none (by omega)
    simp [this, hi]

theorem prepare_populated_eq {W : Type} (G S : List (MwFn W)) (ctx : Context)
    (r : Goroutiner W) (b0 b : Batch W) (hr : New (G.map some) = Except.ok r)
    (hb : r.Batch ctx (S.map some) = Except.ok b0) (hp : Populated b0 b)
    (gs : List (Goroutine W)) (hgs : b.prepareGoroutines = Except.ok gs) :
    b.ctx = ctx ∧ ctx ≠ Context.nil ∧
      ∀ (i : Nat) (cfg : goroutineConfig W), b.goroutineConfigs[i]? = some cfg →
        ∃ (t : GoFn W) (I : List (MwFn W)), cfg = goroutineConfig.mk (some t) (I.map some) ∧
          gs[i]? = some (applyAll (G ++ S ++ I) (some t)) := by
  have hne : b.goroutineConfigs ≠ [] := by
    intro he
    rw [prepare_empty b he] at hgs
    cases hgs
  obtain ⟨gs1, hgs1, _, hall⟩ := prepare_entry G S ctx r b0 b hr hb hp hne
  rw [hgs] at hgs1
  cases hgs1
  obtain ⟨hctx, _, hb0⟩ := Batch_ok _ _ _ _ hb
  refine ⟨by rw [hp.frame.1, hb0]; rfl, hctx, hall⟩

/-- C16: on a batch built through the registration interface whose decorated tasks do not
panic, under every execution policy and every schedule. The decorated task of entry `i` is
the task of that entry inside its own individual middleware (inside the batch and global
middleware), so an individual middleware runs around the task it was attached to and around
no other. A schedule calls the decorated task of an entry at most once, and a schedule that
reaches the end of the policy calls the one of every entry exactly once; the call of a
decorated task is the only step that acts on the shared world. -/
theorem every_task_is_called_once {W : Type} (G S : List (MwFn W)) (ctx : Context)
    (r : Goroutiner W) (b0 b : Batch W) (hr : New (G.map some) = Except.ok r)
    (hb : r.Batch ctx (S.map some) = Except.ok b0) (hp : Populated b0 b)
    (gs : List (Goroutine W)) (hgs : b.prepareGoroutines = Except.ok gs)
    (hret : AllReturn gs) (w : W) (cap : Nat) :
    (∀ (i : Nat) (cfg : goroutineConfig W), b.goroutineConfigs[i]? = some cfg →
      ∃ (t : GoFn W) (I : List (MwFn W)), cfg = goroutineConfig.mk (some t) (I.map some) ∧
        gs[i]? = some (applyAll (G ++ S ++ I) (some t))) ∧
    (∀ evs s, b.Wait w evs = Except.ok (some s) →
      (∀ i, evs.count (WaitEvent.run i) ≤ 1) ∧
      (s.pc = WaitPc.returned → ∀ i, evs.count (WaitEvent.run i)
        = if i < b.goroutineConfigs.length then 1 else 0)) ∧
    (∀ s ev s1, waitStep gs b.ctx s ev = some s1 →
      (∀ i, ev = WaitEvent.run i →
        ∃ g, gs[i]? = some g ∧ s1.world = (g.call b.ctx s.world).1) ∧
      ((∀ i, ev ≠ WaitEvent.run i) → s1.world = s.world)) ∧
    (∀ evs s, b.CancelOnError w evs = Except.ok (some s) →
      (∀ i, evs.count (CancelEvent.run i) ≤ 1) ∧
      (s.pc = CancelPc.returned → ∀ i, evs.count (CancelEvent.run i)
        = if i < b.goroutineConfigs.length then 1 else 0)) ∧
    (∀ s ev s1, cancelStep gs b.ctx s ev = some s1 →
      (∀ i, ev = CancelEvent.run i → ∃ g, gs[i]? = some g ∧
        s1.world = (g.call (Context.withCancel b.ctx s.cancelled) s.world).1) ∧
      ((∀ i, ev ≠ CancelEvent.run i) → s1.world = s.world)) ∧
    (∀ evs, b.Async w evs = b.AsyncBs gs.length w evs) ∧
    (∀ evs s, b.AsyncBs cap w evs = Except.ok (some s) →
      (∀ i, evs.count (AsyncEvent.run i) ≤ 1) ∧
      (s.closed = true → ∀ i, evs.count (AsyncEvent.run i)
        = if i < b.goroutineConfigs.length then 1 else 0)) ∧
    (∀ s ev s1, asyncStep gs b.ctx cap s ev = some s1 →
      (∀ i, ev = AsyncEvent.run i →
        ∃ g, gs[i]? = some g ∧ s1.world = (g.call b.ctx s.world).1) ∧
      ((∀ i, ev ≠ AsyncEvent.run i) → s1.world = s.world)) := by
  obtain ⟨hbctx, hctx, hall⟩ := prepare_populated_eq G S ctx r b0 b hr hb hp gs hgs
  have hlen := (prepare_length b gs hgs).1
  have hle : ∀ (x : Option GoError), (if x = none then 0 else 1) ≤ 1 := by
    intro x; split <;> omega
  refine ⟨hall, ?_, fun s ev s1 h => waitStep_world h, ?_, fun s ev s1 h => cancelStep_world h,
    Async_eq_AsyncBs b gs hgs w, ?_, fun s ev s1 h => asyncStep_world h⟩
  · intro evs s h
    rw [Wait_eq b gs hgs] at h
    have hI := waitExec_inv hret w evs s h
    refine ⟨fun i => by rw [waitExec_runs hret w evs s h i]; exact hle _, fun hpc i => ?_⟩
    rw [waitExec_runs hret w evs s h i, ← hlen]
    refine value_of_all_done s.status gs.length hI.len (fun j hj => ?_) i
    have hst : s.status[j]? = some s.status[j] := List.getElem?_eq_getElem hj
    have hwg := (hI.after (by rw [hpc]; decide)).2.1
    have hnd := weight_eq_zero GStatus.notDone s.status (by rw [← hI.wg_eq]; exact hwg) j _ hst
    cases hsj : s.status[j] with
    | launched => rw [hsj] at hnd; simp [GStatus.notDone] at hnd
    | returned e => rw [hsj] at hnd; simp [GStatus.notDone] at hnd
    | published e => rw [hsj] at hnd; simp [GStatus.notDone] at hnd
    | done e => exact ⟨e, by rw [hst, hsj]⟩
  · intro evs s h
    rw [CancelOnError_eq b gs hgs (by rw [hbctx]; exact hctx)] at h
    have hI := cancelExec_inv hret w evs s h
    refine ⟨fun i => by rw [cancelExec_runs hret w evs s h i]; exact hle _, fun hpc i => ?_⟩
    rw [cancelExec_runs hret w evs s h i, ← hlen]
    exact value_of_all_done s.status gs.length hI.len
      (fun j hj => cancelInv_all_done hI hpc j (by rw [← hI.len]; exact hj)) i
  · intro evs s h
    rw [AsyncBs_eq b gs hgs] at h
    obtain ⟨hfit, h⟩ := h
    have hI := asyncExec_inv hret w evs s h
    refine ⟨fun i => by rw [asyncExec_runs hret w evs s h i]; exact hle _, fun hcl i => ?_⟩
    rw [asyncExec_runs hret w evs s h i, ← hlen]
    exact value_of_all_done s.status gs.length hI.len
      (fun j hj => asyncInv_all_done hI hcl j hj) i

/-- The all-added-executed test. On the batch of its second case every schedule of `Wait`
that returns calls the two decorated tasks once each. On the batch of its last case, filled
by `Add` or by `AddRange`, `Wait`, `CancelOnError`, `Async` and `AsyncBs` with the
capacities 0 to 9 leave the counters `11, 222, 3333, ..., 9999999999`. -/
theorem every_task_is_called_once_witness :
    (∀ evs s, smallCountBatch.Wait (List.replicate 10 0) evs = Except.ok (some s) →
      s.pc = WaitPc.returned →
      evs.count (WaitEvent.run 0) = 1 ∧ evs.count (WaitEvent.run 1) = 1 ∧
        evs.count (WaitEvent.run 2) = 0) ∧
    waitWorld (smallCountBatch.Wait (List.replicate 10 0) (reverseWait 2))
      = Except.ok (some [0, 11, 0, 33, 0, 0, 0, 0, 0, 0]) ∧
    waitWorld (countBatchAdd.Wait (List.replicate 10 0) (reverseWait 9))
      = Except.ok (some countExpected) ∧
    waitWorld (countBatchAddRange.Wait (List.replicate 10 0) (reverseWait 9))
      = Except.ok (some countExpected) ∧
    cancelWorld (countBatchAdd.CancelOnError (List.replicate 10 0) (orderlyCancel 9))
      = Except.ok (some countExpected) ∧
    cancelWorld (countBatchAddRange.CancelOnError (List.replicate 10 0) (orderlyCancel 9))
      = Except.ok (some countExpected) ∧
    asyncWorld (countBatchAdd.Async (List.replicate 10 0) (handoffAsync 9))
      = some countExpected ∧
    asyncWorld (countBatchAddRange.Async (List.replicate 10 0) (handoffAsync 9))
      = some countExpected ∧
    (∀ bs, bs < 10 →
      asyncWorld (countBatchAdd.AsyncBs bs (List.replicate 10 0) (handoffAsync 9))
        = some countExpected) ∧
    (∀ bs, bs < 10 →
      asyncWorld (countBatchAddRange.AsyncBs bs (List.replicate 10 0) (handoffAsync 9))
        = some countExpected) := by
  refine ⟨?_, rfl, rfl, rfl, rfl, rfl, by decide, by decide, by decide, by decide⟩
  have hret : AllReturn [countMw 1 10 (some (countG 1 1)), countMw 3 30 (some (countG 3 3))] := by
    intro g hg c w
    simp only [List.mem_cons, List.mem_singleton, List.not_mem_nil, or_false] at hg
    rcases hg with rfl | rfl <;> exact ⟨_, _, rfl⟩
  have h := (every_task_is_called_once ([] : List (MwFn (List Int))) [] (Context.value 0)
    { globalMws := [] } (newBatch (Context.value 0) []) smallCountBatch rfl rfl
    (Populated.add _ _ _ (Populated.add _ _ _ Populated.start))
    [countMw 1 10 (some (countG 1 1)), countMw 3 30 (some (countG 3 3))] rfl hret
    (List.replicate 10 0) 0).2.1
  intro evs s hs hpc
  have h2 := (h evs s hs).2 hpc
  exact ⟨h2 0, h2 1, h2 2⟩

/-! ## The capacity of the channel -/

theorem asyncStep_send_iff {W : Type} (gs : List (Goroutine W)) (ctx : Context) (cap : Nat)
    (s : AsyncState W) (i : Nat) (e : GoError) (hc : s.crashed = none)
    (hcl : s.closed = false) (hst : s.status[i]? = some (GStatus.returned e)) :
    (∃ s1, asyncStep gs ctx cap s (AsyncEvent.send i) = some s1) ↔ s.errCh.length < cap := by
  simp only [asyncStep, hc, hst, hcl]
  by_cases h : s.errCh.length < cap
  · simp [h]
  · simp [h]

theorem asyncInv_buffered {W : Type} {gs : List (Goroutine W)} {cap : Nat}
    {s : AsyncState W} (hI : AsyncInv gs cap s) :
    s.received.length + s.errCh.length = weight GStatus.pub s.status := by
  have h1 := hI.perm.length_eq
  rw [sent_length, List.length_append] at h1
  exact h1

theorem asyncInv_can_send {W : Type} {gs : List (Goroutine W)} {ctx : Context}
    {s : AsyncState W} (hI : AsyncInv gs gs.length s) {i : Nat} {e : GoError}
    (hst : s.status[i]? = some (GStatus.returned e)) :
    asyncStep gs ctx gs.length s (AsyncEvent.send i)
      = some { s with errCh := s.errCh ++ [e],
                      status := s.status.set i (GStatus.published e) } := by
  have h1 := asyncInv_buffered hI
  have h2 := weight_lt_length GStatus.pub pub_le_one s.status i _ hst rfl
  have h3 := hI.len
  have hlt : s.errCh.length < gs.length := by omega
  obtain ⟨hcl, _, _⟩ := asyncInv_open hI hst (by simp [GStatus.notDone])
  simp only [asyncStep, hI.alive, hst, hcl, hlt]
  rfl

theorem asyncStep_unconsumed {W : Type} {gs : List (Goroutine W)} {ctx : Context} {cap : Nat}
    {s s1 : AsyncState W} {ev : AsyncEvent} (hev : ev.unconsumed = true)
    (h : asyncStep gs ctx cap s ev = some s1) : s1.received = s.received := by
  cases ev with
  | run j =>
    obtain ⟨_, _, g, _, ⟨e, _, rfl⟩ | ⟨v, _, rfl⟩⟩ := asyncStep_run h <;> rfl
  | send j =>
    obtain ⟨_, e1, _, ⟨_, rfl⟩ | ⟨_, _, rfl⟩⟩ := asyncStep_send h <;> rfl
  | handoff j => cases hev
  | done j =>
    obtain ⟨_, e1, _, ⟨_, rfl⟩ | ⟨_, rfl⟩⟩ := asyncStep_done h <;> rfl
  | close =>
    obtain ⟨_, _, _, rfl⟩ := asyncStep_close h
    rfl
  | recv => cases hev
  | recvClosed => cases hev

theorem asyncExec_unconsumed {W : Type} {gs : List (Goroutine W)} {ctx : Context} {cap : Nat}
    (evs : List AsyncEvent) (hev : ∀ ev ∈ evs, ev.unconsumed = true) (s s1 : AsyncState W)
    (h : asyncExec gs ctx cap s evs = some s1) : s1.received = s.received := by
  induction evs generalizing s with
  | nil =>
    simp only [asyncExec, Option.some.injEq] at h
    rw [h]
  | cons ev rest ih =>
    simp only [asyncExec] at h
    cases hs : asyncStep gs ctx cap s ev with
    | none => rw [hs] at h; cases h
    | some s2 =>
      rw [hs] at h
      rw [ih (fun x hx => hev x (List.mem_cons_of_mem _ hx)) s2 h,
        asyncStep_unconsumed (hev ev (List.mem_cons_self _ _)) hs]

/-- Without a consumer the goroutines go on until none of them can take a step. -/
theorem asyncExec_saturate {W : Type} {gs : List (Goroutine W)} (ctx : Context) (cap : Nat)
    (hret : AllReturn gs) (n : Nat) (s : AsyncState W) (hI : AsyncInv gs cap s)
    (hn : asyncTodo s ≤ n) :
    ∃ evs s1, (∀ ev ∈ evs, ev.unconsumed = true) ∧ asyncExec gs ctx cap s evs = some s1 ∧
      ∀ ev, ev.unconsumed = true → asyncStep gs ctx cap s1 ev = none := by
  induction n generalizing s with
  | zero =>
    refine ⟨[], s, by simp, rfl, fun ev _ => ?_⟩
    cases hs : asyncStep gs ctx cap s ev with
    | none => rfl
    | some s1 =>
      have := asyncStep_todo hret hI hs
      omega
  | succ k ih =>
    by_cases hex : ∃ ev s1, ev.unconsumed = true ∧ asyncStep gs ctx cap s ev = some s1
    · obtain ⟨ev, s1, hev, hs⟩ := hex
      have hlt := asyncStep_todo hret hI hs
      obtain ⟨evs, s2, h1, h2, h3⟩ := ih s1 (asyncStep_inv hret hI hs) (by omega)
      refine ⟨ev :: evs, s2, ?_, by simp only [asyncExec, hs, h2], h3⟩
      intro x hx
      rcases List.mem_cons.1 hx with rfl | hx
      · exact hev
      · exact h1 x hx
    · refine ⟨[], s, by simp, rfl, fun ev hev => ?_⟩
      cases hs : asyncStep gs ctx cap s ev with
      | none => rfl
      | some s1 => exact absurd ⟨ev, s1, hev, hs⟩ hex

/-- When no goroutine can take a step without the consumer and nothing has been received,
the buffer holds as many results as the smaller of the capacity and the number of tasks,
and the channel is closed exactly when the capacity is at least the number of tasks. -/
theorem asyncInv_saturated {W : Type} {gs : List (Goroutine W)} {ctx : Context} {cap : Nat}
    (hret : AllReturn gs) {s : AsyncState W} (hI : AsyncInv gs cap s)
    (hrec : s.received = [])
    (hstuck : ∀ ev, ev.unconsumed = true → asyncStep gs ctx cap s ev = none) :
    s.errCh.length = min cap gs.length ∧ (s.closed = true ↔ gs.length ≤ cap) := by
  have hal := hI.alive
  have hb := asyncInv_buffered hI
  rw [hrec] at hb
  simp only [List.length_nil, Nat.zero_add] at hb
  rcases status_cases s.status with ⟨i, hst⟩ | ⟨i, e, hst⟩ | ⟨i, e, hst⟩ | hall
  · have hi : i < gs.length := by
      rw [← hI.len]; exact (List.getElem?_eq_some_iff.1 hst).1
    obtain ⟨w1, e, hc⟩ := hret gs[i] (List.getElem_mem hi) ctx s.world
    have := hstuck (AsyncEvent.run i) rfl
    simp [asyncStep, hal, List.getElem?_eq_getElem hi, hst, hc] at this
  · obtain ⟨hcl, _, _⟩ := asyncInv_open hI hst (by simp [GStatus.notDone])
    have hno := hstuck (AsyncEvent.send i) rfl
    have hge : ¬ s.errCh.length < cap := fun hlt => by
      obtain ⟨s1, hs1⟩ := (asyncStep_send_iff gs ctx cap s i e hal hcl hst).2 hlt
      rw [hno] at hs1; cases hs1
    have hroom := hI.room
    have h2 := weight_lt_length GStatus.pub pub_le_one s.status i _ hst rfl
    have h3 := hI.len
    refine ⟨by omega, ?_⟩
    rw [hcl]
    constructor
    · intro h; cases h
    · intro h; omega
  · have hwg := (asyncInv_open hI hst (by simp [GStatus.notDone])).2.2
    have := hstuck (AsyncEvent.done i) rfl
    simp [asyncStep, hal, hst, hwg] at this
  · have hwg : s.wg = 0 := by rw [hI.wg_eq]; exact hall
    have hcl : s.closed = true := by
      cases hcl : s.closed with
      | true => rfl
      | false =>
        have := hstuck AsyncEvent.close rfl
        simp [asyncStep, hal, hcl, hwg] at this
    have hroom := hI.room
    rw [weight_pub_all_done s.status (asyncInv_all_done hI hcl), hI.len] at hb
    exact ⟨by omega, by simp only [hcl, true_iff]; omega⟩

/-- C17: the channel of `Async` is made with the capacity `N`, the number of tasks, and the
one of `AsyncBs(cap)` with the capacity `cap`, for every `cap` that `make(chan error, cap)`
allocates (`cap` values of 16 bytes and the header of 96 bytes within `maxAlloc`); beyond
that `AsyncBs(cap)` panics in `make` and returns no channel. A goroutine that holds a result
puts it into the buffer of the open channel exactly when fewer than `cap` values are
buffered, and the buffer never holds more. When nothing is consumed, the goroutines can
always go on until none of them can take a step, and then the buffer holds exactly
`min cap N` results and the channel is closed exactly when `N ≤ cap`. With the capacity of
`Async` a goroutine that holds a result is never blocked, and when nothing is consumed all
goroutines finish and the channel is closed with the `N` results buffered. -/
theorem Async_channel_capacity {W : Type} (b : Batch W) (gs : List (Goroutine W))
    (hgs : b.prepareGoroutines = Except.ok gs) (hret : AllReturn gs) (w : W) (cap : Nat) :
    (16 * gs.length ≤ maxAlloc - 96 → ∀ evs, b.Async w evs
      = Except.ok (asyncExec gs b.ctx gs.length (asyncInit gs w) evs)) ∧
    (16 * cap ≤ maxAlloc - 96 → ∀ evs, b.AsyncBs cap w evs
      = Except.ok (asyncExec gs b.ctx cap (asyncInit gs w) evs)) ∧
    (maxAlloc - 96 < 16 * cap →
      ∀ evs, b.AsyncBs cap w evs = Except.error "makechan: size out of range") ∧
    gs.length = b.goroutineConfigs.length ∧
    (∀ (s : AsyncState W) i e, s.crashed = none → s.closed = false →
      s.status[i]? = some (GStatus.returned e) →
      ((∃ s1, asyncStep gs b.ctx cap s (AsyncEvent.send i) = some s1) ↔
        s.errCh.length < cap)) ∧
    (∀ evs s, b.AsyncBs cap w evs = Except.ok (some s) → s.errCh.length ≤ cap) ∧
    (∀ evs s, (∀ ev ∈ evs, ev.unconsumed = true) → b.AsyncBs cap w evs = Except.ok (some s) →
      s.received = [] ∧
      ((∀ ev, ev.unconsumed = true → asyncStep gs b.ctx cap s ev = none) →
        s.errCh.length = min cap gs.length ∧ (s.closed = true ↔ gs.length ≤ cap))) ∧
    (16 * cap ≤ maxAlloc - 96 →
      ∃ evs s, (∀ ev ∈ evs, ev.unconsumed = true) ∧
        b.AsyncBs cap w evs = Except.ok (some s) ∧
        ∀ ev, ev.unconsumed = true → asyncStep gs b.ctx cap s ev = none) ∧
    (∀ evs s, b.Async w evs = Except.ok (some s) →
      s.errCh.length ≤ gs.length ∧
      ∀ i e, s.status[i]? = some (GStatus.returned e) →
        ∃ s1, asyncStep gs b.ctx gs.length s (AsyncEvent.send i) = some s1 ∧
          s1.errCh = s.errCh ++ [e]) ∧
    (16 * gs.length ≤ maxAlloc - 96 →
      ∃ evs s, (∀ ev ∈ evs, ev.unconsumed = true) ∧ b.Async w evs = Except.ok (some s) ∧
        s.closed = true ∧ s.received = [] ∧ s.errCh.length = gs.length) := by
  refine ⟨fun hfit evs => (Async_eq b gs hgs w evs _).2 ⟨hfit, rfl⟩,
    fun hfit evs => (AsyncBs_eq b gs hgs cap w evs _).2 ⟨hfit, rfl⟩,
    fun hfit evs => AsyncBs_makechan b gs hgs cap (by omega) w evs,
    (prepare_length b gs hgs).1,
    fun s i e hc hcl hst => asyncStep_send_iff gs b.ctx cap s i e hc hcl hst, ?_, ?_, ?_, ?_, ?_⟩
  · intro evs s h
    rw [AsyncBs_eq b gs hgs] at h
    obtain ⟨hfit, h⟩ := h
    exact (asyncExec_inv hret w evs s h).room
  · intro evs s hev h
    rw [AsyncBs_eq b gs hgs] at h
    obtain ⟨hfit, h⟩ := h
    have hI := asyncExec_inv hret w evs s h
    have hrec : s.received = [] := by rw [asyncExec_unconsumed evs hev _ s h]; rfl
    exact ⟨hrec, fun hstuck => asyncInv_saturated hret hI hrec hstuck⟩
  · intro hfit
    obtain ⟨evs, s, h1, h2, h3⟩ := asyncExec_saturate b.ctx cap hret _ (asyncInit gs w)
      (asyncInit_inv gs cap w) (Nat.le_refl _)
    exact ⟨evs, s, h1, (AsyncBs_eq b gs hgs cap w evs _).2 ⟨hfit, h2⟩, h3⟩
  · intro evs s h
    rw [Async_eq b gs hgs] at h
    obtain ⟨hfit, h⟩ := h
    have hI := asyncExec_inv hret w evs s h
    exact ⟨hI.room, fun i e hst => ⟨_, asyncInv_can_send hI hst, rfl⟩⟩
  · intro hfit
    obtain ⟨evs, s, h1, h2, h3⟩ := asyncExec_saturate b.ctx gs.length hret _ (asyncInit gs w)
      (asyncInit_inv gs gs.length w) (Nat.le_refl _)
    have hI := asyncExec_inv hret w evs s h2
    have hrec : s.received = [] := by rw [asyncExec_unconsumed evs h1 _ s h2]; rfl
    obtain ⟨h4, h5⟩ := asyncInv_saturated hret hI hrec h3
    exact ⟨evs, s, h1, (Async_eq b gs hgs w evs _).2 ⟨hfit, h2⟩, h5.2 (Nat.le_refl _), hrec,
      by simpa using h4⟩

/-- Three tasks and a channel of capacity 2 on which nothing is received: two results are
buffered, the third goroutine is blocked in its send and the channel stays open; for the
capacities 0 to 9 the buffer fills up to the smaller of the capacity and 3. -/
theorem Async_channel_capacity_witness :
    numberedBatch.prepareGoroutines = Except.ok numberedTasks ∧ AllReturn numberedTasks ∧
    (∃ s, numberedBatch.AsyncBs 2 () (fillAsync 3 2) = Except.ok (some s) ∧
      s.received = [] ∧ s.errCh.length = min 2 numberedTasks.length ∧
      (s.closed = true ↔ numberedTasks.length ≤ 2) ∧
      s.errCh = [some "error #0", some "error #1"] ∧
      asyncStep numberedTasks numberedBatch.ctx 2 s (AsyncEvent.send 2) = none) ∧
    (∀ c, c < 10 → ∃ s, numberedBatch.AsyncBs c () (fillAsync 3 c) = Except.ok (some s) ∧
      s.errCh.length = min c 3 ∧ (s.closed = true ↔ 3 ≤ c)) := by
  have hgs : numberedBatch.prepareGoroutines = Except.ok numberedTasks := rfl
  have hret : AllReturn numberedTasks := by
    intro g hg c w
    simp only [numberedTasks, List.mem_cons, List.mem_singleton, List.not_mem_nil,
      or_false] at hg
    rcases hg with rfl | rfl | rfl <;> exact ⟨_, _, rfl⟩
  have h6 :=
    (Async_channel_capacity numberedBatch numberedTasks hgs hret () 2).2.2.2.2.2.2.1
  have hex : ∃ s, numberedBatch.AsyncBs 2 () (fillAsync 3 2) = Except.ok (some s) ∧
      s.errCh = [some "error #0", some "error #1"] ∧
      asyncStep numberedTasks numberedBatch.ctx 2 s (AsyncEvent.send 2) = none ∧
      (∀ i, asyncStep numberedTasks numberedBatch.ctx 2 s (AsyncEvent.run i) = none) ∧
      (∀ i, asyncStep numberedTasks numberedBatch.ctx 2 s (AsyncEvent.send i) = none) ∧
      (∀ i, asyncStep numberedTasks numberedBatch.ctx 2 s (AsyncEvent.done i) = none) ∧
      asyncStep numberedTasks numberedBatch.ctx 2 s AsyncEvent.close = none :=
    ⟨_, rfl, rfl, rfl, fun i => by rcases i with _ | _ | _ | i <;> rfl,
      fun i => by rcases i with _ | _ | _ | i <;> rfl,
      fun i => by rcases i with _ | _ | _ | i <;> rfl, rfl⟩
  obtain ⟨s, h1, h2, h3, hrun, hsend, hdone, hclose⟩ := hex
  have hev : ∀ ev ∈ fillAsync 3 2, ev.unconsumed = true := by decide
  obtain ⟨hrec, hsat⟩ := h6 _ s hev h1
  have hstuck : ∀ ev, ev.unconsumed = true →
      asyncStep numberedTasks numberedBatch.ctx 2 s ev = none := by
    intro ev hu
    cases ev with
    | run i => exact hrun i
    | send i => exact hsend i
    | handoff i => cases hu
    | done i => exact hdone i
    | close => exact hclose
    | recv => cases hu
    | recvClosed => cases hu
  obtain ⟨h4, h5⟩ := hsat hstuck
  refine ⟨hgs, hret, ⟨s, h1, hrec, h4, h5, h2, h3⟩, ?_⟩
  intro c hc
  interval_cases c <;> exact ⟨_, rfl, rfl, by decide⟩

/-- The batch of the three tasks of the results test: `AsyncBs(1 << 62)` returns no channel,
of whatever capacity, under any schedule; the call panics in `make(chan error, 1 << 62)`. -/
theorem AsyncBs_beyond_limit_has_no_channel :
    resultBatch.goroutineConfigs.length = 3 ∧
    (∀ (w : List Int) (evs : List AsyncEvent),
      resultBatch.AsyncBs (2 ^ 62) w evs = Except.error "makechan: size out of range") ∧
    ∀ (w : List Int) (evs : List AsyncEvent),
      ¬ ∃ r, resultBatch.AsyncBs (2 ^ 62) w evs = Except.ok r := by
  obtain ⟨gs, hgs⟩ : ∃ gs, resultBatch.prepareGoroutines = Except.ok gs := ⟨_, rfl⟩
  have hpan := AsyncBs_makechan resultBatch gs hgs (2 ^ 62) (by decide)
  refine ⟨rfl, hpan, fun w evs => ?_⟩
  rintro ⟨r, h⟩
  rw [hpan w evs] at h
  cases h

/-! ## Recomposition -/

theorem prepareLoop_entry {W : Type} (bmws : List (Middleware W))
    (cfgs : List (goroutineConfig W)) (gs : List (Goroutine W))
    (h : prepareLoop bmws cfgs = Except.ok gs) (i : Nat) (cfg : goroutineConfig W)
    (hi : cfgs[i]? = some cfg) :
    ∃ g, prepareOne bmws cfg = Except.ok g ∧ gs[i]? = some g := by
  induction cfgs generalizing gs i with
  | nil => simp at hi
  | cons c rest ih =>
    simp only [prepareLoop] at h
    cases h1 : prepareOne bmws c with
    | error msg => rw [h1] at h; cases h
    | ok g =>
      rw [h1] at h
      cases h2 : prepareLoop bmws rest with
      | error msg => rw [h2] at h; cases h
      | ok gs1 =>
        rw [h2] at h
        simp only [Except.ok.injEq] at h
        subst h
        cases i with
        | zero =>
          simp only [List.getElem?_cons_zero, Option.some.injEq] at hi
          subst hi
          exact ⟨g, h1, by simp⟩
        | succ j =>
          simp only [List.getElem?_cons_succ] at hi ⊢
          exact ih gs1 h2 j hi

theorem prepare_congr {W : Type} (b b2 : Batch W) (h1 : b2.mws = b.mws)
    (h2 : b2.goroutineConfigs = b.goroutineConfigs) :
    b2.prepareGoroutines = b.prepareGoroutines := by
  simp only [Batch.prepareGoroutines, h1, h2]

/-! ## The derived context of CancelOnError -/

theorem firstError_isSome (l : List (Nat × GoError)) :
    (firstError l).isSome = true ↔ ∃ j m, (j, some m) ∈ l := by
  constructor
  · intro h
    by_contra hne
    have hnone : firstError l = none := by
      rw [firstError_eq_none]
      intro i e hm
      cases e with
      | none => rfl
      | some m => exact absurd ⟨i, m, hm⟩ hne
    rw [hnone] at h
    cases h
  · rintro ⟨j, m, hm⟩
    cases hf : firstError l with
    | some x => rfl
    | none =>
      have := (firstError_eq_none l).1 hf j (some m) hm
      cases this

theorem cancelInv_cancelled {W : Type} {gs : List (Goroutine W)} {s : CancelState W}
    (hI : CancelInv gs s) (hpc : s.pc = CancelPc.waiting) :
    s.cancelled = true ↔ ∃ j m, (j, some m) ∈ s.finished := by
  rw [hI.before hpc, hI.err_first]
  exact firstError_isSome s.finished

theorem cancelExec_last {W : Type} {gs : List (Goroutine W)} {ctx : Context}
    {s0 s1 : CancelState W} {pre : List CancelEvent} {ev : CancelEvent}
    (h : cancelExec gs ctx s0 (pre ++ [ev]) = some s1) :
    ∃ sk, cancelExec gs ctx s0 pre = some sk ∧ cancelStep gs ctx sk ev = some s1 := by
  rw [cancelExec_append] at h
  cases hm : cancelExec gs ctx s0 pre with
  | none => rw [hm] at h; cases h
  | some sk =>
    rw [hm] at h
    exact ⟨sk, rfl, h⟩

/-- C19: `CancelOnError` on a batch with a non-nil context whose composition yields the
tasks `gs`, none of which panics. Every task is called with a context derived from the
context of the batch, which sits in it as it was given, and the derived context is seen
cancelled by the task exactly when a goroutine has handed a non-nil error to the group
before the call. Handing over a non-nil error cancels the derived context and handing over
nil leaves it as it is. The caller returns only when every goroutine has finished, and that
return cancels the derived context, with or without an error; a call always can return. -/
theorem CancelOnError_cancels_derived_context {W : Type} (b : Batch W)
    (gs : List (Goroutine W)) (hgs : b.prepareGoroutines = Except.ok gs)
    (hctx : b.ctx ≠ Context.nil) (hret : AllReturn gs) (w : W) :
    (∀ pre i s1, b.CancelOnError w (pre ++ [CancelEvent.run i]) = Except.ok (some s1) →
      ∃ sk g e, b.CancelOnError w pre = Except.ok (some sk) ∧ gs[i]? = some g ∧
        g.call (Context.withCancel b.ctx sk.cancelled) sk.world = (s1.world, Outcome.ret e) ∧
        s1.status[i]? = some (GStatus.returned e) ∧ s1.cancelled = sk.cancelled ∧
        (sk.cancelled = true ↔ ∃ j m, (j, some m) ∈ sk.finished)) ∧
    (∀ pre i s1, b.CancelOnError w (pre ++ [CancelEvent.report i]) = Except.ok (some s1) →
      ∃ sk e, b.CancelOnError w pre = Except.ok (some sk) ∧
        sk.status[i]? = some (GStatus.returned e) ∧
        s1.finished = sk.finished ++ [(i, e)] ∧
        s1.cancelled = (sk.cancelled || e.isSome)) ∧
    (∀ pre i s1, b.CancelOnError w (pre ++ [CancelEvent.done i]) = Except.ok (some s1) →
      ∃ sk, b.CancelOnError w pre = Except.ok (some sk) ∧ s1.cancelled = sk.cancelled) ∧
    (∀ pre s1, b.CancelOnError w (pre ++ [CancelEvent.wait]) = Except.ok (some s1) →
      ∃ sk, b.CancelOnError w pre = Except.ok (some sk) ∧ sk.pc = CancelPc.waiting ∧
        (∀ i, i < gs.length → ∃ e, sk.status[i]? = some (GStatus.done e)) ∧
        (sk.cancelled = true ↔ ∃ j m, (j, some m) ∈ sk.finished) ∧
        s1.cancelled = true ∧ s1.pc = CancelPc.returned ∧
        s1.result = firstError sk.finished) ∧
    (∀ evs s, b.CancelOnError w evs = Except.ok (some s) →
      (s.pc = CancelPc.waiting → (s.cancelled = true ↔ ∃ j m, (j, some m) ∈ s.finished)) ∧
      (s.pc = CancelPc.returned → s.cancelled = true ∧
        (s.result = none ↔ ∀ j e, (j, e) ∈ s.finished → e = none))) ∧
    (∃ evs s, b.CancelOnError w evs = Except.ok (some s) ∧ s.pc = CancelPc.returned ∧
      s.cancelled = true) := by
  refine ⟨?_, ?_, ?_, ?_, ?_, ?_⟩
  · intro pre i s1 h
    rw [CancelOnError_eq b gs hgs hctx] at h
    obtain ⟨sk, hk, hs⟩ := cancelExec_last h
    have hI := cancelExec_inv hret w pre sk hk
    obtain ⟨_, hst, g, hg, ⟨e, he, rfl⟩ | ⟨v, hv, _⟩⟩ := cancelStep_run hs
    · refine ⟨sk, g, e, (CancelOnError_eq b gs hgs hctx w pre _).2 hk, hg,
        Prod.ext rfl he, ?_, rfl, ?_⟩
      · simp [set_lookup _ i hst]
      · exact cancelInv_cancelled hI
          (cancelInv_waiting_of hI hst (by simp [GStatus.notDone]))
    · obtain ⟨e, he⟩ := hret.call_ret hg (Context.withCancel b.ctx sk.cancelled) sk.world
      rw [he] at hv; cases hv
  · intro pre i s1 h
    rw [CancelOnError_eq b gs hgs hctx] at h
    obtain ⟨sk, hk, hs⟩ := cancelExec_last h
    have hI := cancelExec_inv hret w pre sk hk
    obtain ⟨_, e, hst, ⟨he, _, rfl⟩ | ⟨hor, rfl⟩⟩ := cancelStep_report hs
    · exact ⟨sk, e, (CancelOnError_eq b gs hgs hctx w pre _).2 hk, hst, rfl, by simp [he]⟩
    · refine ⟨sk, e, (CancelOnError_eq b gs hgs hctx w pre _).2 hk, hst, rfl, ?_⟩
      rcases hor with he | herr
      · simp [he]
      · have hpc := cancelInv_waiting_of hI hst (by simp [GStatus.notDone])
        have hc : sk.cancelled = true := by rw [hI.before hpc, herr]
        simp [hc]
  · intro pre i s1 h
    rw [CancelOnError_eq b gs hgs hctx] at h
    obtain ⟨sk, hk, hs⟩ := cancelExec_last h
    have hI := cancelExec_inv hret w pre sk hk
    refine ⟨sk, (CancelOnError_eq b gs hgs hctx w pre _).2 hk, ?_⟩
    obtain ⟨_, e, hst, ⟨hwg, _⟩ | ⟨_, rfl⟩⟩ := cancelStep_done hs
    · have := (hI.wg_eq ▸ hwg : weight GStatus.notDone sk.status = 0)
      have hpos := weight_pos GStatus.notDone sk.status i _ hst (by simp [GStatus.notDone])
      omega
    · rfl
  · intro pre s1 h
    rw [CancelOnError_eq b gs hgs hctx] at h
    obtain ⟨sk, hk, hs⟩ := cancelExec_last h
    have hI := cancelExec_inv hret w pre sk hk
    have hI1 := cancelStep_inv hret hI hs
    obtain ⟨_, hpc, hwg, rfl⟩ := cancelStep_wait hs
    exact ⟨sk, (CancelOnError_eq b gs hgs hctx w pre _).2 hk, hpc,
      fun i hi => cancelInv_all_done hI1 rfl i hi, cancelInv_cancelled hI hpc, rfl, rfl,
      hI.err_first⟩
  · intro evs s h
    rw [CancelOnError_eq b gs hgs hctx] at h
    have hI := cancelExec_inv hret w evs s h
    refine ⟨fun hpc => cancelInv_cancelled hI hpc, fun hpc => ⟨(hI.after hpc).2.2, ?_⟩⟩
    rw [(hI.after hpc).2.1, hI.err_first]
    exact firstError_eq_none s.finished
  · obtain ⟨evs, s, h1, h2⟩ :=
      cancelExec_complete b.ctx hret _ (cancelInit gs w) (cancelInit_inv gs w) (Nat.le_refl _)
    have hI := cancelExec_inv hret w evs s h1
    exact ⟨evs, s, (CancelOnError_eq b gs hgs hctx w evs _).2 h1, h2, (hI.after h2).2.2⟩

/-- Two failing tasks: task 1 hands its error to the group before task 0 is called, so
task 0 is called with the derived context cancelled, sees it and returns `cancelled`. Two
tasks that return nil: the derived context is not cancelled when the last goroutine has
finished and is cancelled when the caller has returned nil. -/
theorem CancelOnError_cancels_derived_context_witness :
    failingBatch.prepareGoroutines = Except.ok failingTasks ∧
    failingBatch.ctx ≠ Context.nil ∧ AllReturn failingTasks ∧
    (∃ sk s1 g, failingBatch.CancelOnError 0 [CancelEvent.run 1, CancelEvent.report 1]
        = Except.ok (some sk) ∧
      failingBatch.CancelOnError 0 [CancelEvent.run 1, CancelEvent.report 1, CancelEvent.run 0]
        = Except.ok (some s1) ∧
      failingTasks[0]? = some g ∧
      g.call (Context.withCancel (Context.value 0) sk.cancelled) sk.world
        = (s1.world, Outcome.ret (some "cancelled")) ∧
      (sk.cancelled = true ↔ ∃ j m, (j, some m) ∈ sk.finished) ∧
      sk.cancelled = true ∧ sk.finished = [(1, some "b")]) ∧
    (∃ s0 s, smallCountBatch.CancelOnError (List.replicate 10 0) (orderlyCancel 2).dropLast
        = Except.ok (some s0) ∧
      s0.cancelled = false ∧ s0.wg = 0 ∧
      smallCountBatch.CancelOnError (List.replicate 10 0) (orderlyCancel 2)
        = Except.ok (some s) ∧
      s.cancelled = true ∧ s.result = none ∧ s.pc = CancelPc.returned) := by
  have hgs : failingBatch.prepareGoroutines = Except.ok failingTasks := rfl
  have hret : AllReturn failingTasks := by
    intro g hg c w
    simp only [failingTasks, List.mem_cons, List.mem_singleton, List.not_mem_nil,
      or_false] at hg
    rcases hg with rfl | rfl
    · simp only [Goroutine.call]
      split <;> exact ⟨_, _, rfl⟩
    · exact ⟨_, _, rfl⟩
  have hex : ∃ s1, failingBatch.CancelOnError 0
        ([CancelEvent.run 1, CancelEvent.report 1] ++ [CancelEvent.run 0])
        = Except.ok (some s1) ∧
      s1.status[0]? = some (GStatus.returned (some "cancelled")) := ⟨_, rfl, rfl⟩
  obtain ⟨s1, h1, h2⟩ := hex
  obtain ⟨sk, g, e, hk, hg, hcall, hst, _, hiff⟩ :=
    (CancelOnError_cancels_derived_context failingBatch failingTasks hgs (by decide) hret 0).1
      [CancelEvent.run 1, CancelEvent.report 1] 0 s1 h1
  have hk1 : failingBatch.CancelOnError 0 [CancelEvent.run 1, CancelEvent.report 1]
      = Except.ok (some sk) := hk
  have he : e = some "cancelled" := by
    rw [h2] at hst
    simp only [Option.some.injEq, GStatus.returned.injEq] at hst
    exact hst.symm
  subst he
  have hsk : sk.cancelled = true ∧ sk.finished = [(1, some "b")] := by
    have hk2 : Except.ok (some sk) = failingBatch.CancelOnError 0
        [CancelEvent.run 1, CancelEvent.report 1] := hk1.symm
    have hk3 : (Except.ok (some sk) : Except String (Option (CancelState Nat)))
        = Except.ok (some _) := hk2.trans rfl
    simp only [Except.ok.injEq, Option.some.injEq] at hk3
    rw [hk3]
    exact ⟨rfl, rfl⟩
  exact ⟨hgs, by decide, hret, ⟨sk, s1, g, hk1, h1, hg, hcall, hiff, hsk.1, hsk.2⟩,
    ⟨_, _, rfl, rfl, rfl, rfl, rfl, rfl, rfl⟩⟩

/-! ## Who waits for the tasks -/

/-- The counter of the `sync.WaitGroup` of `Wait` counts the goroutines that have not
finished, whatever the tasks do, and the caller is past `wg.Wait()` only when it is zero. -/
theorem waitExec_counter {W : Type} (gs : List (Goroutine W)) (ctx : Context) (w : W)
    (evs : List WaitEvent) (s : WaitState W)
    (h : waitExec gs ctx (waitInit gs w) evs = some s) :
    s.status.length = gs.length ∧ s.wg = weight GStatus.notDone s.status ∧
      (s.pc ≠ WaitPc.waiting → s.wg = 0) := by
  refine waitExec_induction gs ctx (waitInit gs w)
    (fun _ s => s.status.length = gs.length ∧ s.wg = weight GStatus.notDone s.status ∧
      (s.pc ≠ WaitPc.waiting → s.wg = 0)) ?_ ?_ evs s h
  · refine ⟨by simp [waitInit], by simp [waitInit, weight_replicate, GStatus.notDone], ?_⟩
    intro hpc
    exact absurd rfl hpc
  · intro _ s ev s1 _ hP hs
    obtain ⟨hlen, hwg, hpc⟩ := hP
    cases ev with
    | run i =>
      obtain ⟨_, hst, g, hg, ⟨e, _, rfl⟩ | ⟨v, _, rfl⟩⟩ := waitStep_run hs
      · have := weight_set GStatus.notDone s.status i _ (GStatus.returned e) hst
        simp only [GStatus.notDone] at this
        exact ⟨by simp [hlen], by simp only; omega, hpc⟩
      · exact ⟨hlen, hwg, hpc⟩
    | send i =>
      obtain ⟨_, e, hst, ⟨_, rfl⟩ | ⟨_, _, rfl⟩⟩ := waitStep_send hs
      · exact ⟨hlen, hwg, hpc⟩
      · have := weight_set GStatus.notDone s.status i _ (GStatus.published e) hst
        simp only [GStatus.notDone] at this
        exact ⟨by simp [hlen], by simp only; omega, hpc⟩
    | done i =>
      obtain ⟨_, e, hst, ⟨_, rfl⟩ | ⟨hne, rfl⟩⟩ := waitStep_done hs
      · exact ⟨hlen, hwg, hpc⟩
      · have := weight_set GStatus.notDone s.status i _ (GStatus.done e) hst
        simp only [GStatus.notDone] at this
        refine ⟨by simp [hlen], by simp only; omega, fun h1 => ?_⟩
        exact absurd (hpc h1) hne
    | close =>
      obtain ⟨_, _, h0, rfl⟩ := waitStep_close hs
      exact ⟨hlen, hwg, fun _ => h0⟩
    | recv =>
      obtain ⟨_, _, i, e, rest, _, ⟨_, rfl⟩ | ⟨_, rfl⟩⟩ := waitStep_recv hs
      · exact ⟨hlen, hwg, hpc⟩
      · exact ⟨hlen, hwg, hpc⟩
    | ret =>
      obtain ⟨_, hr, _, _, rfl⟩ := waitStep_ret hs
      refine ⟨hlen, hwg, fun _ => hpc ?_⟩
      rw [hr]
      exact fun h1 => WaitPc.noConfusion h1

/-! ## The return of Async and of Wait -/

theorem asyncCallExec_concat {W : Type} (gs : List (Goroutine W)) (ctx : Context) (cap : Nat)
    (s : AsyncCallState W) (evs : List AsyncCallEvent) (ev : AsyncCallEvent) :
    asyncCallExec gs ctx cap s (evs ++ [ev])
      = match asyncCallExec gs ctx cap s evs with
        | none => none
        | some t => asyncCallStep gs ctx cap t ev := by
  induction evs generalizing s with
  | nil =>
    simp only [List.nil_append, asyncCallExec]
    cases asyncCallStep gs ctx cap s ev <;> rfl
  | cons e rest ih =>
    simp only [List.cons_append, asyncCallExec]
    cases asyncCallStep gs ctx cap s e with
    | none => rfl
    | some s1 => exact ih s1

theorem asyncCallExec_returned {W : Type} (gs : List (Goroutine W)) (ctx : Context)
    (cap : Nat) (t : AsyncState W) (evs : List AsyncEvent) :
    asyncCallExec gs ctx cap { returned := true, bg := t } (evs.map AsyncCallEvent.bg)
      = (asyncExec gs ctx cap t evs).map (fun t1 => { returned := true, bg := t1 }) := by
  induction evs generalizing t with
  | nil => rfl
  | cons e rest ih =>
    simp only [List.map_cons, asyncCallExec, asyncCallStep, asyncExec]
    rw [if_neg (by simp)]
    cases asyncStep gs ctx cap t e with
    | none => rfl
    | some t1 => exact ih t1

theorem AsyncBsCall_eq {W : Type} (b : Batch W) (gs : List (Goroutine W))
    (h : b.prepareGoroutines = Except.ok gs) (cap : Nat) (w : W)
    (evs : List AsyncCallEvent) (r : Option (AsyncCallState W)) :
    b.AsyncBsCall cap w evs = Except.ok r ↔
      16 * cap ≤ maxAlloc - 96 ∧
        asyncCallExec gs b.ctx cap (asyncCallInit gs w) evs = r := by
  by_cases hfit : 16 * cap ≤ maxAlloc - 96
  · simp [Batch.AsyncBsCall, Batch.asyncCall, h, makechan_ok hfit, hfit]
  · simp [Batch.AsyncBsCall, Batch.asyncCall, h, makechan_error hfit, hfit]

theorem AsyncBsCall_after_return {W : Type} (b : Batch W) (c : Nat) (w : W)
    (evs : List AsyncEvent) :
    b.AsyncBsCall c w (AsyncCallEvent.ret :: evs.map AsyncCallEvent.bg)
      = afterReturn (b.AsyncBs c w evs) := by
  unfold Batch.AsyncBsCall Batch.AsyncBs Batch.asyncCall Batch.async
  cases b.prepareGoroutines with
  | error msg => rfl
  | ok gs =>
    simp only []
    cases makechan c with
    | error msg => rfl
    | ok cap =>
      simp only [afterReturn]
      have h1 : asyncCallExec gs b.ctx cap (asyncCallInit gs w)
          (AsyncCallEvent.ret :: evs.map AsyncCallEvent.bg)
          = asyncCallExec gs b.ctx cap { returned := true, bg := asyncInit gs w }
              (evs.map AsyncCallEvent.bg) := rfl
      rw [h1, asyncCallExec_returned]

/-- C20: a call of `Async` or `AsyncBs(c)` on a batch that composes to `gs`, with the return
of the caller as an event among those of the goroutines, against a call of `Wait`. For a
capacity `make` allocates the caller of `AsyncBs(c)` can return first, with every goroutine
launched and no task called, the world untouched and the channel open and empty; and in
every state a schedule leads to in which the caller has not returned and no goroutine has
crashed, whatever the goroutines have done or not done so far, the return is the next step
of some schedule and changes nothing else: the caller never waits. What follows the return
are the steps of `AsyncBs(c)`; beyond the limit the call panics in `make`, without waiting
either. The caller of `Wait` starts blocked in `wg.Wait()` and can neither go on nor return
there. When every decorated task returns, the caller of `Wait` stays blocked as long as a
goroutine has not finished; once it is past that point every task has been called and has
returned and every goroutine has finished; and `Wait` does return. -/
theorem Async_returns_at_once_Wait_blocks {W : Type} (b : Batch W) (gs : List (Goroutine W))
    (hgs : b.prepareGoroutines = Except.ok gs) (w : W) :
    (∀ evs, b.AsyncCall w evs = b.AsyncBsCall gs.length w evs) ∧
    (∀ c, 16 * c ≤ maxAlloc - 96 →
      b.AsyncBsCall c w [AsyncCallEvent.ret]
        = Except.ok (some { returned := true, bg := asyncInit gs w }) ∧
      ∀ evs s, b.AsyncBsCall c w evs = Except.ok (some s) → s.returned = false →
        s.bg.crashed = none →
        b.AsyncBsCall c w (evs ++ [AsyncCallEvent.ret])
          = Except.ok (some { returned := true, bg := s.bg })) ∧
    (∀ c evs, b.AsyncBsCall c w (AsyncCallEvent.ret :: evs.map AsyncCallEvent.bg)
      = afterReturn (b.AsyncBs c w evs)) ∧
    (∀ c, maxAlloc - 96 < 16 * c →
      ∀ evs, b.AsyncBsCall c w evs = Except.error "makechan: size out of range") ∧
    ((asyncInit gs w).world = w ∧ (asyncInit gs w).errCh = [] ∧
      (asyncInit gs w).closed = false ∧ (asyncInit gs w).crashed = none ∧
      1 ≤ gs.length ∧
      ∀ i, i < gs.length → (asyncInit gs w).status[i]? = some GStatus.launched) ∧
    (∃ s0, b.Wait w [] = Except.ok (some s0) ∧ s0.pc = WaitPc.waiting ∧
      s0.result = none ∧ b.Wait w [WaitEvent.close] = Except.ok none ∧
      b.Wait w [WaitEvent.ret] = Except.ok none) ∧
    (AllReturn gs →
      (∀ evs s, b.Wait w evs = Except.ok (some s) →
        ∀ (i : Nat) (st : GStatus), s.status[i]? = some st → 0 < st.notDone →
          s.crashed = none ∧ s.pc = WaitPc.waiting ∧ s.result = none ∧
          waitStep gs b.ctx s WaitEvent.close = none ∧
          waitStep gs b.ctx s WaitEvent.ret = none) ∧
      (∀ evs s, b.Wait w evs = Except.ok (some s) → s.pc ≠ WaitPc.waiting →
        ∀ i, i < gs.length → ∃ e, s.status[i]? = some (GStatus.done e) ∧
          ∃ pre post sk g, evs = pre ++ WaitEvent.run i :: post ∧
            b.Wait w pre = Except.ok (some sk) ∧ gs[i]? = some g ∧
            (g.call b.ctx sk.world).2 = Outcome.ret e) ∧
      ∃ evs s, b.Wait w evs = Except.ok (some s) ∧ s.pc = WaitPc.returned) := by
  have hN := (prepare_length b gs hgs).2
  have hblock : ∀ evs s, b.Wait w evs = Except.ok (some s) →
      ∀ (i : Nat) (st : GStatus), s.status[i]? = some st → 0 < st.notDone →
        s.pc = WaitPc.waiting ∧ s.result = none ∧
        waitStep gs b.ctx s WaitEvent.close = none ∧
        waitStep gs b.ctx s WaitEvent.ret = none := by
    intro evs s h i st hst hnd
    rw [Wait_eq b gs hgs] at h
    obtain ⟨_, hwg, hpc⟩ := waitExec_counter gs b.ctx w evs s h
    have hpos := weight_pos GStatus.notDone s.status i st hst hnd
    have hne : ¬ s.wg = 0 := by omega
    have hw : s.pc = WaitPc.waiting := by
      by_contra h1
      exact hne (hpc h1)
    refine ⟨hw, by simp [WaitState.result, hw], ?_, ?_⟩
    · cases hs : waitStep gs b.ctx s WaitEvent.close with
      | none => rfl
      | some s1 => exact absurd (waitStep_close hs).2.2.1 hne
    · simp only [waitStep, hw]
      cases s.crashed <;> rfl
  have h0 : b.Wait w [] = Except.ok (some (waitInit gs w)) := by
    simp [Batch.Wait, hgs, waitExec]
  have hst0 : (waitInit gs w).status[0]? = some GStatus.launched := by
    simp only [waitInit, List.getElem?_replicate]
    rw [if_pos (by omega)]
  refine ⟨fun evs => by simp [Batch.AsyncCall, Batch.AsyncBsCall, hgs], ?_,
    fun c evs => AsyncBsCall_after_return b c w evs, ?_,
    ⟨rfl, rfl, rfl, rfl, hN, fun i hi => by simp [asyncInit, List.getElem?_replicate, hi]⟩,
    ?_, fun hret => ⟨?_, ?_, ?_⟩⟩
  · intro c hfit
    refine ⟨(AsyncBsCall_eq b gs hgs c w _ _).2 ⟨hfit, rfl⟩, fun evs s h hr hc => ?_⟩
    obtain ⟨_, h⟩ := (AsyncBsCall_eq b gs hgs c w evs _).1 h
    refine (AsyncBsCall_eq b gs hgs c w _ _).2 ⟨hfit, ?_⟩
    rw [asyncCallExec_concat, h]
    simp only [asyncCallStep, hc, hr]
  · intro c hc evs
    simp [Batch.AsyncBsCall, Batch.asyncCall, hgs, makechan_error (by omega : ¬ 16 * c ≤ maxAlloc - 96)]
  · obtain ⟨h1, h2, h3, h4⟩ := hblock [] _ h0 0 _ hst0 (by simp [GStatus.notDone])
    refine ⟨waitInit gs w, h0, h1, h2, ?_, ?_⟩
    · simp only [Batch.Wait, hgs, waitExec, h3]
    · simp only [Batch.Wait, hgs, waitExec, h4]
  · intro evs s h i st hst hnd
    have hal := (waitExec_inv hret w evs s ((Wait_eq b gs hgs w evs _).1 h)).alive
    exact ⟨hal, hblock evs s h i st hst hnd⟩
  · intro evs s h hpc i hi
    rw [Wait_eq b gs hgs] at h
    obtain ⟨hlen, hwg, hz⟩ := waitExec_counter gs b.ctx w evs s h
    have hi1 : i < s.status.length := by rw [hlen]; exact hi
    have hst : s.status[i]? = some s.status[i] := List.getElem?_eq_getElem hi1
    have hnd := weight_eq_zero GStatus.notDone s.status (by rw [← hwg]; exact hz hpc) i _ hst
    cases hsi : s.status[i] with
    | launched => rw [hsi] at hnd; simp [GStatus.notDone] at hnd
    | returned e => rw [hsi] at hnd; simp [GStatus.notDone] at hnd
    | published e => rw [hsi] at hnd; simp [GStatus.notDone] at hnd
    | done e =>
      rw [hsi] at hst
      obtain ⟨pre, post, sk, g, h1, h2, h3, h4⟩ :=
        waitExec_history gs b.ctx w evs s h i e (by simp [hst, GStatus.value])
      exact ⟨e, hst, pre, post, sk, g, h1, (Wait_eq b gs hgs w pre _).2 h2, h3, h4⟩
  · obtain ⟨evs, s, h1, h2⟩ :=
      waitExec_complete b.ctx hret _ (waitInit gs w) (waitInit_inv gs w) (Nat.le_refl _)
    exact ⟨evs, s, (Wait_eq b gs hgs w evs _).2 h1, h2⟩

/-- The batch of the tests `really async` and `not async`, one task that returns only when
the deadline has passed. `AsyncBs(c)` for the capacities of the test and `Async` return
before the task is called, and also when it has been called and once it has finished; the
caller of `Wait` cannot return before the task has been called nor before its goroutine has
finished, and returns the error of the task afterwards. -/
theorem Async_returns_at_once_Wait_blocks_witness :
    deadlineBatch.prepareGoroutines = Except.ok [some deadlineG] ∧
    (∀ c, c < 10 → deadlineBatch.AsyncBsCall c () [AsyncCallEvent.ret]
      = Except.ok (some { returned := true, bg := asyncInit [some deadlineG] () })) ∧
    deadlineBatch.AsyncCall () [AsyncCallEvent.ret]
      = Except.ok (some { returned := true, bg := asyncInit [some deadlineG] () }) ∧
    (asyncInit [some deadlineG] ()).status = [GStatus.launched] ∧
    (∃ s, deadlineBatch.AsyncCall ()
        [AsyncCallEvent.bg (AsyncEvent.run 0), AsyncCallEvent.bg (AsyncEvent.send 0),
          AsyncCallEvent.bg (AsyncEvent.done 0), AsyncCallEvent.bg AsyncEvent.close,
          AsyncCallEvent.ret] = Except.ok (some s) ∧
      s.returned = true ∧ s.bg.closed = true) ∧
    deadlineBatch.AsyncCall () [AsyncCallEvent.bg AsyncEvent.recv] = Except.ok none ∧
    deadlineBatch.Wait () [WaitEvent.ret] = Except.ok none ∧
    deadlineBatch.Wait () [WaitEvent.close] = Except.ok none ∧
    deadlineBatch.Wait () [WaitEvent.run 0, WaitEvent.close] = Except.ok none ∧
    (∃ s, deadlineBatch.Wait () waitOne = Except.ok (some s) ∧
      s.result = some [some "context deadline exceeded"]) := by
  have h := Async_returns_at_once_Wait_blocks deadlineBatch [some deadlineG] rfl ()
  refine ⟨rfl, fun c hc => (h.2.1 c ?_).1, rfl, rfl, ⟨_, rfl, rfl, rfl⟩, rfl, rfl, rfl, rfl,
    ⟨_, rfl, rfl⟩⟩
  have : (10 : Nat) * 16 ≤ maxAlloc - 96 := by decide
  omega

/-! ## The nil check of the popular middleware -/

/-- C21: `MwPanicRelay(h)` and `MwPanicToError(h)` panic exactly when the transform `h` is
nil, with the message of the nil check and at the call that creates the middleware, which
then yields no middleware. With a non-nil transform the call yields a non-nil middleware;
applying it to any task, nil included, does not panic and yields a non-nil task; the task
made by `MwPanicRelay` panics exactly when the inner task does, and the one made by
`MwPanicToError` never panics. -/
theorem popular_mws_panic_iff_nil_handler {W : Type} (debugStack : String)
    (hR : Option (RelayHandler W)) (hE : Option (ErrorHandler W)) :
    ((∃ msg, MwPanicRelay debugStack hR = Except.error msg) ↔ hR = none) ∧
    ((∃ msg, MwPanicToError debugStack hE = Except.error msg) ↔ hE = none) ∧
    MwPanicRelay debugStack (none : Option (RelayHandler W))
      = Except.error "`fnHandler` must not be `nil`" ∧
    MwPanicToError debugStack (none : Option (ErrorHandler W))
      = Except.error "`fnHandler` must not be `nil`" ∧
    (∀ h, hR = some h → ∃ mw, MwPanicRelay debugStack hR = Except.ok (some mw) ∧
      hasNil [some mw] = false ∧
      ∀ g, Middleware.call (some mw) g = Except.ok (mw g) ∧ (mw g).isSome = true ∧
        ∀ ctx w, (∃ pv, ((mw g).call ctx w).2 = Outcome.panic pv) ↔
          ∃ pv, (g.call ctx w).2 = Outcome.panic pv) ∧
    (∀ h, hE = some h → ∃ mw, MwPanicToError debugStack hE = Except.ok (some mw) ∧
      hasNil [some mw] = false ∧
      ∀ g, Middleware.call (some mw) g = Except.ok (mw g) ∧ (mw g).isSome = true ∧
        ∀ ctx w, ∃ e, ((mw g).call ctx w).2 = Outcome.ret e) := by
  refine ⟨?_, ?_, rfl, rfl, ?_, ?_⟩
  · cases hR with
    | none => simp [MwPanicRelay]
    | some h => simp [MwPanicRelay]
  · cases hE with
    | none => simp [MwPanicToError]
    | some h => simp [MwPanicToError]
  · rintro h rfl
    refine ⟨_, rfl, rfl, fun g => ⟨rfl, rfl, fun ctx w => ?_⟩⟩
    have key : ∀ p : W × Outcome,
        (∃ pv, (match p with
          | (w1, Outcome.ret err) => (w1, Outcome.ret err)
          | (w1, Outcome.panic pv) =>
            match h pv debugStack ctx w1 with
            | (w2, pv1) => (w2, Outcome.panic pv1)).2 = Outcome.panic pv) ↔
          ∃ pv, p.2 = Outcome.panic pv := by
      rintro ⟨w1, o⟩
      cases o <;> simp
    exact key (g.call ctx w)
  · rintro h rfl
    refine ⟨_, rfl, rfl, fun g => ⟨rfl, rfl, fun ctx w => ?_⟩⟩
    have key : ∀ p : W × Outcome,
        ∃ e, (match p with
          | (w1, Outcome.ret err) => (w1, Outcome.ret err)
          | (w1, Outcome.panic pv) =>
            match h pv debugStack ctx w1 with
            | (w2, rErr) => (w2, Outcome.ret rErr)).2 = Outcome.ret e := by
      rintro ⟨w1, o⟩
      cases o <;> exact ⟨_, rfl⟩
    exact key (g.call ctx w)

/-! ## The context the tasks are called with -/

theorem waitExec_call {W : Type} {gs : List (Goroutine W)} {ctx : Context}
    {s0 s1 : WaitState W} {pre : List WaitEvent} {i : Nat}
    (h : waitExec gs ctx s0 (pre ++ [WaitEvent.run i]) = some s1) :
    ∃ sk g, waitExec gs ctx s0 pre = some sk ∧ gs[i]? = some g ∧
      sk.status[i]? = some GStatus.launched ∧ s1.world = (g.call ctx sk.world).1 ∧
      ((∃ e, (g.call ctx sk.world).2 = Outcome.ret e ∧
          s1.status[i]? = some (GStatus.returned e) ∧ s1.crashed = none) ∨
        (∃ v, (g.call ctx sk.world).2 = Outcome.panic v ∧ s1.crashed = some v)) := by
  rw [waitExec_append] at h
  cases hm : waitExec gs ctx s0 pre with
  | none => rw [hm] at h; cases h
  | some sk =>
    rw [hm] at h
    obtain ⟨hc, hst, g, hg, ⟨e, he, rfl⟩ | ⟨v, hv, rfl⟩⟩ := waitStep_run h
    · exact ⟨sk, g, rfl, hg, hst, rfl, Or.inl ⟨e, he, by simp [set_lookup _ i hst], hc⟩⟩
    · exact ⟨sk, g, rfl, hg, hst, rfl, Or.inr ⟨v, hv, rfl⟩⟩

theorem asyncExec_call {W : Type} {gs : List (Goroutine W)} {ctx : Context} {cap : Nat}
    {s0 s1 : AsyncState W} {pre : List AsyncEvent} {i : Nat}
    (h : asyncExec gs ctx cap s0 (pre ++ [AsyncEvent.run i]) = some s1) :
    ∃ sk g, asyncExec gs ctx cap s0 pre = some sk ∧ gs[i]? = some g ∧
      sk.status[i]? = some GStatus.launched ∧ s1.world = (g.call ctx sk.world).1 ∧
      ((∃ e, (g.call ctx sk.world).2 = Outcome.ret e ∧
          s1.status[i]? = some (GStatus.returned e) ∧ s1.crashed = none) ∨
        (∃ v, (g.call ctx sk.world).2 = Outcome.panic v ∧ s1.crashed = some v)) := by
  rw [asyncExec_append] at h
  cases hm : asyncExec gs ctx cap s0 pre with
  | none => rw [hm] at h; cases h
  | some sk =>
    rw [hm] at h
    have h2 : asyncStep gs ctx cap sk (AsyncEvent.run i) = some s1 := h
    obtain ⟨hc, hst, g, hg, ⟨e, he, rfl⟩ | ⟨v, hv, rfl⟩⟩ := asyncStep_run h2
    · exact ⟨sk, g, rfl, hg, hst, rfl, Or.inl ⟨e, he, by simp [set_lookup _ i hst], hc⟩⟩
    · exact ⟨sk, g, rfl, hg, hst, rfl, Or.inr ⟨v, hv, rfl⟩⟩

theorem cancelExec_call {W : Type} {gs : List (Goroutine W)} {ctx : Context}
    {s0 s1 : CancelState W} {pre : List CancelEvent} {i : Nat}
    (h : cancelExec gs ctx s0 (pre ++ [CancelEvent.run i]) = some s1) :
    ∃ sk g, cancelExec gs ctx s0 pre = some sk ∧ gs[i]? = some g ∧
      sk.status[i]? = some GStatus.launched ∧
      s1.world = (g.call (Context.withCancel ctx sk.cancelled) sk.world).1 ∧
      ((∃ e, (g.call (Context.withCancel ctx sk.cancelled) sk.world).2 = Outcome.ret e ∧
          s1.status[i]? = some (GStatus.returned e) ∧ s1.crashed = none) ∨
        (∃ v, (g.call (Context.withCancel ctx sk.cancelled) sk.world).2 = Outcome.panic v ∧
          s1.crashed = some v)) := by
  obtain ⟨sk, hk, hs⟩ := cancelExec_last h
  obtain ⟨hc, hst, g, hg, ⟨e, he, rfl⟩ | ⟨v, hv, rfl⟩⟩ := cancelStep_run hs
  · exact ⟨sk, g, hk, hg, hst, rfl, Or.inl ⟨e, he, by simp [set_lookup _ i hst], hc⟩⟩
  · exact ⟨sk, g, hk, hg, hst, rfl, Or.inr ⟨v, hv, rfl⟩⟩

/-- C22: a batch made by `Batch(ctx, S...)` on any `Goroutiner` and filled by any calls of `Add` and
`AddRange`, composing to the tasks `gs`. Under `Wait`, `Async` and `AsyncBs(c)` every call
of a task, at whatever point of whatever schedule and whatever the other tasks have
returned, is the call `g(ctx)` with the `ctx` given to `Batch`: the world after the call and
the result or panic are those of that call. Under `CancelOnError` every call is the call of
the task with the one context derived from `ctx`, whose parent is `ctx` and whose
done-signal is the group's at that moment. -/
theorem tasks_receive_batch_context {W : Type} (S : List (Middleware W)) (ctx : Context)
    (r : Goroutiner W) (b0 b : Batch W)
    (hb : r.Batch ctx S = Except.ok b0) (hp : Populated b0 b) (gs : List (Goroutine W))
    (hgs : b.prepareGoroutines = Except.ok gs) :
    b.ctx = ctx ∧ ctx ≠ Context.nil ∧
    (∀ w pre i s1, b.Wait w (pre ++ [WaitEvent.run i]) = Except.ok (some s1) →
      ∃ sk g, b.Wait w pre = Except.ok (some sk) ∧ gs[i]? = some g ∧
        sk.status[i]? = some GStatus.launched ∧ s1.world = (g.call ctx sk.world).1 ∧
        ((∃ e, (g.call ctx sk.world).2 = Outcome.ret e ∧
            s1.status[i]? = some (GStatus.returned e) ∧ s1.crashed = none) ∨
          (∃ v, (g.call ctx sk.world).2 = Outcome.panic v ∧ s1.crashed = some v))) ∧
    (∀ w pre i s1, b.Async w (pre ++ [AsyncEvent.run i]) = Except.ok (some s1) →
      ∃ sk g, b.Async w pre = Except.ok (some sk) ∧ gs[i]? = some g ∧
        sk.status[i]? = some GStatus.launched ∧ s1.world = (g.call ctx sk.world).1 ∧
        ((∃ e, (g.call ctx sk.world).2 = Outcome.ret e ∧
            s1.status[i]? = some (GStatus.returned e) ∧ s1.crashed = none) ∨
          (∃ v, (g.call ctx sk.world).2 = Outcome.panic v ∧ s1.crashed = some v))) ∧
    (∀ c w pre i s1, b.AsyncBs c w (pre ++ [AsyncEvent.run i]) = Except.ok (some s1) →
      ∃ sk g, b.AsyncBs c w pre = Except.ok (some sk) ∧ gs[i]? = some g ∧
        sk.status[i]? = some GStatus.launched ∧ s1.world = (g.call ctx sk.world).1 ∧
        ((∃ e, (g.call ctx sk.world).2 = Outcome.ret e ∧
            s1.status[i]? = some (GStatus.returned e) ∧ s1.crashed = none) ∨
          (∃ v, (g.call ctx sk.world).2 = Outcome.panic v ∧ s1.crashed = some v))) ∧
    (∀ w pre i s1, b.CancelOnError w (pre ++ [CancelEvent.run i]) = Except.ok (some s1) →
      ∃ sk g, b.CancelOnError w pre = Except.ok (some sk) ∧ gs[i]? = some g ∧
        sk.status[i]? = some GStatus.launched ∧
        s1.world = (g.call (Context.withCancel ctx sk.cancelled) sk.world).1 ∧
        ((∃ e, (g.call (Context.withCancel ctx sk.cancelled) sk.world).2 = Outcome.ret e ∧
            s1.status[i]? = some (GStatus.returned e) ∧ s1.crashed = none) ∨
          (∃ v, (g.call (Context.withCancel ctx sk.cancelled) sk.world).2 = Outcome.panic v ∧
            s1.crashed = some v))) := by
  obtain ⟨hne, _, hb0⟩ := Batch_ok _ _ _ _ hb
  have hctx : b.ctx = ctx := by rw [hp.frame.1, hb0]; rfl
  have hbne : b.ctx ≠ Context.nil := by rw [hctx]; exact hne
  refine ⟨hctx, hne, ?_, ?_, ?_, ?_⟩
  · intro w pre i s1 h
    rw [Wait_eq b gs hgs] at h
    obtain ⟨sk, g, hk, rest⟩ := waitExec_call h
    rw [hctx] at rest
    exact ⟨sk, g, (Wait_eq b gs hgs w pre _).2 hk, rest⟩
  · intro w pre i s1 h
    rw [Async_eq b gs hgs] at h
    obtain ⟨hfit, h⟩ := h
    obtain ⟨sk, g, hk, rest⟩ := asyncExec_call h
    rw [hctx] at rest
    exact ⟨sk, g, (Async_eq b gs hgs w pre _).2 ⟨hfit, hk⟩, rest⟩
  · intro c w pre i s1 h
    rw [AsyncBs_eq b gs hgs] at h
    obtain ⟨hfit, h⟩ := h
    obtain ⟨sk, g, hk, rest⟩ := asyncExec_call h
    rw [hctx] at rest
    exact ⟨sk, g, (AsyncBs_eq b gs hgs c w pre _).2 ⟨hfit, hk⟩, rest⟩
  · intro w pre i s1 h
    rw [CancelOnError_eq b gs hgs hbne] at h
    obtain ⟨sk, g, hk, rest⟩ := cancelExec_call h
    rw [hctx] at rest
    exact ⟨sk, g, (CancelOnError_eq b gs hgs hbne w pre _).2 hk, rest⟩

/-- Two tasks that record their context, the first one failing: under `Wait`, `Async` and
`AsyncBs(0)` both record the context of the batch; under `CancelOnError` the first records
the derived context not yet cancelled and the second, called after the failure has been
handed over, the same derived context cancelled. -/
theorem tasks_receive_batch_context_witness :
    ctxBatch.ctx = Context.value 7 ∧
    (∀ w pre i s1, ctxBatch.Wait w (pre ++ [WaitEvent.run i]) = Except.ok (some s1) →
      ∃ (sk : WaitState (List Context)) (g : Goroutine (List Context)),
        ctxBatch.Wait w pre = Except.ok (some sk) ∧
        s1.world = (g.call (Context.value 7) sk.world).1) ∧
    waitWorld (ctxBatch.Wait [] (reverseWait 2))
      = Except.ok (some [Context.value 7, Context.value 7]) ∧
    asyncWorld (ctxBatch.Async [] (handoffAsync 2))
      = some [Context.value 7, Context.value 7] ∧
    asyncWorld (ctxBatch.AsyncBs 0 [] (handoffAsync 2))
      = some [Context.value 7, Context.value 7] ∧
    cancelWorld (ctxBatch.CancelOnError [] (orderlyCancel 2))
      = Except.ok (some [Context.withCancel (Context.value 7) false,
          Context.withCancel (Context.value 7) true]) := by
  have h := tasks_receive_batch_context ([] : List (Middleware (List Context)))
    (Context.value 7) { globalMws := [] } (newBatch (Context.value 7) []) ctxBatch rfl
    (Populated.add _ _ _ (Populated.add _ _ _ Populated.start))
    [some (ctxG (some "first failed")), some (ctxG none)] rfl
  refine ⟨h.1, ?_, rfl, rfl, rfl, rfl⟩
  intro w pre i s1 hs
  obtain ⟨sk, g, h1, _, _, h2, _⟩ := h.2.2.1 w pre i s1 hs
  exact ⟨sk, g, h1, h2⟩

/-! ## Well-formedness of the batches of the registration interface -/

theorem not_mem_of_hasNil {W : Type} {l : List (Middleware W)} (h : hasNil l = false) :
    none ∉ l := fun hm => by
  rw [(hasNil_true_iff l).2 hm] at h
  cases h

theorem prepareGoroutines_error {W : Type} (b : Batch W) (M : List (MwFn W))
    (hM : b.mws = M.map some) (hv : ∀ cfg ∈ b.goroutineConfigs, cfg.valid) :
    (∀ msg, b.prepareGoroutines = Except.error msg →
      b.goroutineConfigs = [] ∧ msg = "at least one goroutine is required") ∧
    (b.goroutineConfigs ≠ [] →
      ∃ gs, b.prepareGoroutines = Except.ok gs ∧ gs.length = b.goroutineConfigs.length) := by
  obtain ⟨gs, hgs, hlen, _⟩ := prepareLoop_valid M b.goroutineConfigs hv
  have hok : b.goroutineConfigs ≠ [] → b.prepareGoroutines = Except.ok gs := by
    intro hne
    have hl : ¬ b.goroutineConfigs.length = 0 := fun h0 => hne (List.length_eq_zero.1 h0)
    simp only [Batch.prepareGoroutines, hl, if_false, hM, hgs]
  refine ⟨fun msg hmsg => ?_, fun hne => ⟨gs, hok hne, hlen⟩⟩
  by_cases hne : b.goroutineConfigs = []
  · rw [prepare_empty b hne] at hmsg
    simp only [Except.error.injEq] at hmsg
    exact ⟨hne, hmsg.symm⟩
  · rw [hok hne] at hmsg
    cases hmsg

/-! ## Batch on slices in memory -/

theorem take_append_exact {α : Type} (l1 l2 l3 : List α) (n m : Nat) (h1 : l1.length = n)
    (h2 : l2.length = m) : (l1 ++ l2 ++ l3).take (n + m) = l1 ++ l2 := by
  have h : (l1 ++ l2).length = n + m := by rw [List.length_append, h1, h2]
  rw [← h]
  exact List.take_left' rfl

theorem getD_alloc {W : Type} (h : Heap W) (a : List (Middleware W)) (k : Nat)
    (hk : k < h.length) : (h ++ [a]).getD k [] = h.getD k [] := by
  simp only [List.getD_eq_getElem?_getD, List.getElem?_append_left hk]

theorem getD_set_other {W : Type} (h : Heap W) (j k : Nat) (a : List (Middleware W))
    (hk : k ≠ j) : (h.set j a).getD k [] = h.getD k [] := by
  simp only [List.getD_eq_getElem?_getD, List.getElem?_set_ne (Ne.symm hk)]

theorem readSlice_congr {W : Type} {h h1 : Heap W} {s : Slice}
    (he : h1.getD s.arr [] = h.getD s.arr []) : readSlice h1 s = readSlice h s := by
  simp only [readSlice, he]

theorem validSlice_congr {W : Type} {h h1 : Heap W} {s : Slice} (hl : h.length ≤ h1.length)
    (he : h1.getD s.arr [] = h.getD s.arr []) (hv : validSlice h s) : validSlice h1 s :=
  ⟨Nat.lt_of_lt_of_le hv.1 hl, hv.2.1, by rw [he]; exact hv.2.2⟩

theorem readSlice_length {W : Type} (h : Heap W) (s : Slice) (hv : validSlice h s) :
    (readSlice h s).length = s.len := by
  obtain ⟨_, hlen, hcap⟩ := hv
  simp only [readSlice, List.length_take, List.length_drop]
  omega

/-- An `append` within the capacity: the slice is extended in its own array and every
other array is as before. -/
theorem goAppend_in_place {W : Type} (h : Heap W) (s : Slice) (xs : List (Middleware W))
    (hv : validSlice h s) (hroom : s.len + xs.length ≤ s.cap) :
    (goAppend h s xs).2 = { s with len := s.len + xs.length } ∧
    (goAppend h s xs).1.length = h.length ∧
    validSlice (goAppend h s xs).1 (goAppend h s xs).2 ∧
    readSlice (goAppend h s xs).1 (goAppend h s xs).2 = readSlice h s ++ xs ∧
    ∀ k : Nat, k ≠ s.arr → (goAppend h s xs).1.getD k [] = h.getD k [] := by
  obtain ⟨harr, hlen, hcap⟩ := hv
  simp only [goAppend, hroom, if_true]
  have hal : ((h.getD s.arr []).take (s.off + s.len) ++ xs ++
      (h.getD s.arr []).drop (s.off + s.len + xs.length)).length
      = (h.getD s.arr []).length := by
    simp only [List.length_append, List.length_take, List.length_drop]
    omega
  have hget : ∀ a : List (Middleware W), (h.set s.arr a).getD s.arr [] = a := by
    intro a
    simp [List.getD_eq_getElem?_getD, harr]
  refine ⟨trivial, by simp, ⟨by simpa using harr, by simpa using hroom, ?_⟩, ?_,
    fun k hk => getD_set_other h s.arr k _ hk⟩
  · rw [hget, hal]
    exact hcap
  · simp only [readSlice, hget]
    have h1 : ((h.getD s.arr []).take (s.off + s.len)).length = s.off + s.len := by
      simp only [List.length_take]
      omega
    rw [List.append_assoc, List.drop_append_of_le_length (by omega), List.drop_take,
      Nat.add_sub_cancel_left]
    have h2 : (((h.getD s.arr []).drop s.off).take s.len).length = s.len := by
      simp only [List.length_take, List.length_drop]
      omega
    rw [← List.append_assoc]
    exact take_append_exact _ _ _ _ _ h2 rfl

/-- What `Batch` does to the memory when it does not panic. -/
theorem Batch_on_memory {W : Type} (g : GoroutinerRef) (h : Heap W) (ctx : Context)
    (mws : Slice) (hg : validSlice h g.globalMws) (hm : validSlice h mws)
    (hctx : ctx ≠ Context.nil) (hnil : hasNil (readSlice h mws) = false) :
    ∃ h3 b, g.Batch h ctx mws = Except.ok (h3, b) ∧ h3.length = h.length + 1 ∧
      b.mws.arr = h.length ∧ validSlice h3 b.mws ∧
      readSlice h3 b.mws = readSlice h g.globalMws ++ readSlice h mws ∧
      (∀ k : Nat, k < h.length → h3.getD k [] = h.getD k []) ∧
      b.ctx = ctx ∧ b.goroutineConfigs = [] := by
  obtain ⟨h1, e1⟩ : ∃ x, x = h ++ [List.replicate (g.globalMws.len + mws.len) none] :=
    ⟨_, rfl⟩
  obtain ⟨s0, e0⟩ : ∃ x : Slice,
      x = { arr := h.length, off := 0, len := 0, cap := g.globalMws.len + mws.len } :=
    ⟨_, rfl⟩
  obtain ⟨r1, e2⟩ : ∃ x, x = goAppend h1 s0 (readSlice h1 g.globalMws) := ⟨_, rfl⟩
  obtain ⟨r2, e3⟩ : ∃ x, x = goAppend r1.1 r1.2 (readSlice r1.1 mws) := ⟨_, rfl⟩
  have hB : g.Batch h ctx mws = Except.ok (r2.1, newBatchRef ctx r2.2) := by
    subst e3 e2 e1 e0
    simp only [GoroutinerRef.Batch, hctx, if_false, hnil, goMake]
    rfl
  have hv0 : validSlice h1 s0 := by
    subst e1 e0
    refine ⟨by simp, Nat.zero_le _, ?_⟩
    simp [List.getD_eq_getElem?_getD]
  have hr0 : readSlice h1 s0 = [] := by
    subst e0
    simp [readSlice]
  have hold : ∀ k : Nat, k < h.length → h1.getD k [] = h.getD k [] := by
    intro k hk
    rw [e1]
    exact getD_alloc h _ k hk
  have hG1 : readSlice h1 g.globalMws = readSlice h g.globalMws :=
    readSlice_congr (hold _ hg.1)
  have hlG := readSlice_length h g.globalMws hg
  have hlS := readSlice_length h mws hm
  have hs0 : s0.arr = h.length ∧ s0.len = 0 ∧ s0.cap = g.globalMws.len + mws.len := by
    subst e0; exact ⟨rfl, rfl, rfl⟩
  have hl1 : h1.length = h.length + 1 := by rw [e1]; simp
  obtain ⟨a1, a2, a3, a4, a5⟩ := goAppend_in_place h1 s0 (readSlice h1 g.globalMws) hv0
    (by rw [hG1, hlG, hs0.2.1, hs0.2.2]; omega)
  rw [← e2] at a1 a2 a3 a4 a5
  have hr1 : r1.2.arr = h.length ∧ r1.2.len = g.globalMws.len ∧
      r1.2.cap = g.globalMws.len + mws.len := by
    rw [a1]
    refine ⟨hs0.1, ?_, hs0.2.2⟩
    simp only [hs0.2.1, hG1, hlG, Nat.zero_add]
  have hS2 : readSlice r1.1 mws = readSlice h mws := by
    have hne : mws.arr ≠ s0.arr := by have := hm.1; omega
    exact readSlice_congr ((a5 _ hne).trans (hold _ hm.1))
  obtain ⟨c1, c2, c3, c4, c5⟩ := goAppend_in_place r1.1 r1.2 (readSlice r1.1 mws) a3
    (by rw [hS2, hlS, hr1.2.1, hr1.2.2])
  rw [← e3] at c1 c2 c3 c4 c5
  refine ⟨r2.1, newBatchRef ctx r2.2, hB, by rw [c2, a2, hl1], ?_, c3, ?_, ?_, rfl, rfl⟩
  · show r2.2.arr = h.length
    rw [c1]
    exact hr1.1
  · show readSlice r2.1 r2.2 = _
    rw [c4, a4, hr0, hS2, hG1, List.nil_append]
  · intro k hk
    rw [c5 k (by rw [hr1.1]; omega), a5 k (by rw [hs0.1]; omega)]
    exact hold k hk

/-- `Batch` on the memory panics as `Batch` on the values does. -/
theorem Batch_memory_error {W : Type} (g : GoroutinerRef) (h : Heap W) (ctx : Context)
    (mws : Slice) (msg : String) :
    g.Batch h ctx mws = Except.error msg ↔
      (g.abs h).Batch ctx (readSlice h mws) = Except.error msg := by
  unfold GoroutinerRef.Batch Goroutiner.Batch
  by_cases hctx : ctx = Context.nil
  · simp [hctx]
  · cases hnil : hasNil (readSlice h mws) with
    | true => simp [hctx]
    | false => simp [hctx]

/-- C24: `Batch(ctx, mws...)` on the memory, for a `Goroutiner` and an argument slice that
lie in memory. It panics exactly as `Batch` on the values does. When it returns, the new
batch has no entries, the context `ctx` and the middleware `G ++ S`, the middleware of the
`Goroutiner` followed by the arguments, and stands for the batch that `Batch` on the values
yields. Its middleware lie in a newly allocated array and every array that existed before
is unchanged, so the `Goroutiner` and every slice of the old memory read as before. A
second batch made afterwards lies in another array and leaves the first batch and the
`Goroutiner` as they were; it stands for the batch with `G` followed by its own arguments,
and for the same batch as the first one when made with the same context and arguments. -/
theorem Batch_makes_independent_batch {W : Type} (g : GoroutinerRef) (h : Heap W)
    (ctx : Context) (mws : Slice) (hg : validSlice h g.globalMws) (hm : validSlice h mws) :
    (∀ msg, g.Batch h ctx mws = Except.error msg ↔
      (g.abs h).Batch ctx (readSlice h mws) = Except.error msg) ∧
    (ctx ≠ Context.nil → hasNil (readSlice h mws) = false →
      ∃ h1 b, g.Batch h ctx mws = Except.ok (h1, b)) ∧
    (∀ h1 b, g.Batch h ctx mws = Except.ok (h1, b) →
      (g.abs h).Batch ctx (readSlice h mws) = Except.ok (b.abs h1) ∧
      b.abs h1 = newBatch ctx (readSlice h g.globalMws ++ readSlice h mws) ∧
      h1.length = h.length + 1 ∧ b.mws.arr = h.length ∧
      (∀ k : Nat, k < h.length → h1.getD k [] = h.getD k []) ∧
      (∀ t : Slice, t.arr < h.length → readSlice h1 t = readSlice h t) ∧
      g.abs h1 = g.abs h ∧ validSlice h1 g.globalMws ∧ validSlice h1 b.mws ∧
      ∀ ctx2 mws2 h2 b2, validSlice h1 mws2 → g.Batch h1 ctx2 mws2 = Except.ok (h2, b2) →
        b2.mws.arr ≠ b.mws.arr ∧ b.abs h2 = b.abs h1 ∧ g.abs h2 = g.abs h ∧
        b2.abs h2 = newBatch ctx2 (readSlice h g.globalMws ++ readSlice h1 mws2) ∧
        (ctx2 = ctx → readSlice h1 mws2 = readSlice h mws → b2.abs h2 = b.abs h1)) := by
  have main : ∀ (h : Heap W) (ctx : Context) (mws : Slice), validSlice h g.globalMws →
      validSlice h mws → ∀ h1 b, g.Batch h ctx mws = Except.ok (h1, b) →
      b.abs h1 = newBatch ctx (readSlice h g.globalMws ++ readSlice h mws) ∧
      h1.length = h.length + 1 ∧ b.mws.arr = h.length ∧
      (∀ k : Nat, k < h.length → h1.getD k [] = h.getD k []) ∧ validSlice h1 b.mws ∧
      ctx ≠ Context.nil ∧ hasNil (readSlice h mws) = false ∧ b.goroutineConfigs = [] := by
    intro h ctx mws hg hm h1 b hB
    have hctx : ctx ≠ Context.nil := by
      intro hc
      simp [GoroutinerRef.Batch, hc] at hB
    have hnil : hasNil (readSlice h mws) = false := by
      cases hn : hasNil (readSlice h mws) with
      | false => rfl
      | true => simp [GoroutinerRef.Batch, hctx, hn] at hB
    obtain ⟨h3, b3, e, p1, p2, p3, p4, p5, p6, p7⟩ := Batch_on_memory g h ctx mws hg hm hctx hnil
    rw [hB] at e
    simp only [Except.ok.injEq, Prod.mk.injEq] at e
    obtain ⟨rfl, rfl⟩ := e
    refine ⟨?_, p1, p2, p5, p3, hctx, hnil, p7⟩
    simp only [BatchRef.abs, newBatch, p4, p6, p7, List.map_nil]
  refine ⟨fun msg => Batch_memory_error g h ctx mws msg, fun hctx hnil => ?_, ?_⟩
  · obtain ⟨h3, b3, e, _⟩ := Batch_on_memory g h ctx mws hg hm hctx hnil
    exact ⟨h3, b3, e⟩
  · intro h1 b hB
    obtain ⟨q1, q2, q3, q4, q5, hctx, hnil, q6⟩ := main h ctx mws hg hm h1 b hB
    have hg1 : validSlice h1 g.globalMws := validSlice_congr (by omega) (q4 _ hg.1) hg
    have hG1 : readSlice h1 g.globalMws = readSlice h g.globalMws :=
      readSlice_congr (q4 _ hg.1)
    refine ⟨?_, q1, q2, q3, q4, fun t ht => readSlice_congr (q4 _ ht), ?_, hg1, q5, ?_⟩
    · rw [q1]
      simp [Goroutiner.Batch, GoroutinerRef.abs, hctx, hnil]
    · simp only [GoroutinerRef.abs, hG1]
    · intro ctx2 mws2 h2 b2 hm2 hB2
      obtain ⟨r1, r2, r3, r4, _, _, _, _⟩ := main h1 ctx2 mws2 hg1 hm2 h2 b2 hB2
      have hb : b.abs h2 = b.abs h1 := by
        simp only [BatchRef.abs, q6, List.map_nil]
        rw [readSlice_congr (r4 _ q5.1)]
      refine ⟨by rw [r3, q3, q2]; omega, hb, ?_, by rw [r1, hG1], ?_⟩
      · simp only [GoroutinerRef.abs]
        rw [readSlice_congr (r4 _ hg1.1), hG1]
      · intro hc hs
        rw [r1, q1, hG1, hc, hs]

/-- The test about the same global and different batch middleware: the four batches are
made in memory from the one `Goroutiner`; `actual1` and `actual11` are the same trace and
`actual2` and `actual22` differ. -/
theorem Batch_makes_independent_batch_witness :
    validSlice sameGlobalHeap grt.globalMws ∧ validSlice sameGlobalHeap (argSlice 1) ∧
    (∃ h1 b, grt.Batch sameGlobalHeap (Context.value 0) (argSlice 1) = Except.ok (h1, b) ∧
      b.mws.arr = 5 ∧
      b.abs h1 = newBatch (Context.value 0)
        [some (mMw "g1"), some (mMw "g2"), some (mMw "s1")] ∧
      readSlice h1 grt.globalMws = [some (mMw "g1"), some (mMw "g2")]) ∧
    sameGlobalTest = Except.ok
      [Except.ok (some "g1s-g2s-s1s-0-s1e-g2e-g1e"),
        Except.ok (some "g1s-g2s-s1s-0-s1e-g2e-g1e"),
        Except.ok (some "g1s-g2s-s2s-0-s2e-g2e-g1e"),
        Except.ok (some "g1s-g2s-s22s-0-s22e-g2e-g1e")] := by
  have hg : validSlice sameGlobalHeap grt.globalMws := ⟨by decide, by decide, by decide⟩
  have hm : validSlice sameGlobalHeap (argSlice 1) := ⟨by decide, by decide, by decide⟩
  have h := Batch_makes_independent_batch grt sameGlobalHeap (Context.value 0) (argSlice 1)
    hg hm
  obtain ⟨h1, b, hB⟩ := h.2.1 (by decide) rfl
  obtain ⟨_, p2, _, p4, _, p6, _⟩ := h.2.2 h1 b hB
  exact ⟨hg, hm, ⟨h1, b, hB, p4, p2, p6 grt.globalMws (by decide)⟩, rfl⟩

/-! ## The close of the channel -/

theorem waitExec_concat {W : Type} (gs : List (Goroutine W)) (ctx : Context)
    (s : WaitState W) (a b : List WaitEvent) :
    waitExec gs ctx s (a ++ b) = (waitExec gs ctx s a).bind (fun s1 => waitExec gs ctx s1 b) := by
  induction a generalizing s with
  | nil => simp [waitExec]
  | cons e rest ih =>
    simp only [List.cons_append, waitExec]
    cases waitStep gs ctx s e with
    | none => rfl
    | some s1 => exact ih s1

/-- Facts about `Wait` that hold whatever the tasks do: the channel is closed exactly when
the close has happened, which is when the caller is past `wg.Wait()`, there is at most one
close, and a goroutine whose result is published has sent it. -/
theorem waitExec_close {W : Type} (gs : List (Goroutine W)) (ctx : Context) (w : W)
    (evs : List WaitEvent) (s : WaitState W)
    (h : waitExec gs ctx (waitInit gs w) evs = some s) :
    evs.count WaitEvent.close = (if s.closed = true then 1 else 0) ∧
      (s.closed = true ↔ s.pc ≠ WaitPc.waiting) ∧
      ∀ i e, (s.status[i]? = some (GStatus.published e) ∨ s.status[i]? = some (GStatus.done e)) →
        WaitEvent.send i ∈ evs := by
  refine waitExec_induction gs ctx (waitInit gs w)
    (fun evs s => evs.count WaitEvent.close = (if s.closed = true then 1 else 0) ∧
      (s.closed = true ↔ s.pc ≠ WaitPc.waiting) ∧
      ∀ i e, (s.status[i]? = some (GStatus.published e) ∨
          s.status[i]? = some (GStatus.done e)) → WaitEvent.send i ∈ evs) ?_ ?_ evs s h
  · refine ⟨by simp [waitInit], by simp [waitInit], ?_⟩
    intro i e hst
    simp only [waitInit, List.getElem?_replicate] at hst
    rcases hst with hst | hst <;> split at hst <;> cases hst
  · intro evs s ev s1 _ hP hs
    obtain ⟨hcnt, hiff, hsent⟩ := hP
    have hkeep : ∀ i e, (s.status[i]? = some (GStatus.published e) ∨
        s.status[i]? = some (GStatus.done e)) → WaitEvent.send i ∈ evs ++ [ev] :=
      fun i e hst => List.mem_append_left _ (hsent i e hst)
    cases ev with
    | run j =>
      obtain ⟨_, hst, g, hg, ⟨e, _, rfl⟩ | ⟨v, _, rfl⟩⟩ := waitStep_run hs
      · refine ⟨by simpa using hcnt, hiff, fun i e hi => ?_⟩
        simp only [set_lookup _ i hst] at hi
        by_cases hij : i = j
        · simp [hij] at hi
        · simp only [hij, if_false] at hi
          exact hkeep i e hi
      · exact ⟨by simpa using hcnt, hiff, hkeep⟩
    | send j =>
      obtain ⟨_, e1, hst, ⟨_, rfl⟩ | ⟨_, _, rfl⟩⟩ := waitStep_send hs
      · exact ⟨by simpa using hcnt, hiff, hkeep⟩
      · refine ⟨by simpa using hcnt, hiff, fun i e hi => ?_⟩
        simp only [set_lookup _ i hst] at hi
        by_cases hij : i = j
        · subst hij
          simp
        · simp only [hij, if_false] at hi
          exact hkeep i e hi
    | done j =>
      obtain ⟨_, e1, hst, ⟨_, rfl⟩ | ⟨_, rfl⟩⟩ := waitStep_done hs
      · exact ⟨by simpa using hcnt, hiff, hkeep⟩
      · refine ⟨by simpa using hcnt, hiff, fun i e hi => ?_⟩
        simp only [set_lookup _ i hst] at hi
        by_cases hij : i = j
        · subst hij
          exact hkeep i e1 (Or.inl hst)
        · simp only [hij, if_false] at hi
          exact hkeep i e hi
    | close =>
      obtain ⟨_, hpc, _, rfl⟩ := waitStep_close hs
      have hcl : ¬ s.closed = true := fun hc => (hiff.1 hc) hpc
      refine ⟨?_, by simp, hkeep⟩
      simp only [hcl, if_false] at hcnt
      simp [hcnt]
    | recv =>
      obtain ⟨_, _, i, e, rest, _, ⟨_, rfl⟩ | ⟨_, rfl⟩⟩ := waitStep_recv hs
      · exact ⟨by simpa using hcnt, hiff, hkeep⟩
      · exact ⟨by simpa using hcnt, hiff, hkeep⟩
    | ret =>
      obtain ⟨_, hr, _, hc, rfl⟩ := waitStep_ret hs
      exact ⟨by simpa using hcnt, by simp [hc], hkeep⟩

theorem asyncExec_concat {W : Type} (gs : List (Goroutine W)) (ctx : Context) (cap : Nat)
    (s : AsyncState W) (a b : List AsyncEvent) :
    asyncExec gs ctx cap s (a ++ b)
      = (asyncExec gs ctx cap s a).bind (fun s1 => asyncExec gs ctx cap s1 b) := by
  induction a generalizing s with
  | nil => simp [asyncExec]
  | cons e rest ih =>
    simp only [List.cons_append, asyncExec]
    cases asyncStep gs ctx cap s e with
    | none => rfl
    | some s1 => exact ih s1

/-- Facts about the goroutines of `async` that hold whatever the tasks do: the channel is
closed exactly when the close has happened, there is at most one close, the counter of the
`sync.WaitGroup` counts the goroutines that have not finished and is zero once the channel
is closed, and a goroutine whose result is published has sent it or handed it over. -/
theorem asyncExec_close {W : Type} (gs : List (Goroutine W)) (ctx : Context) (cap : Nat)
    (w : W) (evs : List AsyncEvent) (s : AsyncState W)
    (h : asyncExec gs ctx cap (asyncInit gs w) evs = some s) :
    evs.count AsyncEvent.close = (if s.closed = true then 1 else 0) ∧
      s.status.length = gs.length ∧ s.wg = weight GStatus.notDone s.status ∧
      (s.closed = true → s.wg = 0) ∧ (s.drained = true → s.closed = true) ∧
      ∀ i e, (s.status[i]? = some (GStatus.published e) ∨ s.status[i]? = some (GStatus.done e)) →
        AsyncEvent.send i ∈ evs ∨ AsyncEvent.handoff i ∈ evs := by
  refine asyncExec_induction gs ctx cap (asyncInit gs w)
    (fun evs s => evs.count AsyncEvent.close = (if s.closed = true then 1 else 0) ∧
      s.status.length = gs.length ∧ s.wg = weight GStatus.notDone s.status ∧
      (s.closed = true → s.wg = 0) ∧ (s.drained = true → s.closed = true) ∧
      ∀ i e, (s.status[i]? = some (GStatus.published e) ∨
          s.status[i]? = some (GStatus.done e)) →
        AsyncEvent.send i ∈ evs ∨ AsyncEvent.handoff i ∈ evs) ?_ ?_ evs s h
  · refine ⟨by simp [asyncInit], by simp [asyncInit],
      by simp [asyncInit, weight_replicate, GStatus.notDone], by simp [asyncInit],
      by simp [asyncInit], ?_⟩
    intro i e hst
    simp only [asyncInit, List.getElem?_replicate] at hst
    rcases hst with hst | hst <;> split at hst <;> cases hst
  · intro evs s ev s1 _ hP hs
    obtain ⟨hcnt, hlen, hwg, hcw, hdc, hsent⟩ := hP
    have hkeep : ∀ i e, (s.status[i]? = some (GStatus.published e) ∨
        s.status[i]? = some (GStatus.done e)) →
        AsyncEvent.send i ∈ evs ++ [ev] ∨ AsyncEvent.handoff i ∈ evs ++ [ev] := by
      intro i e hst
      rcases hsent i e hst with h1 | h1
      · exact Or.inl (List.mem_append_left _ h1)
      · exact Or.inr (List.mem_append_left _ h1)
    cases ev with
    | run j =>
      obtain ⟨_, hst, g, hg, ⟨e, _, rfl⟩ | ⟨v, _, rfl⟩⟩ := asyncStep_run hs
      · have := weight_set GStatus.notDone s.status j _ (GStatus.returned e) hst
        simp only [GStatus.notDone] at this
        refine ⟨by simpa using hcnt, by simp [hlen], by simp only; omega, hcw, hdc,
          fun i e hi => ?_⟩
        simp only [set_lookup _ i hst] at hi
        by_cases hij : i = j
        · simp [hij] at hi
        · simp only [hij, if_false] at hi
          exact hkeep i e hi
      · exact ⟨by simpa using hcnt, hlen, hwg, hcw, hdc, hkeep⟩
    | send j =>
      obtain ⟨_, e1, hst, ⟨_, rfl⟩ | ⟨_, _, rfl⟩⟩ := asyncStep_send hs
      · exact ⟨by simpa using hcnt, hlen, hwg, hcw, hdc, hkeep⟩
      · have := weight_set GStatus.notDone s.status j _ (GStatus.published e1) hst
        simp only [GStatus.notDone] at this
        refine ⟨by simpa using hcnt, by simp [hlen], by simp only; omega, hcw, hdc,
          fun i e hi => ?_⟩
        simp only [set_lookup _ i hst] at hi
        by_cases hij : i = j
        · subst hij
          simp
        · simp only [hij, if_false] at hi
          exact hkeep i e hi
    | handoff j =>
      obtain ⟨_, e1, hst, ⟨_, rfl⟩ | ⟨_, _, _, rfl⟩⟩ := asyncStep_handoff hs
      · exact ⟨by simpa using hcnt, hlen, hwg, hcw, hdc, hkeep⟩
      · have := weight_set GStatus.notDone s.status j _ (GStatus.published e1) hst
        simp only [GStatus.notDone] at this
        refine ⟨by simpa using hcnt, by simp [hlen], by simp only; omega, hcw, hdc,
          fun i e hi => ?_⟩
        simp only [set_lookup _ i hst] at hi
        by_cases hij : i = j
        · subst hij
          simp
        · simp only [hij, if_false] at hi
          exact hkeep i e hi
    | done j =>
      obtain ⟨_, e1, hst, ⟨_, rfl⟩ | ⟨hne, rfl⟩⟩ := asyncStep_done hs
      · exact ⟨by simpa using hcnt, hlen, hwg, hcw, hdc, hkeep⟩
      · have := weight_set GStatus.notDone s.status j _ (GStatus.done e1) hst
        simp only [GStatus.notDone] at this
        refine ⟨by simpa using hcnt, by simp [hlen], by simp only; omega,
          fun hc => absurd (hcw hc) hne, hdc, fun i e hi => ?_⟩
        simp only [set_lookup _ i hst] at hi
        by_cases hij : i = j
        · subst hij
          exact hkeep i e1 (Or.inl hst)
        · simp only [hij, if_false] at hi
          exact hkeep i e hi
    | close =>
      obtain ⟨_, hcl, h0, rfl⟩ := asyncStep_close hs
      refine ⟨?_, hlen, hwg, fun _ => h0, fun _ => rfl, hkeep⟩
      simp only [hcl] at hcnt
      simp [hcnt]
    | recv =>
      obtain ⟨_, _, e, rest, _, rfl⟩ := asyncStep_recv hs
      exact ⟨by simpa using hcnt, hlen, hwg, hcw, hdc, hkeep⟩
    | recvClosed =>
      obtain ⟨_, _, _, hc, rfl⟩ := asyncStep_recvClosed hs
      exact ⟨by simpa using hcnt, hlen, hwg, hcw, fun _ => hc, hkeep⟩

theorem waitExec_at {W : Type} {gs : List (Goroutine W)} {ctx : Context}
    {s0 s : WaitState W} {a c : List WaitEvent} {ev : WaitEvent}
    (h : waitExec gs ctx s0 (a ++ ev :: c) = some s) :
    ∃ sk s1, waitExec gs ctx s0 a = some sk ∧ waitStep gs ctx sk ev = some s1 ∧
      waitExec gs ctx s1 c = some s := by
  rw [waitExec_concat] at h
  cases hk : waitExec gs ctx s0 a with
  | none => rw [hk] at h; cases h
  | some sk =>
    rw [hk] at h
    simp only [Option.some_bind, waitExec] at h
    cases hs : waitStep gs ctx sk ev with
    | none => rw [hs] at h; cases h
    | some s1 =>
      rw [hs] at h
      exact ⟨sk, s1, rfl, hs, h⟩

theorem asyncExec_at {W : Type} {gs : List (Goroutine W)} {ctx : Context} {cap : Nat}
    {s0 s : AsyncState W} {a c : List AsyncEvent} {ev : AsyncEvent}
    (h : asyncExec gs ctx cap s0 (a ++ ev :: c) = some s) :
    ∃ sk s1, asyncExec gs ctx cap s0 a = some sk ∧ asyncStep gs ctx cap sk ev = some s1 ∧
      asyncExec gs ctx cap s1 c = some s := by
  rw [asyncExec_concat] at h
  cases hk : asyncExec gs ctx cap s0 a with
  | none => rw [hk] at h; cases h
  | some sk =>
    rw [hk] at h
    simp only [Option.some_bind, asyncExec] at h
    cases hs : asyncStep gs ctx cap sk ev with
    | none => rw [hs] at h; cases h
    | some s1 =>
      rw [hs] at h
      exact ⟨sk, s1, rfl, hs, h⟩

theorem all_done_of_weight {l : List GStatus} (h : weight GStatus.notDone l = 0) (i : Nat)
    (hi : i < l.length) : ∃ e, l[i]? = some (GStatus.done e) := by
  have hst : l[i]? = some l[i] := List.getElem?_eq_getElem hi
  have hnd := weight_eq_zero GStatus.notDone l h i _ hst
  cases hsi : l[i] with
  | launched => rw [hsi] at hnd; simp [GStatus.notDone] at hnd
  | returned e => rw [hsi] at hnd; simp [GStatus.notDone] at hnd
  | published e => rw [hsi] at hnd; simp [GStatus.notDone] at hnd
  | done e => exact ⟨e, by rw [hst, hsi]⟩

/-- The order of the sends and the close in a schedule of `Wait`. -/
theorem waitExec_close_order {W : Type} (gs : List (Goroutine W)) (ctx : Context) (w : W)
    (evs : List WaitEvent) (s : WaitState W)
    (h : waitExec gs ctx (waitInit gs w) evs = some s) :
    evs.count WaitEvent.close ≤ 1 ∧ (s.closed = true ↔ WaitEvent.close ∈ evs) ∧
    ∀ pre post, evs = pre ++ WaitEvent.close :: post →
      (∀ i, i < gs.length → WaitEvent.send i ∈ pre) ∧ (∀ i, WaitEvent.send i ∉ post) ∧
      WaitEvent.close ∉ post := by
  obtain ⟨hcnt, _, _⟩ := waitExec_close gs ctx w evs s h
  have hle : evs.count WaitEvent.close ≤ 1 := by
    rw [hcnt]; split <;> omega
  refine ⟨hle, ?_, ?_⟩
  · constructor
    · intro hc
      have : 0 < evs.count WaitEvent.close := by rw [hcnt, if_pos hc]; omega
      exact List.count_pos_iff.1 this
    · intro hm
      have := List.count_pos_iff.2 hm
      by_contra hc
      rw [hcnt, if_neg hc] at this
      omega
  · intro pre post he
    subst he
    obtain ⟨sk, s1, hk, hs, _⟩ := waitExec_at h
    obtain ⟨_, _, hwg0, _⟩ := waitStep_close hs
    obtain ⟨hlen, hwg, _⟩ := waitExec_counter gs ctx w pre sk hk
    obtain ⟨_, _, hsent⟩ := waitExec_close gs ctx w pre sk hk
    refine ⟨fun i hi => ?_, fun i hm => ?_, fun hm => ?_⟩
    · obtain ⟨e, he⟩ := all_done_of_weight (by rw [← hwg]; exact hwg0) i
        (by rw [hlen]; exact hi)
      exact hsent i e (Or.inr he)
    · obtain ⟨p1, p2, hp⟩ := List.append_of_mem hm
      subst hp
      have h2 : waitExec gs ctx (waitInit gs w)
          ((pre ++ WaitEvent.close :: p1) ++ WaitEvent.send i :: p2) = some s := by
        rw [← h]; simp
      obtain ⟨sa, sb, ha, hb, _⟩ := waitExec_at h2
      obtain ⟨_, e, hst, _⟩ := waitStep_send hb
      obtain ⟨_, hwga, hpca⟩ := waitExec_counter gs ctx w _ sa ha
      obtain ⟨hcnta, hiffa, _⟩ := waitExec_close gs ctx w _ sa ha
      have hpos := weight_pos GStatus.notDone sa.status i _ hst (by simp [GStatus.notDone])
      have hcl : sa.closed = true := by
        by_contra hc
        rw [if_neg hc] at hcnta
        have : 0 < (pre ++ WaitEvent.close :: p1).count WaitEvent.close :=
          List.count_pos_iff.2 (by simp)
        omega
      have := hpca (hiffa.1 hcl)
      omega
    · have : (pre ++ WaitEvent.close :: post).count WaitEvent.close
          = pre.count WaitEvent.close + (1 + post.count WaitEvent.close) := by
        simp [List.count_append, List.count_cons, Nat.add_comm]
      have hp := List.count_pos_iff.2 hm
      omega

/-- The order of the sends and the close in a schedule of the goroutines of `async`. -/
theorem asyncExec_close_order {W : Type} (gs : List (Goroutine W)) (ctx : Context)
    (cap : Nat) (w : W) (evs : List AsyncEvent) (s : AsyncState W)
    (h : asyncExec gs ctx cap (asyncInit gs w) evs = some s) :
    evs.count AsyncEvent.close ≤ 1 ∧ (s.closed = true ↔ AsyncEvent.close ∈ evs) ∧
    ∀ pre post, evs = pre ++ AsyncEvent.close :: post →
      (∀ i, i < gs.length → AsyncEvent.send i ∈ pre ∨ AsyncEvent.handoff i ∈ pre) ∧
      (∀ i, AsyncEvent.send i ∉ post ∧ AsyncEvent.handoff i ∉ post) ∧
      AsyncEvent.close ∉ post := by
  obtain ⟨hcnt, _, _⟩ := asyncExec_close gs ctx cap w evs s h
  have hle : evs.count AsyncEvent.close ≤ 1 := by
    rw [hcnt]; split <;> omega
  refine ⟨hle, ?_, ?_⟩
  · constructor
    · intro hc
      have : 0 < evs.count AsyncEvent.close := by rw [hcnt, if_pos hc]; omega
      exact List.count_pos_iff.1 this
    · intro hm
      have := List.count_pos_iff.2 hm
      by_contra hc
      rw [hcnt, if_neg hc] at this
      omega
  · intro pre post he
    subst he
    obtain ⟨sk, s1, hk, hs, _⟩ := asyncExec_at h
    obtain ⟨_, _, hwg0, _⟩ := asyncStep_close hs
    obtain ⟨_, hlen, hwg, _, _, hsent⟩ := asyncExec_close gs ctx cap w pre sk hk
    have key : ∀ (p1 p2 : List AsyncEvent) (ev : AsyncEvent) (i : Nat),
        post = p1 ++ ev :: p2 →
        (∀ sa sb, asyncStep gs ctx cap sa ev = some sb →
          ∃ e, sa.status[i]? = some (GStatus.returned e)) → False := by
      intro p1 p2 ev i hp hret
      subst hp
      have h2 : asyncExec gs ctx cap (asyncInit gs w)
          ((pre ++ AsyncEvent.close :: p1) ++ ev :: p2) = some s := by
        rw [← h]; simp
      obtain ⟨sa, sb, ha, hb, _⟩ := asyncExec_at h2
      obtain ⟨e, hst⟩ := hret sa sb hb
      obtain ⟨hcnta, _, hwga, hcwa, _, _⟩ := asyncExec_close gs ctx cap w _ sa ha
      have hpos := weight_pos GStatus.notDone sa.status i _ hst (by simp [GStatus.notDone])
      have hcl : sa.closed = true := by
        by_contra hc
        rw [if_neg hc] at hcnta
        have : 0 < (pre ++ AsyncEvent.close :: p1).count AsyncEvent.close :=
          List.count_pos_iff.2 (by simp)
        omega
      have := hcwa hcl
      omega
    refine ⟨fun i hi => ?_, fun i => ⟨fun hm => ?_, fun hm => ?_⟩, fun hm => ?_⟩
    · obtain ⟨e, he⟩ := all_done_of_weight (by rw [← hwg]; exact hwg0) i
        (by rw [hlen]; exact hi)
      exact hsent i e (Or.inr he)
    · obtain ⟨p1, p2, hp⟩ := List.append_of_mem hm
      exact key p1 p2 _ i hp (fun sa sb hb => by
        obtain ⟨_, e, hst, _⟩ := asyncStep_send hb
        exact ⟨e, hst⟩)
    · obtain ⟨p1, p2, hp⟩ := List.append_of_mem hm
      exact key p1 p2 _ i hp (fun sa sb hb => by
        obtain ⟨_, e, hst, _⟩ := asyncStep_handoff hb
        exact ⟨e, hst⟩)
    · have : (pre ++ AsyncEvent.close :: post).count AsyncEvent.close
          = pre.count AsyncEvent.close + (1 + post.count AsyncEvent.close) := by
        simp [List.count_append, List.count_cons, Nat.add_comm]
      have hp := List.count_pos_iff.2 hm
      omega


/-- C25: `Wait`, `Async` and `AsyncBs(c)` on a batch that composes to `gs`, when every
decorated task returns (a task that panics without recovery ends the run and is outside
this statement). In every schedule no goroutine crashes and the channel is closed at most
once; the close comes only when all `N` goroutines have finished, so every one of them has
written its result before, and after the close nothing is written and nothing is closed
again. A goroutine that writes finds the channel open under every schedule. `Wait` can
return and the consumer of `Async` and `AsyncBs(c)`, for a capacity `make` allocates, can
get to the end of the channel, and then the channel has been closed exactly once. -/
theorem channel_closed_once_after_all_sends {W : Type} (b : Batch W)
    (gs : List (Goroutine W)) (hgs : b.prepareGoroutines = Except.ok gs)
    (hret : AllReturn gs) (w : W) :
    (∀ evs s, b.Wait w evs = Except.ok (some s) →
      s.crashed = none ∧
      evs.count WaitEvent.close ≤ 1 ∧ (s.closed = true ↔ WaitEvent.close ∈ evs) ∧
      ∀ pre post, evs = pre ++ WaitEvent.close :: post →
        (∀ i, i < gs.length → WaitEvent.send i ∈ pre) ∧ (∀ i, WaitEvent.send i ∉ post) ∧
        WaitEvent.close ∉ post) ∧
    (∀ pre i s1, b.Wait w (pre ++ [WaitEvent.send i]) = Except.ok (some s1) →
      ∃ sk, b.Wait w pre = Except.ok (some sk) ∧ sk.closed = false ∧
        WaitEvent.close ∉ pre) ∧
    (∀ c evs s, b.AsyncBs c w evs = Except.ok (some s) →
      s.crashed = none ∧
      evs.count AsyncEvent.close ≤ 1 ∧ (s.closed = true ↔ AsyncEvent.close ∈ evs) ∧
      ∀ pre post, evs = pre ++ AsyncEvent.close :: post →
        (∀ i, i < gs.length → AsyncEvent.send i ∈ pre ∨ AsyncEvent.handoff i ∈ pre) ∧
        (∀ i, AsyncEvent.send i ∉ post ∧ AsyncEvent.handoff i ∉ post) ∧
        AsyncEvent.close ∉ post) ∧
    (∀ evs s, b.Async w evs = Except.ok (some s) →
      s.crashed = none ∧
      evs.count AsyncEvent.close ≤ 1 ∧ (s.closed = true ↔ AsyncEvent.close ∈ evs) ∧
      ∀ pre post, evs = pre ++ AsyncEvent.close :: post →
        (∀ i, i < gs.length → AsyncEvent.send i ∈ pre ∨ AsyncEvent.handoff i ∈ pre) ∧
        (∀ i, AsyncEvent.send i ∉ post ∧ AsyncEvent.handoff i ∉ post) ∧
        AsyncEvent.close ∉ post) ∧
    (∀ c pre ev i s1, ev = AsyncEvent.send i ∨ ev = AsyncEvent.handoff i →
      b.AsyncBs c w (pre ++ [ev]) = Except.ok (some s1) →
      ∃ sk, b.AsyncBs c w pre = Except.ok (some sk) ∧ sk.closed = false ∧
        AsyncEvent.close ∉ pre) ∧
    (∃ evs s, b.Wait w evs = Except.ok (some s) ∧ s.pc = WaitPc.returned ∧
      evs.count WaitEvent.close = 1) ∧
    (∀ c, 16 * c ≤ maxAlloc - 96 →
      ∃ evs s, b.AsyncBs c w evs = Except.ok (some s) ∧ s.drained = true ∧
        evs.count AsyncEvent.close = 1) := by
  refine ⟨?_, ?_, ?_, ?_, ?_, ?_, ?_⟩
  · intro evs s h
    rw [Wait_eq b gs hgs] at h
    exact ⟨(waitExec_inv hret w evs s h).alive, waitExec_close_order gs b.ctx w evs s h⟩
  · intro pre i s1 h
    rw [Wait_eq b gs hgs] at h
    have h2 : waitExec gs b.ctx (waitInit gs w) (pre ++ WaitEvent.send i :: []) = some s1 := h
    obtain ⟨sk, s2, hk, hs, _⟩ := waitExec_at h2
    obtain ⟨_, e, hst, _⟩ := waitStep_send hs
    obtain ⟨_, hwg, hpc⟩ := waitExec_counter gs b.ctx w pre sk hk
    obtain ⟨_, hiff, _⟩ := waitExec_close gs b.ctx w pre sk hk
    have hpos := weight_pos GStatus.notDone sk.status i _ hst (by simp [GStatus.notDone])
    have hcl : sk.closed = false := by
      cases hc : sk.closed with
      | false => rfl
      | true =>
        have := hpc (hiff.1 hc)
        omega
    refine ⟨sk, (Wait_eq b gs hgs w pre _).2 hk, hcl, fun hm => ?_⟩
    have := ((waitExec_close_order gs b.ctx w pre sk hk).2.1).2 hm
    rw [hcl] at this
    cases this
  · intro c evs s h
    rw [AsyncBs_eq b gs hgs] at h
    obtain ⟨hfit, h⟩ := h
    exact ⟨(asyncExec_inv hret w evs s h).alive, asyncExec_close_order gs b.ctx c w evs s h⟩
  · intro evs s h
    rw [Async_eq b gs hgs] at h
    obtain ⟨hfit, h⟩ := h
    exact ⟨(asyncExec_inv hret w evs s h).alive,
      asyncExec_close_order gs b.ctx gs.length w evs s h⟩
  · intro c pre ev i s1 hev h
    rw [AsyncBs_eq b gs hgs] at h
    obtain ⟨hfit, h⟩ := h
    have h2 : asyncExec gs b.ctx c (asyncInit gs w) (pre ++ ev :: []) = some s1 := h
    obtain ⟨sk, s2, hk, hs, _⟩ := asyncExec_at h2
    have hst : ∃ e, sk.status[i]? = some (GStatus.returned e) := by
      rcases hev with rfl | rfl
      · obtain ⟨_, e, hst, _⟩ := asyncStep_send hs
        exact ⟨e, hst⟩
      · obtain ⟨_, e, hst, _⟩ := asyncStep_handoff hs
        exact ⟨e, hst⟩
    obtain ⟨e, hst⟩ := hst
    obtain ⟨_, _, hwg, hcw, _, _⟩ := asyncExec_close gs b.ctx c w pre sk hk
    have hpos := weight_pos GStatus.notDone sk.status i _ hst (by simp [GStatus.notDone])
    have hcl : sk.closed = false := by
      cases hc : sk.closed with
      | false => rfl
      | true =>
        have := hcw hc
        omega
    refine ⟨sk, (AsyncBs_eq b gs hgs c w pre _).2 ⟨hfit, hk⟩, hcl, fun hm => ?_⟩
    have := ((asyncExec_close_order gs b.ctx c w pre sk hk).2.1).2 hm
    rw [hcl] at this
    cases this
  · obtain ⟨evs, s, h1, h2⟩ :=
      waitExec_complete b.ctx hret _ (waitInit gs w) (waitInit_inv gs w) (Nat.le_refl _)
    obtain ⟨hcnt, hiff, _⟩ := waitExec_close gs b.ctx w evs s h1
    have hcl : s.closed = true := hiff.2 (by rw [h2]; exact fun h => WaitPc.noConfusion h)
    exact ⟨evs, s, (Wait_eq b gs hgs w evs _).2 h1, h2, by rw [hcnt, if_pos hcl]⟩
  · intro c hfit
    obtain ⟨evs, s, h1, h2⟩ := asyncExec_complete b.ctx c hret _ (asyncInit gs w)
      (asyncInit_inv gs c w) (Nat.le_refl _)
    obtain ⟨hcnt, _, _, _, hdc, _⟩ := asyncExec_close gs b.ctx c w evs s h1
    exact ⟨evs, s, (AsyncBs_eq b gs hgs c w evs _).2 ⟨hfit, h1⟩, h2,
      by rw [hcnt, if_pos (hdc h2)]⟩

/-- Three tasks: in a schedule of `Wait` and in one of `Async` that run to the end the
close is the one event of its kind and comes after the three sends; a close before the
last goroutine has finished cannot happen. -/
theorem channel_closed_once_after_all_sends_witness :
    numberedBatch.prepareGoroutines = Except.ok numberedTasks ∧ AllReturn numberedTasks ∧
    (∃ s, numberedBatch.Wait () shuffledWait = Except.ok (some s) ∧
      s.pc = WaitPc.returned ∧ shuffledWait.count WaitEvent.close ≤ 1 ∧
      (s.closed = true ↔ WaitEvent.close ∈ shuffledWait) ∧ s.closed = true) ∧
    (∃ s, numberedBatch.Async () bufferedAsync = Except.ok (some s) ∧
      s.drained = true ∧ bufferedAsync.count AsyncEvent.close ≤ 1 ∧
      (s.closed = true ↔ AsyncEvent.close ∈ bufferedAsync) ∧ s.closed = true) ∧
    numberedBatch.Wait () [WaitEvent.run 0, WaitEvent.run 1, WaitEvent.run 2,
      WaitEvent.send 0, WaitEvent.done 0, WaitEvent.send 1, WaitEvent.done 1,
      WaitEvent.close] = Except.ok none ∧
    numberedBatch.Async () [AsyncEvent.run 0, AsyncEvent.run 1, AsyncEvent.run 2,
      AsyncEvent.send 0, AsyncEvent.done 0, AsyncEvent.send 1, AsyncEvent.done 1,
      AsyncEvent.close] = Except.ok none := by
  have hgs : numberedBatch.prepareGoroutines = Except.ok numberedTasks := rfl
  have hret : AllReturn numberedTasks := by
    intro g hg c w
    simp only [numberedTasks, List.mem_cons, List.mem_singleton, List.not_mem_nil,
      or_false] at hg
    rcases hg with rfl | rfl | rfl <;> exact ⟨_, _, rfl⟩
  have h := channel_closed_once_after_all_sends numberedBatch numberedTasks hgs hret ()
  have hexW : ∃ s, numberedBatch.Wait () shuffledWait = Except.ok (some s) ∧
      s.pc = WaitPc.returned ∧ s.closed = true := ⟨_, rfl, rfl, rfl⟩
  have hexA : ∃ s, numberedBatch.Async () bufferedAsync = Except.ok (some s) ∧
      s.drained = true ∧ s.closed = true := ⟨_, rfl, rfl, rfl⟩
  obtain ⟨sW, w1, w2, w3⟩ := hexW
  obtain ⟨sA, a1, a2, a3⟩ := hexA
  obtain ⟨_, p1, p2, _⟩ := h.1 shuffledWait sW w1
  obtain ⟨_, q1, q2, _⟩ := h.2.2.2.1 bufferedAsync sA a1
  exact ⟨hgs, hret, ⟨sW, w1, w2, p1, p2, w3⟩, ⟨sA, a1, a2, q1, q2, a3⟩, rfl, rfl⟩

/-! ## The tiers and their concatenation -/

theorem registerOne_ok {W : Type} (G S I : List (MwFn W)) (ctx : Context)
    (hctx : ctx ≠ Context.nil) (t : GoFn W) :
    registerOne (G.map some) (S.map some) (I.map some) ctx (some t)
      = Except.ok ((newBatch ctx ((G ++ S).map some)).Add (some t) (I.map some)).recv := by
  simp [registerOne, New, Goroutiner.Batch, hasNil_map_some, hctx, Batch.Add, newBatch]

theorem registerOne_prepare {W : Type} (G S I : List (MwFn W)) (ctx : Context)
    (hctx : ctx ≠ Context.nil) (t : GoFn W) :
    ∃ b, registerOne (G.map some) (S.map some) (I.map some) ctx (some t) = Except.ok b ∧
      b.ctx = ctx ∧ b.prepareGoroutines = Except.ok [applyAll (G ++ S ++ I) (some t)] := by
  refine ⟨_, registerOne_ok G S I ctx hctx t, ?_, prepare_single ctx (G ++ S) I t⟩
  simp [Batch.Add, hasNil_map_some, newBatch]

/-- C26: the decorated task of `New(G...).Batch(ctx, S...).Add(t, I...)` is the nesting of
the concatenation `G ++ S ++ I` around `t`, so two such chains whose concatenations are the
same list compose to the same task and, made with the same context, behave alike under
every execution policy, on every world and under every schedule, also when the batches
differ. In particular a middleware may move from the end of the batch tier to the start of
the individual tier, the global and the batch tier may be merged into either of them, and
with all tiers empty the decorated task is `t` itself. -/
theorem tier_boundaries_not_observable {W : Type} (G S I G2 S2 I2 : List (MwFn W))
    (t : GoFn W) (ctx : Context) (hctx : ctx ≠ Context.nil)
    (h : G ++ S ++ I = G2 ++ S2 ++ I2) :
    (∃ b1 b2, registerOne (G.map some) (S.map some) (I.map some) ctx (some t) = Except.ok b1 ∧
      registerOne (G2.map some) (S2.map some) (I2.map some) ctx (some t) = Except.ok b2 ∧
      b1.prepareGoroutines = Except.ok [applyAll (G ++ S ++ I) (some t)] ∧
      b2.prepareGoroutines = b1.prepareGoroutines ∧
      (∀ w evs, b2.Wait w evs = b1.Wait w evs) ∧
      (∀ w evs, b2.CancelOnError w evs = b1.CancelOnError w evs) ∧
      (∀ w evs, b2.Async w evs = b1.Async w evs) ∧
      (∀ c w evs, b2.AsyncBs c w evs = b1.AsyncBs c w evs)) ∧
    (∀ m : MwFn W, ∃ b1 b2,
      registerOne (G.map some) ((S ++ [m]).map some) (I.map some) ctx (some t)
        = Except.ok b1 ∧
      registerOne (G.map some) (S.map some) ((m :: I).map some) ctx (some t)
        = Except.ok b2 ∧
      b1.mws ≠ b2.mws ∧ b2.prepareGoroutines = b1.prepareGoroutines) ∧
    (∃ b1 b2, registerOne ((G ++ S).map some) [] [] ctx (some t) = Except.ok b1 ∧
      registerOne [] ((G ++ S).map some) [] ctx (some t) = Except.ok b2 ∧
      b2.prepareGoroutines = b1.prepareGoroutines) ∧
    (∃ b, registerOne [] [] [] ctx (some t) = Except.ok b ∧
      b.prepareGoroutines = Except.ok [some t]) := by
  refine ⟨?_, ?_, ?_, ?_⟩
  · obtain ⟨b1, h1, c1, p1⟩ := registerOne_prepare G S I ctx hctx t
    obtain ⟨b2, h2, c2, p2⟩ := registerOne_prepare G2 S2 I2 ctx hctx t
    have hp : b2.prepareGoroutines = b1.prepareGoroutines := by rw [p1, p2, h]
    have hc : b2.ctx = b1.ctx := by rw [c1, c2]
    refine ⟨b1, b2, h1, h2, p1, hp, ?_, ?_, ?_, ?_⟩
    · intro w evs
      simp only [Batch.Wait, hp, hc]
    · intro w evs
      simp only [Batch.CancelOnError, hp, hc]
    · intro w evs
      simp only [Batch.Async, Batch.async, hp, hc]
    · intro c w evs
      simp only [Batch.AsyncBs, Batch.async, hp, hc]
  · intro m
    obtain ⟨b1, h1, _, p1⟩ := registerOne_prepare G (S ++ [m]) I ctx hctx t
    obtain ⟨b2, h2, _, p2⟩ := registerOne_prepare G S (m :: I) ctx hctx t
    refine ⟨b1, b2, h1, h2, ?_, by rw [p1, p2]; simp⟩
    have e1 := registerOne_ok G (S ++ [m]) I ctx hctx t
    have e2 := registerOne_ok G S (m :: I) ctx hctx t
    rw [h1] at e1
    rw [h2] at e2
    simp only [Except.ok.injEq] at e1 e2
    rw [e1, e2, (Populated.add _ _ _ Populated.start).frame.2.1,
      (Populated.add _ _ _ Populated.start).frame.2.1]
    intro hm
    have hl := congrArg List.length hm
    simp [newBatch] at hl
  · obtain ⟨b1, h1, _, p1⟩ := registerOne_prepare (G ++ S) [] [] ctx hctx t
    obtain ⟨b2, h2, _, p2⟩ := registerOne_prepare [] (G ++ S) [] ctx hctx t
    exact ⟨b1, b2, by simpa using h1, by simpa using h2, by rw [p1, p2]; simp⟩
  · obtain ⟨b, h1, _, p1⟩ := registerOne_prepare ([] : List (MwFn W)) [] [] ctx hctx t
    exact ⟨b, by simpa using h1, by simpa [applyAll] using p1⟩

/-- Tracing middleware `g1`, `s1`, `i1` around the tracing task: with `s1` as batch
middleware and with `s1` as first individual middleware the batches differ, behave alike
under `Wait` and leave the same trace, as does the chain with `s1` as second global
middleware. -/
theorem tier_boundaries_not_observable_witness :
    (∃ b1 b2,
      registerOne [some (mMw "g1")] [some (mMw "s1")] [some (mMw "i1")] (Context.value 0)
        (some traceG) = Except.ok b1 ∧
      registerOne [some (mMw "g1")] [] [some (mMw "s1"), some (mMw "i1")] (Context.value 0)
        (some traceG) = Except.ok b2 ∧
      b1.mws.length = 2 ∧ b2.mws.length = 1 ∧
      (∀ w evs, b2.Wait w evs = b1.Wait w evs)) ∧
    orderingTestAdd ["g1"] ["s1"] ["i1"] = Except.ok (some "g1s-s1s-i1s-0-i1e-s1e-g1e") ∧
    orderingTestAdd ["g1"] [] ["s1", "i1"] = Except.ok (some "g1s-s1s-i1s-0-i1e-s1e-g1e") ∧
    orderingTestAdd ["g1", "s1"] [] ["i1"] = Except.ok (some "g1s-s1s-i1s-0-i1e-s1e-g1e") ∧
    orderingTestAdd [] [] [] = Except.ok (some "0") := by
  obtain ⟨b1, b2, h1, h2, _, _, hW, _⟩ :=
    (tier_boundaries_not_observable [mMw "g1"] [mMw "s1"] [mMw "i1"] [mMw "g1"] []
      [mMw "s1", mMw "i1"] traceG (Context.value 0) (by decide) rfl).1
  have e1 : b1 = ((newBatch (Context.value 0) [some (mMw "g1"), some (mMw "s1")]).Add
      (some traceG) [some (mMw "i1")]).recv := by
    have : Except.ok b1 = Except.ok ((newBatch (Context.value 0)
        [some (mMw "g1"), some (mMw "s1")]).Add (some traceG) [some (mMw "i1")]).recv :=
      h1.symm.trans rfl
    simpa using this
  have e2 : b2 = ((newBatch (Context.value 0) [some (mMw "g1")]).Add
      (some traceG) [some (mMw "s1"), some (mMw "i1")]).recv := by
    have : Except.ok b2 = Except.ok ((newBatch (Context.value 0)
        [some (mMw "g1")]).Add (some traceG) [some (mMw "s1"), some (mMw "i1")]).recv :=
      h2.symm.trans rfl
    simpa using this
  exact ⟨⟨b1, b2, h1, h2, by rw [e1]; rfl, by rw [e2]; rfl, hW⟩, rfl, rfl, rfl, rfl⟩

/-! ## Composition in memory -/

theorem set_set_same {α : Type} (l : List α) (i : Nat) (x y : α) :
    (l.set i x).set i y = l.set i y := by
  exact List.set_set x y l i

theorem getD_set_self {α : Type} (t : List (List α)) (a : Nat) (x : List α)
    (ha : a < t.length) : (t.set a x).getD a [] = x := by
  simp [List.getD_eq_getElem?_getD, List.getElem?_set_self, ha]

theorem Memory.setTask_setTask {W : Type} (m : Memory W) (a i : Nat) (x y : Goroutine W)
    (ha : a < m.tasks.length) : (m.setTask a i x).setTask a i y = m.setTask a i y := by
  simp only [Memory.setTask, getD_set_self _ _ _ ha, List.set_set]

theorem Memory.task_setTask {W : Type} (m : Memory W) (a i : Nat) (x : Goroutine W)
    (ha : a < m.tasks.length) (hi : i < (m.tasks.getD a []).length) :
    (m.setTask a i x).task a i = some x := by
  simp only [Memory.setTask, Memory.task, getD_set_self _ _ _ ha]
  exact List.getElem?_set_self hi

theorem Memory.mw_eq {W : Type} (m : Memory W) (s : Slice) (j : Nat) :
    m.mw s j = (readSlice m.mws s)[j]? := by
  simp only [Memory.mw, readSlice, List.getElem?_take, List.getElem?_drop]


theorem Memory.mws_setTask {W : Type} (m : Memory W) (a i : Nat) (x : Goroutine W) :
    (m.setTask a i x).mws = m.mws := rfl

/-- The inner loop in memory does what the inner loop on values does, and writes the one
element `goroutines[i]`. -/
theorem wrapDownRef_eq {W : Type} (m : Memory W) (a i : Nat) (ha : a < m.tasks.length)
    (hi : i < (m.tasks.getD a []).length) (s : Slice) (k : Nat) (g : Goroutine W) :
    (∀ msg, wrapDown (readSlice m.mws s) k g = Except.error msg →
      (wrapDownRef s a i k (m.setTask a i g)).result = Except.error msg ∧
      ∃ g1, (wrapDownRef s a i k (m.setTask a i g)).recv = m.setTask a i g1) ∧
    (∀ g1, wrapDown (readSlice m.mws s) k g = Except.ok g1 →
      wrapDownRef s a i k (m.setTask a i g)
        = { recv := m.setTask a i g1, result := Except.ok () }) := by
  induction k generalizing g with
  | zero =>
    refine ⟨fun msg h => ?_, fun g1 h => ?_⟩
    · simp [wrapDown] at h
    · simp only [wrapDown, Except.ok.injEq] at h
      subst h
      rfl
  | succ j ih =>
    have hmw : (m.setTask a i g).mw s j = (readSlice m.mws s)[j]? := Memory.mw_eq _ s j
    have htask := Memory.task_setTask m a i g ha hi
    simp only [wrapDown, wrapDownRef, hmw, htask]
    cases hj : (readSlice m.mws s)[j]? with
    | none =>
      refine ⟨fun msg h => ?_, fun g1 h => ?_⟩
      · simp only [Except.error.injEq] at h
        subst h
        exact ⟨rfl, g, rfl⟩
      · cases h
    | some mw =>
      simp only []
      cases hc : mw.call g with
      | error e =>
        refine ⟨fun msg h => ?_, fun g1 h => ?_⟩
        · simp only [Except.error.injEq] at h
          subst h
          exact ⟨rfl, g, rfl⟩
        · cases h
      | ok g2 =>
        simp only [Memory.setTask_setTask m a i g g2 ha]
        exact ih g2

theorem readSlice_length_inMemory {W : Type} (h : Heap W) (s : Slice)
    (hs : inMemory h s) : (readSlice h s).length = s.len := by
  simp only [readSlice, List.length_take, List.length_drop]
  rcases hs with h0 | ⟨_, h1⟩
  · omega
  · omega

theorem take_succ_set {α : Type} (l : List α) (i : Nat) (x : α) (hi : i < l.length) :
    (l.set i x).take (i + 1) = l.take i ++ [x] := by
  induction l generalizing i with
  | nil => simp at hi
  | cons y rest ih =>
    cases i with
    | zero => simp
    | succ j =>
      simp only [List.length_cons, Nat.add_lt_add_iff_right] at hi
      simp [ih j hi]

theorem drop_set_lt {α : Type} (l : List α) (i n : Nat) (x : α) (h : i < n) :
    (l.set i x).drop n = l.drop n := by
  induction l generalizing i n with
  | nil => simp
  | cons y rest ih =>
    cases n with
    | zero => omega
    | succ k =>
      cases i with
      | zero => simp
      | succ j => simp [ih j k (by omega)]

theorem set_getD_self {α : Type} (t : List (List α)) (a : Nat) (ha : a < t.length) :
    t.set a (t.getD a []) = t := by
  apply List.ext_getElem?
  intro k
  by_cases hk : k = a
  · subst hk
    rw [List.getElem?_set_self ha]
    simp [List.getD_eq_getElem?_getD, List.getElem?_eq_getElem ha]
  · rw [List.getElem?_set_ne (Ne.symm hk)]

/-- The outer loop in memory does what the outer loop on values does on the entries read
from memory, and writes the elements of `goroutines` from index `i` on and nothing else. -/
theorem prepareLoopRef_eq {W : Type} (bmws : Slice) (a : Nat)
    (cfgs : List (goroutineConfigRef W)) (i : Nat) (m : Memory W) (ha : a < m.tasks.length)
    (hlen : i + cfgs.length ≤ (m.tasks.getD a []).length)
    (hb : (readSlice m.mws bmws).length = bmws.len)
    (hc : ∀ cfg ∈ cfgs, (readSlice m.mws cfg.mws).length = cfg.mws.len) :
    ∃ arr, (prepareLoopRef bmws a cfgs i m).recv = { m with tasks := m.tasks.set a arr } ∧
      arr.length = (m.tasks.getD a []).length ∧
      (∀ msg, prepareLoop (readSlice m.mws bmws) (cfgs.map (fun cfg => cfg.abs m.mws))
          = Except.error msg →
        (prepareLoopRef bmws a cfgs i m).result = Except.error msg) ∧
      (∀ gs, prepareLoop (readSlice m.mws bmws) (cfgs.map (fun cfg => cfg.abs m.mws))
          = Except.ok gs →
        (prepareLoopRef bmws a cfgs i m).result = Except.ok () ∧
        arr = (m.tasks.getD a []).take i ++ gs ++
          (m.tasks.getD a []).drop (i + cfgs.length)) := by
  induction cfgs generalizing i m with
  | nil =>
    refine ⟨m.tasks.getD a [], ?_, rfl, fun msg h => ?_, fun gs h => ?_⟩
    · simp only [prepareLoopRef, set_getD_self _ _ ha]
    · simp [prepareLoop] at h
    · simp only [List.map_nil, prepareLoop, Except.ok.injEq] at h
      subst h
      simp [prepareLoopRef]
  | cons cfg rest ih =>
    simp only [List.length_cons] at hlen
    have hi : i < (m.tasks.getD a []).length := by omega
    have ht : m.task a i = some ((m.tasks.getD a [])[i]) := by
      simp only [Memory.task]
      exact List.getElem?_eq_getElem hi
    have hcl := hc cfg (List.mem_cons_self _ _)
    have hset : ∀ g, m.setTask a i g
        = { m with tasks := m.tasks.set a ((m.tasks.getD a []).set i g) } := fun g => rfl
    obtain ⟨e1, o1⟩ := wrapDownRef_eq m a i ha hi cfg.mws cfg.mws.len cfg.fn
    cases h1 : wrapDown (readSlice m.mws cfg.mws) cfg.mws.len cfg.fn with
    | error msg1 =>
      obtain ⟨r1, g1, r2⟩ := e1 msg1 h1
      have hP : prepareLoopRef bmws a (cfg :: rest) i m
          = { recv := m.setTask a i g1, result := Except.error msg1 } := by
        simp only [prepareLoopRef, ht, r1, r2]
      have hV : prepareLoop (readSlice m.mws bmws)
          ((cfg :: rest).map (fun cfg => cfg.abs m.mws)) = Except.error msg1 := by
        simp only [List.map_cons, prepareLoop, prepareOne, goroutineConfigRef.abs, hcl, h1]
      rw [hP, hV]
      refine ⟨(m.tasks.getD a []).set i g1, hset g1, by simp, fun msg h => ?_,
        fun gs h => ?_⟩
      · simp only [Except.error.injEq] at h
        subst h
        rfl
      · cases h
    | ok g1 =>
      have r1 := o1 g1 h1
      obtain ⟨e2, o2⟩ := wrapDownRef_eq m a i ha hi bmws bmws.len g1
      cases h2 : wrapDown (readSlice m.mws bmws) bmws.len g1 with
      | error msg2 =>
        obtain ⟨r2, g2, r3⟩ := e2 msg2 h2
        have hP : prepareLoopRef bmws a (cfg :: rest) i m
            = { recv := m.setTask a i g2, result := Except.error msg2 } := by
          simp only [prepareLoopRef, ht, r1, r2, r3]
        have hV : prepareLoop (readSlice m.mws bmws)
            ((cfg :: rest).map (fun cfg => cfg.abs m.mws)) = Except.error msg2 := by
          simp only [List.map_cons, prepareLoop, prepareOne, goroutineConfigRef.abs, hcl, h1,
            hb, h2]
        rw [hP, hV]
        refine ⟨(m.tasks.getD a []).set i g2, hset g2, by simp, fun msg h => ?_,
          fun gs h => ?_⟩
        · simp only [Except.error.injEq] at h
          subst h
          rfl
        · cases h
      | ok g2 =>
        have r2 := o2 g2 h2
        have hP : prepareLoopRef bmws a (cfg :: rest) i m
            = prepareLoopRef bmws a rest (i + 1) (m.setTask a i g2) := by
          simp only [prepareLoopRef, ht, r1, r2]
        have ha2 : a < (m.setTask a i g2).tasks.length := by
          simp only [Memory.setTask, List.length_set]
          exact ha
        have hget : (m.setTask a i g2).tasks.getD a [] = (m.tasks.getD a []).set i g2 :=
          getD_set_self _ _ _ ha
        obtain ⟨arr, p1, p2, p3, p4⟩ := ih (i + 1) (m.setTask a i g2) ha2
          (by rw [hget, List.length_set]; omega) hb
          (fun c hcm => hc c (List.mem_cons_of_mem _ hcm))
        rw [hget] at p2 p4
        have hrecv : (prepareLoopRef bmws a rest (i + 1) (m.setTask a i g2)).recv
            = { m with tasks := m.tasks.set a arr } := by
          rw [p1]
          simp only [Memory.setTask, List.set_set]
        have hone : prepareOne (readSlice m.mws bmws) (cfg.abs m.mws) = Except.ok g2 := by
          simp only [prepareOne, goroutineConfigRef.abs, hcl, h1, hb, h2]
        rw [hP]
        refine ⟨arr, hrecv, by rw [p2, List.length_set], fun msg h => ?_, fun gs h => ?_⟩
        · apply p3
          simp only [List.map_cons, prepareLoop, hone] at h
          cases h3 : prepareLoop (readSlice m.mws bmws)
              (rest.map (fun cfg => cfg.abs m.mws)) with
          | error e =>
            rw [h3] at h
            simp only [Except.error.injEq] at h
            subst h
            exact h3
          | ok gs => rw [h3] at h; cases h
        · simp only [List.map_cons, prepareLoop, hone] at h
          cases h3 : prepareLoop (readSlice m.mws bmws)
              (rest.map (fun cfg => cfg.abs m.mws)) with
          | error e => rw [h3] at h; cases h
          | ok gs1 =>
            rw [h3] at h
            simp only [Except.ok.injEq] at h
            subst h
            obtain ⟨q1, q2⟩ := p4 gs1 h3
            refine ⟨q1, ?_⟩
            rw [q2, take_succ_set _ _ _ hi, drop_set_lt _ _ _ _ (by omega : i < i + 1 + rest.length)]
            have : i + 1 + rest.length = i + (rest.length + 1) := by omega
            rw [this]
            simp

theorem readTasks_last {W : Type} (t : List (List (Goroutine W))) (h : Heap W)
    (gs : List (Goroutine W)) (n : Nat) (hn : gs.length = n) :
    Memory.readTasks { mws := h, tasks := t ++ [gs] }
      { arr := t.length, off := 0, len := n, cap := n } = gs := by
  simp only [Memory.readTasks, List.getD_eq_getElem?_getD, List.drop_zero]
  rw [List.getElem?_append_right (Nat.le_refl _)]
  simp [← hn]

/-- What `prepareGoroutines` does to the memory and what it yields, against the composition
on the values the batch stands for. -/
theorem prepareGoroutinesRef_eq {W : Type} (b : BatchRef W) (m : Memory W)
    (hb : (readSlice m.mws b.mws).length = b.mws.len)
    (hc : ∀ cfg ∈ b.goroutineConfigs, (readSlice m.mws cfg.mws).length = cfg.mws.len) :
    (b.prepareGoroutines m).recv.2 = b ∧ (b.prepareGoroutines m).recv.1.mws = m.mws ∧
    (∃ arr, (b.prepareGoroutines m).recv.1.tasks = m.tasks ++ [arr] ∧
      arr.length = b.goroutineConfigs.length) ∧
    (∀ msg, (b.abs m.mws).prepareGoroutines = Except.error msg →
      (b.prepareGoroutines m).result = Except.error msg) ∧
    (∀ gs, (b.abs m.mws).prepareGoroutines = Except.ok gs →
      (b.prepareGoroutines m).result
        = Except.ok { arr := m.tasks.length, off := 0, len := b.goroutineConfigs.length,
                      cap := b.goroutineConfigs.length } ∧
      (b.prepareGoroutines m).recv.1.tasks = m.tasks ++ [gs] ∧
      gs.length = b.goroutineConfigs.length) := by
  by_cases hn : b.goroutineConfigs.length = 0
  · have hP : b.prepareGoroutines m
        = { recv := ({ m with tasks := m.tasks ++ [List.replicate b.goroutineConfigs.length none] }, b),
            result := Except.error "at least one goroutine is required" } := by
      simp only [BatchRef.prepareGoroutines, hn, if_true]
    have hV : (b.abs m.mws).prepareGoroutines
        = Except.error "at least one goroutine is required" := by
      simp [Batch.prepareGoroutines, BatchRef.abs, hn]
    rw [hP, hV]
    refine ⟨rfl, rfl, ⟨_, rfl, by simp⟩, fun msg h => ?_, fun gs h => ?_⟩
    · simp only [Except.error.injEq] at h
      subst h
      rfl
    · cases h
  · obtain ⟨m1, hm1⟩ : ∃ m1 : Memory W, m1
        = { m with tasks := m.tasks ++ [List.replicate b.goroutineConfigs.length none] } :=
      ⟨_, rfl⟩
    have ha : m.tasks.length < m1.tasks.length := by rw [hm1]; simp
    have hget : m1.tasks.getD m.tasks.length []
        = List.replicate b.goroutineConfigs.length none := by
      rw [hm1]
      simp only [List.getD_eq_getElem?_getD]
      rw [List.getElem?_append_right (Nat.le_refl _)]
      simp
    have hmws : m1.mws = m.mws := by rw [hm1]
    obtain ⟨arr, p1, p2, p3, p4⟩ := prepareLoopRef_eq b.mws m.tasks.length b.goroutineConfigs 0
      m1 ha (by rw [hget]; simp) (by rw [hmws]; exact hb) (by rw [hmws]; exact hc)
    rw [hget] at p2 p4
    rw [hmws] at p3 p4
    have hset : m1.tasks.set m.tasks.length arr = m.tasks ++ [arr] := by
      rw [hm1]
      simp only []
      rw [List.set_append_right _ _ (Nat.le_refl _)]
      simp
    have hV : (b.abs m.mws).prepareGoroutines
        = prepareLoop (readSlice m.mws b.mws)
            (b.goroutineConfigs.map (fun cfg => cfg.abs m.mws)) := by
      simp [Batch.prepareGoroutines, BatchRef.abs, hn]
    have hrecv : ∀ res, (prepareLoopRef b.mws m.tasks.length b.goroutineConfigs 0 m1).result
        = res → (b.prepareGoroutines m).recv
          = ({ mws := m.mws, tasks := m.tasks ++ [arr] }, b) := by
      intro res hres
      simp only [BatchRef.prepareGoroutines, hn, if_false, ← hm1]
      cases res with
      | error e => simp only [hres, p1, hset, hmws]
      | ok u => simp only [hres, p1, hset, hmws]
    have hR := hrecv _ rfl
    rw [hV]
    refine ⟨by rw [hR], by rw [hR], ⟨arr, by rw [hR], by rw [p2]; simp⟩, fun msg h => ?_,
      fun gs h => ?_⟩
    · have := p3 msg h
      simp only [BatchRef.prepareGoroutines, hn, if_false, ← hm1, this]
    · obtain ⟨q1, q2⟩ := p4 gs h
      have hl := prepareLoop_length _ _ _ h
      simp only [List.length_map] at hl
      have harr : arr = gs := by
        rw [q2]
        simp [← hl]
      refine ⟨?_, by rw [hR, harr], hl⟩
      simp only [BatchRef.prepareGoroutines, hn, if_false, ← hm1, q1]

/-- The policies in memory compose in memory and then do what the policies on the values
do. -/
theorem policiesRef_eq {W : Type} (b : BatchRef W) (m : Memory W)
    (hb : (readSlice m.mws b.mws).length = b.mws.len)
    (hc : ∀ cfg ∈ b.goroutineConfigs, (readSlice m.mws cfg.mws).length = cfg.mws.len)
    (w : W) (c : Nat) (evW : List WaitEvent) (evC : List CancelEvent)
    (evA : List AsyncEvent) :
    ((b.Wait m w evW).recv = (b.prepareGoroutines m).recv ∧
      (b.Wait m w evW).result = (b.abs m.mws).Wait w evW) ∧
    ((b.CancelOnError m w evC).recv = (b.prepareGoroutines m).recv ∧
      (b.CancelOnError m w evC).result = (b.abs m.mws).CancelOnError w evC) ∧
    ((b.Async m w evA).recv = (b.prepareGoroutines m).recv ∧
      (b.Async m w evA).result = (b.abs m.mws).Async w evA) ∧
    ((b.AsyncBs m c w evA).recv = (b.prepareGoroutines m).recv ∧
      (b.AsyncBs m c w evA).result = (b.abs m.mws).AsyncBs c w evA) := by
  obtain ⟨h1, h2, _, h4, h5⟩ := prepareGoroutinesRef_eq b m hb hc
  have hctx : (b.abs m.mws).ctx = b.ctx := rfl
  cases hV : (b.abs m.mws).prepareGoroutines with
  | error msg =>
    have hR := h4 msg hV
    simp only [BatchRef.Wait, BatchRef.CancelOnError, BatchRef.Async, BatchRef.AsyncBs, hR,
      Batch.Wait, Batch.CancelOnError, Batch.Async, Batch.AsyncBs, hV]
    exact ⟨⟨trivial, trivial⟩, ⟨trivial, trivial⟩, ⟨trivial, trivial⟩, trivial, trivial⟩
  | ok gs =>
    obtain ⟨hR, hT, hl⟩ := h5 gs hV
    have hread : (b.prepareGoroutines m).recv.1.readTasks
        { arr := m.tasks.length, off := 0, len := b.goroutineConfigs.length,
          cap := b.goroutineConfigs.length } = gs := by
      have hm : (b.prepareGoroutines m).recv.1
          = { mws := m.mws, tasks := m.tasks ++ [gs] } := by
        rw [← h2, ← hT]
      rw [hm]
      exact readTasks_last _ _ _ _ hl
    simp only [BatchRef.Wait, BatchRef.CancelOnError, BatchRef.Async, BatchRef.AsyncBs, hR,
      Batch.Wait, Batch.CancelOnError, Batch.Async, Batch.AsyncBs, hV, hread, h1, hctx,
      BatchRef.async, Batch.async, hl]
    exact ⟨⟨trivial, trivial⟩, ⟨trivial, trivial⟩, ⟨trivial, trivial⟩, trivial, trivial⟩

/-- C18: `prepareGoroutines` on a batch in memory whose slices of middleware lie in
memory. The call leaves the batch as it is, context, header of the batch middleware and
entries, and leaves every array of middleware and every array of tasks that was in memory
as it is: all it writes is one new array of tasks, so the batch stands for the same values
afterwards. It panics exactly when the composition on these values does, with the same
message, and otherwise the new array holds what that composition yields: for every entry
the task the two inner loops make of it. Composed a second time in the memory the first
call has left, or in any memory with the same arrays of middleware, the batch yields the
same tasks in another new array and the first array still holds them. `Wait`,
`CancelOnError`, `Async` and `AsyncBs(c)` leave the memory and the batch as
`prepareGoroutines` does and do what the policy does on the values the batch stands for, on
whatever world and under whatever schedule; so a policy run after another in the memory it
has left launches the same tasks. -/
theorem prepareGoroutines_recomposes {W : Type} (b : BatchRef W) (m : Memory W)
    (hb : inMemory m.mws b.mws)
    (hc : ∀ cfg ∈ b.goroutineConfigs, inMemory m.mws cfg.mws) :
    ((b.prepareGoroutines m).recv.2 = b ∧ (b.prepareGoroutines m).recv.1.mws = m.mws ∧
      (∃ arr, (b.prepareGoroutines m).recv.1.tasks = m.tasks ++ [arr]) ∧
      (b.prepareGoroutines m).recv.2.abs (b.prepareGoroutines m).recv.1.mws = b.abs m.mws) ∧
    (∀ msg, (b.prepareGoroutines m).result = Except.error msg ↔
      (b.abs m.mws).prepareGoroutines = Except.error msg) ∧
    (∀ s, (b.prepareGoroutines m).result = Except.ok s →
      s.arr = m.tasks.length ∧ s.len = b.goroutineConfigs.length ∧
      (b.abs m.mws).prepareGoroutines
        = Except.ok ((b.prepareGoroutines m).recv.1.readTasks s) ∧
      (∀ (i : Nat) (cfg : goroutineConfigRef W), b.goroutineConfigs[i]? = some cfg →
        ∃ g1 g, wrapDown (readSlice m.mws cfg.mws) cfg.mws.len cfg.fn = Except.ok g1 ∧
          wrapDown (readSlice m.mws b.mws) b.mws.len g1 = Except.ok g ∧
          ((b.prepareGoroutines m).recv.1.readTasks s)[i]? = some g) ∧
      ∃ s2, (b.prepareGoroutines (b.prepareGoroutines m).recv.1).result = Except.ok s2 ∧
        s2.arr = s.arr + 1 ∧
        (b.prepareGoroutines (b.prepareGoroutines m).recv.1).recv.2 = b ∧
        (b.prepareGoroutines (b.prepareGoroutines m).recv.1).recv.1.mws = m.mws ∧
        (b.prepareGoroutines (b.prepareGoroutines m).recv.1).recv.1.readTasks s2
          = (b.prepareGoroutines m).recv.1.readTasks s ∧
        (b.prepareGoroutines (b.prepareGoroutines m).recv.1).recv.1.readTasks s
          = (b.prepareGoroutines m).recv.1.readTasks s) ∧
    (∀ m1 : Memory W, m1.mws = m.mws →
      ((b.prepareGoroutines m1).recv.2 = b ∧ (b.prepareGoroutines m1).recv.1.mws = m.mws ∧
        ∀ gs, (b.abs m.mws).prepareGoroutines = Except.ok gs →
          (b.prepareGoroutines m1).recv.1.tasks = m1.tasks ++ [gs]) ∧
      ∀ (w : W) (c : Nat) (evW : List WaitEvent) (evC : List CancelEvent)
        (evA : List AsyncEvent),
        ((b.Wait m1 w evW).recv = (b.prepareGoroutines m1).recv ∧
          (b.Wait m1 w evW).result = (b.abs m.mws).Wait w evW) ∧
        ((b.CancelOnError m1 w evC).recv = (b.prepareGoroutines m1).recv ∧
          (b.CancelOnError m1 w evC).result = (b.abs m.mws).CancelOnError w evC) ∧
        ((b.Async m1 w evA).recv = (b.prepareGoroutines m1).recv ∧
          (b.Async m1 w evA).result = (b.abs m.mws).Async w evA) ∧
        ((b.AsyncBs m1 c w evA).recv = (b.prepareGoroutines m1).recv ∧
          (b.AsyncBs m1 c w evA).result = (b.abs m.mws).AsyncBs c w evA)) := by
  have hbl := readSlice_length_inMemory _ _ hb
  have hcl : ∀ cfg ∈ b.goroutineConfigs, (readSlice m.mws cfg.mws).length = cfg.mws.len :=
    fun cfg hm => readSlice_length_inMemory _ _ (hc cfg hm)
  have key : ∀ m1 : Memory W, m1.mws = m.mws →
      (b.prepareGoroutines m1).recv.2 = b ∧ (b.prepareGoroutines m1).recv.1.mws = m.mws ∧
      (∃ arr, (b.prepareGoroutines m1).recv.1.tasks = m1.tasks ++ [arr] ∧
        arr.length = b.goroutineConfigs.length) ∧
      (∀ msg, (b.abs m.mws).prepareGoroutines = Except.error msg →
        (b.prepareGoroutines m1).result = Except.error msg) ∧
      (∀ gs, (b.abs m.mws).prepareGoroutines = Except.ok gs →
        (b.prepareGoroutines m1).result
          = Except.ok { arr := m1.tasks.length, off := 0, len := b.goroutineConfigs.length,
                        cap := b.goroutineConfigs.length } ∧
        (b.prepareGoroutines m1).recv.1.tasks = m1.tasks ++ [gs] ∧
        gs.length = b.goroutineConfigs.length) := by
    intro m1 hm1
    have := prepareGoroutinesRef_eq b m1 (by rw [hm1]; exact hbl) (by rw [hm1]; exact hcl)
    rw [hm1] at this
    exact this
  obtain ⟨k1, k2, ⟨arr, k3, _⟩, k4, k5⟩ := key m rfl
  have hval : ∀ s, (b.prepareGoroutines m).result = Except.ok s →
      ∃ gs, (b.abs m.mws).prepareGoroutines = Except.ok gs ∧
        s = { arr := m.tasks.length, off := 0, len := b.goroutineConfigs.length,
              cap := b.goroutineConfigs.length } ∧
        (b.prepareGoroutines m).recv.1 = { mws := m.mws, tasks := m.tasks ++ [gs] } ∧
        gs.length = b.goroutineConfigs.length := by
    intro s hs
    cases hV : (b.abs m.mws).prepareGoroutines with
    | error msg =>
      rw [k4 msg hV] at hs
      cases hs
    | ok gs =>
      obtain ⟨q1, q2, q3⟩ := k5 gs hV
      rw [q1] at hs
      simp only [Except.ok.injEq] at hs
      refine ⟨gs, rfl, hs.symm, ?_, q3⟩
      rw [← k2, ← q2]
  refine ⟨⟨k1, k2, ⟨arr, k3⟩, by rw [k1, k2]⟩, fun msg => ⟨fun h => ?_, k4 msg⟩,
    fun s hs => ?_, fun m1 hm1 => ?_⟩
  · cases hV : (b.abs m.mws).prepareGoroutines with
    | error e =>
      rw [k4 e hV] at h
      simp only [Except.error.injEq] at h
      rw [h]
    | ok gs =>
      rw [(k5 gs hV).1] at h
      cases h
  · obtain ⟨gs, hV, rfl, hm, hl⟩ := hval s hs
    have hread : (b.prepareGoroutines m).recv.1.readTasks
        { arr := m.tasks.length, off := 0, len := b.goroutineConfigs.length,
          cap := b.goroutineConfigs.length } = gs := by
      rw [hm]
      exact readTasks_last _ _ _ _ hl
    rw [hread]
    refine ⟨rfl, rfl, hV, fun i cfg hi => ?_, ?_⟩
    · have hne : ¬ b.goroutineConfigs.length = 0 := by
        intro h0
        rw [List.length_eq_zero] at h0
        rw [h0] at hi
        simp at hi
      have hL : prepareLoop (readSlice m.mws b.mws)
          (b.goroutineConfigs.map (fun cfg => cfg.abs m.mws)) = Except.ok gs := by
        have := hV
        simp only [Batch.prepareGoroutines, BatchRef.abs, List.length_map, hne,
          if_false] at this
        exact this
      obtain ⟨g, hg1, hg2⟩ := prepareLoop_entry _ _ gs hL i (cfg.abs m.mws)
        (by simp [List.getElem?_map, hi])
      simp only [prepareOne, goroutineConfigRef.abs, hcl cfg (List.mem_iff_getElem?.2 ⟨i, hi⟩),
        hbl] at hg1
      cases h1 : wrapDown (readSlice m.mws cfg.mws) cfg.mws.len cfg.fn with
      | error e => rw [h1] at hg1; cases hg1
      | ok g1 =>
        rw [h1] at hg1
        exact ⟨g1, g, rfl, hg1, hg2⟩
    · obtain ⟨j1, j2, _, _, j5⟩ := key (b.prepareGoroutines m).recv.1 k2
      obtain ⟨r1, r2, r3⟩ := j5 gs hV
      have hm2 : (b.prepareGoroutines (b.prepareGoroutines m).recv.1).recv.1
          = { mws := m.mws, tasks := m.tasks ++ [gs] ++ [gs] } := by
        have e : (b.prepareGoroutines (b.prepareGoroutines m).recv.1).recv.1
            = { mws := (b.prepareGoroutines (b.prepareGoroutines m).recv.1).recv.1.mws,
                tasks := (b.prepareGoroutines (b.prepareGoroutines m).recv.1).recv.1.tasks } :=
          rfl
        rw [e, j2, r2, hm]
      have hlen1 : (b.prepareGoroutines m).recv.1.tasks.length = m.tasks.length + 1 := by
        rw [hm]; simp
      refine ⟨_, r1, by simp only [hlen1], j1, j2, ?_, ?_⟩
      · rw [hm2, hlen1]
        have := readTasks_last (m.tasks ++ [gs]) m.mws gs _ hl
        simp only [List.length_append, List.length_singleton] at this
        exact this
      · rw [hm2]
        simp only [Memory.readTasks, List.getD_eq_getElem?_getD, List.drop_zero]
        rw [List.getElem?_append_left (by simp)]
        rw [List.getElem?_append_right (Nat.le_refl _)]
        simp [← hl]
  · obtain ⟨j1, j2, _, _, j5⟩ := key m1 hm1
    refine ⟨⟨j1, j2, fun gs hV => (j5 gs hV).2.1⟩, fun w c evW evC evA => ?_⟩
    have := policiesRef_eq b m1 (by rw [hm1]; exact hbl) (by rw [hm1]; exact hcl) w c evW evC
      evA
    rw [hm1] at this
    exact this

/-- The second case of the all-added-executed test in memory: the chain of `New`, `Batch`
and two calls of `Add` yields a batch that stands for the batch on values; its composition
leaves the batch and the arrays of middleware as they are and writes the two decorated tasks
into a new array, a second composition writes the same two tasks into another one; `Wait`
finds `expected`, and a second `Wait` in the memory and on the world the first one has left
counts everything a second time. On values `testBatch` finds `expected` after each of the
thirteen calls on the same batch, also for the batches filled by `Add` and by `AddRange`. -/
theorem prepareGoroutines_recomposes_witness :
    ∃ (h : Heap (List Int)) (b : BatchRef (List Int)),
      smallCountRef = Except.ok (h, b) ∧
      inMemory h b.mws ∧ (∀ cfg ∈ b.goroutineConfigs, inMemory h cfg.mws) ∧
      b.abs h = smallCountBatch ∧
      (b.prepareGoroutines { mws := h, tasks := [] }).recv.2 = b ∧
      (b.prepareGoroutines { mws := h, tasks := [] }).recv.1.mws = h ∧
      (b.prepareGoroutines { mws := h, tasks := [] }).result
        = Except.ok { arr := 0, off := 0, len := 2, cap := 2 } ∧
      (b.prepareGoroutines { mws := h, tasks := [] }).recv.1.tasks
        = [[countMw 1 10 (some (countG 1 1)), countMw 3 30 (some (countG 3 3))]] ∧
      (b.prepareGoroutines (b.prepareGoroutines { mws := h, tasks := [] }).recv.1).recv.1.tasks
        = [[countMw 1 10 (some (countG 1 1)), countMw 3 30 (some (countG 3 3))],
            [countMw 1 10 (some (countG 1 1)), countMw 3 30 (some (countG 3 3))]] ∧
      waitWorld (b.Wait { mws := h, tasks := [] } (List.replicate 10 0) (reverseWait 2)).result
        = Except.ok (some [0, 11, 0, 33, 0, 0, 0, 0, 0, 0]) ∧
      waitWorld (b.Wait (b.Wait { mws := h, tasks := [] } (List.replicate 10 0)
          (reverseWait 2)).recv.1 [0, 11, 0, 33, 0, 0, 0, 0, 0, 0] (reverseWait 2)).result
        = Except.ok (some [0, 22, 0, 66, 0, 0, 0, 0, 0, 0]) ∧
      testBatch smallCountBatch 2
        = List.replicate 13 (some [0, 11, 0, 33, 0, 0, 0, 0, 0, 0]) ∧
      testBatch countBatchAdd 9 = List.replicate 13 (some countExpected) ∧
      testBatch countBatchAddRange 9 = List.replicate 13 (some countExpected) := by
  have hb : inMemory (smallCountHeap ++ [[]])
      ({ arr := 2, off := 0, len := 0, cap := 0 } : Slice) := Or.inl rfl
  have hc : ∀ cfg ∈ [goroutineConfigRef.mk (some (countG 1 1)) (argSlice 0),
      goroutineConfigRef.mk (some (countG 3 3)) (argSlice 1)],
      inMemory (smallCountHeap ++ [[]]) cfg.mws := by
    intro cfg hm
    simp only [List.mem_cons, List.mem_singleton, List.not_mem_nil, or_false] at hm
    rcases hm with rfl | rfl
    · exact Or.inr ⟨by decide, by decide⟩
    · exact Or.inr ⟨by decide, by decide⟩
  have h := prepareGoroutines_recomposes
    ({ ctx := Context.value 0, mws := { arr := 2, off := 0, len := 0, cap := 0 },
       goroutineConfigs := [goroutineConfigRef.mk (some (countG 1 1)) (argSlice 0),
         goroutineConfigRef.mk (some (countG 3 3)) (argSlice 1)] } : BatchRef (List Int))
    { mws := smallCountHeap ++ [[]], tasks := [] } hb hc
  exact ⟨_, _, rfl, hb, hc, rfl, h.1.1, h.1.2.1, rfl, rfl, rfl, rfl, rfl, by decide, by decide,
    by decide⟩

/-! ## Well-formedness of the batches in memory -/

theorem inMemory_of_valid {W : Type} (h : Heap W) (s : Slice) (hv : validSlice h s) :
    inMemory h s := by
  obtain ⟨h1, h2, h3⟩ := hv
  exact Or.inr ⟨h1, by omega⟩

theorem inMemory_alloc {W : Type} (h : Heap W) (arr : List (Middleware W)) (s : Slice)
    (hs : inMemory h s) :
    inMemory (h ++ [arr]) s ∧ readSlice (h ++ [arr]) s = readSlice h s := by
  rcases hs with h0 | ⟨h1, h2⟩
  · exact ⟨Or.inl h0, by simp [readSlice, h0]⟩
  · have hg := getD_alloc h arr s.arr h1
    refine ⟨Or.inr ⟨by simp only [List.length_append, List.length_singleton]; omega,
      by rw [hg]; exact h2⟩, readSlice_congr hg⟩

theorem NewRef_ok {W : Type} (h : Heap W) (G : Slice) (r : GoroutinerRef)
    (hr : NewRef h G = Except.ok r) : hasNil (readSlice h G) = false ∧ r.globalMws = G := by
  unfold NewRef at hr
  split at hr
  · cases hr
  · rename_i h1
    simp only [Except.ok.injEq] at hr
    exact ⟨by simpa using h1, by rw [← hr]⟩

/-- An entry in memory as registration admits it. -/
theorem Add_recv_ref {W : Type} (b : BatchRef W) (h : Heap W) (fn : Goroutine W)
    (mws : Slice) :
    (b.Add h fn mws).recv = b ∨
      (fn.isSome = true ∧ hasNil (readSlice h mws) = false ∧
        (b.Add h fn mws).recv
          = { b with goroutineConfigs := b.goroutineConfigs ++ [{ fn := fn, mws := mws }] }) := by
  unfold BatchRef.Add
  split
  · exact Or.inl rfl
  · rename_i h1
    split
    · exact Or.inl rfl
    · rename_i h2
      refine Or.inr ⟨?_, by simpa using h2, rfl⟩
      cases fn with
      | none => simp at h1
      | some f => rfl

theorem addRangeLoopRef_mem {W : Type} (h : Heap W) (p : ProviderRef W) (k : Nat) (i : Int)
    (cfgs cs : List (goroutineConfigRef W))
    (hl : addRangeLoopRef h p k i cfgs = Except.ok cs) :
    ∀ c ∈ cs, c ∈ cfgs ∨
      (c.fn.isSome = true ∧ hasNil (readSlice h c.mws) = false ∧
        ∃ j, p j = Except.ok (c.fn, c.mws)) := by
  induction k generalizing i cfgs with
  | zero =>
    simp only [addRangeLoopRef, Except.ok.injEq] at hl
    subst hl
    exact fun c hc => Or.inl hc
  | succ k ih =>
    simp only [addRangeLoopRef] at hl
    cases hp : p i with
    | error e => rw [hp] at hl; cases hl
    | ok v =>
      obtain ⟨fn, mws⟩ := v
      rw [hp] at hl
      simp only [] at hl
      split at hl
      · cases hl
      · rename_i h1
        split at hl
        · cases hl
        · rename_i h2
          intro c hc
          rcases ih _ _ hl c hc with hm | hm
          · rcases List.mem_append.1 hm with hm1 | hm1
            · exact Or.inl hm1
            · simp only [List.mem_singleton] at hm1
              subst hm1
              refine Or.inr ⟨?_, by simpa using h2, i, hp⟩
              cases fn with
              | none => simp at h1
              | some f => rfl
          · exact Or.inr hm

theorem AddRange_recv_ref {W : Type} (b : BatchRef W) (h : Heap W) (n : Int)
    (p : Option (ProviderRef W)) :
    (b.AddRange h n p).recv = b ∨
      ∃ f cs, p = some f ∧ addRangeLoopRef h f n.toNat 0 [] = Except.ok cs ∧
        (b.AddRange h n p).recv
          = { b with goroutineConfigs := b.goroutineConfigs ++ cs } := by
  unfold BatchRef.AddRange
  split
  · exact Or.inl rfl
  · split
    · exact Or.inl rfl
    · rename_i f
      split
      · exact Or.inl rfl
      · rename_i len hq
        obtain ⟨_, rfl⟩ := (makeslice_ok_iff _ _).1 hq
        split
        · exact Or.inl rfl
        · rename_i cs hl
          exact Or.inr ⟨f, cs, rfl, hl, rfl⟩

/-- What the calls of `Add` and `AddRange` and the allocations in between keep. -/
theorem PopulatedRef.invariant {W : Type} {h0 h1 : Heap W} {b0 b : BatchRef W}
    (hp : PopulatedRef h0 b0 h1 b) :
    b.ctx = b0.ctx ∧ b.mws = b0.mws ∧ h0.length ≤ h1.length ∧
      (∀ k : Nat, k < h0.length → h1.getD k [] = h0.getD k []) ∧
      ((∀ cfg ∈ b0.goroutineConfigs, cfg.fn.isSome = true ∧
          hasNil (readSlice h0 cfg.mws) = false ∧ inMemory h0 cfg.mws) →
        ∀ cfg ∈ b.goroutineConfigs, cfg.fn.isSome = true ∧
          hasNil (readSlice h1 cfg.mws) = false ∧ inMemory h1 cfg.mws) := by
  induction hp with
  | start => exact ⟨rfl, rfl, Nat.le_refl _, fun _ _ => rfl, fun h => h⟩
  | alloc h b arr _ ih =>
    obtain ⟨i1, i2, i3, i4, i5⟩ := ih
    refine ⟨i1, i2, by simp only [List.length_append, List.length_singleton]; omega,
      fun k hk => ?_, fun hv cfg hc => ?_⟩
    · rw [getD_alloc h arr k (by omega)]
      exact i4 k hk
    · obtain ⟨j1, j2, j3⟩ := i5 hv cfg hc
      obtain ⟨q1, q2⟩ := inMemory_alloc h arr cfg.mws j3
      exact ⟨j1, by rw [q2]; exact j2, q1⟩
  | add h b fn mws hm _ ih =>
    obtain ⟨i1, i2, i3, i4, i5⟩ := ih
    rcases Add_recv_ref b h fn mws with e | ⟨e1, e2, e⟩
    · rw [e]; exact ⟨i1, i2, i3, i4, i5⟩
    · rw [e]
      refine ⟨i1, i2, i3, i4, fun hv cfg hc => ?_⟩
      rcases List.mem_append.1 hc with hc1 | hc1
      · exact i5 hv cfg hc1
      · simp only [List.mem_singleton] at hc1
        subst hc1
        exact ⟨e1, e2, hm⟩
  | addRange h b n p hm _ ih =>
    obtain ⟨i1, i2, i3, i4, i5⟩ := ih
    rcases AddRange_recv_ref b h n p with e | ⟨f, cs, e1, e2, e⟩
    · rw [e]; exact ⟨i1, i2, i3, i4, i5⟩
    · rw [e]
      refine ⟨i1, i2, i3, i4, fun hv cfg hc => ?_⟩
      rcases List.mem_append.1 hc with hc1 | hc1
      · exact i5 hv cfg hc1
      · rcases addRangeLoopRef_mem h f _ _ _ cs e2 cfg hc1 with hx | ⟨x1, x2, j, x3⟩
        · cases hx
        · exact ⟨x1, x2, hm f j cfg.fn cfg.mws e1 x3⟩

theorem readSlice_stable {W : Type} (h h1 : Heap W) (s : Slice) (hs : inMemory h s)
    (hl : h.length ≤ h1.length) (hold : ∀ k : Nat, k < h.length → h1.getD k [] = h.getD k []) :
    readSlice h1 s = readSlice h s ∧ inMemory h1 s := by
  rcases hs with h0 | ⟨ha, hb⟩
  · exact ⟨by simp [readSlice, h0], Or.inl h0⟩
  · exact ⟨readSlice_congr (hold _ ha), Or.inr ⟨by omega, by rw [hold _ ha]; exact hb⟩⟩

/-- What `Batch` does to the memory when it does not panic, for slices that lie in memory,
the nil slice included. -/
theorem Batch_in_memory {W : Type} (g : GoroutinerRef) (h : Heap W) (ctx : Context)
    (mws : Slice) (hg : inMemory h g.globalMws) (hm : inMemory h mws)
    (hctx : ctx ≠ Context.nil) (hnil : hasNil (readSlice h mws) = false) :
    ∃ h3 b, g.Batch h ctx mws = Except.ok (h3, b) ∧ h3.length = h.length + 1 ∧
      b.mws.arr = h.length ∧ validSlice h3 b.mws ∧
      readSlice h3 b.mws = readSlice h g.globalMws ++ readSlice h mws ∧
      (∀ k : Nat, k < h.length → h3.getD k [] = h.getD k []) ∧
      b.ctx = ctx ∧ b.goroutineConfigs = [] := by
  obtain ⟨h1, e1⟩ : ∃ x, x = h ++ [List.replicate (g.globalMws.len + mws.len) none] :=
    ⟨_, rfl⟩
  obtain ⟨s0, e0⟩ : ∃ x : Slice,
      x = { arr := h.length, off := 0, len := 0, cap := g.globalMws.len + mws.len } :=
    ⟨_, rfl⟩
  obtain ⟨r1, e2⟩ : ∃ x, x = goAppend h1 s0 (readSlice h1 g.globalMws) := ⟨_, rfl⟩
  obtain ⟨r2, e3⟩ : ∃ x, x = goAppend r1.1 r1.2 (readSlice r1.1 mws) := ⟨_, rfl⟩
  have hB : g.Batch h ctx mws = Except.ok (r2.1, newBatchRef ctx r2.2) := by
    subst e3 e2 e1 e0
    simp only [GoroutinerRef.Batch, hctx, if_false, hnil, goMake]
    rfl
  have hv0 : validSlice h1 s0 := by
    subst e1 e0
    refine ⟨by simp, Nat.zero_le _, ?_⟩
    simp [List.getD_eq_getElem?_getD]
  have hr0 : readSlice h1 s0 = [] := by
    subst e0
    simp [readSlice]
  have hold : ∀ k : Nat, k < h.length → h1.getD k [] = h.getD k [] := by
    intro k hk
    rw [e1]
    exact getD_alloc h _ k hk
  have hl1 : h1.length = h.length + 1 := by rw [e1]; simp
  have hG1 : readSlice h1 g.globalMws = readSlice h g.globalMws :=
    (readSlice_stable h h1 _ hg (by omega) hold).1
  have hlG := readSlice_length_inMemory h g.globalMws hg
  have hlS := readSlice_length_inMemory h mws hm
  have hs0 : s0.arr = h.length ∧ s0.len = 0 ∧ s0.cap = g.globalMws.len + mws.len := by
    subst e0; exact ⟨rfl, rfl, rfl⟩
  obtain ⟨a1, a2, a3, a4, a5⟩ := goAppend_in_place h1 s0 (readSlice h1 g.globalMws) hv0
    (by rw [hG1, hlG, hs0.2.1, hs0.2.2]; omega)
  rw [← e2] at a1 a2 a3 a4 a5
  have hr1 : r1.2.arr = h.length ∧ r1.2.len = g.globalMws.len ∧
      r1.2.cap = g.globalMws.len + mws.len := by
    rw [a1]
    refine ⟨hs0.1, ?_, hs0.2.2⟩
    simp only [hs0.2.1, hG1, hlG, Nat.zero_add]
  have hold1 : ∀ k : Nat, k < h.length → r1.1.getD k [] = h.getD k [] := by
    intro k hk
    rw [a5 k (by rw [hs0.1]; omega)]
    exact hold k hk
  have hS2 : readSlice r1.1 mws = readSlice h mws :=
    (readSlice_stable h r1.1 _ hm (by rw [a2, hl1]; omega) hold1).1
  obtain ⟨c1, c2, c3, c4, c5⟩ := goAppend_in_place r1.1 r1.2 (readSlice r1.1 mws) a3
    (by rw [hS2, hlS, hr1.2.1, hr1.2.2])
  rw [← e3] at c1 c2 c3 c4 c5
  refine ⟨r2.1, newBatchRef ctx r2.2, hB, by rw [c2, a2, hl1], ?_, c3, ?_, ?_, rfl, rfl⟩
  · show r2.2.arr = h.length
    rw [c1]
    exact hr1.1
  · show readSlice r2.1 r2.2 = _
    rw [c4, a4, hr0, hS2, hG1, List.nil_append]
  · intro k hk
    rw [c5 k (by rw [hr1.1]; omega)]
    exact hold1 k hk

theorem Batch_ok_ref {W : Type} (g : GoroutinerRef) (h : Heap W) (ctx : Context) (S : Slice)
    (hg : inMemory h g.globalMws) (hS : inMemory h S) (h0 : Heap W) (b0 : BatchRef W)
    (hb : g.Batch h ctx S = Except.ok (h0, b0)) :
    ctx ≠ Context.nil ∧ hasNil (readSlice h S) = false ∧ h0.length = h.length + 1 ∧
      validSlice h0 b0.mws ∧
      readSlice h0 b0.mws = readSlice h g.globalMws ++ readSlice h S ∧
      (∀ k : Nat, k < h.length → h0.getD k [] = h.getD k []) ∧
      b0.ctx = ctx ∧ b0.goroutineConfigs = [] := by
  have hctx : ctx ≠ Context.nil := by
    intro hc
    simp [GoroutinerRef.Batch, hc] at hb
  have hnil : hasNil (readSlice h S) = false := by
    cases hn : hasNil (readSlice h S) with
    | false => rfl
    | true => simp [GoroutinerRef.Batch, hctx, hn] at hb
  obtain ⟨h3, b3, e, p1, p2, p3, p4, p5, p6, p7⟩ := Batch_in_memory g h ctx S hg hS hctx hnil
  rw [hb] at e
  simp only [Except.ok.injEq, Prod.mk.injEq] at e
  obtain ⟨rfl, rfl⟩ := e
  exact ⟨hctx, hnil, p1, p3, p4, p5, p6, p7⟩

/-- C23: every batch in memory reached by `New(G...)`, `Batch(ctx, S...)` and any calls of
`Add` and `AddRange`, those that panicked included, on slices that lie in memory and with
no array written meanwhile, is well formed in the memory reached: the middleware of the
`Goroutiner` hold no nil, the context of the batch is the non-nil `ctx`, the middleware of
the batch are `G ++ S` and hold no nil, and every entry has a non-nil task and individual
middleware without nil. In that memory, and in every later memory in which the slices of
the batch read as they did, composition calls no nil middleware: it panics only for a batch
without entries, with the message of that check, and otherwise yields one task for every
entry. The entries keep the slices the caller passed, so this holds as long as the caller
does not write to them. -/
theorem registration_keeps_well_formed {W : Type} (h : Heap W) (G S : Slice) (ctx : Context)
    (r : GoroutinerRef) (h0 h1 : Heap W) (b0 b : BatchRef W)
    (hG : inMemory h G) (hS : inMemory h S) (hr : NewRef h G = Except.ok r)
    (hb : r.Batch h ctx S = Except.ok (h0, b0)) (hp : PopulatedRef h0 b0 h1 b) :
    (r.globalMws = G ∧ none ∉ readSlice h1 r.globalMws) ∧
    (b.ctx = ctx ∧ ctx ≠ Context.nil) ∧
    (readSlice h1 b.mws = readSlice h G ++ readSlice h S ∧ none ∉ readSlice h1 b.mws) ∧
    (∀ cfg ∈ b.goroutineConfigs, cfg.fn ≠ none ∧ none ∉ readSlice h1 cfg.mws) ∧
    (∀ (h2 : Heap W) (t : List (List (Goroutine W))),
      readSlice h2 b.mws = readSlice h1 b.mws →
      (∀ cfg ∈ b.goroutineConfigs, readSlice h2 cfg.mws = readSlice h1 cfg.mws) →
      (∀ msg, (b.prepareGoroutines { mws := h2, tasks := t }).result = Except.error msg →
        b.goroutineConfigs = [] ∧ msg = "at least one goroutine is required") ∧
      (b.goroutineConfigs ≠ [] →
        ∃ s, (b.prepareGoroutines { mws := h2, tasks := t }).result = Except.ok s ∧
          s.len = b.goroutineConfigs.length ∧
          (b.abs h2).prepareGoroutines
            = Except.ok ((b.prepareGoroutines { mws := h2, tasks := t }).recv.1.readTasks s) ∧
          ((b.prepareGoroutines { mws := h2, tasks := t }).recv.1.readTasks s).length
            = b.goroutineConfigs.length)) := by
  obtain ⟨hGn, hrG⟩ := NewRef_ok h G r hr
  have hGr : inMemory h r.globalMws := by rw [hrG]; exact hG
  obtain ⟨hctx, hSn, hl0, hv0, hr0, hold0, hc0, he0⟩ :=
    Batch_ok_ref r h ctx S hGr hS h0 b0 hb
  rw [hrG] at hr0
  obtain ⟨f1, f2, f3, f4, f5⟩ := hp.invariant
  have hcfg := f5 (by rw [he0]; exact fun _ hc => absurd hc (List.not_mem_nil _))
  have hread : ∀ s : Slice, s.arr < h0.length → readSlice h1 s = readSlice h0 s :=
    fun s hs => readSlice_congr (f4 _ hs)
  have hG1 : readSlice h1 G = readSlice h G :=
    (readSlice_stable h h1 G hG (by omega) (fun k hk => by
      rw [f4 k (by omega)]
      exact hold0 k hk)).1
  have hB1 : readSlice h1 b.mws = readSlice h G ++ readSlice h S := by
    rw [f2, hread _ hv0.1, hr0]
  have hGS : hasNil (readSlice h G ++ readSlice h S) = false := by
    rw [hasNil_append, hGn, hSn]; rfl
  have hbin : inMemory h1 b.mws := by
    rw [f2]
    exact Or.inr ⟨by have := hv0.1; omega, by
      rw [f4 _ hv0.1]
      have := hv0.2.1
      have := hv0.2.2
      omega⟩
  refine ⟨⟨hrG, by rw [hrG, hG1]; exact not_mem_of_hasNil hGn⟩,
    ⟨by rw [f1, hc0], hctx⟩, ⟨hB1, by rw [hB1]; exact not_mem_of_hasNil hGS⟩,
    fun cfg hc => ?_, fun h2 t e1 e2 => ?_⟩
  · obtain ⟨j1, j2, _⟩ := hcfg cfg hc
    refine ⟨fun hn => ?_, not_mem_of_hasNil j2⟩
    rw [hn] at j1
    cases j1
  · have hbl : (readSlice h2 b.mws).length = b.mws.len := by
      rw [e1]; exact readSlice_length_inMemory _ _ hbin
    have hcl : ∀ cfg ∈ b.goroutineConfigs, (readSlice h2 cfg.mws).length = cfg.mws.len := by
      intro cfg hc
      rw [e2 cfg hc]
      exact readSlice_length_inMemory _ _ (hcfg cfg hc).2.2
    obtain ⟨k1, k2, k3, k4, k5⟩ :=
      prepareGoroutinesRef_eq b { mws := h2, tasks := t } hbl hcl
    obtain ⟨M, hM⟩ := (hasNil_false_iff _).1 hGS
    have hval : ∀ cfg ∈ (b.abs h2).goroutineConfigs, cfg.valid := by
      intro cfg hc
      simp only [BatchRef.abs, List.mem_map] at hc
      obtain ⟨c, hcm, rfl⟩ := hc
      obtain ⟨j1, j2, _⟩ := hcfg c hcm
      exact ⟨j1, by simp only [goroutineConfigRef.abs]; rw [e2 c hcm]; exact j2⟩
    obtain ⟨herr, hok⟩ := prepareGoroutines_error (b.abs h2) M
      (by simp only [BatchRef.abs]; rw [e1, hB1, hM]) hval
    have hcfgs : (b.abs h2).goroutineConfigs = [] ↔ b.goroutineConfigs = [] := by
      simp [BatchRef.abs]
    refine ⟨fun msg hmsg => ?_, fun hne => ?_⟩
    · cases hV : (b.abs h2).prepareGoroutines with
      | error e =>
        obtain ⟨q1, q2⟩ := herr e hV
        rw [k4 e hV] at hmsg
        simp only [Except.error.injEq] at hmsg
        exact ⟨hcfgs.1 q1, by rw [← hmsg, q2]⟩
      | ok gs =>
        rw [(k5 gs hV).1] at hmsg
        cases hmsg
    · obtain ⟨gs, hV, hlen⟩ := hok (fun h0 => hne (hcfgs.1 h0))
      obtain ⟨q1, q2, q3⟩ := k5 gs hV
      have hm : (b.prepareGoroutines { mws := h2, tasks := t }).recv.1
          = { mws := h2, tasks := t ++ [gs] } := by
        have e : (b.prepareGoroutines { mws := h2, tasks := t }).recv.1
            = { mws := (b.prepareGoroutines { mws := h2, tasks := t }).recv.1.mws,
                tasks := (b.prepareGoroutines { mws := h2, tasks := t }).recv.1.tasks } := rfl
        rw [e, k2, q2]
      have hrd : (b.prepareGoroutines { mws := h2, tasks := t }).recv.1.readTasks
          { arr := t.length, off := 0, len := b.goroutineConfigs.length,
            cap := b.goroutineConfigs.length } = gs := by
        rw [hm]
        exact readTasks_last _ _ _ _ q3
      exact ⟨_, q1, rfl, by rw [hrd]; exact hV, by rw [hrd]; exact q3⟩

/-- The adding test in memory: `New(mw).Batch(ctx, mw)`, then a call of `Add` with a nil
task and a call of `AddRange` whose provider yields a nil middleware at index 4, both
panicking, and a call of `Add(g, mw)` that succeeds. The batch stands for the batch of the
test on values, holds the one entry, is well formed and composes. -/
theorem registration_keeps_well_formed_witness :
    ∃ (h0 : Heap Unit) (b0 b : BatchRef Unit),
      inMemory triedHeap (argSlice 0) ∧ inMemory triedHeap (argSlice 1) ∧
      NewRef triedHeap (argSlice 0) = Except.ok { globalMws := argSlice 0 } ∧
      GoroutinerRef.Batch { globalMws := argSlice 0 } triedHeap (Context.value 0) (argSlice 1)
        = Except.ok (h0, b0) ∧
      (b0.Add h0 none nilSlice).panics = true ∧
      ((b0.Add h0 none nilSlice).recv.AddRange h0 5 (some halfProviderRef)).panics = true ∧
      b = (((b0.Add h0 none nilSlice).recv.AddRange h0 5 (some halfProviderRef)).recv.Add h0
        (some nilG) (argSlice 2)).recv ∧
      PopulatedRef h0 b0 h0 b ∧
      b.abs h0 = triedBatch ∧ b.goroutineConfigs.length = 1 ∧
      (readSlice h0 b.mws = readSlice triedHeap (argSlice 0) ++ readSlice triedHeap (argSlice 1) ∧
        none ∉ readSlice h0 b.mws) ∧
      (∀ cfg ∈ b.goroutineConfigs, cfg.fn ≠ none ∧ none ∉ readSlice h0 cfg.mws) ∧
      (∃ s, (b.prepareGoroutines { mws := h0, tasks := [] }).result = Except.ok s ∧
        s.len = 1) := by
  have hG : inMemory triedHeap (argSlice 0) := Or.inr ⟨by decide, by decide⟩
  have hS : inMemory triedHeap (argSlice 1) := Or.inr ⟨by decide, by decide⟩
  have hprov : ∀ (p : ProviderRef Unit) (i : Int) (fn : Goroutine Unit) (mws : Slice),
      some halfProviderRef = some p → p i = Except.ok (fn, mws) →
      inMemory (triedHeap ++ [[some idMw, some idMw]]) mws := by
    intro p i fn mws hp hi
    cases hp
    unfold halfProviderRef at hi
    split at hi
    · simp only [Except.ok.injEq, Prod.mk.injEq] at hi
      rw [← hi.2]
      exact Or.inl rfl
    · simp only [Except.ok.injEq, Prod.mk.injEq] at hi
      rw [← hi.2]
      exact Or.inr ⟨by decide, by decide⟩
  have hp : PopulatedRef (triedHeap ++ [[some idMw, some idMw]])
      ({ ctx := Context.value 0, mws := { arr := 4, off := 0, len := 2, cap := 2 },
         goroutineConfigs := [] } : BatchRef Unit)
      (triedHeap ++ [[some idMw, some idMw]])
      ({ ctx := Context.value 0, mws := { arr := 4, off := 0, len := 2, cap := 2 },
         goroutineConfigs := [goroutineConfigRef.mk (some nilG) (argSlice 2)] } :
        BatchRef Unit) :=
    PopulatedRef.add _ _ (some nilG) (argSlice 2) (Or.inr ⟨by decide, by decide⟩)
      (PopulatedRef.addRange _ _ 5 (some halfProviderRef) hprov
        (PopulatedRef.add _ _ none nilSlice (Or.inl rfl) PopulatedRef.start))
  have h := registration_keeps_well_formed triedHeap (argSlice 0) (argSlice 1)
    (Context.value 0) { globalMws := argSlice 0 } _ _ _ _ hG hS rfl rfl hp
  obtain ⟨s, h1, h2, _⟩ := (h.2.2.2.2 _ [] rfl (fun _ _ => rfl)).2 (by
    intro h0
    cases h0)
  exact ⟨_, _, _, hG, hS, rfl, rfl, rfl, rfl, rfl, hp, rfl, rfl, h.2.2.1, h.2.2.2.1, s, h1, h2⟩

/-- The caller keeps the slice `s := []Mw{mw}`, makes the batch of `New().Batch(ctx)` and
calls `Add(g, s...)`: the batch is reached by registration calls, is well formed and
composes. After the assignment `s[0] = nil` of the caller, which writes no other array, the
entry of the batch holds a nil middleware, and composition, in `prepareGoroutines` and so
in `Wait`, panics with a nil dereference. -/
theorem Add_keeps_the_slice_of_the_caller :
    NewRef callerHeap nilSlice = Except.ok { globalMws := nilSlice } ∧
    GoroutinerRef.Batch { globalMws := nilSlice } callerHeap (Context.value 0) nilSlice
      = Except.ok (sharedHeap, sharedBatch0) ∧
    (sharedBatch0.Add sharedHeap (some nilG) (argSlice 0)).result = Except.ok sharedBatch ∧
    PopulatedRef sharedHeap sharedBatch0 sharedHeap sharedBatch ∧
    sharedBatch.goroutineConfigs = [goroutineConfigRef.mk (some nilG) (argSlice 0)] ∧
    readSlice sharedHeap (argSlice 0) = [some idMw] ∧
    (∃ s, (sharedBatch.prepareGoroutines { mws := sharedHeap, tasks := [] }).result
      = Except.ok s) ∧
    (∀ k : Nat, k ≠ 0 → (writeMw sharedHeap 0 0 none).getD k [] = sharedHeap.getD k []) ∧
    readSlice (writeMw sharedHeap 0 0 none) (argSlice 0) = [none] ∧
    (sharedBatch.prepareGoroutines { mws := writeMw sharedHeap 0 0 none, tasks := [] }).result
      = Except.error nilDeref ∧
    (sharedBatch.Wait { mws := writeMw sharedHeap 0 0 none, tasks := [] } () []).result
      = Except.error nilDeref ∧
    (sharedBatch.abs (writeMw sharedHeap 0 0 none)).Wait () [] = Except.error nilDeref :=
  ⟨rfl, rfl, rfl,
    PopulatedRef.add sharedHeap sharedBatch0 (some nilG) (argSlice 0)
      (Or.inr ⟨by decide, by decide⟩) PopulatedRef.start,
    rfl, rfl, ⟨_, rfl⟩, fun k hk => getD_set_other _ _ _ _ hk, rfl, rfl, rfl, rfl⟩

end Routiner
